import Mathlib

/-!
# TowerDefenseTutorial: animation clock, creeps, towers and projectiles

A shallow embedding of `animated_sprite.go`, `creeps.go`, `creep_manager.go`, `tower_manager.go`
and `projectile.go`, with the `RenderParams` record of `render.go` and the layer records of
`tilemap.go`.

Modelling conventions

* The first part of the development takes `float64` values as exact rationals (`ℚ`): its
  theorems are about comparisons and bookkeeping that do not depend on rounding, or say in their
  statement that the arithmetic is exact.
* The second part (namespace `F64`) embeds the same functions with the rounding of every
  `float64` operation made explicit: a parameter `fl : ℚ → ℚ` is applied to the exact result of
  each addition, subtraction, multiplication and division, each operation being rounded on its
  own (no fused multiply-add). `round64` is round-to-nearest-even of IEEE 754 binary64,
  subnormals included; `Rounds fl` is the error bound that `round64` satisfies. Overflow, NaN
  and infinities are outside the model: the theorems of the second part keep every value far
  below `2^1024`.
* Go `int` values are unbounded `Int`; every integer the model increments is bounded by a slice
  length on the paths studied here.
* `*ebiten.Image` values are non-nil handles (`Image`); a frame slice is a list of handles and
  pointer equality of frames is equality of handles.
* A nil `*AnimatedSprite` is `none`; calling a method on it is the fault `Fault.nilDeref`.
* The frame-advance loop of `AnimatedSprite.Update` is driven by a fuel counter; running out of
  fuel is reported (`none`, or `Fault.outOfFuel` one level up) and never silently truncated.
* Callbacks are modelled by the list of their invocations, in order.
* `math.Hypot` is a parameter `hypot` of the creep update.
* The other members of Go's `math` package used by towers and projectiles (`Pi`, `MaxFloat64`,
  `Sqrt`, `Atan2`, `Cos`, `Sin`) are the fields of a parameter `M : GoMath`; the package-level
  asset variables are the fields of a parameter `TA : TowerAssets`.
* A creep slice is a list of creeps: the nil entries that the loops over `activeCreeps` skip are
  left out. A call that receives the slice returns the list as the call leaves the creeps.
* The normalisation loops of `UpdatePlacedTowers` are driven by the same kind of fuel counter
  as the frame-advance loop.
* The cursor position and the mouse-button edge that `HandleTowerPlacement` reads through
  `ebiten` are arguments of the model; the conversion `int(x)` of a `float64` is truncation
  toward zero (`truncToInt`).
-/

namespace TowerDefense

/-- Handle of a loaded image (a non-nil `*ebiten.Image`). -/
abbrev Image := Nat

/-- Abnormal terminations of the Go code that the model tracks. -/
inductive Fault where
  | nilDeref
  | indexOutOfRange
  | outOfFuel
deriving DecidableEq, Repr

/-! ## animated_sprite.go -/

/-- The Go struct `AnimatedSprite`. -/
structure AnimatedSprite where
  frames : List Image
  frameCount : Int
  frameDuration : ℚ
  currentFrame : Int
  frameTimer : ℚ
  isPlaying : Bool
  loop : Bool
  totalDuration : ℚ
deriving DecidableEq

/-- The Go function `NewAnimatedSprite`: `none` is the nil result for an empty frame slice. -/
def NewAnimatedSprite (frames : List Image) (animationLength : ℚ) (loop : Bool) :
    Option AnimatedSprite :=
  if frames.length = 0 then none
  else
    some
      { frames := frames
        frameCount := (frames.length : Int)
        frameDuration := animationLength / (frames.length : ℚ)
        currentFrame := 0
        frameTimer := 0
        isPlaying := false
        loop := loop
        totalDuration := animationLength }

namespace AnimatedSprite

/-- The Go method `Play`. -/
def Play (as : AnimatedSprite) : AnimatedSprite :=
  { as with isPlaying := true, currentFrame := 0, frameTimer := 0 }

/-- The Go method `IsPlaying`. -/
def IsPlaying (as : AnimatedSprite) : Bool := as.isPlaying

/-- The Go method `GetCurrentFrame`: `.ok none` is the nil image returned by the guard, and
`.error Fault.indexOutOfRange` is the run-time panic of `as.frames[as.currentFrame]`. -/
def GetCurrentFrame (as : AnimatedSprite) : Except Fault (Option Image) :=
  if as.frameCount = 0 ∨ as.currentFrame < 0 ∨ as.currentFrame ≥ as.frameCount then .ok none
  else
    match as.frames[as.currentFrame.toNat]? with
    | some img => .ok (some img)
    | none => .error Fault.indexOutOfRange

/-- The `for as.frameTimer >= as.frameDuration && as.isPlaying` loop of `Update`. Each unit of
fuel pays for one iteration; `none` means the loop wanted another iteration without fuel. -/
def advanceFrames : Nat → AnimatedSprite → Option AnimatedSprite
  | 0, as => if as.frameTimer ≥ as.frameDuration ∧ as.isPlaying = true then none else some as
  | fuel + 1, as =>
    if as.frameTimer ≥ as.frameDuration ∧ as.isPlaying = true then
      let as1 : AnimatedSprite :=
        { as with frameTimer := as.frameTimer - as.frameDuration
                  currentFrame := as.currentFrame + 1 }
      if as1.currentFrame ≥ as1.frameCount then
        if as1.loop = true then advanceFrames fuel { as1 with currentFrame := 0 }
        else some { as1 with currentFrame := as1.frameCount - 1, isPlaying := false }
      else advanceFrames fuel as1
    else some as

/-- The Go method `Update`. -/
def Update (fuel : Nat) (deltaTime : ℚ) (as : AnimatedSprite) : Option AnimatedSprite :=
  if as.isPlaying = false ∨ as.frameCount ≤ 1 then some as
  else advanceFrames fuel { as with frameTimer := as.frameTimer + deltaTime }

end AnimatedSprite

/-- One call made on an animated sprite by its owner. -/
inductive SpriteCall where
  | play
  | update (deltaTime : ℚ)
deriving DecidableEq

/-- Time passed to the sprite by a call (`Play` passes none). -/
def SpriteCall.time : SpriteCall → ℚ
  | .play => 0
  | .update dt => dt

/-- Runs a sequence of `Play()` and `Update(dt)` calls, each `Update` with the given loop fuel. -/
def runCalls (fuel : Nat) : List SpriteCall → AnimatedSprite → Option AnimatedSprite
  | [], as => some as
  | .play :: rest, as => runCalls fuel rest as.Play
  | .update dt :: rest, as =>
    match as.Update fuel dt with
    | none => none
    | some as1 => runCalls fuel rest as1

/-- Runs a sequence of `Update(dt)` calls. -/
def runUpdates (fuel : Nat) : List ℚ → AnimatedSprite → Option AnimatedSprite
  | [], as => some as
  | dt :: rest, as =>
    match as.Update fuel dt with
    | none => none
    | some as1 => runUpdates fuel rest as1

/-- Frame index lies inside the frame slice and the slice has `frameCount` entries. -/
def AnimatedSprite.InRange (as : AnimatedSprite) : Prop :=
  0 ≤ as.currentFrame ∧ as.currentFrame < as.frameCount ∧ (as.frames.length : Int) = as.frameCount

/-- State of a non-looping clock inside the loop of `Update`, `elapsed` being the time fed to the
clock since `Play()`: while it plays, completed frames plus the timer account for that time. -/
def AnimatedSprite.NonLoopInv (as : AnimatedSprite) (elapsed : ℚ) : Prop :=
  as.loop = false ∧ 0 < as.frameDuration ∧
    ((as.isPlaying = true ∧ 0 ≤ as.currentFrame ∧ as.currentFrame < as.frameCount ∧
        (as.currentFrame : ℚ) * as.frameDuration + as.frameTimer = elapsed) ∨
      (as.isPlaying = false ∧ as.currentFrame = as.frameCount - 1))

/-- The sprite with `deltaTime` added to its timer (the first statement of `Update`). -/
def AnimatedSprite.addTime (as : AnimatedSprite) (deltaTime : ℚ) : AnimatedSprite :=
  { as with frameTimer := as.frameTimer + deltaTime }

/-! ## tilemap.go (the fields read by the simulation) -/

/-- The Go struct `TilemapLayerJSON`: tile data, the layer size in grid units and the layer
name. -/
structure TilemapLayerJSON where
  Data : List Int
  Width : Int
  Height : Int
  Name : String
deriving DecidableEq

/-- The Go struct `TilemapJSON`. -/
structure TilemapJSON where
  Layers : List TilemapLayerJSON
  TileWidth : Int
  TileHeight : Int
deriving DecidableEq

/-! ## assets.go (creep animations) -/

/-- Frame slices of the firebug animations, as loaded by package `assets`. -/
structure CreepAssets where
  FirebugSideIdle : List Image
  FirebugUpIdle : List Image
  FirebugDownIdle : List Image
  FirebugDownWalk : List Image
  FirebugUpWalk : List Image
  FirebugSideWalk : List Image
  FirebugSideDeath : List Image

/-! ## creeps.go -/

/-- The Go struct `PathNode`. -/
structure PathNode where
  X : Int
  Y : Int
deriving DecidableEq, Inhabited

/-- The Go enum `Direction`. -/
inductive Direction where
  | DirectionRight
  | DirectionLeft
  | DirectionUp
  | DirectionDown
deriving DecidableEq

/-- The Go struct `Creep`. -/
structure Creep where
  ID : Int
  X : ℚ
  Y : ℚ
  Speed : ℚ
  Health : ℚ
  MaxHealth : ℚ
  Path : List PathNode
  PathIndex : Int
  Animation : Option AnimatedSprite
  CurrentDirection : Direction
  StartDelay : ℚ
  Timer : ℚ
  Active : Bool
  Damage : ℚ
  IsDying : Bool
deriving DecidableEq

/-- One invocation of a callback handed to `Creep.Update`. -/
inductive CreepEvent where
  | escaped (damage : ℚ)
  | killed (goldReward : Int)
deriving DecidableEq

/-- The Go function `NewCreep`; the random speed drawn by the Go code is the argument `speed`. -/
def NewCreep (A : CreepAssets) (speed : ℚ) (id : Int) (x y : ℚ) (path : List PathNode)
    (startDelay : ℚ) : Creep :=
  { ID := id
    X := x
    Y := y
    Speed := speed
    Health := 20
    MaxHealth := 20
    Path := path
    PathIndex := 0
    Animation := NewAnimatedSprite A.FirebugSideIdle 1 true
    CurrentDirection := Direction.DirectionRight
    StartDelay := startDelay
    Timer := 0
    Active := true
    Damage := 2
    IsDying := false }

/-- The Go function `animationFramesEqual`. -/
def animationFramesEqual (a b : List Image) : Bool :=
  if a.length ≠ b.length then false
  else (a.zip b).all fun p => p.1 == p.2

namespace Creep

/-- The Go method `IsActive`. -/
def IsActive (c : Creep) : Bool := c.Active

/-- The Go method `GetID`. -/
def GetID (c : Creep) : Int := c.ID

/-- The Go method `GetDamage`. -/
def GetDamage (c : Creep) : ℚ := c.Damage

/-- The Go method `TakeDamage`. -/
def TakeDamage (amount : ℚ) (c : Creep) : Creep :=
  if c.IsDying = true then c
  else
    let c1 : Creep := { c with Health := c.Health - amount }
    if c1.Health < 0 then { c1 with Health := 0 } else c1

/-- The Go method `updateDirection`. -/
def updateDirection (dx dy : ℚ) (c : Creep) : Creep :=
  if |dx| > |dy| then
    if dx > 0 then { c with CurrentDirection := Direction.DirectionRight }
    else { c with CurrentDirection := Direction.DirectionLeft }
  else
    if dy > 0 then { c with CurrentDirection := Direction.DirectionDown }
    else { c with CurrentDirection := Direction.DirectionUp }

/-- Frame slice chosen by the first half of `setAnimation`. -/
def desiredFrames (A : CreepAssets) (c : Creep) : List Image :=
  if c.PathIndex ≥ (c.Path.length : Int) - 1 ∨
      (c.PathIndex < (c.Path.length : Int) - 1 ∧ c.Timer ≥ c.StartDelay) then
    match c.CurrentDirection with
    | Direction.DirectionUp => A.FirebugUpWalk
    | Direction.DirectionDown => A.FirebugDownWalk
    | _ => A.FirebugSideWalk
  else
    match c.CurrentDirection with
    | Direction.DirectionUp => A.FirebugUpIdle
    | Direction.DirectionDown => A.FirebugDownIdle
    | _ => A.FirebugSideIdle

/-- The statements `c.Animation = NewAnimatedSprite(frames, len, loop); c.Animation.Play()`:
`Play` on the nil sprite returned for an empty frame slice is a nil dereference. -/
def installAnimation (frames : List Image) (animationLength : ℚ) (loop : Bool) (c : Creep) :
    Except Fault Creep :=
  match NewAnimatedSprite frames animationLength loop with
  | none => .error Fault.nilDeref
  | some a => .ok { c with Animation := some a.Play }

/-- The Go method `setAnimation`. -/
def setAnimation (A : CreepAssets) (c : Creep) : Except Fault Creep :=
  match c.Animation with
  | none => c.installAnimation (c.desiredFrames A) 1 true
  | some a =>
    if animationFramesEqual a.frames (c.desiredFrames A) = false then
      c.installAnimation (c.desiredFrames A) 1 true
    else .ok c

/-- The statement `c.Animation.Update(deltaTime)`. -/
def animate (fuel : Nat) (deltaTime : ℚ) (c : Creep) : Except Fault Creep :=
  match c.Animation with
  | none => .error Fault.nilDeref
  | some a =>
    match a.Update fuel deltaTime with
    | none => .error Fault.outOfFuel
    | some a1 => .ok { c with Animation := some a1 }

/-- Phase 3 of `Update` (the creep is still on its path): move toward `Path[PathIndex+1]`. -/
def followPath (hypot : ℚ → ℚ → ℚ) (deltaTime : ℚ) (c : Creep) : Except Fault Creep :=
  if c.PathIndex + 1 < 0 then .error Fault.indexOutOfRange
  else
    match c.Path[(c.PathIndex + 1).toNat]? with
    | none => .error Fault.indexOutOfRange
    | some target =>
      let dx : ℚ := (target.X : ℚ) - c.X
      let dy : ℚ := (target.Y : ℚ) - c.Y
      let distance : ℚ := hypot dx dy
      if distance > 0 then
        let moveDistance : ℚ := c.Speed * deltaTime
        if moveDistance ≥ distance then
          .ok (updateDirection dx dy
            { c with X := (target.X : ℚ), Y := (target.Y : ℚ), PathIndex := c.PathIndex + 1 })
        else
          .ok (updateDirection dx dy
            { c with X := c.X + dx / distance * moveDistance
                     Y := c.Y + dy / distance * moveDistance })
      else .ok c

/-- Direction `(dx, dy)` computed by phase 4 of `Update`. The two slice reads are in range
because they are made under the guard `len(c.Path) > 1`. -/
def exitDirection (hypot : ℚ → ℚ → ℚ) (c : Creep) : ℚ × ℚ :=
  if c.Path.length > 1 then
    let last : PathNode := c.Path.getD (c.Path.length - 1) default
    let prev : PathNode := c.Path.getD (c.Path.length - 2) default
    let dx : ℚ := ((last.X - prev.X : Int) : ℚ)
    let dy : ℚ := ((last.Y - prev.Y : Int) : ℚ)
    let norm : ℚ := hypot dx dy
    if norm > 0 then (dx / norm, dy / norm) else (dx, dy)
  else (1, 0)

/-- Phase 4 of `Update` (the final waypoint was reached): keep moving off the map. -/
def exitPath (hypot : ℚ → ℚ → ℚ) (deltaTime : ℚ) (c : Creep) : Creep :=
  let d : ℚ × ℚ := c.exitDirection hypot
  let moveDistance : ℚ := c.Speed * deltaTime
  { c with X := c.X + d.1 * moveDistance, Y := c.Y + d.2 * moveDistance }

/-- Phases 3 and 4 of `Update`. -/
def move (hypot : ℚ → ℚ → ℚ) (deltaTime : ℚ) (c : Creep) : Except Fault Creep :=
  if c.PathIndex < (c.Path.length : Int) - 1 then c.followPath hypot deltaTime
  else .ok (c.exitPath hypot deltaTime)

/-- The test of phase 5 of `Update`: the level has a first layer and the creep is outside it. -/
def hasEscaped (level : Option TilemapJSON) (c : Creep) : Bool :=
  match level with
  | none => false
  | some lv =>
    match lv.Layers with
    | [] => false
    | layer :: _ =>
      let mapWidth : ℚ := (layer.Width : ℚ)
      let mapHeight : ℚ := (layer.Height : ℚ)
      decide (c.X < -1 ∨ c.X > mapWidth ∨ c.Y < -1 ∨ c.Y > mapHeight)

/-- The Go method `Update`. `onEscape` and `onKilled` tell whether the callback is non-nil; the
result carries the updated creep and the callback invocations made by this call. -/
def Update (A : CreepAssets) (hypot : ℚ → ℚ → ℚ) (fuel : Nat) (deltaTime : ℚ)
    (level : Option TilemapJSON) (onEscape onKilled : Bool) (c0 : Creep) :
    Except Fault (Creep × List CreepEvent) :=
  let c : Creep := { c0 with Timer := c0.Timer + deltaTime }
  if c.Health ≤ 0 ∧ c.IsDying = false then
    match installAnimation A.FirebugSideDeath 1 false { c with IsDying := true } with
    | .error e => .error e
    | .ok c1 => .ok (c1, if onKilled = true then [CreepEvent.killed 15] else [])
  else if c.IsDying = true then
    match c.animate fuel deltaTime with
    | .error e => .error e
    | .ok c1 =>
      match c1.Animation with
      | none => .error Fault.nilDeref
      | some a => .ok (if a.IsPlaying = false then { c1 with Active := false } else c1, [])
  else if c.Timer < c.StartDelay then
    match c.animate fuel deltaTime with
    | .error e => .error e
    | .ok c1 => .ok (c1, [])
  else if c.Path.length = 0 then
    match c.animate fuel deltaTime with
    | .error e => .error e
    | .ok c1 => .ok (c1, [])
  else
    match c.move hypot deltaTime with
    | .error e => .error e
    | .ok c1 =>
      if c1.hasEscaped level = true then
        .ok ({ c1 with Active := false },
          if onEscape = true then [CreepEvent.escaped c1.Damage] else [])
      else
        match c1.setAnimation A with
        | .error e => .error e
        | .ok c2 =>
          match c2.animate fuel deltaTime with
          | .error e => .error e
          | .ok c3 => .ok (c3, [])

end Creep

/-- Exact Euclidean norm on axis-aligned vectors (a stand-in for `math.Hypot` that is computable
over `ℚ`); on other vectors it returns the 1-norm. -/
def axisHypot (dx dy : ℚ) : ℚ := |dx| + |dy|

/-- Frame slices with the frame counts of `assets.go` (5 idle, 7 walk, 10 death frames). -/
def repoCreepAssets : CreepAssets :=
  { FirebugSideIdle := [20, 21, 22, 23, 24]
    FirebugUpIdle := [10, 11, 12, 13, 14]
    FirebugDownIdle := [0, 1, 2, 3, 4]
    FirebugDownWalk := [30, 31, 32, 33, 34, 35, 36]
    FirebugUpWalk := [40, 41, 42, 43, 44, 45, 46]
    FirebugSideWalk := [50, 51, 52, 53, 54, 55, 56]
    FirebugSideDeath := [80, 81, 82, 83, 84, 85, 86, 87, 88, 89] }

/-- A level with one empty layer of the given size. -/
def levelOfSize (w h : Int) : TilemapJSON :=
  { Layers := [{ Data := [], Width := w, Height := h, Name := "" }], TileWidth := 64
    TileHeight := 64 }

/-- Every creep animation has at least one frame. -/
def CreepAssets.Loaded (A : CreepAssets) : Prop :=
  A.FirebugSideIdle ≠ [] ∧ A.FirebugUpIdle ≠ [] ∧ A.FirebugDownIdle ≠ [] ∧
    A.FirebugDownWalk ≠ [] ∧ A.FirebugUpWalk ≠ [] ∧ A.FirebugSideWalk ≠ [] ∧
    A.FirebugSideDeath ≠ []

/-- The creep has an animation whose per-frame duration is positive. -/
def Creep.AnimReady (c : Creep) : Prop :=
  ∃ a, c.Animation = some a ∧ 0 < a.frameDuration

/-- The creep has an animation with positive per-frame duration and a path index from which
`Path[PathIndex+1]` is never read below the slice. -/
def Creep.Ready (c : Creep) : Prop :=
  c.AnimReady ∧ -1 ≤ c.PathIndex

/-- A three-frame looping clock of total duration one second, playing, at its first frame. -/
def demoClock : AnimatedSprite :=
  { frames := [7, 8, 9], frameCount := 3, frameDuration := 1 / 3, currentFrame := 0,
    frameTimer := 0, isPlaying := true, loop := true, totalDuration := 1 }

/-- The creep of the end-to-end scenario: spawned at `(0,0)` with path `[(0,0),(5,0)]`, speed 2
and no start delay. -/
def scenarioCreep : Creep :=
  NewCreep repoCreepAssets 2 1 0 0 [⟨0, 0⟩, ⟨5, 0⟩] 0

/-- The scenario creep standing on its final waypoint `(5,0)`. -/
def arrivedCreep : Creep :=
  { scenarioCreep with X := 5, PathIndex := 1 }

/-- One call made on a creep by its owner or by a projectile. -/
inductive CreepCall where
  | takeDamage (amount : ℚ)
  | update (deltaTime : ℚ) (level : Option TilemapJSON)

/-- Runs a sequence of `TakeDamage` and `Update` calls on one creep and collects the callback
invocations in the order in which they are made. -/
def Creep.run (A : CreepAssets) (hypot : ℚ → ℚ → ℚ) (fuel : Nat) (onEscape onKilled : Bool) :
    List CreepCall → Creep → Except Fault (Creep × List CreepEvent)
  | [], c => .ok (c, [])
  | .takeDamage amount :: rest, c =>
    Creep.run A hypot fuel onEscape onKilled rest (c.TakeDamage amount)
  | .update dt level :: rest, c =>
    match c.Update A hypot fuel dt level onEscape onKilled with
    | .error e => .error e
    | .ok (c1, ev) =>
      match Creep.run A hypot fuel onEscape onKilled rest c1 with
      | .error e => .error e
      | .ok (c2, log) => .ok (c2, ev ++ log)

/-- The `Update(dt)` calls of consecutive ticks on one level. -/
def ticksOn (level : Option TilemapJSON) (dts : List ℚ) : List CreepCall :=
  dts.map fun dt => CreepCall.update dt level

/-- The `Update(dt)` calls of consecutive ticks, each with its own level. -/
def ticksOf (ticks : List (ℚ × Option TilemapJSON)) : List CreepCall :=
  ticks.map fun t => CreepCall.update t.1 t.2

/-- The standing data of the end-to-end scenario: a live creep of speed 2 and no start delay on
the row `y = 0` of the path `[(0,0),(5,0)]`. -/
def Creep.OnScenario (c : Creep) : Prop :=
  c.Y = 0 ∧ c.Path = [⟨0, 0⟩, ⟨5, 0⟩] ∧ c.Speed = 2 ∧ c.StartDelay = 0 ∧ 0 ≤ c.Timer ∧
    0 < c.Health ∧ c.IsDying = false

/-- The event is an invocation of `onKilled`. -/
def CreepEvent.isKilled : CreepEvent → Bool
  | .killed _ => true
  | .escaped _ => false

/-- The event is an invocation of `onEscape`. -/
def CreepEvent.isEscaped : CreepEvent → Bool
  | .killed _ => false
  | .escaped _ => true

/-! ## creep_manager.go -/

/-- The Go struct `CreepManager`; a callback field records whether a callback is installed. -/
structure CreepManager where
  creeps : List Creep
  onCreepEscape : Bool
  onCreepKilled : Bool
  nextCreepID : Int

/-- A callback invocation made by the manager, tagged with the `ID` of the creep whose `Update`
raised it (the tag is bookkeeping of the model, the callbacks receive only the payload). -/
structure ManagerEvent where
  creepID : Int
  event : CreepEvent
deriving DecidableEq

/-- The Go function `NewCreepManager`. -/
def NewCreepManager : CreepManager :=
  { creeps := [], onCreepEscape := false, onCreepKilled := false, nextCreepID := 1 }

namespace CreepManager

/-- The Go method `SetOnCreepEscape` (with a non-nil callback). -/
def SetOnCreepEscape (cm : CreepManager) : CreepManager := { cm with onCreepEscape := true }

/-- The Go method `SetOnCreepKilled` (with a non-nil callback). -/
def SetOnCreepKilled (cm : CreepManager) : CreepManager := { cm with onCreepKilled := true }

/-- The Go method `AddCreep`. -/
def AddCreep (creep : Creep) (cm : CreepManager) : CreepManager :=
  { cm with creeps := cm.creeps ++ [creep] }

/-- The Go method `GetNextCreepID`. -/
def GetNextCreepID (cm : CreepManager) : Int × CreepManager :=
  (cm.nextCreepID, { cm with nextCreepID := cm.nextCreepID + 1 })

/-- What reaches the manager's callbacks from one creep's `Update`: the `onEscape` closure built
in the loop forwards to `cm.onCreepEscape` only when that is non-nil. -/
def forwarded (onCreepEscape : Bool) (ev : List CreepEvent) : List CreepEvent :=
  ev.filter fun e =>
    match e with
    | .escaped _ => onCreepEscape
    | .killed _ => true

/-- The `for _, creep := range cm.creeps` loop of `Update`: returns `remainingCreeps` and the
callback invocations in order. -/
def updateCreeps (A : CreepAssets) (hypot : ℚ → ℚ → ℚ) (fuel : Nat)
    (level : Option TilemapJSON) (deltaTime : ℚ) (onCreepEscape onCreepKilled : Bool) :
    List Creep → Except Fault (List Creep × List ManagerEvent)
  | [] => .ok ([], [])
  | creep :: rest =>
    match (if creep.IsActive = true then
        creep.Update A hypot fuel deltaTime level true onCreepKilled
      else .ok (creep, [])) with
    | .error e => .error e
    | .ok (c1, ev) =>
      match updateCreeps A hypot fuel level deltaTime onCreepEscape onCreepKilled rest with
      | .error e => .error e
      | .ok (remaining, log) =>
        .ok (if c1.IsActive = true then c1 :: remaining else remaining,
          (forwarded onCreepEscape ev).map (ManagerEvent.mk creep.ID) ++ log)

/-- The Go method `Update`. -/
def Update (A : CreepAssets) (hypot : ℚ → ℚ → ℚ) (fuel : Nat) (level : Option TilemapJSON)
    (deltaTime : ℚ) (cm : CreepManager) : Except Fault (CreepManager × List ManagerEvent) :=
  match updateCreeps A hypot fuel level deltaTime cm.onCreepEscape cm.onCreepKilled cm.creeps with
  | .error e => .error e
  | .ok (remaining, log) => .ok ({ cm with creeps := remaining }, log)

/-- Runs one `Update` per tick, collecting the callback invocations in order. -/
def run (A : CreepAssets) (hypot : ℚ → ℚ → ℚ) (fuel : Nat) :
    List (Option TilemapJSON × ℚ) → CreepManager → Except Fault (CreepManager × List ManagerEvent)
  | [], cm => .ok (cm, [])
  | t :: rest, cm =>
    match cm.Update A hypot fuel t.1 t.2 with
    | .error e => .error e
    | .ok (cm1, log1) =>
      match run A hypot fuel rest cm1 with
      | .error e => .error e
      | .ok (cm2, log2) => .ok (cm2, log1 ++ log2)

end CreepManager

/-- Number of escape-callback invocations in the log that were raised for the creep `id`. -/
def escapesOf (id : Int) (log : List ManagerEvent) : Nat :=
  (log.filter fun e => decide (e.creepID = id) && e.event.isEscaped).length

/-- A manager holding the scenario creep on its final waypoint, with both callbacks installed. -/
def demoManager : CreepManager :=
  { creeps := [arrivedCreep], onCreepEscape := true, onCreepKilled := true, nextCreepID := 2 }

/-! ## Go's `math` package -/

/-- The constants and functions of Go's `math` package that towers and projectiles use. They are
parameters of the model: none of them is rational-valued. -/
structure GoMath where
  Pi : ℚ
  MaxFloat64 : ℚ
  Sqrt : ℚ → ℚ
  Atan2 : ℚ → ℚ → ℚ
  Cos : ℚ → ℚ
  Sin : ℚ → ℚ

/-! ## assets.go (towers and projectiles) -/

/-- Tower images and the frame slices of the tower, weapon and projectile animations. -/
structure TowerAssets where
  NoneIndicator : Image
  BallistaTower : Image
  MagicTower : Image
  TowerBuildAnimation : List Image
  TowerTransitionAnimation : List Image
  MagicTowerWeaponIdleAnimation : List Image
  MagicTowerWeaponAttackAnimation : List Image
  MagicTowerProjectileAnimation : List Image
  MagicTowerProjectileImpactAnimation : List Image
  BallistaWeaponProjectileAnimation : List Image
  BallisticWeaponImpactAnimation : List Image
  BallistaWeaponFire : List Image

/-! ## projectile.go -/

/-- The Go constant `BallistaTowerID`. -/
def BallistaTowerID : Int := 1

/-- The Go constant `MagicTowerID`. -/
def MagicTowerID : Int := 2

/-- The Go constant `projectileSpeed` (tiles per second). -/
def projectileSpeed : ℚ := 12

/-- The Go constant `maxProjectileRange` (tiles). -/
def maxProjectileRange : ℚ := 5

/-- The Go constant `projectileCollisionRadius`. -/
def projectileCollisionRadius : ℚ := 3 / 10

/-- The Go constant `creepCollisionRadius`. -/
def creepCollisionRadius : ℚ := 4 / 10

/-- The Go struct `Projectile`. -/
structure Projectile where
  X : ℚ
  Y : ℚ
  VelocityX : ℚ
  VelocityY : ℚ
  Angle : ℚ
  Animation : Option AnimatedSprite
  ImpactAnimation : Option AnimatedSprite
  Active : Bool
  TravelDistance : ℚ
  MaxDistance : ℚ
  ProjectileType : Int
  IsImpacting : Bool
deriving DecidableEq

/-- The Go struct `ProjectileManager`. -/
structure ProjectileManager where
  projectiles : List Projectile
deriving DecidableEq

/-- The Go function `NewProjectileManager`. -/
def NewProjectileManager : ProjectileManager := { projectiles := [] }

/-- The statements `s = NewAnimatedSprite(frames, len, loop); s.Play()` under the guard
`len(frames) > 0` that every such pair in the tower and projectile code carries. -/
def startedSprite (frames : List Image) (animationLength : ℚ) (loop : Bool) :
    Option AnimatedSprite :=
  (NewAnimatedSprite frames animationLength loop).map AnimatedSprite.Play

/-- The statement `if s != nil { s.Update(deltaTime) }` on an optional sprite. -/
def updateOptional (fuel : Nat) (deltaTime : ℚ) :
    Option AnimatedSprite → Except Fault (Option AnimatedSprite)
  | none => .ok none
  | some a =>
    match a.Update fuel deltaTime with
    | none => .error Fault.outOfFuel
    | some a1 => .ok (some a1)

/-- The test `s != nil && !s.IsPlaying()`. -/
def hasStopped : Option AnimatedSprite → Bool
  | none => false
  | some a => !a.IsPlaying

namespace ProjectileManager

/-- The Go method `SpawnProjectile`. -/
def SpawnProjectile (M : GoMath) (TA : TowerAssets) (startX startY angle : ℚ)
    (projectileType : Int) (pm : ProjectileManager) : ProjectileManager :=
  let velocityX : ℚ := M.Cos angle * projectileSpeed
  let velocityY : ℚ := M.Sin angle * projectileSpeed
  let animation : Option AnimatedSprite :=
    if projectileType = BallistaTowerID then
      if TA.BallistaWeaponProjectileAnimation.length > 0 then
        startedSprite TA.BallistaWeaponProjectileAnimation (1 / 2) true
      else none
    else if projectileType = MagicTowerID then
      if TA.MagicTowerProjectileAnimation.length > 0 then
        startedSprite TA.MagicTowerProjectileAnimation (1 / 2) true
      else none
    else none
  let projectile : Projectile :=
    { X := startX
      Y := startY
      VelocityX := velocityX
      VelocityY := velocityY
      Angle := angle
      Animation := animation
      ImpactAnimation := none
      Active := true
      TravelDistance := 0
      MaxDistance := maxProjectileRange
      ProjectileType := projectileType
      IsImpacting := false }
  { pm with projectiles := pm.projectiles ++ [projectile] }

/-- The Go method `startImpactAnimation`. -/
def startImpactAnimation (TA : TowerAssets) (projectile : Projectile) : Projectile :=
  let p1 : Projectile := { projectile with IsImpacting := true, Animation := none }
  if p1.ProjectileType = BallistaTowerID then
    if TA.BallisticWeaponImpactAnimation.length > 0 then
      { p1 with ImpactAnimation := startedSprite TA.BallisticWeaponImpactAnimation (1 / 2) false }
    else { p1 with Active := false }
  else if p1.ProjectileType = MagicTowerID then
    if TA.MagicTowerProjectileImpactAnimation.length > 0 then
      { p1 with
        ImpactAnimation := startedSprite TA.MagicTowerProjectileImpactAnimation (1 / 2) false }
    else { p1 with Active := false }
  else { p1 with Active := false }

/-- The damage chosen by the `switch` in `checkCollisionWithCreeps`. -/
def collisionDamage (projectileType : Int) : ℚ :=
  if projectileType = BallistaTowerID then 25
  else if projectileType = MagicTowerID then 20
  else 15

/-- The Go method `checkCollisionWithCreeps`: whether a collision occurred, and the creep list
after the `TakeDamage` call made on the creep that was hit. -/
def checkCollisionWithCreeps (M : GoMath) (projectile : Projectile) :
    List Creep → Bool × List Creep
  | [] => (false, [])
  | creep :: rest =>
    if creep.IsActive = false then
      ((checkCollisionWithCreeps M projectile rest).1,
        creep :: (checkCollisionWithCreeps M projectile rest).2)
    else if creep.IsDying = true then
      ((checkCollisionWithCreeps M projectile rest).1,
        creep :: (checkCollisionWithCreeps M projectile rest).2)
    else
      let dx : ℚ := projectile.X - creep.X
      let dy : ℚ := projectile.Y - creep.Y
      let distance : ℚ := M.Sqrt (dx * dx + dy * dy)
      let collisionDistance : ℚ := projectileCollisionRadius + creepCollisionRadius
      if distance ≤ collisionDistance then
        (true, creep.TakeDamage (collisionDamage projectile.ProjectileType) :: rest)
      else
        ((checkCollisionWithCreeps M projectile rest).1,
          creep :: (checkCollisionWithCreeps M projectile rest).2)

/-- The statement `if projectile.Active { updatedProjectiles = append(...) }`. -/
def keepIfActive (p : Projectile) : Option Projectile :=
  if p.Active = true then some p else none

/-- The "move projectile" block of `Update`: advance along the velocity, add to the travelled
distance, face the movement direction and start the impact once the range is used up. -/
def advance (M : GoMath) (TA : TowerAssets) (deltaTime : ℚ) (p : Projectile) : Projectile :=
  let moveDistance : ℚ := projectileSpeed * deltaTime
  let p1 : Projectile :=
    { p with X := p.X + p.VelocityX * deltaTime
             Y := p.Y + p.VelocityY * deltaTime
             TravelDistance := p.TravelDistance + moveDistance
             Angle := M.Atan2 p.VelocityY p.VelocityX }
  if p1.TravelDistance ≥ p1.MaxDistance then startImpactAnimation TA p1 else p1

/-- The loop body of `Update` after the two animations were advanced: removal when the impact
animation has stopped, otherwise collision or movement for a flying projectile. Returns the
projectile appended to `updatedProjectiles` (`none` when it is dropped) and the creep list. -/
def resolve (M : GoMath) (TA : TowerAssets) (deltaTime : ℚ) (activeCreeps : List Creep)
    (p : Projectile) : Option Projectile × List Creep :=
  if hasStopped p.ImpactAnimation = true then (none, activeCreeps)
  else if p.IsImpacting = false then
    if (checkCollisionWithCreeps M p activeCreeps).1 = true then
      (keepIfActive (startImpactAnimation TA p), (checkCollisionWithCreeps M p activeCreeps).2)
    else (keepIfActive (advance M TA deltaTime p), activeCreeps)
  else (keepIfActive p, activeCreeps)

/-- The body of the loop of `Update` for one projectile: the projectile appended to
`updatedProjectiles` (`none` when it is dropped) and the creep list after the call. -/
def updateOne (M : GoMath) (TA : TowerAssets) (fuel : Nat) (deltaTime : ℚ)
    (activeCreeps : List Creep) (p0 : Projectile) :
    Except Fault (Option Projectile × List Creep) :=
  if p0.Active = false then .ok (none, activeCreeps)
  else
    match updateOptional fuel deltaTime p0.Animation with
    | .error e => .error e
    | .ok animation =>
      match updateOptional fuel deltaTime p0.ImpactAnimation with
      | .error e => .error e
      | .ok impact =>
        .ok (resolve M TA deltaTime activeCreeps
          { p0 with Animation := animation, ImpactAnimation := impact })

/-- The `for i := range pm.projectiles` loop of `Update`. -/
def updateAll (M : GoMath) (TA : TowerAssets) (fuel : Nat) (deltaTime : ℚ) :
    List Projectile → List Creep → Except Fault (List Projectile × List Creep)
  | [], creeps => .ok ([], creeps)
  | p :: rest, creeps =>
    match updateOne M TA fuel deltaTime creeps p with
    | .error e => .error e
    | .ok (kept, creeps1) =>
      match updateAll M TA fuel deltaTime rest creeps1 with
      | .error e => .error e
      | .ok (ps, creeps2) =>
        .ok (match kept with
          | some q => q :: ps
          | none => ps, creeps2)

/-- The Go method `Update`: the manager and the creep list after the call. -/
def Update (M : GoMath) (TA : TowerAssets) (fuel : Nat) (deltaTime : ℚ)
    (activeCreeps : List Creep) (pm : ProjectileManager) :
    Except Fault (ProjectileManager × List Creep) :=
  match updateAll M TA fuel deltaTime pm.projectiles activeCreeps with
  | .error e => .error e
  | .ok (ps, creeps) => .ok ({ pm with projectiles := ps }, creeps)

end ProjectileManager

/-! ## tower_manager.go -/

/-- The Go constant `StageBuilding`. -/
def StageBuilding : Int := 0

/-- The Go constant `StageTransitioning`. -/
def StageTransitioning : Int := 1

/-- The Go constant `weaponRotationSpeed` (radians per second). -/
def weaponRotationSpeed : ℚ := 3

/-- The Go constant `weaponRotationSmoothness`. -/
def weaponRotationSmoothness : ℚ := 8

/-- The Go constant `towerRange` (tiles). -/
def towerRange : ℚ := 5

/-- The Go constant `fireDelay` (seconds). -/
def fireDelay : ℚ := 3 / 2

/-- The Go constant `fireAnimationDuration` (seconds). -/
def fireAnimationDuration : ℚ := 1 / 2

/-- The Go constant `towerCost`. -/
def towerCost : Int := 75

/-- The Go struct `BuildingAnimationState`. -/
structure BuildingAnimationState where
  X : Int
  Y : Int
  TowerIDToPlace : Int
  CurrentAnimation : Option AnimatedSprite
  Stage : Int
deriving DecidableEq

/-- The Go struct `PlacedTower`. -/
structure PlacedTower where
  Image : Option TowerDefense.Image
  X : Int
  Y : Int
  TowerID : Int
  Damage : ℚ
  WeaponImage : Option TowerDefense.Image
  WeaponAngle : ℚ
  FireTimer : ℚ
  FiringAnimation : Option AnimatedSprite
  IdleAnimation : Option AnimatedSprite
  WeaponFired : Bool
  TargetX : ℚ
  TargetY : ℚ
deriving DecidableEq

/-- The Go struct `TowerManager`; `projectileManager` is the manager behind the pointer. -/
structure TowerManager where
  towers : List Image
  placedTowers : List PlacedTower
  buildingAnimations : List BuildingAnimationState
  projectileManager : ProjectileManager
deriving DecidableEq

/-- The Go function `NewTowerManager`. -/
def NewTowerManager (TA : TowerAssets) : TowerManager :=
  { towers := [TA.NoneIndicator, TA.BallistaTower, TA.MagicTower]
    placedTowers := []
    buildingAnimations := []
    projectileManager := { projectiles := [] } }

/-- The `for x > math.Pi { x -= 2 * math.Pi }` loops of `UpdatePlacedTowers`. -/
def wrapAbovePi (pi : ℚ) : Nat → ℚ → Option ℚ
  | 0, x => if x > pi then none else some x
  | fuel + 1, x => if x > pi then wrapAbovePi pi fuel (x - 2 * pi) else some x

/-- The `for x < -math.Pi { x += 2 * math.Pi }` loops of `UpdatePlacedTowers`. -/
def wrapBelowPi (pi : ℚ) : Nat → ℚ → Option ℚ
  | 0, x => if x < -pi then none else some x
  | fuel + 1, x => if x < -pi then wrapBelowPi pi fuel (x + 2 * pi) else some x

/-- The two normalisation loops in sequence, each with the given fuel. -/
def normalizeAngle (pi : ℚ) (fuel : Nat) (x : ℚ) : Option ℚ :=
  match wrapAbovePi pi fuel x with
  | none => none
  | some y => wrapBelowPi pi fuel y

/-- The rotation step of `UpdatePlacedTowers`: the smoothed step, clamped to the maximum
rotation of this tick. -/
def rotationStep (deltaTime deltaAngle : ℚ) : ℚ :=
  let maxRotation : ℚ := weaponRotationSpeed * deltaTime
  let step : ℚ := deltaAngle * weaponRotationSmoothness * deltaTime
  if |step| > maxRotation then
    if step > 0 then maxRotation else -maxRotation
  else step

/-- One iteration of the nearest-creep scan of `UpdatePlacedTowers`, on the pair
`(nearestCreep, minDistSq)`. -/
def scanStep (towerCenterX towerCenterY : ℚ) (state : Option Creep × ℚ) (creep : Creep) :
    Option Creep × ℚ :=
  if creep.IsActive = false then state
  else
    let dx : ℚ := creep.X - towerCenterX
    let dy : ℚ := creep.Y - towerCenterY
    let distSq : ℚ := dx * dx + dy * dy
    if distSq < state.2 then (some creep, distSq) else state

namespace PlacedTower

/-- The tower's centre `float64(tower.X) + 0.5`. -/
def centerX (tower : PlacedTower) : ℚ := (tower.X : ℚ) + 1 / 2

/-- The tower's centre `float64(tower.Y) + 0.5`. -/
def centerY (tower : PlacedTower) : ℚ := (tower.Y : ℚ) + 1 / 2

/-- Squared distance from the tower's centre to a creep, as computed by the scan. -/
def distSq (tower : PlacedTower) (creep : Creep) : ℚ :=
  (creep.X - tower.centerX) * (creep.X - tower.centerX) +
    (creep.Y - tower.centerY) * (creep.Y - tower.centerY)

/-- The fire-timer block of `UpdatePlacedTowers`. -/
def tickFireTimer (deltaTime : ℚ) (tower : PlacedTower) : PlacedTower :=
  if tower.FireTimer > 0 then
    let t1 : PlacedTower := { tower with FireTimer := tower.FireTimer - deltaTime }
    if t1.FireTimer < 0 then { t1 with FireTimer := 0 } else t1
  else tower

/-- The nearest-creep scan of `UpdatePlacedTowers`: the final `(nearestCreep, minDistSq)`. -/
def nearestCreep (M : GoMath) (tower : PlacedTower) (activeCreeps : List Creep) :
    Option Creep × ℚ :=
  activeCreeps.foldl (scanStep tower.centerX tower.centerY) (none, M.MaxFloat64)

/-- The weapon-rotation block of `UpdatePlacedTowers` for a rotating tower. -/
def aim (M : GoMath) (fuel : Nat) (deltaTime : ℚ) (nearest : Creep) (tower : PlacedTower) :
    Except Fault PlacedTower :=
  let dx : ℚ := nearest.X - tower.centerX
  let dy : ℚ := nearest.Y - tower.centerY
  let targetAngle : ℚ := M.Atan2 dy dx
  let currentAngle : ℚ := tower.WeaponAngle
  match normalizeAngle M.Pi fuel (targetAngle - currentAngle) with
  | none => .error Fault.outOfFuel
  | some deltaAngle =>
    match normalizeAngle M.Pi fuel (tower.WeaponAngle + rotationStep deltaTime deltaAngle) with
    | none => .error Fault.outOfFuel
    | some angle => .ok { tower with WeaponAngle := angle }

/-- The idle-animation block of `UpdatePlacedTowers`. -/
def tickIdleAnimation (fuel : Nat) (deltaTime : ℚ) (tower : PlacedTower) :
    Except Fault PlacedTower :=
  match updateOptional fuel deltaTime tower.IdleAnimation with
  | .error e => .error e
  | .ok idle => .ok { tower with IdleAnimation := idle }

end PlacedTower

namespace TowerManager

/-- The Go method `getTowerImage`. -/
def getTowerImage (TA : TowerAssets) (towerID : Int) : Option Image :=
  if towerID = BallistaTowerID then some TA.BallistaTower
  else if towerID = MagicTowerID then some TA.MagicTower
  else none

/-- The Go method `startBuildingAnimation`; `Play` on the nil sprite returned for an empty build
animation is a nil dereference. -/
def startBuildingAnimation (TA : TowerAssets) (col row towerID : Int) (tm : TowerManager) :
    Except Fault TowerManager :=
  match NewAnimatedSprite TA.TowerBuildAnimation 1 false with
  | none => .error Fault.nilDeref
  | some a =>
    .ok { tm with
      buildingAnimations := tm.buildingAnimations ++
        [{ X := col, Y := row, TowerIDToPlace := towerID, Stage := StageBuilding
           CurrentAnimation := some a.Play }] }

/-- The `PlacedTower` value that `placeTower` builds and appends, `towerImg` being the image
returned by `getTowerImage`. -/
def newPlacedTower (M : GoMath) (TA : TowerAssets) (col row towerID : Int) (towerImg : Image) :
    PlacedTower :=
  let newTower : PlacedTower :=
    { Image := some towerImg
      X := col
      Y := row
      TowerID := towerID
      Damage := 50
      WeaponImage := none
      WeaponAngle := -M.Pi / 2
      FireTimer := 0
      FiringAnimation := none
      IdleAnimation := none
      WeaponFired := false
      TargetX := 0
      TargetY := 0 }
  let t1 : PlacedTower :=
    if towerID = BallistaTowerID ∧ TA.BallistaWeaponFire.length > 0 then
      { newTower with WeaponImage := TA.BallistaWeaponFire[0]? }
    else newTower
  if towerID = MagicTowerID ∧ TA.MagicTowerWeaponIdleAnimation.length > 0 then
    { t1 with
      WeaponImage := TA.MagicTowerWeaponIdleAnimation[0]?
      IdleAnimation := startedSprite TA.MagicTowerWeaponIdleAnimation 1 true }
  else t1

/-- The Go method `placeTower`. -/
def placeTower (M : GoMath) (TA : TowerAssets) (col row towerID : Int) (tm : TowerManager) :
    TowerManager :=
  match getTowerImage TA towerID with
  | none => tm
  | some towerImg =>
    { tm with placedTowers := tm.placedTowers ++ [newPlacedTower M TA col row towerID towerImg] }

/-- The body of the loop of `UpdateBuildingAnimations` for one task: the task appended to
`updatedAnimations` (`none` when it is dropped) and the manager after a possible `placeTower`. -/
def buildStep (M : GoMath) (TA : TowerAssets) (fuel : Nat) (deltaTime : ℚ)
    (ba : BuildingAnimationState) (tm : TowerManager) :
    Except Fault (Option BuildingAnimationState × TowerManager) :=
  match ba.CurrentAnimation with
  | none => .ok (none, tm)
  | some a =>
    match a.Update fuel deltaTime with
    | none => .error Fault.outOfFuel
    | some a1 =>
      if a1.IsPlaying = false then
        if ba.Stage = StageBuilding then
          match NewAnimatedSprite TA.TowerTransitionAnimation (3 / 4) false with
          | none => .error Fault.nilDeref
          | some t =>
            .ok (some { ba with Stage := StageTransitioning, CurrentAnimation := some t.Play },
              tm)
        else if ba.Stage = StageTransitioning then
          .ok (none, placeTower M TA ba.X ba.Y ba.TowerIDToPlace tm)
        else .ok (none, tm)
      else .ok (some { ba with CurrentAnimation := some a1 }, tm)

/-- The `for _, ba := range tm.buildingAnimations` loop of `UpdateBuildingAnimations`. -/
def buildLoop (M : GoMath) (TA : TowerAssets) (fuel : Nat) (deltaTime : ℚ) :
    List BuildingAnimationState → TowerManager →
      Except Fault (List BuildingAnimationState × TowerManager)
  | [], tm => .ok ([], tm)
  | ba :: rest, tm =>
    match buildStep M TA fuel deltaTime ba tm with
    | .error e => .error e
    | .ok (kept, tm1) =>
      match buildLoop M TA fuel deltaTime rest tm1 with
      | .error e => .error e
      | .ok (updated, tm2) =>
        .ok (match kept with
          | some b => b :: updated
          | none => updated, tm2)

/-- The Go method `UpdateBuildingAnimations`. -/
def UpdateBuildingAnimations (M : GoMath) (TA : TowerAssets) (fuel : Nat) (deltaTime : ℚ)
    (tm : TowerManager) : Except Fault TowerManager :=
  match buildLoop M TA fuel deltaTime tm.buildingAnimations tm with
  | .error e => .error e
  | .ok (updated, tm1) => .ok { tm1 with buildingAnimations := updated }

/-- The Go method `fireTowerWeapon` (the target creep is never nil at its call site). -/
def fireTowerWeapon (TA : TowerAssets) (targetCreep : Creep) (tower : PlacedTower) :
    PlacedTower :=
  let t1 : PlacedTower :=
    { tower with FireTimer := fireDelay, TargetX := targetCreep.X, TargetY := targetCreep.Y }
  if t1.TowerID = BallistaTowerID then
    if TA.BallistaWeaponFire.length > 0 then
      { t1 with
        FiringAnimation := startedSprite TA.BallistaWeaponFire fireAnimationDuration false
        WeaponFired := true }
    else t1
  else if t1.TowerID = MagicTowerID then
    if TA.MagicTowerWeaponAttackAnimation.length > 0 then
      { t1 with
        FiringAnimation :=
          startedSprite TA.MagicTowerWeaponAttackAnimation fireAnimationDuration false
        WeaponFired := true }
    else t1
  else t1

/-- The Go method `spawnProjectileFromTower`: the tower and the projectile manager after it. -/
def spawnProjectileFromTower (M : GoMath) (TA : TowerAssets) (tower : PlacedTower)
    (pm : ProjectileManager) : PlacedTower × ProjectileManager :=
  if tower.WeaponFired = false then (tower, pm)
  else
    let t1 : PlacedTower := { tower with WeaponFired := false }
    let towerCenterX : ℚ := (t1.X : ℚ) + 1 / 2
    let towerCenterY : ℚ := (t1.Y : ℚ) + 1 / 2
    let weaponOffset : ℚ × ℚ :=
      if t1.TowerID = MagicTowerID then (0, -(3 / 10))
      else (M.Cos t1.WeaponAngle * (4 / 10), M.Sin t1.WeaponAngle * (4 / 10))
    let spawnX : ℚ := towerCenterX + weaponOffset.1
    let spawnY : ℚ := towerCenterY + weaponOffset.2 - 1
    let angle : ℚ :=
      if t1.TowerID = MagicTowerID then
        M.Atan2 (t1.TargetY - towerCenterY) (t1.TargetX - towerCenterX)
      else t1.WeaponAngle
    (t1, pm.SpawnProjectile M TA spawnX spawnY angle t1.TowerID)

/-- The firing-animation block of `UpdatePlacedTowers`. -/
def tickFiringAnimation (M : GoMath) (TA : TowerAssets) (fuel : Nat) (deltaTime : ℚ)
    (tower : PlacedTower) (pm : ProjectileManager) :
    Except Fault (PlacedTower × ProjectileManager) :=
  match tower.FiringAnimation with
  | none => .ok (tower, pm)
  | some a =>
    match a.Update fuel deltaTime with
    | none => .error Fault.outOfFuel
    | some a1 =>
      let t1 : PlacedTower := { tower with FiringAnimation := some a1 }
      if a1.IsPlaying = false then
        let r : PlacedTower × ProjectileManager :=
          if t1.WeaponFired = true then spawnProjectileFromTower M TA t1 pm else (t1, pm)
        .ok ({ r.1 with FiringAnimation := none }, r.2)
      else .ok (t1, pm)

/-- The targeting part of the loop body of `UpdatePlacedTowers`: skip towers without a weapon,
scan for the nearest creep, rotate (except the Magic tower) and fire when in range and ready. -/
def engage (M : GoMath) (TA : TowerAssets) (fuel : Nat) (deltaTime : ℚ)
    (activeCreeps : List Creep) (tower : PlacedTower) : Except Fault PlacedTower :=
  match tower.WeaponImage with
  | none => .ok tower
  | some _ =>
    match (tower.nearestCreep M activeCreeps).1 with
    | none => .ok tower
    | some nearest =>
      match (if tower.TowerID ≠ MagicTowerID then tower.aim M fuel deltaTime nearest
        else .ok tower) with
      | .error e => .error e
      | .ok t1 =>
        let distance : ℚ := M.Sqrt (tower.nearestCreep M activeCreeps).2
        if distance ≤ towerRange ∧ t1.FireTimer ≤ 0 then .ok (fireTowerWeapon TA nearest t1)
        else .ok t1

/-- The loop body of `UpdatePlacedTowers` for one tower. -/
def updateTower (M : GoMath) (TA : TowerAssets) (fuel : Nat) (deltaTime : ℚ)
    (activeCreeps : List Creep) (tower : PlacedTower) (pm : ProjectileManager) :
    Except Fault (PlacedTower × ProjectileManager) :=
  match tickFiringAnimation M TA fuel deltaTime (tower.tickFireTimer deltaTime) pm with
  | .error e => .error e
  | .ok (t1, pm1) =>
    match t1.tickIdleAnimation fuel deltaTime with
    | .error e => .error e
    | .ok t2 =>
      match engage M TA fuel deltaTime activeCreeps t2 with
      | .error e => .error e
      | .ok t3 => .ok (t3, pm1)

/-- The `for i := range tm.placedTowers` loop of `UpdatePlacedTowers`. -/
def updateTowers (M : GoMath) (TA : TowerAssets) (fuel : Nat) (deltaTime : ℚ)
    (activeCreeps : List Creep) :
    List PlacedTower → ProjectileManager → Except Fault (List PlacedTower × ProjectileManager)
  | [], pm => .ok ([], pm)
  | tower :: rest, pm =>
    match updateTower M TA fuel deltaTime activeCreeps tower pm with
    | .error e => .error e
    | .ok (t1, pm1) =>
      match updateTowers M TA fuel deltaTime activeCreeps rest pm1 with
      | .error e => .error e
      | .ok (ts, pm2) => .ok (t1 :: ts, pm2)

/-- The Go method `UpdatePlacedTowers`: the manager and the creep list after the call. -/
def UpdatePlacedTowers (M : GoMath) (TA : TowerAssets) (fuel : Nat) (deltaTime : ℚ)
    (activeCreeps : List Creep) (tm : TowerManager) : Except Fault (TowerManager × List Creep) :=
  match updateTowers M TA fuel deltaTime activeCreeps tm.placedTowers tm.projectileManager with
  | .error e => .error e
  | .ok (ts, pm1) =>
    match pm1.Update M TA fuel deltaTime activeCreeps with
    | .error e => .error e
    | .ok (pm2, creeps) =>
      .ok ({ tm with placedTowers := ts, projectileManager := pm2 }, creeps)

end TowerManager

/-! ## Stand-ins for evaluation -/

/-- Stand-in for `math.Atan2`, exact (for the given `pi`) on the four axis directions; elsewhere
it returns the bisector of the quadrant. -/
def axisAtan2 (pi dy dx : ℚ) : ℚ :=
  if dy = 0 then (if dx < 0 then pi else 0)
  else if dx = 0 then (if dy > 0 then pi / 2 else -pi / 2)
  else if dx > 0 then (if dy > 0 then pi / 4 else -pi / 4)
  else (if dy > 0 then 3 * pi / 4 else -(3 * pi) / 4)

/-- Stand-ins for the `math` package: `Sqrt x` is `(x+1)/2`, exact at 1 and never below the
square root; `Atan2` is `axisAtan2`; `Cos` and `Sin` are exact at the angle 0 and at `±Pi/2`,
and the rational `355/113` stands for `Pi`. -/
def standInMath : GoMath :=
  { Pi := 355 / 113
    MaxFloat64 := 2 ^ 1024 - 2 ^ 971
    Sqrt := fun x => (x + 1) / 2
    Atan2 := axisAtan2 (355 / 113)
    Cos := fun a => if a = 0 then 1 else 0
    Sin := fun a => if a = 355 / 113 / 2 then 1 else if a = -(355 / 113) / 2 then -1 else 0 }

/-- Image handles and frame slices with the frame counts of `assets.go`. -/
def repoTowerAssets : TowerAssets :=
  { NoneIndicator := 100
    BallistaTower := 101
    MagicTower := 102
    TowerBuildAnimation := [110, 111, 112, 113, 114, 115]
    TowerTransitionAnimation := [120, 121, 122, 123, 124]
    MagicTowerWeaponIdleAnimation := [130, 131, 132, 133, 134, 135, 136, 137]
    MagicTowerWeaponAttackAnimation := (List.range 27).map fun i => 140 + i
    MagicTowerProjectileAnimation := (List.range 12).map fun i => 170 + i
    MagicTowerProjectileImpactAnimation := (List.range 11).map fun i => 190 + i
    BallistaWeaponProjectileAnimation := [210, 211, 212]
    BallisticWeaponImpactAnimation := [220, 221, 222, 223, 224, 225]
    BallistaWeaponFire := [230, 231, 232, 233, 234, 235] }

/-- A Ballista tower as `placeTower` creates it at cell `(0,0)`, heading north. -/
def demoBallista : PlacedTower :=
  { Image := some 101, X := 0, Y := 0, TowerID := 1, Damage := 50, WeaponImage := some 230
    WeaponAngle := -(355 / 113) / 2, FireTimer := 0, FiringAnimation := none
    IdleAnimation := none, WeaponFired := false, TargetX := 0, TargetY := 0 }

/-- An active creep one tile west of the centre of cell `(0,0)`. -/
def westCreep : Creep :=
  { scenarioCreep with X := -1 / 2, Y := 1 / 2 }

/-- The creep `westCreep` while its death animation plays: dying, still active. -/
def dyingWestCreep : Creep :=
  { westCreep with Health := 0, IsDying := true }

/-- Runs one `UpdatePlacedTowers` per tick, each tick with its own elapsed time and creep list;
the creep list returned by a tick is handed back to the caller and not reused. -/
def TowerManager.run (M : GoMath) (TA : TowerAssets) (fuel : Nat) :
    List (ℚ × List Creep) → TowerManager → Except Fault TowerManager
  | [], tm => .ok tm
  | t :: rest, tm =>
    match tm.UpdatePlacedTowers M TA fuel t.1 t.2 with
    | .error e => .error e
    | .ok (tm1, _) => TowerManager.run M TA fuel rest tm1

/-- An optional sprite that, when present, has a positive per-frame duration. -/
def OptReady (s : Option AnimatedSprite) : Prop :=
  ∀ a, s = some a → 0 < a.frameDuration

/-- The tower's animations, when present, have positive per-frame durations. -/
def PlacedTower.Ready (tower : PlacedTower) : Prop :=
  OptReady tower.FiringAnimation ∧ OptReady tower.IdleAnimation

/-- The projectile's animations, when present, have positive per-frame durations. -/
def Projectile.Ready (p : Projectile) : Prop :=
  OptReady p.Animation ∧ OptReady p.ImpactAnimation

/-- Every tower and projectile of the manager is ready. -/
def TowerManager.Ready (tm : TowerManager) : Prop :=
  (∀ t ∈ tm.placedTowers, t.Ready) ∧ ∀ p ∈ tm.projectileManager.projectiles, p.Ready

/-- One Ballista tower placed at cell `(0,0)` of a new manager, with the stand-in `math`
package and the frame counts of `assets.go`. -/
def demoTowers : TowerManager :=
  (NewTowerManager repoTowerAssets).placeTower standInMath repoTowerAssets 0 0 BallistaTowerID

/-- The tests guarding the `spawnProjectileFromTower` call in the firing-animation block of
`UpdatePlacedTowers`: the tower has a firing animation (`tower.FiringAnimation != nil`) that is
no longer playing after its advance (`!tower.FiringAnimation.IsPlaying()`) and its flag
`tower.WeaponFired` is set. -/
def PlacedTower.releases (fuel : Nat) (deltaTime : ℚ) (tower : PlacedTower) : Bool :=
  match tower.FiringAnimation with
  | none => false
  | some a =>
    match a.Update fuel deltaTime with
    | none => false
    | some a1 => !a1.IsPlaying && tower.WeaponFired

/-- A manager whose build queue holds one Ballista task for cell `(2,3)`, in the state in which
`startBuildingAnimation` leaves it. -/
def demoBuilder : TowerManager :=
  { NewTowerManager repoTowerAssets with
    buildingAnimations :=
      [{ X := 2, Y := 3, TowerIDToPlace := BallistaTowerID, Stage := StageBuilding
         CurrentAnimation := startedSprite repoTowerAssets.TowerBuildAnimation 1 false }] }

/-- Runs one `ProjectileManager.Update` per tick, each tick with its own elapsed time and creep
list, and collects the creep list as each call leaves it. -/
def ProjectileManager.run (M : GoMath) (TA : TowerAssets) (fuel : Nat) :
    List (ℚ × List Creep) → ProjectileManager →
      Except Fault (ProjectileManager × List (List Creep))
  | [], pm => .ok (pm, [])
  | t :: rest, pm =>
    match pm.Update M TA fuel t.1 t.2 with
    | .error e => .error e
    | .ok (pm1, cs) =>
      match ProjectileManager.run M TA fuel rest pm1 with
      | .error e => .error e
      | .ok (pm2, css) => .ok (pm2, cs :: css)

/-- Position and travelled distance after the statements `X += VelocityX * dt`,
`Y += VelocityY * dt`, `TravelDistance += projectileSpeed * dt` of the move block. -/
def Projectile.coast (deltaTime : ℚ) (p : Projectile) : Projectile :=
  { p with X := p.X + p.VelocityX * deltaTime
           Y := p.Y + p.VelocityY * deltaTime
           TravelDistance := p.TravelDistance + projectileSpeed * deltaTime }

/-- No tick's collision test succeeds along the straight flight of the projectile: at the start
of each tick `checkCollisionWithCreeps` finds no creep of that tick's list within reach. -/
def Projectile.missesAll (M : GoMath) : List (ℚ × List Creep) → Projectile → Bool
  | [], _ => true
  | t :: rest, p =>
    !(ProjectileManager.checkCollisionWithCreeps M p t.2).1 &&
      Projectile.missesAll M rest (p.coast t.1)

/-- A Ballista projectile as `SpawnProjectile` creates it (without a flight animation) at
`(1, 0.5)`, flying east at `projectileSpeed`. -/
def demoBolt : Projectile :=
  { X := 1, Y := 1 / 2, VelocityX := 12, VelocityY := 0, Angle := 0, Animation := none
    ImpactAnimation := none, Active := true, TravelDistance := 0
    MaxDistance := maxProjectileRange, ProjectileType := BallistaTowerID, IsImpacting := false }

/-- State of a manager between the tick in which its single Ballista tower fired and the tick
in which the firing animation stops, `elapsed` being the time passed since the shot: the shot
is pending, the firing animation (total duration `fireAnimationDuration`) still plays, the
cooldown has run down by `elapsed`, and no projectile exists. -/
def TowerManager.ShotPending (elapsed : ℚ) (tm : TowerManager) : Prop :=
  tm.projectileManager.projectiles = [] ∧
    ∃ t a, tm.placedTowers = [t] ∧ t.TowerID = BallistaTowerID ∧ t.WeaponFired = true ∧
      t.FiringAnimation = some a ∧ a.isPlaying = true ∧
      a.NonLoopInv elapsed ∧ a.frameTimer < a.frameDuration ∧ 2 ≤ a.frameCount ∧
      (a.frameCount : ℚ) * a.frameDuration = fireAnimationDuration ∧
      t.FireTimer = fireDelay - elapsed

/-! ## render.go and the placement part of tower_manager.go -/

/-- The Go struct `RenderParams`. -/
structure RenderParams where
  Scale : ℚ
  OffsetX : ℚ
  OffsetY : ℚ
  TrayX : ℚ
  TrayWidth : Int
  ScreenWidth : Int
  ScreenHeight : Int

/-- The Go constant `waterFirstTileIDLocal`. -/
def waterFirstTileIDLocal : Int := 257

/-- The Go constant `flipMask` (`0x80000000 | 0x40000000 | 0x20000000`). -/
def flipMask : Int := 3758096384

/-- The Go conversion `int(x)` of a `float64` value: truncation toward zero. -/
def truncToInt (x : ℚ) : Int := if 0 ≤ x then ⌊x⌋ else ⌈x⌉

/-- The body of the layer loop of `isTileBuildable` for one layer: `true` stands for the
`return false` of the Go code (a water tile, or any tile of the layer named "details"). The read
`layer.Data[index]` is in range under its guard. -/
def layerBlocks (col row : Int) (layer : TilemapLayerJSON) : Bool :=
  let index : Int := row * layer.Width + col
  if index ≥ 0 ∧ index < (layer.Data.length : Int) then
    let tileID : Int := layer.Data.getD index.toNat 0
    if tileID = 0 then false
    else
      let actualTileID : Int := Int.land tileID (Int.not flipMask)
      if actualTileID ≥ waterFirstTileIDLocal then true
      else if layer.Name = "details" then true
      else false
  else false

namespace TowerManager

/-- The Go method `isTileBuildable`; `level.Layers[0]` on an empty layer list is an index
fault. -/
def isTileBuildable (col row : Int) (level : TilemapJSON) (tm : TowerManager) :
    Except Fault Bool :=
  if col < 0 ∨ row < 0 then .ok false
  else
    match level.Layers with
    | [] => .error Fault.indexOutOfRange
    | layer :: _ =>
      if col ≥ layer.Width ∨ row ≥ layer.Height then .ok false
      else if tm.placedTowers.any
          (fun placedTower => decide (placedTower.X = col ∧ placedTower.Y = row)) = true then
        .ok false
      else if level.Layers.any (layerBlocks col row) = true then .ok false
      else .ok true

/-- The Go method `HandleTowerPlacement`. The readings `ebiten.CursorPosition()` and
`inpututil.IsMouseButtonJustPressed(ebiten.MouseButtonLeft)` are the arguments `mouseX`,
`mouseY` and `justPressed`; the result is the manager and `*currentGold` after the call. -/
def HandleTowerPlacement (TA : TowerAssets) (selectedTowerID : Int)
    (level : Option TilemapJSON) (params : RenderParams) (mouseX mouseY : Int)
    (justPressed : Bool) (currentGold : Int) (tm : TowerManager) :
    Except Fault (TowerManager × Int) :=
  match level with
  | none => .ok (tm, currentGold)
  | some lv =>
    if selectedTowerID = 0 then .ok (tm, currentGold)
    else
      let gridX : Int :=
        truncToInt (((mouseX : ℚ) - params.OffsetX) / ((lv.TileWidth : ℚ) * params.Scale))
      let gridY : Int :=
        truncToInt (((mouseY : ℚ) - params.OffsetY) / ((lv.TileHeight : ℚ) * params.Scale))
      match lv.Layers with
      | [] => .error Fault.indexOutOfRange
      | layer :: _ =>
        let mapPixelWidth : ℚ := ((layer.Width * lv.TileWidth : Int) : ℚ) * params.Scale
        let mapPixelHeight : ℚ := ((layer.Height * lv.TileHeight : Int) : ℚ) * params.Scale
        if (mouseX : ℚ) < params.OffsetX ∨ (mouseX : ℚ) > params.OffsetX + mapPixelWidth ∨
            (mouseY : ℚ) < params.OffsetY ∨ (mouseY : ℚ) > params.OffsetY + mapPixelHeight then
          .ok (tm, currentGold)
        else if justPressed = true then
          match tm.isTileBuildable gridX gridY lv with
          | .error e => .error e
          | .ok false => .ok (tm, currentGold)
          | .ok true =>
            if currentGold ≥ towerCost then
              match tm.startBuildingAnimation TA gridX gridY selectedTowerID with
              | .error e => .error e
              | .ok tm1 => .ok (tm1, currentGold - towerCost)
            else .ok (tm, currentGold)
        else .ok (tm, currentGold)

end TowerManager

/-- A 5 by 5 map of 64-pixel tiles with a single ground layer of grass tiles (tile ID 1). -/
def demoLevel : TilemapJSON :=
  { Layers := [{ Data := List.replicate 25 1, Width := 5, Height := 5, Name := "ground" }]
    TileWidth := 64
    TileHeight := 64 }

/-- Render parameters of an unscaled map drawn at the screen origin, on the 1920 by 1280 logical
screen with an 80-pixel tray. -/
def demoParams : RenderParams :=
  { Scale := 1, OffsetX := 0, OffsetY := 0, TrayX := 1840, TrayWidth := 80, ScreenWidth := 1920
    ScreenHeight := 1280 }

/-- The manager left by two accepted placement requests for cell `(2,3)`: two Ballista build
tasks for the same cell. -/
def demoTwoTasks : TowerManager :=
  { demoBuilder with
    buildingAnimations := demoBuilder.buildingAnimations ++ demoBuilder.buildingAnimations }

/-- The guards under which the loop of `checkCollisionWithCreeps` reaches `creep.TakeDamage`:
the creep is active, is not dying, and its distance to the projectile is at most the sum of the
two collision radii. -/
def ProjectileManager.collides (M : GoMath) (projectile : Projectile) (creep : Creep) : Bool :=
  creep.IsActive && !creep.IsDying &&
    decide (M.Sqrt ((projectile.X - creep.X) * (projectile.X - creep.X) +
      (projectile.Y - creep.Y) * (projectile.Y - creep.Y)) ≤
        projectileCollisionRadius + creepCollisionRadius)

/-- A projectile of a type that no tower has (type 3), without animations, at `(-0.5, 0.5)`. -/
def strayBolt : Projectile :=
  { demoBolt with X := -1 / 2, ProjectileType := 3 }

/-! ## float64 rounding -/

/-- Nearest integer to `q`, a tie going to the even neighbour. -/
def roundHalfEven (q : ℚ) : ℤ :=
  if q - ⌊q⌋ < 1 / 2 then ⌊q⌋
  else if q - ⌊q⌋ > 1 / 2 then ⌊q⌋ + 1
  else if ⌊q⌋ % 2 = 0 then ⌊q⌋ else ⌊q⌋ + 1

/-- Number of halvings that take `n` below 2, at most `fuel` of them: with `fuel ≥ n` this is
the position of the leading binary digit of `n`. -/
def halvings : Nat → Nat → Nat
  | 0, _ => 0
  | fuel + 1, n => if n < 2 then 0 else halvings fuel (n / 2) + 1

/-- The binary exponent `e` of a non-zero `x`, with `2^e ≤ |x| < 2^(e+1)`: the difference of the
leading digit positions of numerator and denominator, or one less. -/
def binade (x : ℚ) : ℤ :=
  if (2 : ℚ) ^ ((halvings x.num.natAbs x.num.natAbs : ℤ) - (halvings x.den x.den : ℤ)) ≤ |x| then
    (halvings x.num.natAbs x.num.natAbs : ℤ) - (halvings x.den x.den : ℤ)
  else (halvings x.num.natAbs x.num.natAbs : ℤ) - (halvings x.den x.den : ℤ) - 1

/-- Exponent of the unit in the last place of the binary64 format at `x`: 53 significant bits,
and the fixed spacing `2^-1074` below `2^-1022` (subnormal numbers). -/
def ulpExponent (x : ℚ) : ℤ := max (binade x) (-1022) - 52

/-- The binary64 number nearest to `x` (round to nearest, ties to even), which is the result
that a `float64` operation returns for the exact result `x`. Overflow to an infinity is left
out: the values studied stay far below `2^1024`. -/
def round64 (x : ℚ) : ℚ :=
  if x = 0 then 0 else (roundHalfEven (x / 2 ^ ulpExponent x) : ℚ) * 2 ^ ulpExponent x

/-- What the proofs use of a rounding function: the result is within a relative error of
`2^-53`, or within `2^-1075` for subnormal results, of the exact value, and is not negative
for an exact value that is not negative. -/
def Rounds (fl : ℚ → ℚ) : Prop :=
  ∀ x, |fl x - x| ≤ |x| / 2 ^ 53 + 1 / 2 ^ 1075 ∧ (0 ≤ x → 0 ≤ fl x)

/-! ## animated_sprite.go with float64 rounding

The functions of `animated_sprite.go` that compute with `float64`, with the rounding `fl` of
each operation made explicit; `Play`, `IsPlaying` and `GetCurrentFrame` do no arithmetic. -/

namespace F64

/-- The Go function `NewAnimatedSprite`, the division rounded by `fl`. -/
def NewAnimatedSprite (fl : ℚ → ℚ) (frames : List Image) (animationLength : ℚ) (loop : Bool) :
    Option AnimatedSprite :=
  if frames.length = 0 then none
  else
    some
      { frames := frames
        frameCount := (frames.length : Int)
        frameDuration := fl (animationLength / (frames.length : ℚ))
        currentFrame := 0
        frameTimer := 0
        isPlaying := false
        loop := loop
        totalDuration := animationLength }

namespace AnimatedSprite

/-- The `for as.frameTimer >= as.frameDuration && as.isPlaying` loop of `Update`, the
subtraction rounded by `fl`. Each unit of fuel pays for one iteration; `none` means the loop
wanted another iteration without fuel. -/
def advanceFrames (fl : ℚ → ℚ) : Nat → AnimatedSprite → Option AnimatedSprite
  | 0, as => if as.frameTimer ≥ as.frameDuration ∧ as.isPlaying = true then none else some as
  | fuel + 1, as =>
    if as.frameTimer ≥ as.frameDuration ∧ as.isPlaying = true then
      let as1 : AnimatedSprite :=
        { as with frameTimer := fl (as.frameTimer - as.frameDuration)
                  currentFrame := as.currentFrame + 1 }
      if as1.currentFrame ≥ as1.frameCount then
        if as1.loop = true then advanceFrames fl fuel { as1 with currentFrame := 0 }
        else some { as1 with currentFrame := as1.frameCount - 1, isPlaying := false }
      else advanceFrames fl fuel as1
    else some as

/-- The Go method `Update`, the addition rounded by `fl`. -/
def Update (fl : ℚ → ℚ) (fuel : Nat) (deltaTime : ℚ) (as : AnimatedSprite) :
    Option AnimatedSprite :=
  if as.isPlaying = false ∨ as.frameCount ≤ 1 then some as
  else advanceFrames fl fuel { as with frameTimer := fl (as.frameTimer + deltaTime) }

end AnimatedSprite

/-- Runs a sequence of `Update(dt)` calls. -/
def runUpdates (fl : ℚ → ℚ) (fuel : Nat) : List ℚ → AnimatedSprite → Option AnimatedSprite
  | [], as => some as
  | dt :: rest, as =>
    match AnimatedSprite.Update fl fuel dt as with
    | none => none
    | some as1 => runUpdates fl fuel rest as1

/-- The statements `s = NewAnimatedSprite(frames, len, loop); s.Play()` under the guard
`len(frames) > 0`. -/
def startedSprite (fl : ℚ → ℚ) (frames : List Image) (animationLength : ℚ) (loop : Bool) :
    Option AnimatedSprite :=
  (NewAnimatedSprite fl frames animationLength loop).map TowerDefense.AnimatedSprite.Play

end F64

/-- The ten-frame, one-second, non-looping death clock of a creep after `Play()`, with the
frame duration `1.0 / 10` as `float64` computes it. -/
def deathClock64 : Option AnimatedSprite :=
  F64.startedSprite round64 repoCreepAssets.FirebugSideDeath 1 false

/-- A three-frame, one-second looping clock after `Play()`, with the frame duration `1.0 / 3`
as `float64` computes it. -/
def loopClock64 : Option AnimatedSprite :=
  F64.startedSprite round64 [7, 8, 9] 1 true

/-- The three-frame, one-second looping clock after `Play()`, with the frame duration `1.0 / 3`
as `float64` computes it. -/
def demoClock64 : AnimatedSprite :=
  { frames := [7, 8, 9], frameCount := 3, frameDuration := round64 (1 / 3), currentFrame := 0
    frameTimer := 0, isPlaying := true, loop := true, totalDuration := 1 }

/-! ## creeps.go with float64 rounding

The functions of `creeps.go` that compute with `float64` on the way of a creep along its
path, with the rounding `fl` of each operation made explicit. Conversions of integers
(`float64(target.X)`, `float64(layer.Width)`) are exact; each `float64` operation is rounded on
its own (no fused multiply-add). -/

namespace F64

/-- The Go function `NewCreep`; the random speed drawn by the Go code is the argument `speed`. -/
def NewCreep (fl : ℚ → ℚ) (A : CreepAssets) (speed : ℚ) (id : Int) (x y : ℚ)
    (path : List PathNode) (startDelay : ℚ) : Creep :=
  { ID := id
    X := x
    Y := y
    Speed := speed
    Health := 20
    MaxHealth := 20
    Path := path
    PathIndex := 0
    Animation := NewAnimatedSprite fl A.FirebugSideIdle 1 true
    CurrentDirection := Direction.DirectionRight
    StartDelay := startDelay
    Timer := 0
    Active := true
    Damage := 2
    IsDying := false }

namespace Creep

/-- The statements `c.Animation = NewAnimatedSprite(frames, len, loop); c.Animation.Play()`:
`Play` on the nil sprite returned for an empty frame slice is a nil dereference. -/
def installAnimation (fl : ℚ → ℚ) (frames : List Image) (animationLength : ℚ) (loop : Bool)
    (c : Creep) : Except Fault Creep :=
  match NewAnimatedSprite fl frames animationLength loop with
  | none => .error Fault.nilDeref
  | some a => .ok { c with Animation := some a.Play }

/-- The Go method `setAnimation`. -/
def setAnimation (fl : ℚ → ℚ) (A : CreepAssets) (c : Creep) : Except Fault Creep :=
  match c.Animation with
  | none => installAnimation fl (c.desiredFrames A) 1 true c
  | some a =>
    if animationFramesEqual a.frames (c.desiredFrames A) = false then
      installAnimation fl (c.desiredFrames A) 1 true c
    else .ok c

/-- The statement `c.Animation.Update(deltaTime)`. -/
def animate (fl : ℚ → ℚ) (fuel : Nat) (deltaTime : ℚ) (c : Creep) : Except Fault Creep :=
  match c.Animation with
  | none => .error Fault.nilDeref
  | some a =>
    match AnimatedSprite.Update fl fuel deltaTime a with
    | none => .error Fault.outOfFuel
    | some a1 => .ok { c with Animation := some a1 }

/-- Phase 3 of `Update` (the creep is still on its path): move toward `Path[PathIndex+1]`. -/
def followPath (fl : ℚ → ℚ) (hypot : ℚ → ℚ → ℚ) (deltaTime : ℚ) (c : Creep) :
    Except Fault Creep :=
  if c.PathIndex + 1 < 0 then .error Fault.indexOutOfRange
  else
    match c.Path[(c.PathIndex + 1).toNat]? with
    | none => .error Fault.indexOutOfRange
    | some target =>
      let dx : ℚ := fl ((target.X : ℚ) - c.X)
      let dy : ℚ := fl ((target.Y : ℚ) - c.Y)
      let distance : ℚ := hypot dx dy
      if distance > 0 then
        let moveDistance : ℚ := fl (c.Speed * deltaTime)
        if moveDistance ≥ distance then
          .ok (TowerDefense.Creep.updateDirection dx dy
            { c with X := (target.X : ℚ), Y := (target.Y : ℚ), PathIndex := c.PathIndex + 1 })
        else
          .ok (TowerDefense.Creep.updateDirection dx dy
            { c with X := fl (c.X + fl (fl (dx / distance) * moveDistance))
                     Y := fl (c.Y + fl (fl (dy / distance) * moveDistance)) })
      else .ok c

/-- Direction `(dx, dy)` computed by phase 4 of `Update`. The two slice reads are in range
because they are made under the guard `len(c.Path) > 1`. -/
def exitDirection (fl : ℚ → ℚ) (hypot : ℚ → ℚ → ℚ) (c : Creep) : ℚ × ℚ :=
  if c.Path.length > 1 then
    let last : PathNode := c.Path.getD (c.Path.length - 1) default
    let prev : PathNode := c.Path.getD (c.Path.length - 2) default
    let dx : ℚ := ((last.X - prev.X : Int) : ℚ)
    let dy : ℚ := ((last.Y - prev.Y : Int) : ℚ)
    let norm : ℚ := hypot dx dy
    if norm > 0 then (fl (dx / norm), fl (dy / norm)) else (dx, dy)
  else (1, 0)

/-- Phase 4 of `Update` (the final waypoint was reached): keep moving off the map. -/
def exitPath (fl : ℚ → ℚ) (hypot : ℚ → ℚ → ℚ) (deltaTime : ℚ) (c : Creep) : Creep :=
  let d : ℚ × ℚ := exitDirection fl hypot c
  let moveDistance : ℚ := fl (c.Speed * deltaTime)
  { c with X := fl (c.X + fl (d.1 * moveDistance)), Y := fl (c.Y + fl (d.2 * moveDistance)) }

/-- Phases 3 and 4 of `Update`. -/
def move (fl : ℚ → ℚ) (hypot : ℚ → ℚ → ℚ) (deltaTime : ℚ) (c : Creep) : Except Fault Creep :=
  if c.PathIndex < (c.Path.length : Int) - 1 then followPath fl hypot deltaTime c
  else .ok (exitPath fl hypot deltaTime c)

/-- The Go method `Update`. `onEscape` and `onKilled` tell whether the callback is non-nil; the
result carries the updated creep and the callback invocations made by this call. -/
def Update (fl : ℚ → ℚ) (A : CreepAssets) (hypot : ℚ → ℚ → ℚ) (fuel : Nat) (deltaTime : ℚ)
    (level : Option TilemapJSON) (onEscape onKilled : Bool) (c0 : Creep) :
    Except Fault (Creep × List CreepEvent) :=
  let c : Creep := { c0 with Timer := fl (c0.Timer + deltaTime) }
  if c.Health ≤ 0 ∧ c.IsDying = false then
    match installAnimation fl A.FirebugSideDeath 1 false { c with IsDying := true } with
    | .error e => .error e
    | .ok c1 => .ok (c1, if onKilled = true then [CreepEvent.killed 15] else [])
  else if c.IsDying = true then
    match animate fl fuel deltaTime c with
    | .error e => .error e
    | .ok c1 =>
      match c1.Animation with
      | none => .error Fault.nilDeref
      | some a => .ok (if a.IsPlaying = false then { c1 with Active := false } else c1, [])
  else if c.Timer < c.StartDelay then
    match animate fl fuel deltaTime c with
    | .error e => .error e
    | .ok c1 => .ok (c1, [])
  else if c.Path.length = 0 then
    match animate fl fuel deltaTime c with
    | .error e => .error e
    | .ok c1 => .ok (c1, [])
  else
    match move fl hypot deltaTime c with
    | .error e => .error e
    | .ok c1 =>
      if c1.hasEscaped level = true then
        .ok ({ c1 with Active := false },
          if onEscape = true then [CreepEvent.escaped c1.Damage] else [])
      else
        match setAnimation fl A c1 with
        | .error e => .error e
        | .ok c2 =>
          match animate fl fuel deltaTime c2 with
          | .error e => .error e
          | .ok c3 => .ok (c3, [])

/-- Runs a sequence of `Update(dt)` calls on one creep and collects the callback invocations in
the order in which they are made. -/
def updates (fl : ℚ → ℚ) (A : CreepAssets) (hypot : ℚ → ℚ → ℚ) (fuel : Nat)
    (level : Option TilemapJSON) (onEscape onKilled : Bool) :
    List ℚ → Creep → Except Fault (Creep × List CreepEvent)
  | [], c => .ok (c, [])
  | dt :: rest, c =>
    match Update fl A hypot fuel dt level onEscape onKilled c with
    | .error e => .error e
    | .ok (c1, ev1) =>
      match updates fl A hypot fuel level onEscape onKilled rest c1 with
      | .error e => .error e
      | .ok (c2, ev2) => .ok (c2, ev1 ++ ev2)

end Creep

end F64

/-- The creep of the end-to-end scenario as `NewCreep` builds it with `float64` arithmetic:
spawned at `(0,0)` with path `[(0,0),(5,0)]`, speed 2 and no start delay. -/
def scenarioCreep64 : Creep :=
  F64.NewCreep round64 repoCreepAssets 2 1 0 0 [⟨0, 0⟩, ⟨5, 0⟩] 0

/-- What a call leaves of the creep, and the callback invocations it made. -/
structure CreepOutcome where
  X : ℚ
  Y : ℚ
  PathIndex : Int
  Active : Bool
  IsDying : Bool
  Health : ℚ
  events : List CreepEvent
deriving DecidableEq

/-- The outcome of a call; `none` for a fault. -/
def Creep.outcome (r : Except Fault (Creep × List CreepEvent)) : Option CreepOutcome :=
  match r with
  | .ok (c, ev) =>
    some { X := c.X, Y := c.Y, PathIndex := c.PathIndex, Active := c.Active
           IsDying := c.IsDying, Health := c.Health, events := ev }
  | .error _ => none

/-- The two creeps agree on position, path, path index, health and the two state flags. -/
def Creep.SameWalk (c c1 : Creep) : Prop :=
  c1.X = c.X ∧ c1.Y = c.Y ∧ c1.PathIndex = c.PathIndex ∧ c1.Path = c.Path ∧
    c1.Health = c.Health ∧ c1.IsDying = c.IsDying ∧ c1.Active = c.Active

/-! ## projectile.go and tower_manager.go with float64 rounding

The functions of `projectile.go` and `tower_manager.go` behind `UpdatePlacedTowers`, with the
rounding `fl` of each `float64` operation made explicit. Conversions of integers
(`float64(tower.X)`) and the constants with a finite binary expansion (`3.0`, `8.0`, `5.0`,
`1.5`, `0.5`, `12.0`, `1.0`, `25.0`, ...) are exact; the constants `0.3`, `0.4` and the constant
sum `0.3 + 0.4` are rounded when they enter a `float64` operation. The values of the `math`
package are the fields of `M`, each taken as the `float64` that Go returns. -/

namespace F64

/-- The statement `if s != nil { s.Update(deltaTime) }` on an optional sprite. -/
def updateOptional (fl : ℚ → ℚ) (fuel : Nat) (deltaTime : ℚ) :
    Option AnimatedSprite → Except Fault (Option AnimatedSprite)
  | none => .ok none
  | some a =>
    match AnimatedSprite.Update fl fuel deltaTime a with
    | none => .error Fault.outOfFuel
    | some a1 => .ok (some a1)

/-- The Go method `TakeDamage`. -/
def Creep.TakeDamage (fl : ℚ → ℚ) (amount : ℚ) (c : Creep) : Creep :=
  if c.IsDying = true then c
  else
    let c1 : Creep := { c with Health := fl (c.Health - amount) }
    if c1.Health < 0 then { c1 with Health := 0 } else c1

namespace ProjectileManager

/-- The Go method `SpawnProjectile`. -/
def SpawnProjectile (fl : ℚ → ℚ) (M : GoMath) (TA : TowerAssets) (startX startY angle : ℚ)
    (projectileType : Int) (pm : ProjectileManager) : ProjectileManager :=
  let velocityX : ℚ := fl (M.Cos angle * projectileSpeed)
  let velocityY : ℚ := fl (M.Sin angle * projectileSpeed)
  let animation : Option AnimatedSprite :=
    if projectileType = BallistaTowerID then
      if TA.BallistaWeaponProjectileAnimation.length > 0 then
        startedSprite fl TA.BallistaWeaponProjectileAnimation (1 / 2) true
      else none
    else if projectileType = MagicTowerID then
      if TA.MagicTowerProjectileAnimation.length > 0 then
        startedSprite fl TA.MagicTowerProjectileAnimation (1 / 2) true
      else none
    else none
  let projectile : Projectile :=
    { X := startX
      Y := startY
      VelocityX := velocityX
      VelocityY := velocityY
      Angle := angle
      Animation := animation
      ImpactAnimation := none
      Active := true
      TravelDistance := 0
      MaxDistance := maxProjectileRange
      ProjectileType := projectileType
      IsImpacting := false }
  { pm with projectiles := pm.projectiles ++ [projectile] }

/-- The Go method `startImpactAnimation`. -/
def startImpactAnimation (fl : ℚ → ℚ) (TA : TowerAssets) (projectile : Projectile) :
    Projectile :=
  let p1 : Projectile := { projectile with IsImpacting := true, Animation := none }
  if p1.ProjectileType = BallistaTowerID then
    if TA.BallisticWeaponImpactAnimation.length > 0 then
      { p1 with
        ImpactAnimation := startedSprite fl TA.BallisticWeaponImpactAnimation (1 / 2) false }
    else { p1 with Active := false }
  else if p1.ProjectileType = MagicTowerID then
    if TA.MagicTowerProjectileImpactAnimation.length > 0 then
      { p1 with
        ImpactAnimation :=
          startedSprite fl TA.MagicTowerProjectileImpactAnimation (1 / 2) false }
    else { p1 with Active := false }
  else { p1 with Active := false }

/-- The Go method `checkCollisionWithCreeps`: whether a collision occurred, and the creep list
after the `TakeDamage` call made on the creep that was hit. -/
def checkCollisionWithCreeps (fl : ℚ → ℚ) (M : GoMath) (projectile : Projectile) :
    List Creep → Bool × List Creep
  | [] => (false, [])
  | creep :: rest =>
    if creep.IsActive = false then
      ((checkCollisionWithCreeps fl M projectile rest).1,
        creep :: (checkCollisionWithCreeps fl M projectile rest).2)
    else if creep.IsDying = true then
      ((checkCollisionWithCreeps fl M projectile rest).1,
        creep :: (checkCollisionWithCreeps fl M projectile rest).2)
    else
      let dx : ℚ := fl (projectile.X - creep.X)
      let dy : ℚ := fl (projectile.Y - creep.Y)
      let distance : ℚ := M.Sqrt (fl (fl (dx * dx) + fl (dy * dy)))
      let collisionDistance : ℚ := fl (projectileCollisionRadius + creepCollisionRadius)
      if distance ≤ collisionDistance then
        (true,
          Creep.TakeDamage fl (TowerDefense.ProjectileManager.collisionDamage
            projectile.ProjectileType) creep :: rest)
      else
        ((checkCollisionWithCreeps fl M projectile rest).1,
          creep :: (checkCollisionWithCreeps fl M projectile rest).2)

/-- The "move projectile" block of `Update`: advance along the velocity, add to the travelled
distance, face the movement direction and start the impact once the range is used up. -/
def advance (fl : ℚ → ℚ) (M : GoMath) (TA : TowerAssets) (deltaTime : ℚ) (p : Projectile) :
    Projectile :=
  let moveDistance : ℚ := fl (projectileSpeed * deltaTime)
  let p1 : Projectile :=
    { p with X := fl (p.X + fl (p.VelocityX * deltaTime))
             Y := fl (p.Y + fl (p.VelocityY * deltaTime))
             TravelDistance := fl (p.TravelDistance + moveDistance)
             Angle := M.Atan2 p.VelocityY p.VelocityX }
  if p1.TravelDistance ≥ p1.MaxDistance then startImpactAnimation fl TA p1 else p1

/-- The loop body of `Update` after the two animations were advanced: removal when the impact
animation has stopped, otherwise collision or movement for a flying projectile. Returns the
projectile appended to `updatedProjectiles` (`none` when it is dropped) and the creep list. -/
def resolve (fl : ℚ → ℚ) (M : GoMath) (TA : TowerAssets) (deltaTime : ℚ)
    (activeCreeps : List Creep) (p : Projectile) : Option Projectile × List Creep :=
  if hasStopped p.ImpactAnimation = true then (none, activeCreeps)
  else if p.IsImpacting = false then
    if (checkCollisionWithCreeps fl M p activeCreeps).1 = true then
      (TowerDefense.ProjectileManager.keepIfActive (startImpactAnimation fl TA p),
        (checkCollisionWithCreeps fl M p activeCreeps).2)
    else (TowerDefense.ProjectileManager.keepIfActive (advance fl M TA deltaTime p), activeCreeps)
  else (TowerDefense.ProjectileManager.keepIfActive p, activeCreeps)

/-- The body of the loop of `Update` for one projectile: the projectile appended to
`updatedProjectiles` (`none` when it is dropped) and the creep list after the call. -/
def updateOne (fl : ℚ → ℚ) (M : GoMath) (TA : TowerAssets) (fuel : Nat) (deltaTime : ℚ)
    (activeCreeps : List Creep) (p0 : Projectile) :
    Except Fault (Option Projectile × List Creep) :=
  if p0.Active = false then .ok (none, activeCreeps)
  else
    match updateOptional fl fuel deltaTime p0.Animation with
    | .error e => .error e
    | .ok animation =>
      match updateOptional fl fuel deltaTime p0.ImpactAnimation with
      | .error e => .error e
      | .ok impact =>
        .ok (resolve fl M TA deltaTime activeCreeps
          { p0 with Animation := animation, ImpactAnimation := impact })

/-- The `for i := range pm.projectiles` loop of `Update`. -/
def updateAll (fl : ℚ → ℚ) (M : GoMath) (TA : TowerAssets) (fuel : Nat) (deltaTime : ℚ) :
    List Projectile → List Creep → Except Fault (List Projectile × List Creep)
  | [], creeps => .ok ([], creeps)
  | p :: rest, creeps =>
    match updateOne fl M TA fuel deltaTime creeps p with
    | .error e => .error e
    | .ok (kept, creeps1) =>
      match updateAll fl M TA fuel deltaTime rest creeps1 with
      | .error e => .error e
      | .ok (ps, creeps2) =>
        .ok (match kept with
          | some q => q :: ps
          | none => ps, creeps2)

/-- The Go method `Update`: the manager and the creep list after the call. -/
def Update (fl : ℚ → ℚ) (M : GoMath) (TA : TowerAssets) (fuel : Nat) (deltaTime : ℚ)
    (activeCreeps : List Creep) (pm : ProjectileManager) :
    Except Fault (ProjectileManager × List Creep) :=
  match updateAll fl M TA fuel deltaTime pm.projectiles activeCreeps with
  | .error e => .error e
  | .ok (ps, creeps) => .ok ({ pm with projectiles := ps }, creeps)

end ProjectileManager

/-- The `for x > math.Pi { x -= 2 * math.Pi }` loops of `UpdatePlacedTowers`; the constant
`2 * math.Pi` is exact, the subtraction is rounded. -/
def wrapAbovePi (fl : ℚ → ℚ) (pi : ℚ) : Nat → ℚ → Option ℚ
  | 0, x => if x > pi then none else some x
  | fuel + 1, x => if x > pi then wrapAbovePi fl pi fuel (fl (x - 2 * pi)) else some x

/-- The `for x < -math.Pi { x += 2 * math.Pi }` loops of `UpdatePlacedTowers`. -/
def wrapBelowPi (fl : ℚ → ℚ) (pi : ℚ) : Nat → ℚ → Option ℚ
  | 0, x => if x < -pi then none else some x
  | fuel + 1, x => if x < -pi then wrapBelowPi fl pi fuel (fl (x + 2 * pi)) else some x

/-- The two normalisation loops in sequence, each with the given fuel. -/
def normalizeAngle (fl : ℚ → ℚ) (pi : ℚ) (fuel : Nat) (x : ℚ) : Option ℚ :=
  match wrapAbovePi fl pi fuel x with
  | none => none
  | some y => wrapBelowPi fl pi fuel y

/-- The rotation step of `UpdatePlacedTowers`: the smoothed step, clamped to the maximum
rotation of this tick. -/
def rotationStep (fl : ℚ → ℚ) (deltaTime deltaAngle : ℚ) : ℚ :=
  let maxRotation : ℚ := fl (weaponRotationSpeed * deltaTime)
  let step : ℚ := fl (fl (deltaAngle * weaponRotationSmoothness) * deltaTime)
  if |step| > maxRotation then
    if step > 0 then maxRotation else -maxRotation
  else step

/-- One iteration of the nearest-creep scan of `UpdatePlacedTowers`, on the pair
`(nearestCreep, minDistSq)`. -/
def scanStep (fl : ℚ → ℚ) (towerCenterX towerCenterY : ℚ) (state : Option Creep × ℚ)
    (creep : Creep) : Option Creep × ℚ :=
  if creep.IsActive = false then state
  else
    let dx : ℚ := fl (creep.X - towerCenterX)
    let dy : ℚ := fl (creep.Y - towerCenterY)
    let distSq : ℚ := fl (fl (dx * dx) + fl (dy * dy))
    if distSq < state.2 then (some creep, distSq) else state

namespace PlacedTower

/-- The tower's centre `float64(tower.X) + 0.5`. -/
def centerX (fl : ℚ → ℚ) (tower : PlacedTower) : ℚ := fl ((tower.X : ℚ) + 1 / 2)

/-- The tower's centre `float64(tower.Y) + 0.5`. -/
def centerY (fl : ℚ → ℚ) (tower : PlacedTower) : ℚ := fl ((tower.Y : ℚ) + 1 / 2)

/-- Squared distance from the tower's centre to a creep, as computed by the scan. -/
def distSq (fl : ℚ → ℚ) (tower : PlacedTower) (creep : Creep) : ℚ :=
  fl (fl (fl (creep.X - centerX fl tower) * fl (creep.X - centerX fl tower)) +
    fl (fl (creep.Y - centerY fl tower) * fl (creep.Y - centerY fl tower)))

/-- The fire-timer block of `UpdatePlacedTowers`. -/
def tickFireTimer (fl : ℚ → ℚ) (deltaTime : ℚ) (tower : PlacedTower) : PlacedTower :=
  if tower.FireTimer > 0 then
    let t1 : PlacedTower := { tower with FireTimer := fl (tower.FireTimer - deltaTime) }
    if t1.FireTimer < 0 then { t1 with FireTimer := 0 } else t1
  else tower

/-- The nearest-creep scan of `UpdatePlacedTowers`: the final `(nearestCreep, minDistSq)`. -/
def nearestCreep (fl : ℚ → ℚ) (M : GoMath) (tower : PlacedTower) (activeCreeps : List Creep) :
    Option Creep × ℚ :=
  activeCreeps.foldl (scanStep fl (centerX fl tower) (centerY fl tower)) (none, M.MaxFloat64)

/-- The weapon-rotation block of `UpdatePlacedTowers` for a rotating tower. -/
def aim (fl : ℚ → ℚ) (M : GoMath) (fuel : Nat) (deltaTime : ℚ) (nearest : Creep)
    (tower : PlacedTower) : Except Fault PlacedTower :=
  let dx : ℚ := fl (nearest.X - centerX fl tower)
  let dy : ℚ := fl (nearest.Y - centerY fl tower)
  let targetAngle : ℚ := M.Atan2 dy dx
  let currentAngle : ℚ := tower.WeaponAngle
  match normalizeAngle fl M.Pi fuel (fl (targetAngle - currentAngle)) with
  | none => .error Fault.outOfFuel
  | some deltaAngle =>
    match normalizeAngle fl M.Pi fuel
      (fl (tower.WeaponAngle + rotationStep fl deltaTime deltaAngle)) with
    | none => .error Fault.outOfFuel
    | some angle => .ok { tower with WeaponAngle := angle }

/-- The idle-animation block of `UpdatePlacedTowers`. -/
def tickIdleAnimation (fl : ℚ → ℚ) (fuel : Nat) (deltaTime : ℚ) (tower : PlacedTower) :
    Except Fault PlacedTower :=
  match updateOptional fl fuel deltaTime tower.IdleAnimation with
  | .error e => .error e
  | .ok idle => .ok { tower with IdleAnimation := idle }

end PlacedTower

namespace TowerManager

/-- The `PlacedTower` value that `placeTower` builds and appends, `towerImg` being the image
returned by `getTowerImage`. -/
def newPlacedTower (fl : ℚ → ℚ) (M : GoMath) (TA : TowerAssets) (col row towerID : Int)
    (towerImg : Image) : PlacedTower :=
  let newTower : PlacedTower :=
    { Image := some towerImg
      X := col
      Y := row
      TowerID := towerID
      Damage := 50
      WeaponImage := none
      WeaponAngle := -M.Pi / 2
      FireTimer := 0
      FiringAnimation := none
      IdleAnimation := none
      WeaponFired := false
      TargetX := 0
      TargetY := 0 }
  let t1 : PlacedTower :=
    if towerID = BallistaTowerID ∧ TA.BallistaWeaponFire.length > 0 then
      { newTower with WeaponImage := TA.BallistaWeaponFire[0]? }
    else newTower
  if towerID = MagicTowerID ∧ TA.MagicTowerWeaponIdleAnimation.length > 0 then
    { t1 with
      WeaponImage := TA.MagicTowerWeaponIdleAnimation[0]?
      IdleAnimation := startedSprite fl TA.MagicTowerWeaponIdleAnimation 1 true }
  else t1

/-- The Go method `placeTower`. -/
def placeTower (fl : ℚ → ℚ) (M : GoMath) (TA : TowerAssets) (col row towerID : Int)
    (tm : TowerManager) : TowerManager :=
  match TowerDefense.TowerManager.getTowerImage TA towerID with
  | none => tm
  | some towerImg =>
    { tm with
      placedTowers := tm.placedTowers ++ [newPlacedTower fl M TA col row towerID towerImg] }

/-- The Go method `fireTowerWeapon` (the target creep is never nil at its call site). -/
def fireTowerWeapon (fl : ℚ → ℚ) (TA : TowerAssets) (targetCreep : Creep)
    (tower : PlacedTower) : PlacedTower :=
  let t1 : PlacedTower :=
    { tower with FireTimer := fireDelay, TargetX := targetCreep.X, TargetY := targetCreep.Y }
  if t1.TowerID = BallistaTowerID then
    if TA.BallistaWeaponFire.length > 0 then
      { t1 with
        FiringAnimation := startedSprite fl TA.BallistaWeaponFire fireAnimationDuration false
        WeaponFired := true }
    else t1
  else if t1.TowerID = MagicTowerID then
    if TA.MagicTowerWeaponAttackAnimation.length > 0 then
      { t1 with
        FiringAnimation :=
          startedSprite fl TA.MagicTowerWeaponAttackAnimation fireAnimationDuration false
        WeaponFired := true }
    else t1
  else t1

/-- The Go method `spawnProjectileFromTower`: the tower and the projectile manager after it. -/
def spawnProjectileFromTower (fl : ℚ → ℚ) (M : GoMath) (TA : TowerAssets)
    (tower : PlacedTower) (pm : ProjectileManager) : PlacedTower × ProjectileManager :=
  if tower.WeaponFired = false then (tower, pm)
  else
    let t1 : PlacedTower := { tower with WeaponFired := false }
    let towerCenterX : ℚ := fl ((t1.X : ℚ) + 1 / 2)
    let towerCenterY : ℚ := fl ((t1.Y : ℚ) + 1 / 2)
    let weaponOffset : ℚ × ℚ :=
      if t1.TowerID = MagicTowerID then (0, fl (-(3 / 10)))
      else (fl (M.Cos t1.WeaponAngle * fl (4 / 10)), fl (M.Sin t1.WeaponAngle * fl (4 / 10)))
    let spawnX : ℚ := fl (towerCenterX + weaponOffset.1)
    let spawnY : ℚ := fl (fl (towerCenterY + weaponOffset.2) - 1)
    let angle : ℚ :=
      if t1.TowerID = MagicTowerID then
        M.Atan2 (fl (t1.TargetY - towerCenterY)) (fl (t1.TargetX - towerCenterX))
      else t1.WeaponAngle
    (t1, ProjectileManager.SpawnProjectile fl M TA spawnX spawnY angle t1.TowerID pm)

/-- The firing-animation block of `UpdatePlacedTowers`. -/
def tickFiringAnimation (fl : ℚ → ℚ) (M : GoMath) (TA : TowerAssets) (fuel : Nat)
    (deltaTime : ℚ) (tower : PlacedTower) (pm : ProjectileManager) :
    Except Fault (PlacedTower × ProjectileManager) :=
  match tower.FiringAnimation with
  | none => .ok (tower, pm)
  | some a =>
    match AnimatedSprite.Update fl fuel deltaTime a with
    | none => .error Fault.outOfFuel
    | some a1 =>
      let t1 : PlacedTower := { tower with FiringAnimation := some a1 }
      if a1.IsPlaying = false then
        let r : PlacedTower × ProjectileManager :=
          if t1.WeaponFired = true then spawnProjectileFromTower fl M TA t1 pm else (t1, pm)
        .ok ({ r.1 with FiringAnimation := none }, r.2)
      else .ok (t1, pm)

/-- The targeting part of the loop body of `UpdatePlacedTowers`: skip towers without a weapon,
scan for the nearest creep, rotate (except the Magic tower) and fire when in range and ready. -/
def engage (fl : ℚ → ℚ) (M : GoMath) (TA : TowerAssets) (fuel : Nat) (deltaTime : ℚ)
    (activeCreeps : List Creep) (tower : PlacedTower) : Except Fault PlacedTower :=
  match tower.WeaponImage with
  | none => .ok tower
  | some _ =>
    match (PlacedTower.nearestCreep fl M tower activeCreeps).1 with
    | none => .ok tower
    | some nearest =>
      match (if tower.TowerID ≠ MagicTowerID then PlacedTower.aim fl M fuel deltaTime nearest tower
        else .ok tower) with
      | .error e => .error e
      | .ok t1 =>
        let distance : ℚ := M.Sqrt (PlacedTower.nearestCreep fl M tower activeCreeps).2
        if distance ≤ towerRange ∧ t1.FireTimer ≤ 0 then .ok (fireTowerWeapon fl TA nearest t1)
        else .ok t1

/-- The loop body of `UpdatePlacedTowers` for one tower. -/
def updateTower (fl : ℚ → ℚ) (M : GoMath) (TA : TowerAssets) (fuel : Nat) (deltaTime : ℚ)
    (activeCreeps : List Creep) (tower : PlacedTower) (pm : ProjectileManager) :
    Except Fault (PlacedTower × ProjectileManager) :=
  match tickFiringAnimation fl M TA fuel deltaTime
      (PlacedTower.tickFireTimer fl deltaTime tower) pm with
  | .error e => .error e
  | .ok (t1, pm1) =>
    match PlacedTower.tickIdleAnimation fl fuel deltaTime t1 with
    | .error e => .error e
    | .ok t2 =>
      match engage fl M TA fuel deltaTime activeCreeps t2 with
      | .error e => .error e
      | .ok t3 => .ok (t3, pm1)

/-- The `for i := range tm.placedTowers` loop of `UpdatePlacedTowers`. -/
def updateTowers (fl : ℚ → ℚ) (M : GoMath) (TA : TowerAssets) (fuel : Nat) (deltaTime : ℚ)
    (activeCreeps : List Creep) :
    List PlacedTower → ProjectileManager → Except Fault (List PlacedTower × ProjectileManager)
  | [], pm => .ok ([], pm)
  | tower :: rest, pm =>
    match updateTower fl M TA fuel deltaTime activeCreeps tower pm with
    | .error e => .error e
    | .ok (t1, pm1) =>
      match updateTowers fl M TA fuel deltaTime activeCreeps rest pm1 with
      | .error e => .error e
      | .ok (ts, pm2) => .ok (t1 :: ts, pm2)

/-- The Go method `UpdatePlacedTowers`: the manager and the creep list after the call. -/
def UpdatePlacedTowers (fl : ℚ → ℚ) (M : GoMath) (TA : TowerAssets) (fuel : Nat)
    (deltaTime : ℚ) (activeCreeps : List Creep) (tm : TowerManager) :
    Except Fault (TowerManager × List Creep) :=
  match updateTowers fl M TA fuel deltaTime activeCreeps tm.placedTowers
      tm.projectileManager with
  | .error e => .error e
  | .ok (ts, pm1) =>
    match ProjectileManager.Update fl M TA fuel deltaTime activeCreeps pm1 with
    | .error e => .error e
    | .ok (pm2, creeps) =>
      .ok ({ tm with placedTowers := ts, projectileManager := pm2 }, creeps)

/-- Runs one `UpdatePlacedTowers` per tick, each tick with its own elapsed time and creep list;
the creep list returned by a tick is handed back to the caller and not reused. -/
def run (fl : ℚ → ℚ) (M : GoMath) (TA : TowerAssets) (fuel : Nat) :
    List (ℚ × List Creep) → TowerManager → Except Fault TowerManager
  | [], tm => .ok tm
  | t :: rest, tm =>
    match UpdatePlacedTowers fl M TA fuel t.1 t.2 tm with
    | .error e => .error e
    | .ok (tm1, _) => run fl M TA fuel rest tm1

end TowerManager

end F64

/-- State of a manager between the tick in which its single Ballista tower fired and the tick in
which the firing animation stops, under rounding: no projectile exists, the shot is pending,
the firing animation is `a`, there is no idle animation, the cooldown is `ft` and the heading
lies between `-Pi` and `2 Pi`. -/
def F64.ShotArmed (M : GoMath) (a : AnimatedSprite) (ft : ℚ) (tm : TowerManager) : Prop :=
  tm.projectileManager.projectiles = [] ∧
    ∃ t, tm.placedTowers = [t] ∧ t.TowerID = BallistaTowerID ∧ t.WeaponFired = true ∧
      t.FiringAnimation = some a ∧ t.IdleAnimation = none ∧ t.FireTimer = ft ∧
      -M.Pi ≤ t.WeaponAngle ∧ t.WeaponAngle ≤ 2 * M.Pi

/-- The `float64` value of `math.Pi`. -/
def pi64 : ℚ := 884279719003555 / 281474976710656

/-- Stand-ins for the `math` package on `float64` values. `Pi` and `MaxFloat64` are the Go
constants; `Atan2` is `axisAtan2` with the `float64` value of `Pi`, which is what `math.Atan2`
returns on the four axis directions; `Sqrt x` is `(x+1)/2`, exact at 1; `Cos` and `Sin` are the
stand-ins of `standInMath` for the `float64` value of `Pi`. -/
def floatMath : GoMath :=
  { Pi := pi64
    MaxFloat64 := 2 ^ 1024 - 2 ^ 971
    Sqrt := fun x => (x + 1) / 2
    Atan2 := axisAtan2 pi64
    Cos := fun a => if a = 0 then 1 else 0
    Sin := fun a => if a = pi64 / 2 then 1 else if a = -pi64 / 2 then -1 else 0 }

/-- One Ballista tower placed at cell `(0,0)` of a new manager, with the frame counts of
`assets.go`. -/
def demoTowers64 : TowerManager :=
  F64.TowerManager.placeTower round64 floatMath repoTowerAssets 0 0 BallistaTowerID
    (NewTowerManager repoTowerAssets)

/-- What a run of ticks leaves behind: the number of projectiles and, for each tower, the flag
`WeaponFired` and the frame and `isPlaying` flag of its firing animation. -/
structure FiringOutcome where
  projectiles : Nat
  pending : List Bool
  clocks : List (Option (Int × Bool))
deriving DecidableEq

/-- The outcome of a run, `none` when the run did not return. -/
def TowerManager.firingOutcome : Except Fault TowerManager → Option FiringOutcome
  | .error _ => none
  | .ok tm =>
    some
      { projectiles := tm.projectileManager.projectiles.length
        pending := tm.placedTowers.map fun t => t.WeaponFired
        clocks := tm.placedTowers.map fun t =>
          t.FiringAnimation.map fun a => (a.currentFrame, a.isPlaying) }

/-! ## The build queue with float64 rounding -/

namespace F64

namespace TowerManager

/-- The Go method `startBuildingAnimation`; `Play` on the nil sprite returned for an empty build
animation is a nil dereference. -/
def startBuildingAnimation (fl : ℚ → ℚ) (TA : TowerAssets) (col row towerID : Int)
    (tm : TowerManager) : Except Fault TowerManager :=
  match NewAnimatedSprite fl TA.TowerBuildAnimation 1 false with
  | none => .error Fault.nilDeref
  | some a =>
    .ok { tm with
      buildingAnimations := tm.buildingAnimations ++
        [{ X := col, Y := row, TowerIDToPlace := towerID, Stage := StageBuilding
           CurrentAnimation := some a.Play }] }

/-- The Go method `HandleTowerPlacement`. The readings `ebiten.CursorPosition()` and
`inpututil.IsMouseButtonJustPressed(ebiten.MouseButtonLeft)` are the arguments `mouseX`,
`mouseY` and `justPressed`; the result is the manager and `*currentGold` after the call. -/
def HandleTowerPlacement (fl : ℚ → ℚ) (TA : TowerAssets) (selectedTowerID : Int)
    (level : Option TilemapJSON) (params : RenderParams) (mouseX mouseY : Int)
    (justPressed : Bool) (currentGold : Int) (tm : TowerManager) :
    Except Fault (TowerManager × Int) :=
  match level with
  | none => .ok (tm, currentGold)
  | some lv =>
    if selectedTowerID = 0 then .ok (tm, currentGold)
    else
      let gridX : Int :=
        truncToInt
          (fl (fl ((mouseX : ℚ) - params.OffsetX) / fl ((lv.TileWidth : ℚ) * params.Scale)))
      let gridY : Int :=
        truncToInt
          (fl (fl ((mouseY : ℚ) - params.OffsetY) / fl ((lv.TileHeight : ℚ) * params.Scale)))
      match lv.Layers with
      | [] => .error Fault.indexOutOfRange
      | layer :: _ =>
        let mapPixelWidth : ℚ := fl (((layer.Width * lv.TileWidth : Int) : ℚ) * params.Scale)
        let mapPixelHeight : ℚ := fl (((layer.Height * lv.TileHeight : Int) : ℚ) * params.Scale)
        if (mouseX : ℚ) < params.OffsetX ∨ (mouseX : ℚ) > fl (params.OffsetX + mapPixelWidth) ∨
            (mouseY : ℚ) < params.OffsetY ∨
            (mouseY : ℚ) > fl (params.OffsetY + mapPixelHeight) then
          .ok (tm, currentGold)
        else if justPressed = true then
          match tm.isTileBuildable gridX gridY lv with
          | .error e => .error e
          | .ok false => .ok (tm, currentGold)
          | .ok true =>
            if currentGold ≥ towerCost then
              match startBuildingAnimation fl TA gridX gridY selectedTowerID tm with
              | .error e => .error e
              | .ok tm1 => .ok (tm1, currentGold - towerCost)
            else .ok (tm, currentGold)
        else .ok (tm, currentGold)

/-- The body of the loop of `UpdateBuildingAnimations` for one task: the task appended to
`updatedAnimations` (`none` when it is dropped) and the manager after a possible `placeTower`. -/
def buildStep (fl : ℚ → ℚ) (M : GoMath) (TA : TowerAssets) (fuel : Nat) (deltaTime : ℚ)
    (ba : BuildingAnimationState) (tm : TowerManager) :
    Except Fault (Option BuildingAnimationState × TowerManager) :=
  match ba.CurrentAnimation with
  | none => .ok (none, tm)
  | some a =>
    match AnimatedSprite.Update fl fuel deltaTime a with
    | none => .error Fault.outOfFuel
    | some a1 =>
      if a1.IsPlaying = false then
        if ba.Stage = StageBuilding then
          match NewAnimatedSprite fl TA.TowerTransitionAnimation (3 / 4) false with
          | none => .error Fault.nilDeref
          | some t =>
            .ok (some { ba with Stage := StageTransitioning, CurrentAnimation := some t.Play },
              tm)
        else if ba.Stage = StageTransitioning then
          .ok (none, placeTower fl M TA ba.X ba.Y ba.TowerIDToPlace tm)
        else .ok (none, tm)
      else .ok (some { ba with CurrentAnimation := some a1 }, tm)

/-- The `for _, ba := range tm.buildingAnimations` loop of `UpdateBuildingAnimations`. -/
def buildLoop (fl : ℚ → ℚ) (M : GoMath) (TA : TowerAssets) (fuel : Nat) (deltaTime : ℚ) :
    List BuildingAnimationState → TowerManager →
      Except Fault (List BuildingAnimationState × TowerManager)
  | [], tm => .ok ([], tm)
  | ba :: rest, tm =>
    match buildStep fl M TA fuel deltaTime ba tm with
    | .error e => .error e
    | .ok (kept, tm1) =>
      match buildLoop fl M TA fuel deltaTime rest tm1 with
      | .error e => .error e
      | .ok (updated, tm2) =>
        .ok (match kept with
          | some b => b :: updated
          | none => updated, tm2)

/-- The Go method `UpdateBuildingAnimations`. -/
def UpdateBuildingAnimations (fl : ℚ → ℚ) (M : GoMath) (TA : TowerAssets) (fuel : Nat)
    (deltaTime : ℚ) (tm : TowerManager) : Except Fault TowerManager :=
  match buildLoop fl M TA fuel deltaTime tm.buildingAnimations tm with
  | .error e => .error e
  | .ok (updated, tm1) => .ok { tm1 with buildingAnimations := updated }

end TowerManager

end F64

/-- A manager whose build queue holds one Ballista task for cell `(2,3)`, in the state in which
`startBuildingAnimation` leaves it, the frame duration `1.0 / 6` as `float64` computes it. -/
def demoBuilder64 : TowerManager :=
  { NewTowerManager repoTowerAssets with
    buildingAnimations :=
      [{ X := 2, Y := 3, TowerIDToPlace := BallistaTowerID, Stage := StageBuilding
         CurrentAnimation :=
           F64.startedSprite round64 repoTowerAssets.TowerBuildAnimation 1 false }] }

/-- The manager left by two accepted placement requests for cell `(2,3)`, with `float64` frame
durations: two Ballista build tasks for the same cell. -/
def demoTwoTasks64 : TowerManager :=
  { demoBuilder64 with
    buildingAnimations := demoBuilder64.buildingAnimations ++ demoBuilder64.buildingAnimations }

/-- The cells of the towers of a manager, `none` when the call that produced it did not
return. -/
def TowerManager.placedCells : Except Fault TowerManager → Option (List (Int × Int))
  | .error _ => none
  | .ok tm => some (tm.placedTowers.map fun t => (t.X, t.Y))

/-! ## Facts about the frame-advance loop -/

namespace AnimatedSprite

theorem advanceFrames_zero_eq (as : AnimatedSprite) :
    advanceFrames 0 as =
      if as.frameTimer ≥ as.frameDuration ∧ as.isPlaying = true then none else some as := rfl

theorem advanceFrames_succ_eq (fuel : Nat) (as : AnimatedSprite) :
    advanceFrames (fuel + 1) as =
      if as.frameTimer ≥ as.frameDuration ∧ as.isPlaying = true then
        if as.currentFrame + 1 ≥ as.frameCount then
          if as.loop = true then
            advanceFrames fuel
              { as with frameTimer := as.frameTimer - as.frameDuration, currentFrame := 0 }
          else
            some
              { as with frameTimer := as.frameTimer - as.frameDuration
                        currentFrame := as.frameCount - 1
                        isPlaying := false }
        else
          advanceFrames fuel
            { as with frameTimer := as.frameTimer - as.frameDuration
                      currentFrame := as.currentFrame + 1 }
      else some as := rfl

theorem advanceFrames_static (fuel : Nat) (as as1 : AnimatedSprite)
    (h : advanceFrames fuel as = some as1) :
    as1.frames = as.frames ∧ as1.frameCount = as.frameCount ∧
      as1.frameDuration = as.frameDuration ∧ as1.loop = as.loop ∧
      as1.totalDuration = as.totalDuration := by
  induction fuel generalizing as with
  | zero =>
    simp only [advanceFrames] at h
    split_ifs at h
    cases h
    simp
  | succ k ih =>
    simp only [advanceFrames] at h
    split_ifs at h
    · have := ih _ h
      simpa using this
    · cases h
      simp
    · have := ih _ h
      simpa using this
    · cases h
      simp

theorem advanceFrames_inRange (fuel : Nat) (as as1 : AnimatedSprite)
    (h : advanceFrames fuel as = some as1) (hr : as.InRange) : as1.InRange := by
  induction fuel generalizing as with
  | zero =>
    simp only [advanceFrames] at h
    split_ifs at h
    cases h
    exact hr
  | succ k ih =>
    obtain ⟨h0, h1, h2⟩ := hr
    simp only [advanceFrames] at h
    split_ifs at h with hc hge
    · exact ih _ h ⟨le_refl _, by simp only; omega, h2⟩
    · cases h
      exact ⟨by simp only; omega, by simp only; omega, h2⟩
    · refine ih _ h ⟨by simp only; omega, ?_, h2⟩
      simp only [ge_iff_le, not_le] at hge
      exact hge
    · cases h
      exact ⟨h0, h1, h2⟩

theorem advanceFrames_succ (fuel : Nat) (as as1 : AnimatedSprite)
    (h : advanceFrames fuel as = some as1) : advanceFrames (fuel + 1) as = some as1 := by
  induction fuel generalizing as with
  | zero =>
    simp only [advanceFrames] at h
    split_ifs at h with hc
    simp only [advanceFrames, if_neg hc]
    exact h
  | succ k ih =>
    rw [advanceFrames_succ_eq] at h ⊢
    split_ifs at h ⊢
    · exact ih _ h
    · exact h
    · exact ih _ h
    · exact h

theorem advanceFrames_mono (k fuel : Nat) (as as1 : AnimatedSprite) (hk : k ≤ fuel)
    (h : advanceFrames k as = some as1) : advanceFrames fuel as = some as1 := by
  induction hk with
  | refl => exact h
  | step _ ih => exact advanceFrames_succ _ _ _ ih

theorem advanceFrames_terminates (fuel : Nat) (as : AnimatedSprite)
    (hd : 0 < as.frameDuration) (ht : as.frameTimer < ((fuel : ℚ) + 1) * as.frameDuration) :
    ∃ as1, advanceFrames fuel as = some as1 := by
  induction fuel generalizing as with
  | zero =>
    simp only [advanceFrames]
    have : ¬ (as.frameTimer ≥ as.frameDuration ∧ as.isPlaying = true) := by
      rintro ⟨h1, _⟩
      simp at ht
      linarith
    rw [if_neg this]
    exact ⟨as, rfl⟩
  | succ k ih =>
    simp only [advanceFrames]
    have key : as.frameTimer - as.frameDuration < ((k : ℚ) + 1) * as.frameDuration := by
      push_cast at ht
      linarith
    split_ifs
    · exact ih _ hd key
    · exact ⟨_, rfl⟩
    · exact ih _ hd key
    · exact ⟨as, rfl⟩

theorem Update_static (fuel : Nat) (dt : ℚ) (as as1 : AnimatedSprite)
    (h : as.Update fuel dt = some as1) :
    as1.frames = as.frames ∧ as1.frameCount = as.frameCount ∧
      as1.frameDuration = as.frameDuration ∧ as1.loop = as.loop ∧
      as1.totalDuration = as.totalDuration := by
  unfold Update at h
  split_ifs at h
  · cases h
    simp
  · simpa using advanceFrames_static _ _ _ h

theorem Update_inRange (fuel : Nat) (dt : ℚ) (as as1 : AnimatedSprite)
    (h : as.Update fuel dt = some as1) (hr : as.InRange) : as1.InRange := by
  unfold Update at h
  split_ifs at h
  · cases h
    exact hr
  · exact advanceFrames_inRange _ _ _ h hr

theorem Update_mono (k fuel : Nat) (dt : ℚ) (as as1 : AnimatedSprite) (hk : k ≤ fuel)
    (h : as.Update k dt = some as1) : as.Update fuel dt = some as1 := by
  unfold Update at h ⊢
  split_ifs at h ⊢
  · exact h
  · exact advanceFrames_mono _ _ _ _ hk h

theorem Update_terminates (dt : ℚ) (as : AnimatedSprite) (hd : 0 < as.frameDuration) :
    ∃ k as1, ∀ fuel, k ≤ fuel → as.Update fuel dt = some as1 := by
  obtain ⟨k, hk⟩ := exists_nat_gt ((as.frameTimer + dt) / as.frameDuration)
  have hlt : as.frameTimer + dt < ((k : ℚ) + 1) * as.frameDuration := by
    rw [div_lt_iff₀ hd] at hk
    nlinarith
  by_cases hg : as.isPlaying = false ∨ as.frameCount ≤ 1
  · exact ⟨0, as, fun fuel _ => by simp only [Update, if_pos hg]⟩
  · obtain ⟨as1, h1⟩ :=
      advanceFrames_terminates k { as with frameTimer := as.frameTimer + dt } hd hlt
    refine ⟨k, as1, fun fuel hf => ?_⟩
    simp only [Update, if_neg hg]
    exact advanceFrames_mono _ _ _ _ hf h1

theorem GetCurrentFrame_of_inRange (as : AnimatedSprite) (hr : as.InRange) :
    ∃ img, as.GetCurrentFrame = .ok (some img) := by
  obtain ⟨h0, h1, h2⟩ := hr
  have hlt : as.currentFrame.toNat < as.frames.length := by omega
  have hg : ¬ (as.frameCount = 0 ∨ as.currentFrame < 0 ∨ as.currentFrame ≥ as.frameCount) := by
    omega
  refine ⟨as.frames[as.currentFrame.toNat], ?_⟩
  simp only [GetCurrentFrame, if_neg hg, List.getElem?_eq_getElem hlt]

end AnimatedSprite

theorem NewAnimatedSprite_inRange (frames : List Image) (len : ℚ) (loop : Bool)
    (as : AnimatedSprite) (h : NewAnimatedSprite frames len loop = some as) : as.InRange := by
  unfold NewAnimatedSprite at h
  split_ifs at h with h0
  cases h
  refine ⟨le_refl _, ?_, rfl⟩
  simp only
  omega

theorem runCalls_static (fuel : Nat) (calls : List SpriteCall) (as as1 : AnimatedSprite)
    (h : runCalls fuel calls as = some as1) :
    as1.frameDuration = as.frameDuration ∧ as1.frameCount = as.frameCount := by
  induction calls generalizing as with
  | nil =>
    simp only [runCalls] at h
    cases h
    exact ⟨rfl, rfl⟩
  | cons c rest ih =>
    cases c with
    | play =>
      simp only [runCalls] at h
      simpa [AnimatedSprite.Play] using ih _ h
    | update dt =>
      simp only [runCalls] at h
      split at h
      · cases h
      · rename_i as2 h2
        have hs := AnimatedSprite.Update_static _ _ _ _ h2
        have := ih _ h
        exact ⟨this.1.trans hs.2.2.1, this.2.trans hs.2.1⟩

theorem runCalls_inRange (fuel : Nat) (calls : List SpriteCall) (as as1 : AnimatedSprite)
    (h : runCalls fuel calls as = some as1) (hr : as.InRange) : as1.InRange := by
  induction calls generalizing as with
  | nil =>
    simp only [runCalls] at h
    cases h
    exact hr
  | cons c rest ih =>
    cases c with
    | play =>
      simp only [runCalls] at h
      refine ih _ h ?_
      obtain ⟨h0, h1, h2⟩ := hr
      exact ⟨le_refl _, by simp only [AnimatedSprite.Play]; omega, h2⟩
    | update dt =>
      simp only [runCalls] at h
      split at h
      · cases h
      · rename_i as2 h2
        exact ih _ h (AnimatedSprite.Update_inRange _ _ _ _ h2 hr)

theorem runCalls_total (calls : List SpriteCall) (as : AnimatedSprite)
    (hd : 0 < as.frameDuration) :
    ∃ k as1, ∀ fuel, k ≤ fuel → runCalls fuel calls as = some as1 := by
  induction calls generalizing as with
  | nil => exact ⟨0, as, fun _ _ => rfl⟩
  | cons c rest ih =>
    cases c with
    | play =>
      obtain ⟨k, as1, hk⟩ := ih as.Play (by simpa [AnimatedSprite.Play] using hd)
      exact ⟨k, as1, fun fuel hf => by simpa only [runCalls] using hk fuel hf⟩
    | update dt =>
      obtain ⟨k1, as2, h1⟩ := AnimatedSprite.Update_terminates dt as hd
      have hs := AnimatedSprite.Update_static _ _ _ _ (h1 k1 (le_refl _))
      obtain ⟨k2, as1, h2⟩ := ih as2 (by rw [hs.2.2.1]; exact hd)
      refine ⟨max k1 k2, as1, fun fuel hf => ?_⟩
      simp only [runCalls, h1 fuel (le_trans (le_max_left _ _) hf)]
      exact h2 fuel (le_trans (le_max_right _ _) hf)

/-! ### Non-looping clocks -/

theorem AnimatedSprite.advanceFrames_nonLoop (fuel : Nat) (as as1 : AnimatedSprite) (elapsed : ℚ)
    (h : advanceFrames fuel as = some as1) (hinv : as.NonLoopInv elapsed) :
    as1.NonLoopInv elapsed ∧ (as1.isPlaying = true → as1.frameTimer < as1.frameDuration) := by
  induction fuel generalizing as with
  | zero =>
    rw [advanceFrames_zero_eq] at h
    split_ifs at h with hc
    cases h
    refine ⟨hinv, fun hp => ?_⟩
    by_contra hlt
    exact hc ⟨not_lt.mp hlt, hp⟩
  | succ k ih =>
    rw [advanceFrames_succ_eq] at h
    obtain ⟨hloop, hd, hcase⟩ := hinv
    split_ifs at h with hc hge hl
    · rw [hloop] at hl
      cases hl
    · cases h
      exact ⟨⟨hloop, hd, Or.inr ⟨rfl, rfl⟩⟩, fun hp => by cases hp⟩
    · rcases hcase with ⟨hp, h0, _, hsum⟩ | ⟨hp, _⟩
      · refine ih _ h ⟨hloop, hd, Or.inl ⟨hp, by simp only; omega, ?_, ?_⟩⟩
        · simp only [ge_iff_le, not_le] at hge
          exact hge
        · simp only
          push_cast
          linarith
      · rw [hp] at hc
        cases hc.2
    · cases h
      refine ⟨⟨hloop, hd, hcase⟩, fun hp => ?_⟩
      by_contra hlt
      exact hc ⟨not_lt.mp hlt, hp⟩

theorem AnimatedSprite.Update_nonLoop (fuel : Nat) (dt : ℚ) (as as1 : AnimatedSprite)
    (elapsed : ℚ) (h : as.Update fuel dt = some as1) (hn : 2 ≤ as.frameCount)
    (hinv : as.NonLoopInv elapsed) :
    as1.NonLoopInv (elapsed + dt) ∧ (as1.isPlaying = true → as1.frameTimer < as1.frameDuration) := by
  unfold Update at h
  obtain ⟨hloop, hd, hcase⟩ := hinv
  split_ifs at h with hg
  · cases h
    rcases hg with hg | hg
    · rcases hcase with ⟨hp, _⟩ | ⟨hp, hf⟩
      · rw [hp] at hg
        cases hg
      · exact ⟨⟨hloop, hd, Or.inr ⟨hp, hf⟩⟩, fun hp2 => by rw [hp] at hp2; cases hp2⟩
    · omega
  · refine advanceFrames_nonLoop fuel _ as1 (elapsed + dt) h ⟨hloop, hd, ?_⟩
    rcases hcase with ⟨hp, h0, h1, hsum⟩ | ⟨hp, _⟩
    · exact Or.inl ⟨hp, h0, h1, by simp only; linarith⟩
    · exact absurd (Or.inl hp) hg

theorem runUpdates_nonLoop (fuel : Nat) (dts : List ℚ) (as as1 : AnimatedSprite) (elapsed : ℚ)
    (h : runUpdates fuel dts as = some as1) (hn : 2 ≤ as.frameCount)
    (hinv : as.NonLoopInv elapsed)
    (ht : as.isPlaying = true → as.frameTimer < as.frameDuration) :
    as1.frameCount = as.frameCount ∧ as1.frameDuration = as.frameDuration ∧
      as1.NonLoopInv (elapsed + dts.sum) ∧
      (as1.isPlaying = true → as1.frameTimer < as1.frameDuration) := by
  induction dts generalizing as elapsed with
  | nil =>
    simp only [runUpdates] at h
    cases h
    simpa using ⟨hinv, ht⟩
  | cons dt rest ih =>
    simp only [runUpdates] at h
    split at h
    · cases h
    · rename_i as2 h2
      have hs := AnimatedSprite.Update_static _ _ _ _ h2
      have h3 := AnimatedSprite.Update_nonLoop fuel dt as as2 elapsed h2 hn hinv
      have h4 := ih as2 (elapsed + dt) h (by rw [hs.2.1]; exact hn) h3.1 h3.2
      rw [hs.2.1, hs.2.2.1] at h4
      rw [List.sum_cons, ← add_assoc]
      exact h4

theorem runUpdates_total (dts : List ℚ) (as : AnimatedSprite) (hd : 0 < as.frameDuration) :
    ∃ k as1, ∀ fuel, k ≤ fuel → runUpdates fuel dts as = some as1 := by
  induction dts generalizing as with
  | nil => exact ⟨0, as, fun _ _ => rfl⟩
  | cons dt rest ih =>
    obtain ⟨k1, as2, h1⟩ := AnimatedSprite.Update_terminates dt as hd
    have hs := AnimatedSprite.Update_static _ _ _ _ (h1 k1 (le_refl _))
    obtain ⟨k2, as1, h2⟩ := ih as2 (by rw [hs.2.2.1]; exact hd)
    refine ⟨max k1 k2, as1, fun fuel hf => ?_⟩
    simp only [runUpdates, h1 fuel (le_trans (le_max_left _ _) hf)]
    exact h2 fuel (le_trans (le_max_right _ _) hf)

/-- C1 (animation frame bound): a sprite built by `NewAnimatedSprite` with positive per-frame
duration keeps `currentFrame` inside `[0, frameCount)` after every finite sequence of `Play()`
and `Update(dt)` calls with `dt ≥ 0`, and `GetCurrentFrame` then returns a frame (neither an
index fault nor nil); with enough loop fuel every such sequence of calls does return. -/
theorem animation_frame_bound (frames : List Image) (animationLength : ℚ) (loop : Bool)
    (as : AnimatedSprite) (hnew : NewAnimatedSprite frames animationLength loop = some as)
    (hpos : 0 < as.frameDuration) (calls : List SpriteCall)
    (hdt : ∀ c ∈ calls, 0 ≤ c.time) :
    (∀ fuel as1, runCalls fuel calls as = some as1 →
        0 ≤ as1.currentFrame ∧ as1.currentFrame < as1.frameCount ∧
          ∃ img, as1.GetCurrentFrame = .ok (some img)) ∧
      ∃ k, ∀ fuel, k ≤ fuel → (runCalls fuel calls as).isSome = true := by
  have _ := hdt
  constructor
  · intro fuel as1 h
    have hr := runCalls_inRange fuel calls as as1 h (NewAnimatedSprite_inRange _ _ _ _ hnew)
    exact ⟨hr.1, hr.2.1, AnimatedSprite.GetCurrentFrame_of_inRange as1 hr⟩
  · obtain ⟨k, as1, hk⟩ := runCalls_total calls as hpos
    exact ⟨k, fun fuel hf => by rw [hk fuel hf]; rfl⟩

theorem animation_frame_bound_witness :
    (∀ fuel as1,
        runCalls fuel [SpriteCall.play, SpriteCall.update (1 / 2), SpriteCall.update 3]
            { frames := [7, 8, 9], frameCount := 3, frameDuration := 1 / 3, currentFrame := 0,
              frameTimer := 0, isPlaying := false, loop := true, totalDuration := 1 } = some as1 →
        0 ≤ as1.currentFrame ∧ as1.currentFrame < as1.frameCount ∧
          ∃ img, as1.GetCurrentFrame = .ok (some img)) ∧
      ∃ k, ∀ fuel, k ≤ fuel →
        (runCalls fuel [SpriteCall.play, SpriteCall.update (1 / 2), SpriteCall.update 3]
            { frames := [7, 8, 9], frameCount := 3, frameDuration := 1 / 3, currentFrame := 0,
              frameTimer := 0, isPlaying := false, loop := true, totalDuration := 1 }).isSome
          = true :=
  animation_frame_bound [7, 8, 9] 1 true _ (by norm_num [NewAnimatedSprite]) (by norm_num)
    [SpriteCall.play, SpriteCall.update (1 / 2), SpriteCall.update 3]
    (by simp [SpriteCall.time])

/-- Single-frame clocks never stop: a non-looping clock with a single frame that was started
with `Play()` is still playing after an `Update` covering its whole duration. -/
theorem nonlooping_completion_single_frame_counterexample :
    NewAnimatedSprite [7] 1 false =
        some { frames := [7], frameCount := 1, frameDuration := 1, currentFrame := 0,
               frameTimer := 0, isPlaying := false, loop := false, totalDuration := 1 } ∧
      ∀ fuel,
        runUpdates fuel [1]
            (AnimatedSprite.Play
              { frames := [7], frameCount := 1, frameDuration := 1, currentFrame := 0,
                frameTimer := 0, isPlaying := false, loop := false, totalDuration := 1 }) =
          some { frames := [7], frameCount := 1, frameDuration := 1, currentFrame := 0,
                 frameTimer := 0, isPlaying := true, loop := false, totalDuration := 1 } := by
  refine ⟨by norm_num [NewAnimatedSprite], fun fuel => ?_⟩
  simp [runUpdates, AnimatedSprite.Update, AnimatedSprite.Play]

/-- Non-looping completion in exact arithmetic (no `float64` rounding): a non-looping clock with
at least two frames and total duration `T > 0`, started with `Play()`, is on frame
`frameCount - 1` with `isPlaying = false` after any sequence of `Update(dt)` calls, `dt ≥ 0`,
whose durations sum to at least `T`; every further `Update` returns the clock unchanged; with
enough loop fuel the calls do return. -/
theorem nonlooping_completion (frames : List Image) (T : ℚ) (as : AnimatedSprite)
    (hnew : NewAnimatedSprite frames T false = some as) (hT : 0 < T)
    (hframes : 2 ≤ frames.length) (dts : List ℚ) (hdt : ∀ dt ∈ dts, 0 ≤ dt)
    (hsum : T ≤ dts.sum) :
    (∀ fuel as1, runUpdates fuel dts as.Play = some as1 →
        as1.currentFrame = as1.frameCount - 1 ∧ as1.isPlaying = false ∧
          ∀ fuel2 dt, as1.Update fuel2 dt = some as1) ∧
      ∃ k, ∀ fuel, k ≤ fuel → (runUpdates fuel dts as.Play).isSome = true := by
  have _ := hdt
  unfold NewAnimatedSprite at hnew
  split_ifs at hnew with h0
  cases hnew
  have hlen : (0 : ℚ) < (frames.length : ℚ) := by
    have : 0 < frames.length := by omega
    exact_mod_cast this
  have hd : (0 : ℚ) < T / (frames.length : ℚ) := div_pos hT hlen
  constructor
  · intro fuel as1 h
    have hrun := runUpdates_nonLoop fuel dts _ as1 0 h
      (by simp only [AnimatedSprite.Play]; exact_mod_cast hframes)
      ⟨rfl, by simpa [AnimatedSprite.Play] using hd,
        Or.inl ⟨rfl, le_refl _, by simp only [AnimatedSprite.Play]; omega,
          by simp [AnimatedSprite.Play]⟩⟩
      (fun _ => by simpa [AnimatedSprite.Play] using hd)
    obtain ⟨hfc, hfd, ⟨_, _, hcase⟩, hlt⟩ := hrun
    simp only [AnimatedSprite.Play] at hfc hfd
    have hstop : as1.isPlaying = false ∧ as1.currentFrame = as1.frameCount - 1 := by
      rcases hcase with ⟨hp, _, h1, hs⟩ | hstop
      · exfalso
        have ht := hlt hp
        rw [hfd] at ht hs
        rw [hfc] at h1
        have h1q : (as1.currentFrame : ℚ) + 1 ≤ (frames.length : ℚ) := by
          have : as1.currentFrame + 1 ≤ (frames.length : Int) := by omega
          exact_mod_cast this
        have hTd : (frames.length : ℚ) * (T / (frames.length : ℚ)) = T := by
          field_simp
        have hmul : ((as1.currentFrame : ℚ) + 1) * (T / (frames.length : ℚ)) ≤ T := by
          calc ((as1.currentFrame : ℚ) + 1) * (T / (frames.length : ℚ))
              ≤ (frames.length : ℚ) * (T / (frames.length : ℚ)) :=
                mul_le_mul_of_nonneg_right h1q (le_of_lt hd)
            _ = T := hTd
        rw [zero_add] at hs
        linarith
      · exact hstop
    refine ⟨hstop.2, hstop.1, fun fuel2 dt => ?_⟩
    simp only [AnimatedSprite.Update, hstop.1, true_or, if_true]
  · obtain ⟨k, as1, hk⟩ := runUpdates_total dts
      (AnimatedSprite.Play
        { frames := frames, frameCount := (frames.length : Int),
          frameDuration := T / (frames.length : ℚ), currentFrame := 0, frameTimer := 0,
          isPlaying := false, loop := false, totalDuration := T })
      (by simpa [AnimatedSprite.Play] using hd)
    exact ⟨k, fun fuel hf => by rw [hk fuel hf]; rfl⟩

theorem nonlooping_completion_witness :
    (∀ fuel as1,
        runUpdates fuel [1 / 4, 1 / 2, 1 / 2]
            (AnimatedSprite.Play
              { frames := [7, 8, 9], frameCount := 3, frameDuration := 1 / 3, currentFrame := 0,
                frameTimer := 0, isPlaying := false, loop := false, totalDuration := 1 }) =
          some as1 →
        as1.currentFrame = as1.frameCount - 1 ∧ as1.isPlaying = false ∧
          ∀ fuel2 dt, as1.Update fuel2 dt = some as1) ∧
      ∃ k, ∀ fuel, k ≤ fuel →
        (runUpdates fuel [1 / 4, 1 / 2, 1 / 2]
            (AnimatedSprite.Play
              { frames := [7, 8, 9], frameCount := 3, frameDuration := 1 / 3, currentFrame := 0,
                frameTimer := 0, isPlaying := false, loop := false, totalDuration := 1 })).isSome
          = true :=
  nonlooping_completion [7, 8, 9] 1 _ (by norm_num [NewAnimatedSprite]) (by norm_num)
    (by simp) [1 / 4, 1 / 2, 1 / 2] (by norm_num) (by norm_num)

/-! ### Call granularity -/

theorem AnimatedSprite.advanceFrames_split (fuel : Nat) (as as1 : AnimatedSprite) (b : ℚ)
    (hb : 0 ≤ b) (h : advanceFrames fuel as = some as1) (fuel3 : Nat) (as3 : AnimatedSprite)
    (h3 : advanceFrames fuel3 (as.addTime b) = some as3) :
    (as1.isPlaying = false → as3.isPlaying = false ∧ as3.currentFrame = as1.currentFrame) ∧
      (as1.isPlaying = true → advanceFrames fuel3 (as1.addTime b) = some as3) := by
  induction fuel generalizing as fuel3 with
  | zero =>
    rw [advanceFrames_zero_eq] at h
    split_ifs at h with hc
    have e : as = as1 := Option.some.inj h
    subst e
    refine ⟨fun hp => ?_, fun _ => h3⟩
    have hc3 : ¬ ((as.addTime b).frameTimer ≥ (as.addTime b).frameDuration ∧
        (as.addTime b).isPlaying = true) := by
      rintro ⟨_, h2⟩
      simp only [addTime] at h2
      rw [hp] at h2
      cases h2
    cases fuel3 with
    | zero =>
      rw [advanceFrames_zero_eq, if_neg hc3] at h3
      cases h3
      exact ⟨hp, rfl⟩
    | succ m =>
      rw [advanceFrames_succ_eq, if_neg hc3] at h3
      cases h3
      exact ⟨hp, rfl⟩
  | succ k ih =>
    rw [advanceFrames_succ_eq] at h
    by_cases hc : as.frameTimer ≥ as.frameDuration ∧ as.isPlaying = true
    · have hc3 : (as.addTime b).frameTimer ≥ (as.addTime b).frameDuration ∧
          (as.addTime b).isPlaying = true := by
        refine ⟨?_, hc.2⟩
        simp only [addTime, ge_iff_le]
        linarith [hc.1]
      rw [if_pos hc] at h
      cases fuel3 with
      | zero =>
        rw [advanceFrames_zero_eq, if_pos hc3] at h3
        cases h3
      | succ m =>
        rw [advanceFrames_succ_eq, if_pos hc3] at h3
        simp only [addTime] at h3
        split_ifs at h h3 with hge hl
        · have hrec := ih _ h m (by
            simp only [addTime]
            rw [show as.frameTimer - as.frameDuration + b
              = as.frameTimer + b - as.frameDuration by ring]
            exact h3)
          exact ⟨hrec.1, fun hp => advanceFrames_succ _ _ _ (hrec.2 hp)⟩
        · cases h
          cases h3
          exact ⟨fun _ => ⟨rfl, rfl⟩, fun hp => by cases hp⟩
        · have hrec := ih _ h m (by
            simp only [addTime]
            rw [show as.frameTimer - as.frameDuration + b
              = as.frameTimer + b - as.frameDuration by ring]
            exact h3)
          exact ⟨hrec.1, fun hp => advanceFrames_succ _ _ _ (hrec.2 hp)⟩
    · rw [if_neg hc] at h
      have e : as = as1 := Option.some.inj h
      subst e
      refine ⟨fun hp => ?_, fun _ => h3⟩
      have hc3 : ¬ ((as.addTime b).frameTimer ≥ (as.addTime b).frameDuration ∧
          (as.addTime b).isPlaying = true) := by
        rintro ⟨_, h2⟩
        simp only [addTime] at h2
        rw [hp] at h2
        cases h2
      cases fuel3 with
      | zero =>
        rw [advanceFrames_zero_eq, if_neg hc3] at h3
        cases h3
        exact ⟨hp, rfl⟩
      | succ m =>
        rw [advanceFrames_succ_eq, if_neg hc3] at h3
        cases h3
        exact ⟨hp, rfl⟩

theorem AnimatedSprite.advanceFrames_agree (k1 k2 : Nat) (as a1 a2 : AnimatedSprite)
    (h1 : advanceFrames k1 as = some a1) (h2 : advanceFrames k2 as = some a2) : a1 = a2 := by
  have e1 := advanceFrames_mono k1 (max k1 k2) as a1 (le_max_left _ _) h1
  have e2 := advanceFrames_mono k2 (max k1 k2) as a2 (le_max_right _ _) h2
  rw [e1] at e2
  exact Option.some.inj e2

/-- C3 (call granularity): for a sprite with at least two frames, positive per-frame duration and
`0 ≤ frameTimer`, looping or not, and all `a, b ≥ 0`, `Update(a)` followed by `Update(b)` ends
with the same `currentFrame` and `isPlaying` as the single call `Update(a + b)`; with enough
loop fuel all three calls return. -/
theorem update_granularity (as : AnimatedSprite) (hn : 2 ≤ as.frameCount)
    (hd : 0 < as.frameDuration) (ht : 0 ≤ as.frameTimer) (a b : ℚ) (ha : 0 ≤ a) (hb : 0 ≤ b) :
    (∀ fuel1 fuel2 fuel3 as1 as2 as3, as.Update fuel1 a = some as1 →
        as1.Update fuel2 b = some as2 → as.Update fuel3 (a + b) = some as3 →
        as2.currentFrame = as3.currentFrame ∧ as2.isPlaying = as3.isPlaying) ∧
      ∃ k as1 as2 as3, ∀ fuel, k ≤ fuel →
        as.Update fuel a = some as1 ∧ as1.Update fuel b = some as2 ∧
          as.Update fuel (a + b) = some as3 := by
  have _ := ht
  have _ := ha
  constructor
  · intro fuel1 fuel2 fuel3 as1 as2 as3 h1 h2 h3
    have hs1 := AnimatedSprite.Update_static _ _ _ _ h1
    unfold AnimatedSprite.Update at h1 h3
    by_cases hg : as.isPlaying = false ∨ as.frameCount ≤ 1
    · rw [if_pos hg] at h1 h3
      cases h1
      cases h3
      unfold AnimatedSprite.Update at h2
      rw [if_pos hg] at h2
      cases h2
      exact ⟨rfl, rfl⟩
    · rw [if_neg hg] at h1 h3
      have hsplit := AnimatedSprite.advanceFrames_split fuel1
        { as with frameTimer := as.frameTimer + a } as1 b hb h1 fuel3 as3 (by
          simp only [AnimatedSprite.addTime]
          rw [add_assoc]
          exact h3)
      unfold AnimatedSprite.Update at h2
      cases hp : as1.isPlaying with
      | false =>
        rw [if_pos (Or.inl hp)] at h2
        cases h2
        have := hsplit.1 hp
        exact ⟨this.2.symm, by rw [this.1, hp]⟩
      | true =>
        have hg1 : ¬ (as1.isPlaying = false ∨ as1.frameCount ≤ 1) := by
          rw [hp, hs1.2.1]
          rintro (h | h)
          · cases h
          · omega
        rw [if_neg hg1] at h2
        have := AnimatedSprite.advanceFrames_agree _ _ _ _ _ h2 (hsplit.2 hp)
        rw [this]
        exact ⟨rfl, rfl⟩
  · obtain ⟨k1, as1, h1⟩ := AnimatedSprite.Update_terminates a as hd
    have hs1 := AnimatedSprite.Update_static _ _ _ _ (h1 k1 (le_refl _))
    obtain ⟨k2, as2, h2⟩ := AnimatedSprite.Update_terminates b as1 (by rw [hs1.2.2.1]; exact hd)
    obtain ⟨k3, as3, h3⟩ := AnimatedSprite.Update_terminates (a + b) as hd
    refine ⟨max k1 (max k2 k3), as1, as2, as3, fun fuel hf => ⟨h1 fuel ?_, h2 fuel ?_, h3 fuel ?_⟩⟩
    · exact le_trans (le_max_left _ _) hf
    · exact le_trans (le_trans (le_max_left _ _) (le_max_right _ _)) hf
    · exact le_trans (le_trans (le_max_right _ _) (le_max_right _ _)) hf

theorem update_granularity_witness :
    (2 ≤ demoClock.frameCount ∧ 0 < demoClock.frameDuration ∧ 0 ≤ demoClock.frameTimer) ∧
      (∀ fuel1 fuel2 fuel3 as1 as2 as3, demoClock.Update fuel1 (1 / 2) = some as1 →
        as1.Update fuel2 (3 / 4) = some as2 →
        demoClock.Update fuel3 (1 / 2 + 3 / 4) = some as3 →
        as2.currentFrame = as3.currentFrame ∧ as2.isPlaying = as3.isPlaying) ∧
      ∃ k as1 as2 as3, ∀ fuel, k ≤ fuel →
        demoClock.Update fuel (1 / 2) = some as1 ∧ as1.Update fuel (3 / 4) = some as2 ∧
          demoClock.Update fuel (1 / 2 + 3 / 4) = some as3 :=
  ⟨by norm_num [demoClock],
    update_granularity demoClock (by norm_num [demoClock]) (by norm_num [demoClock])
      (by norm_num [demoClock]) (1 / 2) (3 / 4) (by norm_num) (by norm_num)⟩

/-! ## Facts about `Creep.Update` -/

namespace Creep

theorem installAnimation_spec (frames : List Image) (len : ℚ) (loop : Bool) (c c1 : Creep)
    (h : c.installAnimation frames len loop = .ok c1) :
    ∃ a, NewAnimatedSprite frames len loop = some a ∧ c1 = { c with Animation := some a.Play } := by
  unfold installAnimation at h
  split at h
  · cases h
  · rename_i a ha
    cases h
    exact ⟨a, ha, rfl⟩

theorem setAnimation_spec (A : CreepAssets) (c c1 : Creep) (h : c.setAnimation A = .ok c1) :
    ∃ an, c1 = { c with Animation := an } := by
  unfold setAnimation at h
  split at h
  · obtain ⟨a, _, rfl⟩ := installAnimation_spec _ _ _ _ _ h
    exact ⟨_, rfl⟩
  · split_ifs at h
    · obtain ⟨a, _, rfl⟩ := installAnimation_spec _ _ _ _ _ h
      exact ⟨_, rfl⟩
    · cases h
      exact ⟨c.Animation, rfl⟩

theorem animate_spec (fuel : Nat) (dt : ℚ) (c c1 : Creep) (h : c.animate fuel dt = .ok c1) :
    ∃ a a1, c.Animation = some a ∧ a.Update fuel dt = some a1 ∧
      c1 = { c with Animation := some a1 } := by
  unfold animate at h
  split at h
  · cases h
  · rename_i a ha
    split at h
    · cases h
    · rename_i a1 ha1
      cases h
      exact ⟨a, a1, ha, ha1, rfl⟩

/-- Outcome of a successful `Update`, by the branch of the Go code that produced it. -/
theorem Update_cases (A : CreepAssets) (hypot : ℚ → ℚ → ℚ) (fuel : Nat) (dt : ℚ)
    (level : Option TilemapJSON) (onEscape onKilled : Bool) (c0 c1 : Creep)
    (ev : List CreepEvent)
    (h : c0.Update A hypot fuel dt level onEscape onKilled = .ok (c1, ev)) :
    (c0.Health ≤ 0 ∧ c0.IsDying = false ∧
        (∃ a, NewAnimatedSprite A.FirebugSideDeath 1 false = some a ∧
          c1 = { c0 with Timer := c0.Timer + dt, IsDying := true, Animation := some a.Play }) ∧
        ev = if onKilled = true then [CreepEvent.killed 15] else []) ∨
      (c0.IsDying = true ∧
        (∃ a a1, c0.Animation = some a ∧ a.Update fuel dt = some a1 ∧
          c1 = { c0 with Timer := c0.Timer + dt, Animation := some a1,
                         Active := if a1.isPlaying = false then false else c0.Active }) ∧
        ev = []) ∨
      (0 < c0.Health ∧ c0.IsDying = false ∧
        (c0.Timer + dt < c0.StartDelay ∨ c0.Path.length = 0) ∧
        (∃ a a1, c0.Animation = some a ∧ a.Update fuel dt = some a1 ∧
          c1 = { c0 with Timer := c0.Timer + dt, Animation := some a1 }) ∧
        ev = []) ∨
      (0 < c0.Health ∧ c0.IsDying = false ∧ c0.StartDelay ≤ c0.Timer + dt ∧
        c0.Path.length ≠ 0 ∧
        ∃ cm, move hypot dt { c0 with Timer := c0.Timer + dt } = .ok cm ∧
          ((cm.hasEscaped level = true ∧ c1 = { cm with Active := false } ∧
              ev = if onEscape = true then [CreepEvent.escaped cm.Damage] else []) ∨
            (cm.hasEscaped level = false ∧ (∃ an, c1 = { cm with Animation := an }) ∧
              ev = []))) := by
  unfold Update at h
  simp only [] at h
  by_cases hdead : c0.Health ≤ 0 ∧ c0.IsDying = false
  · rw [if_pos hdead] at h
    left
    split at h
    · cases h
    · rename_i cd hcd
      obtain ⟨a, ha, rfl⟩ := installAnimation_spec _ _ _ _ _ hcd
      cases h
      exact ⟨hdead.1, hdead.2, ⟨a, ha, rfl⟩, rfl⟩
  · rw [if_neg hdead] at h
    right
    by_cases hdying : c0.IsDying = true
    · rw [if_pos hdying] at h
      left
      split at h
      · cases h
      · rename_i ca hca
        obtain ⟨a, a1, ha, ha1, rfl⟩ := animate_spec _ _ _ _ hca
        simp only [AnimatedSprite.IsPlaying] at h
        cases h
        refine ⟨hdying, ⟨a, a1, ha, ha1, ?_⟩, rfl⟩
        by_cases hp : a1.isPlaying = false
        · simp only [hp, if_true]
        · simp only [hp, if_false]
          cases c0
          rfl
    · rw [if_neg hdying] at h
      right
      have hnd : c0.IsDying = false := by
        cases hx : c0.IsDying
        · rfl
        · exact absurd hx hdying
      have hpos : 0 < c0.Health := by
        by_contra hle
        exact hdead ⟨not_lt.mp hle, hnd⟩
      by_cases hwait : c0.Timer + dt < c0.StartDelay
      · rw [if_pos hwait] at h
        left
        split at h
        · cases h
        · rename_i ca hca
          obtain ⟨a, a1, ha, ha1, rfl⟩ := animate_spec _ _ _ _ hca
          cases h
          exact ⟨hpos, hnd, Or.inl hwait, ⟨a, a1, ha, ha1, rfl⟩, rfl⟩
      · rw [if_neg hwait] at h
        by_cases hpath : c0.Path.length = 0
        · rw [if_pos hpath] at h
          left
          split at h
          · cases h
          · rename_i ca hca
            obtain ⟨a, a1, ha, ha1, rfl⟩ := animate_spec _ _ _ _ hca
            cases h
            exact ⟨hpos, hnd, Or.inr hpath, ⟨a, a1, ha, ha1, rfl⟩, rfl⟩
        · rw [if_neg hpath] at h
          right
          refine ⟨hpos, hnd, not_lt.mp hwait, hpath, ?_⟩
          split at h
          · cases h
          · rename_i cm hcm
            refine ⟨cm, hcm, ?_⟩
            by_cases hesc : cm.hasEscaped level = true
            · rw [if_pos hesc] at h
              cases h
              exact Or.inl ⟨hesc, rfl, rfl⟩
            · rw [if_neg hesc] at h
              right
              have hesc2 : cm.hasEscaped level = false := by
                cases hx : cm.hasEscaped level
                · rfl
                · exact absurd hx hesc
              split at h
              · cases h
              · rename_i c2 hc2
                obtain ⟨an, rfl⟩ := setAnimation_spec _ _ _ hc2
                split at h
                · cases h
                · rename_i c3 hc3
                  obtain ⟨a, a1, ha, ha1, rfl⟩ := animate_spec _ _ _ _ hc3
                  cases h
                  exact ⟨hesc2, ⟨_, rfl⟩, rfl⟩

theorem updateDirection_fields (dx dy : ℚ) (c : Creep) :
    updateDirection dx dy c =
      { c with CurrentDirection := (updateDirection dx dy c).CurrentDirection } := by
  unfold updateDirection
  split_ifs <;> rfl

/-- Outcome of phase 3: the waypoint read and the branch taken. -/
theorem followPath_spec (hypot : ℚ → ℚ → ℚ) (dt : ℚ) (c c1 : Creep)
    (h : c.followPath hypot dt = .ok c1) :
    0 ≤ c.PathIndex + 1 ∧
      ∃ target, c.Path[(c.PathIndex + 1).toNat]? = some target ∧
        ((0 < hypot ((target.X : ℚ) - c.X) ((target.Y : ℚ) - c.Y) ∧
            hypot ((target.X : ℚ) - c.X) ((target.Y : ℚ) - c.Y) ≤ c.Speed * dt ∧
            c1 = updateDirection ((target.X : ℚ) - c.X) ((target.Y : ℚ) - c.Y)
              { c with X := (target.X : ℚ), Y := (target.Y : ℚ),
                       PathIndex := c.PathIndex + 1 }) ∨
          (0 < hypot ((target.X : ℚ) - c.X) ((target.Y : ℚ) - c.Y) ∧
            c.Speed * dt < hypot ((target.X : ℚ) - c.X) ((target.Y : ℚ) - c.Y) ∧
            c1 = updateDirection ((target.X : ℚ) - c.X) ((target.Y : ℚ) - c.Y)
              { c with
                X := c.X + ((target.X : ℚ) - c.X) /
                  hypot ((target.X : ℚ) - c.X) ((target.Y : ℚ) - c.Y) * (c.Speed * dt)
                Y := c.Y + ((target.Y : ℚ) - c.Y) /
                  hypot ((target.X : ℚ) - c.X) ((target.Y : ℚ) - c.Y) * (c.Speed * dt) }) ∨
          (¬ 0 < hypot ((target.X : ℚ) - c.X) ((target.Y : ℚ) - c.Y) ∧ c1 = c)) := by
  unfold followPath at h
  split_ifs at h with hneg
  split at h
  · cases h
  · rename_i target htarget
    refine ⟨not_lt.mp hneg, target, htarget, ?_⟩
    simp only [gt_iff_lt, ge_iff_le] at h
    split_ifs at h with hpos hreach
    · cases h
      exact Or.inl ⟨hpos, hreach, rfl⟩
    · cases h
      exact Or.inr (Or.inl ⟨hpos, not_le.mp hreach, rfl⟩)
    · cases h
      exact Or.inr (Or.inr ⟨hpos, rfl⟩)

/-- Phases 3 and 4 touch only the position, the path index and the facing direction. -/
theorem move_fields (hypot : ℚ → ℚ → ℚ) (dt : ℚ) (c c1 : Creep)
    (h : c.move hypot dt = .ok c1) :
    c1 = { c with X := c1.X, Y := c1.Y, PathIndex := c1.PathIndex,
                  CurrentDirection := c1.CurrentDirection } := by
  unfold move at h
  split_ifs at h
  · obtain ⟨_, target, _, hcase⟩ := followPath_spec _ _ _ _ h
    rcases hcase with ⟨_, _, rfl⟩ | ⟨_, _, rfl⟩ | ⟨_, rfl⟩
    · rw [updateDirection_fields]
    · rw [updateDirection_fields]
    · rfl
  · cases h
    rfl

/-- Phases 3 and 4 never lower the path index, raise it by at most one, and keep it at or below
the index of the final waypoint. -/
theorem move_pathIndex (hypot : ℚ → ℚ → ℚ) (dt : ℚ) (c c1 : Creep)
    (h : c.move hypot dt = .ok c1) :
    c.PathIndex ≤ c1.PathIndex ∧ c1.PathIndex ≤ c.PathIndex + 1 ∧
      (c.PathIndex ≤ (c.Path.length : Int) - 1 → c1.PathIndex ≤ (c.Path.length : Int) - 1) := by
  unfold move at h
  split_ifs at h with hlt
  · obtain ⟨_, target, _, hcase⟩ := followPath_spec _ _ _ _ h
    rcases hcase with ⟨_, _, rfl⟩ | ⟨_, _, rfl⟩ | ⟨_, rfl⟩
    · rw [updateDirection_fields]
      simp only
      omega
    · rw [updateDirection_fields]
      simp only
      omega
    · omega
  · cases h
    simp only [exitPath]
    omega

/-- Frame condition of `Update`: the fields no branch writes. -/
theorem Update_frame (A : CreepAssets) (hypot : ℚ → ℚ → ℚ) (fuel : Nat) (dt : ℚ)
    (level : Option TilemapJSON) (onEscape onKilled : Bool) (c0 c1 : Creep)
    (ev : List CreepEvent)
    (h : c0.Update A hypot fuel dt level onEscape onKilled = .ok (c1, ev)) :
    c1.Health = c0.Health ∧ c1.ID = c0.ID ∧ c1.Damage = c0.Damage ∧ c1.Path = c0.Path ∧
      c1.Speed = c0.Speed ∧ c1.MaxHealth = c0.MaxHealth ∧ c1.StartDelay = c0.StartDelay ∧
      c1.Timer = c0.Timer + dt := by
  rcases Update_cases _ _ _ _ _ _ _ _ _ _ h with
    ⟨_, _, ⟨a, _, rfl⟩, _⟩ | ⟨_, ⟨a, a1, _, _, rfl⟩, _⟩ | ⟨_, _, _, ⟨a, a1, _, _, rfl⟩, _⟩ |
    ⟨_, _, _, _, cm, hcm, hrest⟩
  · simp
  · simp
  · simp
  · have hf := move_fields _ _ _ _ hcm
    rcases hrest with ⟨_, rfl, _⟩ | ⟨_, ⟨an, rfl⟩, _⟩
    · rw [hf]
      simp
    · rw [hf]
      simp

/-- Path index across `Update`. -/
theorem Update_pathIndex (A : CreepAssets) (hypot : ℚ → ℚ → ℚ) (fuel : Nat) (dt : ℚ)
    (level : Option TilemapJSON) (onEscape onKilled : Bool) (c0 c1 : Creep)
    (ev : List CreepEvent)
    (h : c0.Update A hypot fuel dt level onEscape onKilled = .ok (c1, ev)) :
    c0.PathIndex ≤ c1.PathIndex ∧ c1.PathIndex ≤ c0.PathIndex + 1 ∧
      (c0.PathIndex ≤ (c0.Path.length : Int) - 1 →
        c1.PathIndex ≤ (c0.Path.length : Int) - 1) := by
  rcases Update_cases _ _ _ _ _ _ _ _ _ _ h with
    ⟨_, _, ⟨a, _, rfl⟩, _⟩ | ⟨_, ⟨a, a1, _, _, rfl⟩, _⟩ | ⟨_, _, _, ⟨a, a1, _, _, rfl⟩, _⟩ |
    ⟨_, _, _, _, cm, hcm, hrest⟩
  · simp
  · simp
  · simp
  · have hp := move_pathIndex _ _ _ _ hcm
    simp only at hp
    rcases hrest with ⟨_, rfl, _⟩ | ⟨_, ⟨an, rfl⟩, _⟩
    · exact hp
    · exact hp

/-! ### `Update` returns -/

theorem installAnimation_total (frames : List Image) (len : ℚ) (loop : Bool) (c : Creep)
    (hf : frames ≠ []) :
    ∃ c1 a, c.installAnimation frames len loop = .ok c1 ∧ c1.Animation = some a ∧
      a.frameDuration = len / (frames.length : ℚ) ∧ a.isPlaying = true ∧ a.loop = loop ∧
      c1.PathIndex = c.PathIndex ∧ c1.IsDying = c.IsDying := by
  have hlen : ¬ frames.length = 0 := by
    intro h0
    exact hf (List.length_eq_zero.mp h0)
  refine ⟨{ c with Animation := some (AnimatedSprite.Play
      { frames := frames, frameCount := (frames.length : Int),
        frameDuration := len / (frames.length : ℚ), currentFrame := 0, frameTimer := 0,
        isPlaying := false, loop := loop, totalDuration := len }) }, _, ?_, rfl, ?_⟩
  · simp only [installAnimation, NewAnimatedSprite, if_neg hlen]
  · simp [AnimatedSprite.Play]

theorem installAnimation_error (frames : List Image) (len : ℚ) (loop : Bool) (c : Creep)
    (e : Fault) (h : c.installAnimation frames len loop = .error e) : e = Fault.nilDeref := by
  unfold installAnimation at h
  split at h
  · cases h
    rfl
  · cases h

theorem desiredFrames_ne_nil (A : CreepAssets) (c : Creep) (hA : A.Loaded) :
    c.desiredFrames A ≠ [] := by
  obtain ⟨h1, h2, h3, h4, h5, h6, _⟩ := hA
  unfold desiredFrames
  split_ifs <;> split <;> assumption

theorem length_cast_pos (frames : List Image) (hf : frames ≠ []) :
    (0 : ℚ) < (frames.length : ℚ) := by
  have : 0 < frames.length := List.length_pos.mpr hf
  exact_mod_cast this

theorem setAnimation_total (A : CreepAssets) (c : Creep) (hA : A.Loaded) (hc : c.AnimReady) :
    ∃ c2, c.setAnimation A = .ok c2 ∧ c2.AnimReady ∧ c2.PathIndex = c.PathIndex := by
  have hne := desiredFrames_ne_nil A c hA
  have hnew : ∃ c2, c.installAnimation (c.desiredFrames A) 1 true = .ok c2 ∧ c2.AnimReady ∧
      c2.PathIndex = c.PathIndex := by
    obtain ⟨c2, a, ha, han, hd, _, _, hpi, _⟩ :=
      installAnimation_total (c.desiredFrames A) 1 true c hne
    refine ⟨c2, ha, ⟨a, han, ?_⟩, hpi⟩
    rw [hd]
    exact div_pos one_pos (length_cast_pos _ hne)
  unfold setAnimation
  split
  · exact hnew
  · split_ifs
    · exact hnew
    · exact ⟨c, rfl, hc, rfl⟩

theorem setAnimation_error (A : CreepAssets) (c : Creep) (e : Fault)
    (h : c.setAnimation A = .error e) : e = Fault.nilDeref := by
  unfold setAnimation at h
  split at h
  · exact installAnimation_error _ _ _ _ _ h
  · split_ifs at h
    · exact installAnimation_error _ _ _ _ _ h

theorem animate_total (dt : ℚ) (c : Creep) (hc : c.AnimReady) :
    ∃ k c1 a1, (∀ fuel, k ≤ fuel → c.animate fuel dt = .ok c1) ∧ c1.Animation = some a1 ∧
      0 < a1.frameDuration ∧ c1.PathIndex = c.PathIndex := by
  obtain ⟨a, ha, hd⟩ := hc
  obtain ⟨k, a1, hk⟩ := AnimatedSprite.Update_terminates dt a hd
  have hs := AnimatedSprite.Update_static _ _ _ _ (hk k (le_refl _))
  refine ⟨k, { c with Animation := some a1 }, a1, fun fuel hf => ?_, rfl,
    by rw [hs.2.2.1]; exact hd, rfl⟩
  simp only [animate, ha, hk fuel hf]

theorem animate_error (fuel : Nat) (dt : ℚ) (c : Creep) (e : Fault)
    (h : c.animate fuel dt = .error e) : e = Fault.nilDeref ∨ e = Fault.outOfFuel := by
  unfold animate at h
  split at h
  · cases h
    exact Or.inl rfl
  · split at h
    · cases h
      exact Or.inr rfl
    · cases h

theorem followPath_total (hypot : ℚ → ℚ → ℚ) (dt : ℚ) (c : Creep) (h0 : -1 ≤ c.PathIndex)
    (h1 : c.PathIndex < (c.Path.length : Int) - 1) : ∃ c1, c.followPath hypot dt = .ok c1 := by
  have hlt : (c.PathIndex + 1).toNat < c.Path.length := by omega
  have hneg : ¬ c.PathIndex + 1 < 0 := by omega
  simp only [followPath, if_neg hneg, List.getElem?_eq_getElem hlt]
  split_ifs
  · exact ⟨_, rfl⟩
  · exact ⟨_, rfl⟩
  · exact ⟨_, rfl⟩

theorem move_total (hypot : ℚ → ℚ → ℚ) (dt : ℚ) (c : Creep) (h0 : -1 ≤ c.PathIndex) :
    ∃ c1, c.move hypot dt = .ok c1 := by
  unfold move
  split_ifs with h1
  · exact followPath_total hypot dt c h0 h1
  · exact ⟨_, rfl⟩

theorem Update_total (A : CreepAssets) (hypot : ℚ → ℚ → ℚ) (dt : ℚ)
    (level : Option TilemapJSON) (onEscape onKilled : Bool) (c0 : Creep) (hA : A.Loaded)
    (hc : c0.Ready) :
    ∃ k c1 ev, (∀ fuel, k ≤ fuel →
        c0.Update A hypot fuel dt level onEscape onKilled = .ok (c1, ev)) ∧ c1.Ready := by
  obtain ⟨hanim, hidx⟩ := hc
  have hanim' : Creep.AnimReady { c0 with Timer := c0.Timer + dt } := hanim
  obtain ⟨k, ca, a1, hk, han1, hd1, hpi1⟩ :=
    animate_total dt { c0 with Timer := c0.Timer + dt } hanim'
  simp only at hpi1
  by_cases hdead : c0.Health ≤ 0 ∧ c0.IsDying = false
  · obtain ⟨cd, a, ha, han, hd, _, _, hpi, _⟩ := installAnimation_total A.FirebugSideDeath 1 false
      { c0 with Timer := c0.Timer + dt, IsDying := true } hA.2.2.2.2.2.2
    refine ⟨0, cd, if onKilled = true then [CreepEvent.killed 15] else [], fun fuel _ => ?_,
      ⟨⟨a, han, ?_⟩, ?_⟩⟩
    · simp only [Update, if_pos hdead, ha]
    · rw [hd]
      exact div_pos one_pos (length_cast_pos _ hA.2.2.2.2.2.2)
    · rw [hpi]
      exact hidx
  · by_cases hdying : c0.IsDying = true
    · refine ⟨k, if a1.IsPlaying = false then { ca with Active := false } else ca, [],
        fun fuel hf => ?_, ?_⟩
      · simp only [Update, if_neg hdead, if_pos hdying, hk fuel hf, han1]
      · split_ifs
        · exact ⟨⟨a1, han1, hd1⟩, by simp only; rw [hpi1]; exact hidx⟩
        · exact ⟨⟨a1, han1, hd1⟩, by rw [hpi1]; exact hidx⟩
    · by_cases hwait : c0.Timer + dt < c0.StartDelay
      · refine ⟨k, ca, [], fun fuel hf => ?_, ⟨⟨a1, han1, hd1⟩, by rw [hpi1]; exact hidx⟩⟩
        simp only [Update, if_neg hdead, if_neg hdying, if_pos hwait, hk fuel hf]
      · by_cases hpath : c0.Path.length = 0
        · refine ⟨k, ca, [], fun fuel hf => ?_, ⟨⟨a1, han1, hd1⟩, by rw [hpi1]; exact hidx⟩⟩
          simp only [Update, if_neg hdead, if_neg hdying, if_neg hwait, if_pos hpath,
            hk fuel hf]
        · obtain ⟨cm, hcm⟩ := move_total hypot dt { c0 with Timer := c0.Timer + dt } hidx
          have hf := move_fields _ _ _ _ hcm
          have hp := move_pathIndex _ _ _ _ hcm
          simp only at hp
          have hmr : cm.AnimReady := by
            rw [hf]
            exact hanim
          have hmi : -1 ≤ cm.PathIndex := le_trans hidx hp.1
          by_cases hesc : cm.hasEscaped level = true
          · refine ⟨0, { cm with Active := false },
              if onEscape = true then [CreepEvent.escaped cm.Damage] else [],
              fun fuel _ => ?_, ⟨hmr, hmi⟩⟩
            simp only [Update, if_neg hdead, if_neg hdying, if_neg hwait, if_neg hpath, hcm,
              if_pos hesc]
          · obtain ⟨c2, hc2, hr2, hpi2⟩ := setAnimation_total A cm hA hmr
            obtain ⟨k2, c3, a3, hk3, han3, hd3, hpi3⟩ := animate_total dt c2 hr2
            refine ⟨k2, c3, [], fun fuel hf2 => ?_,
              ⟨⟨a3, han3, hd3⟩, by rw [hpi3, hpi2]; exact hmi⟩⟩
            simp only [Update, if_neg hdead, if_neg hdying, if_neg hwait, if_neg hpath, hcm,
              if_neg hesc, hc2, hk3 fuel hf2]

/-- With a path index of at least `-1` no slice read of `Update` is out of range. -/
theorem Update_no_indexFault (A : CreepAssets) (hypot : ℚ → ℚ → ℚ) (fuel : Nat) (dt : ℚ)
    (level : Option TilemapJSON) (onEscape onKilled : Bool) (c0 : Creep)
    (hidx : -1 ≤ c0.PathIndex) :
    c0.Update A hypot fuel dt level onEscape onKilled ≠ .error Fault.indexOutOfRange := by
  intro h
  unfold Update at h
  simp only [] at h
  have hanim : ∀ (c : Creep), c.animate fuel dt ≠ .error Fault.indexOutOfRange := by
    intro c hc
    rcases animate_error _ _ _ _ hc with h1 | h1 <;> cases h1
  obtain ⟨cm, hcm⟩ := move_total hypot dt { c0 with Timer := c0.Timer + dt } hidx
  by_cases hdead : c0.Health ≤ 0 ∧ c0.IsDying = false
  · rw [if_pos hdead] at h
    split at h
    · rename_i e he
      cases h
      have := installAnimation_error _ _ _ _ _ he
      cases this
    · cases h
  · rw [if_neg hdead] at h
    by_cases hdying : c0.IsDying = true
    · rw [if_pos hdying] at h
      split at h
      · rename_i e he
        cases h
        exact hanim _ he
      · split at h <;> cases h
    · rw [if_neg hdying] at h
      by_cases hwait : c0.Timer + dt < c0.StartDelay
      · rw [if_pos hwait] at h
        split at h
        · rename_i e he
          cases h
          exact hanim _ he
        · cases h
      · rw [if_neg hwait] at h
        by_cases hpath : c0.Path.length = 0
        · rw [if_pos hpath] at h
          split at h
          · rename_i e he
            cases h
            exact hanim _ he
          · cases h
        · rw [if_neg hpath, hcm] at h
          simp only at h
          by_cases hesc : cm.hasEscaped level = true
          · rw [if_pos hesc] at h
            cases h
          · rw [if_neg hesc] at h
            split at h
            · rename_i e he
              cases h
              have := setAnimation_error _ _ _ he
              cases this
            · split at h
              · rename_i e he
                cases h
                exact hanim _ he
              · cases h

theorem TakeDamage_health (amount : ℚ) (c : Creep) :
    (c.TakeDamage amount).Health =
      if c.IsDying = true then c.Health
      else if c.Health - amount < 0 then 0 else c.Health - amount := by
  simp only [TakeDamage]
  split_ifs <;> rfl

theorem TakeDamage_fields (amount : ℚ) (c : Creep) :
    c.TakeDamage amount = { c with Health := (c.TakeDamage amount).Health } := by
  simp only [TakeDamage]
  split_ifs <;> rfl

/-- A live creep past its start delay and with a path runs the movement phases. -/
theorem Update_moving (A : CreepAssets) (hypot : ℚ → ℚ → ℚ) (fuel : Nat) (dt : ℚ)
    (level : Option TilemapJSON) (onEscape onKilled : Bool) (c0 c1 : Creep)
    (ev : List CreepEvent) (hdying : c0.IsDying = false) (hH : 0 < c0.Health)
    (hT : c0.StartDelay ≤ c0.Timer + dt) (hpath : c0.Path ≠ [])
    (h : c0.Update A hypot fuel dt level onEscape onKilled = .ok (c1, ev)) :
    ∃ cm, move hypot dt { c0 with Timer := c0.Timer + dt } = .ok cm ∧
      c1.X = cm.X ∧ c1.Y = cm.Y ∧ c1.PathIndex = cm.PathIndex ∧ c1.IsDying = false ∧
      ((cm.hasEscaped level = true ∧ c1.Active = false ∧
          ev = if onEscape = true then [CreepEvent.escaped c0.Damage] else []) ∨
        (cm.hasEscaped level = false ∧ c1.Active = c0.Active ∧ ev = [])) := by
  rcases Update_cases _ _ _ _ _ _ _ _ _ _ h with
    ⟨hle, _⟩ | ⟨hd, _⟩ | ⟨_, _, hor, _⟩ | ⟨_, _, _, _, cm, hcm, hrest⟩
  · exact absurd hH (not_lt.mpr hle)
  · rw [hdying] at hd
    cases hd
  · rcases hor with hw | hp
    · exact absurd hT (not_le.mpr hw)
    · exact absurd (List.length_eq_zero.mp hp) hpath
  · have hf := move_fields _ _ _ _ hcm
    have hdmg : cm.Damage = c0.Damage := by rw [hf]
    have hact : cm.Active = c0.Active := by rw [hf]
    have hdy : cm.IsDying = false := by
      rw [hf]
      exact hdying
    refine ⟨cm, hcm, ?_⟩
    rcases hrest with ⟨hesc, rfl, hev⟩ | ⟨hesc, ⟨an, rfl⟩, hev⟩
    · rw [hdmg] at hev
      exact ⟨rfl, rfl, rfl, hdy, Or.inl ⟨hesc, rfl, hev⟩⟩
    · exact ⟨rfl, rfl, rfl, hdy, Or.inr ⟨hesc, hact, hev⟩⟩

theorem hasEscaped_iff (lv : TilemapJSON) (layer : TilemapLayerJSON)
    (rest : List TilemapLayerJSON) (hlv : lv.Layers = layer :: rest) (c : Creep) :
    c.hasEscaped (some lv) = true ↔
      (c.X < -1 ∨ c.X > (layer.Width : ℚ) ∨ c.Y < -1 ∨ c.Y > (layer.Height : ℚ)) := by
  simp only [hasEscaped, hlv, decide_eq_true_eq]

/-! ### The end-to-end scenario -/

theorem OnScenario_update (A : CreepAssets) (hypot : ℚ → ℚ → ℚ) (fuel : Nat) (dt : ℚ)
    (level : Option TilemapJSON) (onEscape onKilled : Bool) (c c1 : Creep)
    (ev : List CreepEvent) (hc : c.OnScenario) (hdt : 0 ≤ dt)
    (h : c.Update A hypot fuel dt level onEscape onKilled = .ok (c1, ev)) :
    ∃ cm, move hypot dt { c with Timer := c.Timer + dt } = .ok cm ∧
      c1.X = cm.X ∧ c1.Y = cm.Y ∧ c1.PathIndex = cm.PathIndex ∧
      (c1.Y = 0 → c1.OnScenario) ∧
      (cm.hasEscaped level = false → c1.Active = c.Active) := by
  obtain ⟨hY, hP, hS, hSD, hT, hH, hD⟩ := hc
  have hpath : c.Path ≠ [] := by
    rw [hP]
    simp
  obtain ⟨cm, hcm, hx, hy, hpi, hdy, hcase⟩ :=
    Update_moving _ _ _ _ _ _ _ _ _ _ hD hH (by rw [hSD]; linarith) hpath h
  have hf := Update_frame _ _ _ _ _ _ _ _ _ _ h
  refine ⟨cm, hcm, hx, hy, hpi, fun hy0 => ?_, fun hesc => ?_⟩
  · refine ⟨hy0, ?_, ?_, ?_, ?_, ?_, hdy⟩
    · rw [hf.2.2.2.1, hP]
    · rw [hf.2.2.2.2.1, hS]
    · rw [hf.2.2.2.2.2.2.1, hSD]
    · rw [hf.2.2.2.2.2.2.2]
      linarith
    · rw [hf.1]
      exact hH
  · rcases hcase with ⟨he, _, _⟩ | ⟨_, hact, _⟩
    · rw [hesc] at he
      cases he
    · exact hact

/-- One tick of the scenario creep while it heads for `(5,0)`. -/
theorem scenario_onPath (A : CreepAssets) (hypot : ℚ → ℚ → ℚ)
    (hhyp : ∀ dx, hypot dx 0 = |dx|) (fuel : Nat) (dt : ℚ) (level : Option TilemapJSON)
    (onEscape onKilled : Bool) (c c1 : Creep) (ev : List CreepEvent) (hc : c.OnScenario)
    (hdt : 0 ≤ dt) (hPI : c.PathIndex = 0) (hX : c.X < 5)
    (h : c.Update A hypot fuel dt level onEscape onKilled = .ok (c1, ev)) :
    c1.OnScenario ∧
      ((c.X + 2 * dt < 5 ∧ c1.X = c.X + 2 * dt ∧ c1.PathIndex = 0) ∨
        (5 ≤ c.X + 2 * dt ∧ c1.X = 5 ∧ c1.PathIndex = 1)) ∧
      ((∃ cm : Creep, cm.X = c1.X ∧ cm.Y = c1.Y ∧ cm.hasEscaped level = false) →
        c1.Active = c.Active) := by
  obtain ⟨cm, hcm, hx, hy, hpi, hon, hact⟩ :=
    OnScenario_update _ _ _ _ _ _ _ _ _ _ hc hdt h
  obtain ⟨hY, hP, hS, hSD, hT, hH, hD⟩ := hc
  have hlt : c.PathIndex < (c.Path.length : Int) - 1 := by
    rw [hPI, hP]
    simp
  simp only [move, if_pos hlt] at hcm
  obtain ⟨_, target, ht, hcase⟩ := followPath_spec _ _ _ _ hcm
  simp only [hPI, hP] at ht
  simp at ht
  subst ht
  simp only [hY, hS, Int.cast_ofNat, Int.cast_zero, sub_zero, sub_self, hhyp] at hcase
  have habs : |5 - c.X| = 5 - c.X := abs_of_pos (by linarith)
  rw [habs] at hcase
  have hne : (5 : ℚ) - c.X ≠ 0 := by linarith
  have key : cm.Y = 0 ∧ ((c.X + 2 * dt < 5 ∧ cm.X = c.X + 2 * dt ∧ cm.PathIndex = 0) ∨
      (5 ≤ c.X + 2 * dt ∧ cm.X = 5 ∧ cm.PathIndex = 1)) := by
    rcases hcase with ⟨_, hreach, rfl⟩ | ⟨_, hshort, rfl⟩ | ⟨hn, _⟩
    · rw [updateDirection_fields]
      refine ⟨rfl, Or.inr ⟨by linarith, rfl, ?_⟩⟩
      simp only [hPI]
      norm_num
    · rw [updateDirection_fields]
      refine ⟨?_, Or.inl ⟨by linarith, ?_, hPI⟩⟩
      · simp only [zero_div, zero_mul, add_zero]
      · simp only [div_self hne, one_mul]
    · exact absurd (by linarith) hn
  rw [← hx, ← hy, ← hpi] at key
  refine ⟨hon key.1, key.2, ?_⟩
  rintro ⟨cm2, h2x, h2y, h2e⟩
  apply hact
  have : cm.hasEscaped level = cm2.hasEscaped level := by
    unfold hasEscaped
    rw [← hx, ← hy, h2x, h2y]
  rw [this]
  exact h2e

/-- One tick of the scenario creep after it has reached `(5,0)`. -/
theorem scenario_offPath (A : CreepAssets) (hypot : ℚ → ℚ → ℚ)
    (hhyp : ∀ dx, hypot dx 0 = |dx|) (fuel : Nat) (dt : ℚ) (level : Option TilemapJSON)
    (onEscape onKilled : Bool) (c c1 : Creep) (ev : List CreepEvent) (hc : c.OnScenario)
    (hdt : 0 ≤ dt) (hPI : c.PathIndex = 1)
    (h : c.Update A hypot fuel dt level onEscape onKilled = .ok (c1, ev)) :
    c1.OnScenario ∧ c1.X = c.X + 2 * dt ∧ c1.PathIndex = 1 ∧
      ((∃ cm : Creep, cm.X = c1.X ∧ cm.Y = c1.Y ∧ cm.hasEscaped level = false) →
        c1.Active = c.Active) := by
  obtain ⟨cm, hcm, hx, hy, hpi, hon, hact⟩ :=
    OnScenario_update _ _ _ _ _ _ _ _ _ _ hc hdt h
  obtain ⟨hY, hP, hS, hSD, hT, hH, hD⟩ := hc
  have hlt : ¬ c.PathIndex < (c.Path.length : Int) - 1 := by
    rw [hPI, hP]
    simp
  simp only [move, if_neg hlt] at hcm
  have hcm2 := (Except.ok.inj hcm).symm
  have hdir : ∀ c2 : Creep, c2.Path = c.Path → exitDirection hypot c2 = (1, 0) := by
    intro c2 h2
    simp only [exitDirection, h2, hP]
    norm_num [hhyp]
  have key : cm.Y = 0 ∧ cm.X = c.X + 2 * dt ∧ cm.PathIndex = 1 := by
    rw [hcm2]
    simp only [exitPath]
    rw [hdir { c with Timer := c.Timer + dt } rfl]
    simp only [hS, hY, hPI]
    norm_num
  rw [← hx, ← hy, ← hpi] at key
  refine ⟨hon key.1, key.2.1, key.2.2, ?_⟩
  rintro ⟨cm2, h2x, h2y, h2e⟩
  apply hact
  have : cm.hasEscaped level = cm2.hasEscaped level := by
    unfold hasEscaped
    rw [← hx, ← hy, h2x, h2y]
  rw [this]
  exact h2e

theorem run_nil (A : CreepAssets) (hypot : ℚ → ℚ → ℚ) (fuel : Nat) (onEscape onKilled : Bool)
    (c : Creep) : Creep.run A hypot fuel onEscape onKilled [] c = .ok (c, []) := rfl

theorem run_takeDamage (A : CreepAssets) (hypot : ℚ → ℚ → ℚ) (fuel : Nat)
    (onEscape onKilled : Bool) (amount : ℚ) (rest : List CreepCall) (c : Creep) :
    Creep.run A hypot fuel onEscape onKilled (CreepCall.takeDamage amount :: rest) c =
      Creep.run A hypot fuel onEscape onKilled rest (c.TakeDamage amount) := rfl

/-- A successful run that starts with an `Update` splits into that call and the rest. -/
theorem run_update_ok (A : CreepAssets) (hypot : ℚ → ℚ → ℚ) (fuel : Nat)
    (onEscape onKilled : Bool) (dt : ℚ) (level : Option TilemapJSON) (rest : List CreepCall)
    (c c2 : Creep) (log : List CreepEvent)
    (h : Creep.run A hypot fuel onEscape onKilled (CreepCall.update dt level :: rest) c =
      .ok (c2, log)) :
    ∃ c1 ev log1, c.Update A hypot fuel dt level onEscape onKilled = .ok (c1, ev) ∧
      Creep.run A hypot fuel onEscape onKilled rest c1 = .ok (c2, log1) ∧ log = ev ++ log1 := by
  simp only [Creep.run] at h
  split at h
  · cases h
  · rename_i c1 ev h1
    split at h
    · cases h
    · rename_i c3 log1 h3
      cases h
      exact ⟨c1, ev, log1, h1, h3, rfl⟩

theorem run_update_of_ok (A : CreepAssets) (hypot : ℚ → ℚ → ℚ) (fuel : Nat)
    (onEscape onKilled : Bool) (dt : ℚ) (level : Option TilemapJSON) (rest : List CreepCall)
    (c c1 c2 : Creep) (ev log1 : List CreepEvent)
    (h1 : c.Update A hypot fuel dt level onEscape onKilled = .ok (c1, ev))
    (h2 : Creep.run A hypot fuel onEscape onKilled rest c1 = .ok (c2, log1)) :
    Creep.run A hypot fuel onEscape onKilled (CreepCall.update dt level :: rest) c =
      .ok (c2, ev ++ log1) := by
  simp only [Creep.run, h1, h2]

theorem TakeDamage_ready (amount : ℚ) (c : Creep) (hc : c.Ready) : (c.TakeDamage amount).Ready := by
  rw [TakeDamage_fields]
  exact hc

theorem run_total (A : CreepAssets) (hypot : ℚ → ℚ → ℚ) (onEscape onKilled : Bool)
    (calls : List CreepCall) (c : Creep) (hA : A.Loaded) (hc : c.Ready) :
    ∃ k r, ∀ fuel, k ≤ fuel → Creep.run A hypot fuel onEscape onKilled calls c = .ok r := by
  induction calls generalizing c with
  | nil => exact ⟨0, (c, []), fun _ _ => rfl⟩
  | cons call rest ih =>
    cases call with
    | takeDamage amount =>
      obtain ⟨k, r, hk⟩ := ih (c.TakeDamage amount) (TakeDamage_ready amount c hc)
      exact ⟨k, r, fun fuel hf => by rw [run_takeDamage]; exact hk fuel hf⟩
    | update dt level =>
      obtain ⟨k1, c1, ev, h1, hr1⟩ := Update_total A hypot dt level onEscape onKilled c hA hc
      obtain ⟨k2, r, h2⟩ := ih c1 hr1
      refine ⟨max k1 k2, (r.1, ev ++ r.2), fun fuel hf => ?_⟩
      exact run_update_of_ok _ _ _ _ _ _ _ _ _ _ _ _ _
        (h1 fuel (le_trans (le_max_left _ _) hf)) (h2 fuel (le_trans (le_max_right _ _) hf))

theorem not_hasEscaped_of_inside (lv : TilemapJSON) (layer : TilemapLayerJSON)
    (rest : List TilemapLayerJSON) (hlv : lv.Layers = layer :: rest) (hW : layer.Width = 5)
    (hHt : 0 ≤ layer.Height) (c : Creep) (hx0 : 0 ≤ c.X) (hx5 : c.X ≤ 5) (hy : c.Y = 0) :
    c.hasEscaped (some lv) = false := by
  cases hx : c.hasEscaped (some lv)
  · rfl
  · exfalso
    have hq : (0 : ℚ) ≤ (layer.Height : ℚ) := by exact_mod_cast hHt
    rcases (hasEscaped_iff lv layer rest hlv c).mp hx with h | h | h | h
    · linarith
    · rw [hW] at h
      norm_num at h
      linarith
    · rw [hy] at h
      linarith
    · rw [hy] at h
      linarith

/-- The scenario creep over ticks that sum to the time left to reach `(5,0)`. -/
theorem scenario_approach (A : CreepAssets) (hypot : ℚ → ℚ → ℚ)
    (hhyp : ∀ dx, hypot dx 0 = |dx|) (fuel : Nat) (lv : TilemapJSON)
    (layer : TilemapLayerJSON) (rest : List TilemapLayerJSON) (hlv : lv.Layers = layer :: rest)
    (hW : layer.Width = 5) (hHt : 0 ≤ layer.Height) (onEscape onKilled : Bool)
    (dts : List ℚ) (c c1 : Creep) (log : List CreepEvent) (hc : c.OnScenario)
    (hact : c.Active = true) (hdts : ∀ dt ∈ dts, 0 ≤ dt) (hx0 : 0 ≤ c.X)
    (hsum : c.X + 2 * dts.sum = 5)
    (hphase : (c.PathIndex = 0 ∧ c.X < 5) ∨ c.PathIndex = 1)
    (h : Creep.run A hypot fuel onEscape onKilled (ticksOn (some lv) dts) c = .ok (c1, log)) :
    c1.OnScenario ∧ c1.X = 5 ∧ c1.PathIndex = 1 ∧ c1.Active = true := by
  induction dts generalizing c log with
  | nil =>
    simp only [ticksOn, List.map_nil, run_nil] at h
    cases h
    simp only [List.sum_nil, mul_zero, add_zero] at hsum
    refine ⟨hc, hsum, ?_, hact⟩
    rcases hphase with ⟨_, hlt⟩ | h1
    · linarith
    · exact h1
  | cons dt dts ih =>
    simp only [ticksOn, List.map_cons] at h
    obtain ⟨c2, ev, log1, hupd, hrest, _⟩ := run_update_ok _ _ _ _ _ _ _ _ _ _ _ h
    have hdt : 0 ≤ dt := hdts dt (List.mem_cons_self _ _)
    have hdts2 : ∀ d ∈ dts, 0 ≤ d := fun d hd => hdts d (List.mem_cons_of_mem _ hd)
    have hs0 : 0 ≤ dts.sum := List.sum_nonneg hdts2
    rw [List.sum_cons] at hsum
    rcases hphase with ⟨hPI, hlt⟩ | hPI
    · obtain ⟨hon2, hcase, hact2⟩ :=
        scenario_onPath A hypot hhyp fuel dt (some lv) onEscape onKilled c c2 ev hc hdt hPI hlt hupd
      rcases hcase with ⟨hlt2, hx2, hpi2⟩ | ⟨hge2, hx2, hpi2⟩
      · have hx02 : 0 ≤ c2.X := by rw [hx2]; linarith
        have hin := not_hasEscaped_of_inside lv layer rest hlv hW hHt c2 hx02
          (by rw [hx2]; linarith) hon2.1
        exact ih c2 log1 hon2 (by rw [hact2 ⟨c2, rfl, rfl, hin⟩]; exact hact) hdts2 hx02
          (by rw [hx2]; linarith) (Or.inl ⟨hpi2, by rw [hx2]; exact hlt2⟩) hrest
      · have hin := not_hasEscaped_of_inside lv layer rest hlv hW hHt c2
          (by rw [hx2]; norm_num) (by rw [hx2]) hon2.1
        exact ih c2 log1 hon2 (by rw [hact2 ⟨c2, rfl, rfl, hin⟩]; exact hact) hdts2
          (by rw [hx2]; norm_num) (by rw [hx2]; linarith) (Or.inr hpi2) hrest
    · obtain ⟨hon2, hx2, hpi2, hact2⟩ :=
        scenario_offPath A hypot hhyp fuel dt (some lv) onEscape onKilled c c2 ev hc hdt hPI hupd
      have hx02 : 0 ≤ c2.X := by rw [hx2]; linarith
      have hin := not_hasEscaped_of_inside lv layer rest hlv hW hHt c2 hx02
        (by rw [hx2]; linarith) hon2.1
      exact ih c2 log1 hon2 (by rw [hact2 ⟨c2, rfl, rfl, hin⟩]; exact hact) hdts2 hx02
        (by rw [hx2]; linarith) (Or.inr hpi2) hrest

/-- The scenario creep stays on the row `y = 0` with path index 1 once it has passed `(5,0)`. -/
theorem scenario_beyond (A : CreepAssets) (hypot : ℚ → ℚ → ℚ)
    (hhyp : ∀ dx, hypot dx 0 = |dx|) (fuel : Nat) (onEscape onKilled : Bool)
    (ticks : List (ℚ × Option TilemapJSON)) (c c1 : Creep) (log : List CreepEvent)
    (hc : c.OnScenario) (hPI : c.PathIndex = 1) (hdts : ∀ t ∈ ticks, 0 ≤ t.1)
    (h : Creep.run A hypot fuel onEscape onKilled (ticksOf ticks) c = .ok (c1, log)) :
    c1.OnScenario ∧ c1.PathIndex = 1 := by
  induction ticks generalizing c log with
  | nil =>
    simp only [ticksOf, List.map_nil, run_nil] at h
    cases h
    exact ⟨hc, hPI⟩
  | cons t ticks ih =>
    simp only [ticksOf, List.map_cons] at h
    obtain ⟨c2, ev, log1, hupd, hrest, _⟩ := run_update_ok _ _ _ _ _ _ _ _ _ _ _ h
    obtain ⟨hon2, _, hpi2, _⟩ :=
      scenario_offPath A hypot hhyp fuel t.1 t.2 onEscape onKilled c c2 ev hc
        (hdts t (List.mem_cons_self _ _)) hPI hupd
    exact ih c2 log1 hon2 hpi2 (fun d hd => hdts d (List.mem_cons_of_mem _ hd)) hrest

/-! ### Death handling -/

/-- An `Update` either performs the death transition (health exhausted, not yet dying) or
leaves `IsDying` alone and raises no `onKilled`. -/
theorem Update_kill_spec (A : CreepAssets) (hypot : ℚ → ℚ → ℚ) (fuel : Nat) (dt : ℚ)
    (level : Option TilemapJSON) (onEscape onKilled : Bool) (c c1 : Creep)
    (ev : List CreepEvent)
    (h : c.Update A hypot fuel dt level onEscape onKilled = .ok (c1, ev)) :
    (c.Health ≤ 0 ∧ c.IsDying = false ∧ c1.IsDying = true ∧
        ev = (if onKilled = true then [CreepEvent.killed 15] else []) ∧
        ∃ a, c1.Animation = some a ∧ a.isPlaying = true ∧ a.loop = false) ∨
      (¬ (c.Health ≤ 0 ∧ c.IsDying = false) ∧ c1.IsDying = c.IsDying ∧
        ∀ e ∈ ev, e.isKilled = false) := by
  rcases Update_cases _ _ _ _ _ _ _ _ _ _ h with
    ⟨hle, hnd, ⟨a, ha, rfl⟩, hev⟩ | ⟨hd, ⟨a, a1, _, _, rfl⟩, hev⟩ |
    ⟨hpos, hnd, _, ⟨a, a1, _, _, rfl⟩, hev⟩ | ⟨hpos, hnd, _, _, cm, hcm, hrest⟩
  · left
    refine ⟨hle, hnd, rfl, hev, a.Play, rfl, rfl, ?_⟩
    unfold NewAnimatedSprite at ha
    split_ifs at ha
    cases ha
    rfl
  · right
    refine ⟨fun hc => ?_, rfl, fun e he => ?_⟩
    · rw [hd] at hc
      cases hc.2
    · rw [hev] at he
      cases he
  · right
    refine ⟨fun hc => absurd hpos (not_lt.mpr hc.1), rfl, fun e he => ?_⟩
    rw [hev] at he
    cases he
  · right
    have hf := move_fields _ _ _ _ hcm
    have hdy : cm.IsDying = c.IsDying := by rw [hf]
    refine ⟨fun hc => absurd hpos (not_lt.mpr hc.1), ?_, fun e he => ?_⟩
    · rcases hrest with ⟨_, rfl, _⟩ | ⟨_, ⟨an, rfl⟩, _⟩
      · exact hdy
      · exact hdy
    · rcases hrest with ⟨_, _, hev⟩ | ⟨_, _, hev⟩
      · rw [hev] at he
        split_ifs at he
        · rw [List.mem_singleton] at he
          rw [he]
          rfl
        · cases he
      · rw [hev] at he
        cases he

theorem TakeDamage_isDying (amount : ℚ) (c : Creep) :
    (c.TakeDamage amount).IsDying = c.IsDying := by
  rw [TakeDamage_fields]

/-- Over a whole run `onKilled` is raised at most once, always with 15, and never for a creep
that is already dying. -/
theorem run_kill_count (A : CreepAssets) (hypot : ℚ → ℚ → ℚ) (fuel : Nat)
    (onEscape onKilled : Bool) (calls : List CreepCall) (c c1 : Creep) (log : List CreepEvent)
    (h : Creep.run A hypot fuel onEscape onKilled calls c = .ok (c1, log)) :
    (c.IsDying = true → log.filter CreepEvent.isKilled = []) ∧
      (log.filter CreepEvent.isKilled).length ≤ 1 ∧
      ∀ e ∈ log, e.isKilled = true → e = CreepEvent.killed 15 := by
  induction calls generalizing c log with
  | nil =>
    rw [run_nil] at h
    cases h
    simp
  | cons call rest ih =>
    cases call with
    | takeDamage amount =>
      rw [run_takeDamage] at h
      have := ih _ _ h
      rw [TakeDamage_isDying] at this
      exact this
    | update dt level =>
      obtain ⟨c2, ev, log1, hupd, hrest, rfl⟩ := run_update_ok _ _ _ _ _ _ _ _ _ _ _ h
      obtain ⟨ih1, ih2, ih3⟩ := ih _ _ hrest
      rcases Update_kill_spec _ _ _ _ _ _ _ _ _ _ hupd with
        ⟨_, hnd, hd2, hev, _⟩ | ⟨_, hsame, hnone⟩
      · have hlog1 := ih1 hd2
        refine ⟨fun hd => ?_, ?_, fun e he hk => ?_⟩
        · rw [hnd] at hd
          cases hd
        · rw [List.filter_append, hlog1, List.append_nil, hev]
          split_ifs <;> simp [CreepEvent.isKilled]
        · rcases List.mem_append.mp he with he1 | he1
          · rw [hev] at he1
            split_ifs at he1
            · exact List.mem_singleton.mp he1
            · cases he1
          · exact ih3 e he1 hk
      · have hev0 : ev.filter CreepEvent.isKilled = [] := by
          rw [List.filter_eq_nil_iff]
          intro e he
          rw [hnone e he]
          exact Bool.false_ne_true
        refine ⟨fun hd => ?_, ?_, fun e he hk => ?_⟩
        · rw [List.filter_append, hev0, List.nil_append]
          exact ih1 (by rw [hsame]; exact hd)
        · rw [List.filter_append, hev0, List.nil_append]
          exact ih2
        · rcases List.mem_append.mp he with he1 | he1
          · rw [hnone e he1] at hk
            cases hk
          · exact ih3 e he1 hk

end Creep

/-! ## Facts about `CreepManager.Update` -/

/-- Escape events of one `Update`: at most one, raised together with deactivation and carrying
the creep's damage. -/
theorem Creep.Update_escape_spec (A : CreepAssets) (hypot : ℚ → ℚ → ℚ) (fuel : Nat) (dt : ℚ)
    (level : Option TilemapJSON) (onEscape onKilled : Bool) (c c1 : Creep)
    (ev : List CreepEvent)
    (h : c.Update A hypot fuel dt level onEscape onKilled = .ok (c1, ev)) :
    (∀ e ∈ ev, e.isEscaped = true → c1.Active = false ∧ e = CreepEvent.escaped c.Damage) ∧
      (ev.filter CreepEvent.isEscaped).length ≤ 1 := by
  rcases Creep.Update_cases _ _ _ _ _ _ _ _ _ _ h with
    ⟨_, _, _, hev⟩ | ⟨_, _, hev⟩ | ⟨_, _, _, _, hev⟩ | ⟨_, _, _, _, cm, hcm, hrest⟩
  · rw [hev]
    split_ifs <;> simp [CreepEvent.isEscaped]
  · rw [hev]
    simp
  · rw [hev]
    simp
  · have hf := Creep.move_fields _ _ _ _ hcm
    have hdmg : cm.Damage = c.Damage := by rw [hf]
    rcases hrest with ⟨_, rfl, hev⟩ | ⟨_, _, hev⟩
    · rw [hev, hdmg]
      split_ifs <;> simp [CreepEvent.isEscaped]
    · rw [hev]
      simp

namespace CreepManager

theorem forwarded_escaped (onCreepEscape : Bool) (ev : List CreepEvent) (e : CreepEvent)
    (he : e ∈ forwarded onCreepEscape ev) : e ∈ ev :=
  (List.mem_filter.mp he).1

theorem forwarded_escape_count (onCreepEscape : Bool) (ev : List CreepEvent) :
    ((forwarded onCreepEscape ev).filter CreepEvent.isEscaped).length ≤
      (ev.filter CreepEvent.isEscaped).length := by
  unfold forwarded
  rw [List.filter_comm]
  exact List.length_filter_le _ _

theorem escapesOf_append (id : Int) (l1 l2 : List ManagerEvent) :
    escapesOf id (l1 ++ l2) = escapesOf id l1 + escapesOf id l2 := by
  simp only [escapesOf, List.filter_append, List.length_append]

theorem escapesOf_eq_zero (id : Int) (log : List ManagerEvent)
    (h : ∀ e ∈ log, e.event.isEscaped = true → e.creepID ≠ id) : escapesOf id log = 0 := by
  unfold escapesOf
  rw [List.length_eq_zero, List.filter_eq_nil_iff]
  intro e he hc
  simp only [Bool.and_eq_true, decide_eq_true_eq] at hc
  exact h e he hc.2 hc.1

theorem escapesOf_tagged (id cid : Int) (ev : List CreepEvent) :
    escapesOf id (ev.map (ManagerEvent.mk cid)) ≤ (ev.filter CreepEvent.isEscaped).length := by
  unfold escapesOf
  induction ev with
  | nil => simp
  | cons e rest ih =>
    simp only [List.map_cons, List.filter_cons]
    by_cases h1 : e.isEscaped = true
    · by_cases h2 : cid = id
      · simp only [h1, h2, decide_True, Bool.and_self, if_true, List.length_cons]
        simp only [h2] at ih
        omega
      · simp only [h1, h2, decide_False, Bool.false_and, if_true, List.length_cons]
        simp only [Bool.false_eq_true, if_false]
        omega
    · simp only [h1, Bool.and_false, if_false]
      simp only [Bool.false_eq_true, if_false]
      exact ih

/-- Outcome of the loop of `Update` on a creep list with pairwise distinct IDs. -/
theorem updateCreeps_spec (A : CreepAssets) (hypot : ℚ → ℚ → ℚ) (fuel : Nat)
    (level : Option TilemapJSON) (dt : ℚ) (onCreepEscape onCreepKilled : Bool)
    (cs remaining : List Creep) (log : List ManagerEvent)
    (hids : (cs.map Creep.ID).Nodup)
    (h : updateCreeps A hypot fuel level dt onCreepEscape onCreepKilled cs =
      .ok (remaining, log)) :
    (∀ c1 ∈ remaining, c1.Active = true ∧ ∃ c ∈ cs, c1.ID = c.ID ∧ c1.Damage = c.Damage) ∧
      (remaining.map Creep.ID).Nodup ∧
      (∀ e ∈ log, ∃ c ∈ cs, e.creepID = c.ID ∧ c.Active = true ∧
        ∃ c1 ev, c.Update A hypot fuel dt level true onCreepKilled = .ok (c1, ev) ∧
          (e.event.isEscaped = true →
            c1.Active = false ∧ e.event = CreepEvent.escaped c.Damage ∧
              ∀ r ∈ remaining, r.ID ≠ e.creepID)) ∧
      ∀ id, escapesOf id log ≤ 1 := by
  induction cs generalizing remaining log with
  | nil =>
    simp only [updateCreeps] at h
    cases h
    simp [escapesOf]
  | cons creep rest ih =>
    rw [List.map_cons, List.nodup_cons] at hids
    obtain ⟨hnotin, hrestids⟩ := hids
    simp only [updateCreeps] at h
    split at h
    · cases h
    · rename_i c1 ev hstep
      split at h
      · cases h
      · rename_i rem1 log1 hrec
        obtain ⟨ih1, ih2, ih3, ih4⟩ := ih rem1 log1 hrestids hrec
        have hremid : ∀ r ∈ rem1, r.ID ≠ creep.ID := by
          intro r hr heq
          obtain ⟨_, c, hc, hid, _⟩ := ih1 r hr
          apply hnotin
          rw [← heq, hid]
          exact List.mem_map_of_mem _ hc
        have hlogid : ∀ e ∈ log1, e.creepID ≠ creep.ID := by
          intro e he heq
          obtain ⟨c, hc, hid, _⟩ := ih3 e he
          apply hnotin
          rw [← heq, hid]
          exact List.mem_map_of_mem _ hc
        simp only [Creep.IsActive] at h hstep
        cases h
        by_cases hact : creep.Active = true
        · rw [if_pos hact] at hstep
          have hf := Creep.Update_frame _ _ _ _ _ _ _ _ _ _ hstep
          have hesc := Creep.Update_escape_spec _ _ _ _ _ _ _ _ _ _ hstep
          refine ⟨?_, ?_, ?_, ?_⟩
          · intro r hr
            split_ifs at hr with hc1
            · rcases List.mem_cons.mp hr with rfl | hr
              · exact ⟨hc1, creep, List.mem_cons_self _ _, hf.2.1, hf.2.2.1⟩
              · obtain ⟨ha, c, hc, hid⟩ := ih1 r hr
                exact ⟨ha, c, List.mem_cons_of_mem _ hc, hid⟩
            · obtain ⟨ha, c, hc, hid⟩ := ih1 r hr
              exact ⟨ha, c, List.mem_cons_of_mem _ hc, hid⟩
          · split_ifs with hc1
            · rw [List.map_cons, List.nodup_cons]
              refine ⟨?_, ih2⟩
              intro hin
              obtain ⟨r, hr, hrid⟩ := List.mem_map.mp hin
              exact hremid r hr (by rw [hrid, hf.2.1])
            · exact ih2
          · intro e he
            rcases List.mem_append.mp he with he | he
            · obtain ⟨e0, he0, rfl⟩ := List.mem_map.mp he
              have he0' := forwarded_escaped _ _ _ he0
              refine ⟨creep, List.mem_cons_self _ _, rfl, hact, c1, ev, hstep, fun hE => ?_⟩
              obtain ⟨hina, heq⟩ := hesc.1 e0 he0' hE
              refine ⟨hina, heq, fun r hr => ?_⟩
              have hc1 : ¬ c1.Active = true := by
                rw [hina]
                exact Bool.false_ne_true
              rw [if_neg hc1] at hr
              exact hremid r hr
            · obtain ⟨c, hc, hid, hca, c2, ev2, hupd, himp⟩ := ih3 e he
              refine ⟨c, List.mem_cons_of_mem _ hc, hid, hca, c2, ev2, hupd, fun hE => ?_⟩
              obtain ⟨h1, h2, h3⟩ := himp hE
              refine ⟨h1, h2, fun r hr => ?_⟩
              split_ifs at hr with hc1
              · rcases List.mem_cons.mp hr with rfl | hr
                · rw [hf.2.1]
                  exact fun heq => hlogid e he heq.symm
                · exact h3 r hr
              · exact h3 r hr
          · intro id
            rw [escapesOf_append]
            by_cases hid : creep.ID = id
            · have h0 : escapesOf id log1 = 0 :=
                escapesOf_eq_zero id log1 fun e he _ => by
                  rw [← hid]
                  exact hlogid e he
              have h1 := escapesOf_tagged id creep.ID (forwarded onCreepEscape ev)
              have h2 := forwarded_escape_count onCreepEscape ev
              have h3 := hesc.2
              omega
            · have h0 : escapesOf id ((forwarded onCreepEscape ev).map
                  (ManagerEvent.mk creep.ID)) = 0 :=
                escapesOf_eq_zero id _ fun e he _ => by
                  obtain ⟨e0, _, rfl⟩ := List.mem_map.mp he
                  exact hid
              have := ih4 id
              omega
        · rw [if_neg hact] at hstep
          cases hstep
          rw [if_neg hact]
          simp only [forwarded, List.filter_nil, List.map_nil, List.nil_append]
          refine ⟨?_, ih2, ?_, ih4⟩
          · intro r hr
            obtain ⟨ha, c, hc, hid⟩ := ih1 r hr
            exact ⟨ha, c, List.mem_cons_of_mem _ hc, hid⟩
          · intro e he
            obtain ⟨c, hc, hid, hca, c2, ev2, hupd, himp⟩ := ih3 e he
            exact ⟨c, List.mem_cons_of_mem _ hc, hid, hca, c2, ev2, hupd, himp⟩

theorem Update_ok (A : CreepAssets) (hypot : ℚ → ℚ → ℚ) (fuel : Nat)
    (level : Option TilemapJSON) (dt : ℚ) (cm cm1 : CreepManager) (log : List ManagerEvent)
    (h : cm.Update A hypot fuel level dt = .ok (cm1, log)) :
    updateCreeps A hypot fuel level dt cm.onCreepEscape cm.onCreepKilled cm.creeps =
        .ok (cm1.creeps, log) ∧
      cm1.onCreepEscape = cm.onCreepEscape ∧ cm1.onCreepKilled = cm.onCreepKilled := by
  unfold Update at h
  split at h
  · cases h
  · rename_i remaining log1 h1
    cases h
    exact ⟨h1, rfl, rfl⟩

theorem run_cons_ok (A : CreepAssets) (hypot : ℚ → ℚ → ℚ) (fuel : Nat)
    (t : Option TilemapJSON × ℚ) (rest : List (Option TilemapJSON × ℚ))
    (cm cm2 : CreepManager) (log : List ManagerEvent)
    (h : cm.run A hypot fuel (t :: rest) = .ok (cm2, log)) :
    ∃ cm1 log1 log2, cm.Update A hypot fuel t.1 t.2 = .ok (cm1, log1) ∧
      cm1.run A hypot fuel rest = .ok (cm2, log2) ∧ log = log1 ++ log2 := by
  simp only [run] at h
  split at h
  · cases h
  · rename_i cm1 log1 h1
    split at h
    · cases h
    · rename_i cm3 log2 h2
      cases h
      exact ⟨cm1, log1, log2, h1, h2, rfl⟩

theorem escapesOf_pos (id : Int) (log : List ManagerEvent) (h : 0 < escapesOf id log) :
    ∃ e ∈ log, e.creepID = id ∧ e.event.isEscaped = true := by
  unfold escapesOf at h
  obtain ⟨e, he⟩ := List.exists_mem_of_length_pos h
  obtain ⟨hmem, hp⟩ := List.mem_filter.mp he
  simp only [Bool.and_eq_true, decide_eq_true_eq] at hp
  exact ⟨e, hmem, hp.1, hp.2⟩

/-- Over a run of ticks from a manager whose creeps have pairwise distinct IDs, every escape
invocation is for a creep of the initial list with that creep's damage, and no creep gets two. -/
theorem run_escape_spec (A : CreepAssets) (hypot : ℚ → ℚ → ℚ) (fuel : Nat)
    (ticks : List (Option TilemapJSON × ℚ)) (cm cm1 : CreepManager) (log : List ManagerEvent)
    (hids : (cm.creeps.map Creep.ID).Nodup)
    (h : cm.run A hypot fuel ticks = .ok (cm1, log)) :
    (∀ c1 ∈ cm1.creeps, ∃ c ∈ cm.creeps, c1.ID = c.ID ∧ c1.Damage = c.Damage) ∧
      (∀ e ∈ log, ∃ c ∈ cm.creeps, c.ID = e.creepID ∧
        (e.event.isEscaped = true → e.event = CreepEvent.escaped c.Damage)) ∧
      ∀ id, escapesOf id log ≤ 1 := by
  induction ticks generalizing cm log with
  | nil =>
    simp only [run] at h
    cases h
    refine ⟨fun c1 hc1 => ⟨c1, hc1, rfl, rfl⟩, fun e he => absurd he (List.not_mem_nil e),
      fun id => ?_⟩
    simp [escapesOf]
  | cons t rest ih =>
    obtain ⟨cmA, logA, logB, hupd, hrun, rfl⟩ := run_cons_ok _ _ _ _ _ _ _ _ h
    obtain ⟨hloop, _, _⟩ := Update_ok _ _ _ _ _ _ _ _ hupd
    obtain ⟨s1, s2, s3, s4⟩ := updateCreeps_spec _ _ _ _ _ _ _ _ _ _ hids hloop
    obtain ⟨ih1, ih2, ih3⟩ := ih cmA logB s2 hrun
    refine ⟨fun c1 hc1 => ?_, fun e he => ?_, fun id => ?_⟩
    · obtain ⟨cA, hcA, hid, hdmg⟩ := ih1 c1 hc1
      obtain ⟨_, c, hc, hid2, hdmg2⟩ := s1 cA hcA
      exact ⟨c, hc, hid.trans hid2, hdmg.trans hdmg2⟩
    · rcases List.mem_append.mp he with he | he
      · obtain ⟨c, hc, hid, _, c1, ev, _, himp⟩ := s3 e he
        exact ⟨c, hc, hid.symm, fun hE => (himp hE).2.1⟩
      · obtain ⟨cA, hcA, hid, himp⟩ := ih2 e he
        obtain ⟨_, c, hc, hid2, hdmg2⟩ := s1 cA hcA
        exact ⟨c, hc, hid2.symm.trans hid, fun hE => by rw [himp hE, hdmg2]⟩
    · rw [escapesOf_append]
      by_cases hpos : 0 < escapesOf id logA
      · obtain ⟨e, he, heid, hE⟩ := escapesOf_pos id logA hpos
        obtain ⟨c, hc, hid, _, c1, ev, _, himp⟩ := s3 e he
        have hgone := (himp hE).2.2
        have h0 : escapesOf id logB = 0 :=
          escapesOf_eq_zero id logB fun e2 he2 _ heq => by
            obtain ⟨cA, hcA, hidA, _⟩ := ih2 e2 he2
            exact hgone cA hcA (by rw [hidA, heq, heid])
        have := s4 id
        omega
      · have := ih3 id
        omega

theorem updateCreeps_total (A : CreepAssets) (hypot : ℚ → ℚ → ℚ)
    (level : Option TilemapJSON) (dt : ℚ) (onCreepEscape onCreepKilled : Bool)
    (cs : List Creep) (hA : A.Loaded) (hcs : ∀ c ∈ cs, c.Ready) :
    ∃ k remaining log, (∀ fuel, k ≤ fuel →
        updateCreeps A hypot fuel level dt onCreepEscape onCreepKilled cs =
          .ok (remaining, log)) ∧ ∀ c ∈ remaining, c.Ready := by
  induction cs with
  | nil => exact ⟨0, [], [], fun _ _ => rfl, fun c hc => absurd hc (List.not_mem_nil c)⟩
  | cons creep rest ih =>
    obtain ⟨k2, rem1, log1, h2, hr2⟩ := ih fun c hc => hcs c (List.mem_cons_of_mem _ hc)
    have hready := hcs creep (List.mem_cons_self _ _)
    by_cases hact : creep.Active = true
    · obtain ⟨k1, c1, ev, h1, hr1⟩ :=
        Creep.Update_total A hypot dt level true onCreepKilled creep hA hready
      refine ⟨max k1 k2, if c1.IsActive = true then c1 :: rem1 else rem1,
        (forwarded onCreepEscape ev).map (ManagerEvent.mk creep.ID) ++ log1,
        fun fuel hf => ?_, fun c hc => ?_⟩
      · simp only [updateCreeps, Creep.IsActive, if_pos hact,
          h1 fuel (le_trans (le_max_left _ _) hf), h2 fuel (le_trans (le_max_right _ _) hf)]
      · split_ifs at hc
        · rcases List.mem_cons.mp hc with rfl | hc
          · exact hr1
          · exact hr2 c hc
        · exact hr2 c hc
    · refine ⟨k2, rem1, log1, fun fuel hf => ?_, hr2⟩
      simp only [updateCreeps, Creep.IsActive, if_neg hact, h2 fuel hf, forwarded,
        List.filter_nil, List.map_nil, List.nil_append]

theorem ticks_total (A : CreepAssets) (hypot : ℚ → ℚ → ℚ)
    (ticks : List (Option TilemapJSON × ℚ)) (cm : CreepManager) (hA : A.Loaded)
    (hcs : ∀ c ∈ cm.creeps, c.Ready) :
    ∃ k r, ∀ fuel, k ≤ fuel → cm.run A hypot fuel ticks = .ok r := by
  induction ticks generalizing cm with
  | nil => exact ⟨0, (cm, []), fun _ _ => rfl⟩
  | cons t rest ih =>
    obtain ⟨k1, rem1, log1, h1, hr1⟩ :=
      updateCreeps_total A hypot t.1 t.2 cm.onCreepEscape cm.onCreepKilled cm.creeps hA hcs
    obtain ⟨k2, r, h2⟩ := ih { cm with creeps := rem1 } hr1
    refine ⟨max k1 k2, (r.1, log1 ++ r.2), fun fuel hf => ?_⟩
    simp only [run, Update, h1 fuel (le_trans (le_max_left _ _) hf),
      h2 fuel (le_trans (le_max_right _ _) hf)]

end CreepManager

/-! ## Creep contracts -/

/-- C4 (kill triggers once): over every interleaving of `TakeDamage` and `Update` calls on any
creep, `onKilled` is invoked at most once and only with the reward 15. An `Update` invokes it
exactly when it runs with `Health ≤ 0` on a creep that is not yet dying; that call sets
`IsDying` and installs a playing, non-looping death animation. `IsDying` holds after an
`Update` exactly when it held before or the call ran with `Health ≤ 0`, and `TakeDamage` never
changes it, so the invoking call is the first `Update` that runs with `Health ≤ 0`. With loaded
assets and a ready creep every such interleaving returns. -/
theorem kill_triggers_once (A : CreepAssets) (hypot : ℚ → ℚ → ℚ) (onEscape onKilled : Bool) :
    (∀ fuel calls c c1 log,
        Creep.run A hypot fuel onEscape onKilled calls c = .ok (c1, log) →
        (log.filter CreepEvent.isKilled).length ≤ 1 ∧
          ∀ e ∈ log, e.isKilled = true → e = CreepEvent.killed 15) ∧
      (∀ fuel dt level (c c1 : Creep) ev,
        c.Update A hypot fuel dt level onEscape onKilled = .ok (c1, ev) →
        (c1.IsDying = true ↔ (c.IsDying = true ∨ c.Health ≤ 0)) ∧
          ((c.Health ≤ 0 ∧ c.IsDying = false) →
            ev = (if onKilled = true then [CreepEvent.killed 15] else []) ∧
              ∃ a, c1.Animation = some a ∧ a.isPlaying = true ∧ a.loop = false) ∧
          (¬ (c.Health ≤ 0 ∧ c.IsDying = false) → ∀ e ∈ ev, e.isKilled = false)) ∧
      (∀ amount (c : Creep), (c.TakeDamage amount).IsDying = c.IsDying) ∧
      (∀ calls (c : Creep), A.Loaded → c.Ready → ∃ k, ∀ fuel, k ≤ fuel →
        ∃ r, Creep.run A hypot fuel onEscape onKilled calls c = .ok r) := by
  refine ⟨fun fuel calls c c1 log h => ?_, fun fuel dt level c c1 ev h => ?_,
    fun amount c => Creep.TakeDamage_isDying amount c, fun calls c hA hc => ?_⟩
  · exact (Creep.run_kill_count _ _ _ _ _ _ _ _ _ h).2
  · rcases Creep.Update_kill_spec _ _ _ _ _ _ _ _ _ _ h with
      ⟨hle, hnd, hd1, hev, hanim⟩ | ⟨hnot, hsame, hnone⟩
    · exact ⟨⟨fun _ => Or.inr hle, fun _ => hd1⟩, fun _ => ⟨hev, hanim⟩,
        fun hn => absurd ⟨hle, hnd⟩ hn⟩
    · refine ⟨⟨fun hd => Or.inl (by rw [← hsame]; exact hd), fun hor => ?_⟩,
        fun hc => absurd hc hnot, fun _ => hnone⟩
      rcases hor with hd | hle
      · rw [hsame]
        exact hd
      · rw [hsame]
        cases hx : c.IsDying
        · exact absurd ⟨hle, hx⟩ hnot
        · rfl
  · obtain ⟨k, r, hk⟩ := Creep.run_total A hypot onEscape onKilled calls c hA hc
    exact ⟨k, fun fuel hf => ⟨r, hk fuel hf⟩⟩

/-- C5 (escape triggers once): for a manager whose creeps carry pairwise distinct IDs and every
sequence of `CreepManager.Update` calls, the escape callback is raised at most once per creep
and always with that creep's `Damage`; in the tick in which it is raised the creep's `Update`
left it with `Active = false` and it is no longer in the creep list when the manager's `Update`
returns (the IDs of the list stay distinct). With loaded assets and ready creeps every such
sequence returns. -/
theorem escape_triggers_once (A : CreepAssets) (hypot : ℚ → ℚ → ℚ) (cm : CreepManager)
    (hids : (cm.creeps.map Creep.ID).Nodup) :
    (∀ fuel ticks cm1 log, cm.run A hypot fuel ticks = .ok (cm1, log) →
        (∀ id, escapesOf id log ≤ 1) ∧
          ∀ e ∈ log, e.event.isEscaped = true →
            ∃ c ∈ cm.creeps, c.ID = e.creepID ∧ e.event = CreepEvent.escaped c.Damage) ∧
      (∀ fuel level dt cm1 log, cm.Update A hypot fuel level dt = .ok (cm1, log) →
        (cm1.creeps.map Creep.ID).Nodup ∧
          ∀ e ∈ log, e.event.isEscaped = true →
            ∃ c ∈ cm.creeps, c.ID = e.creepID ∧
              ∃ c1 ev, c.Update A hypot fuel dt level true cm.onCreepKilled = .ok (c1, ev) ∧
                c1.Active = false ∧ e.event = CreepEvent.escaped c.Damage ∧
                ∀ r ∈ cm1.creeps, r.ID ≠ e.creepID) ∧
      (A.Loaded → (∀ c ∈ cm.creeps, c.Ready) → ∀ ticks, ∃ k, ∀ fuel, k ≤ fuel →
        ∃ r, cm.run A hypot fuel ticks = .ok r) := by
  refine ⟨fun fuel ticks cm1 log h => ?_, fun fuel level dt cm1 log h => ?_,
    fun hA hcs ticks => ?_⟩
  · obtain ⟨_, h2, h3⟩ := CreepManager.run_escape_spec _ _ _ _ _ _ _ hids h
    refine ⟨h3, fun e he hE => ?_⟩
    obtain ⟨c, hc, hid, himp⟩ := h2 e he
    exact ⟨c, hc, hid, himp hE⟩
  · obtain ⟨hloop, _, _⟩ := CreepManager.Update_ok _ _ _ _ _ _ _ _ h
    obtain ⟨_, s2, s3, _⟩ := CreepManager.updateCreeps_spec _ _ _ _ _ _ _ _ _ _ hids hloop
    refine ⟨s2, fun e he hE => ?_⟩
    obtain ⟨c, hc, hid, _, c1, ev, hupd, himp⟩ := s3 e he
    obtain ⟨h1, h2, h3⟩ := himp hE
    exact ⟨c, hc, hid.symm, c1, ev, hupd, h1, h2, h3⟩
  · obtain ⟨k, r, hk⟩ := CreepManager.ticks_total A hypot ticks cm hA hcs
    exact ⟨k, fun fuel hf => ⟨r, hk fuel hf⟩⟩

theorem escape_triggers_once_witness :
    (demoManager.run repoCreepAssets axisHypot 0 [(some (levelOfSize 5 5), 1 / 4)] =
        .ok ({ demoManager with creeps := [] }, [⟨1, CreepEvent.escaped 2⟩])) ∧
      (∀ id, escapesOf id [(⟨1, CreepEvent.escaped 2⟩ : ManagerEvent)] ≤ 1) ∧
      ∀ e ∈ [(⟨1, CreepEvent.escaped 2⟩ : ManagerEvent)], e.event.isEscaped = true →
        ∃ c ∈ demoManager.creeps, c.ID = e.creepID ∧ e.event = CreepEvent.escaped c.Damage :=
  have hrun : demoManager.run repoCreepAssets axisHypot 0 [(some (levelOfSize 5 5), 1 / 4)] =
      .ok ({ demoManager with creeps := [] }, [⟨1, CreepEvent.escaped 2⟩]) := by
    norm_num [demoManager, CreepManager.run, CreepManager.Update, CreepManager.updateCreeps,
      CreepManager.forwarded, Creep.IsActive, arrivedCreep, scenarioCreep, NewCreep,
      Creep.Update, Creep.move, Creep.exitPath, Creep.exitDirection, axisHypot,
      Creep.hasEscaped, levelOfSize]
  ⟨hrun,
    (escape_triggers_once repoCreepAssets axisHypot demoManager
      (by simp [demoManager])).1 0 [(some (levelOfSize 5 5), 1 / 4)] _ _ hrun⟩

/-- C6, counterexample: on a map of width 5 the scenario creep, standing on its final waypoint
`(5,0)`, moves to `x = 5.5` in a quarter of a second; although `5.5 ≤ 5 + 1` it is deactivated
and the escape callback is raised with its damage. -/
theorem escape_tolerance_counterexample :
    ((arrivedCreep.Update repoCreepAssets axisHypot 0 (1 / 4) (some (levelOfSize 5 5))
        true true).map fun r => (r.1.X, r.1.Y, r.1.Active, r.2)) =
        .ok (11 / 2, 0, false, [CreepEvent.escaped 2]) ∧
      ¬ ((11 / 2 : ℚ) > 5 + 1) := by
  constructor
  · norm_num [arrivedCreep, scenarioCreep, NewCreep, Creep.Update, Creep.move, Creep.exitPath,
      Creep.exitDirection, axisHypot, Creep.hasEscaped, levelOfSize, Except.map]
  · norm_num

/-- C6, amended (escape bounds): for a moving creep (not dying, positive health, start delay
over, non-empty path) on a map whose first layer is `W` by `H` grid units, `Update` deactivates
the creep and raises `onEscape` with the creep's damage exactly when the post-move position
satisfies `x < -1`, `x > W`, `y < -1` or `y > H`; otherwise `Active` is unchanged and nothing is
raised. With loaded assets and a ready creep the call returns. -/
theorem escape_bounds (A : CreepAssets) (hypot : ℚ → ℚ → ℚ) (dt : ℚ) (lv : TilemapJSON)
    (layer : TilemapLayerJSON) (rest : List TilemapLayerJSON) (onEscape onKilled : Bool)
    (c : Creep) (hlv : lv.Layers = layer :: rest) (hdying : c.IsDying = false)
    (hH : 0 < c.Health) (hT : c.StartDelay ≤ c.Timer + dt) (hpath : c.Path ≠ []) :
    (∀ fuel c1 ev, c.Update A hypot fuel dt (some lv) onEscape onKilled = .ok (c1, ev) →
        ((c1.X < -1 ∨ c1.X > (layer.Width : ℚ) ∨ c1.Y < -1 ∨ c1.Y > (layer.Height : ℚ)) →
          c1.Active = false ∧
            ev = if onEscape = true then [CreepEvent.escaped c.Damage] else []) ∧
        (¬ (c1.X < -1 ∨ c1.X > (layer.Width : ℚ) ∨ c1.Y < -1 ∨ c1.Y > (layer.Height : ℚ)) →
          c1.Active = c.Active ∧ ev = [])) ∧
      (A.Loaded → c.Ready → ∃ k, ∀ fuel, k ≤ fuel →
        ∃ r, c.Update A hypot fuel dt (some lv) onEscape onKilled = .ok r) := by
  constructor
  · intro fuel c1 ev h
    obtain ⟨cm, _, hx, hy, _, _, hcase⟩ :=
      Creep.Update_moving _ _ _ _ _ _ _ _ _ _ hdying hH hT hpath h
    have hiff := Creep.hasEscaped_iff lv layer rest hlv cm
    rw [← hx, ← hy] at hiff
    rcases hcase with ⟨hesc, hact, hev⟩ | ⟨hesc, hact, hev⟩
    · exact ⟨fun _ => ⟨hact, hev⟩, fun hn => absurd (hiff.mp hesc) hn⟩
    · refine ⟨fun hc => ?_, fun _ => ⟨hact, hev⟩⟩
      rw [hiff.mpr hc] at hesc
      cases hesc
  · intro hA hc
    obtain ⟨k, c1, ev, hk, _⟩ := Creep.Update_total A hypot dt (some lv) onEscape onKilled c hA hc
    exact ⟨k, fun fuel hf => ⟨_, hk fuel hf⟩⟩

theorem escape_bounds_witness :
    (∀ fuel c1 ev,
        arrivedCreep.Update repoCreepAssets axisHypot fuel (1 / 4) (some (levelOfSize 5 5))
          true true = .ok (c1, ev) →
        ((c1.X < -1 ∨ c1.X > ((5 : Int) : ℚ) ∨ c1.Y < -1 ∨ c1.Y > ((5 : Int) : ℚ)) →
          c1.Active = false ∧
            ev = if true = true then [CreepEvent.escaped arrivedCreep.Damage] else []) ∧
        (¬ (c1.X < -1 ∨ c1.X > ((5 : Int) : ℚ) ∨ c1.Y < -1 ∨ c1.Y > ((5 : Int) : ℚ)) →
          c1.Active = arrivedCreep.Active ∧ ev = [])) ∧
      (repoCreepAssets.Loaded → arrivedCreep.Ready → ∃ k, ∀ fuel, k ≤ fuel →
        ∃ r, arrivedCreep.Update repoCreepAssets axisHypot fuel (1 / 4)
          (some (levelOfSize 5 5)) true true = .ok r) :=
  escape_bounds repoCreepAssets axisHypot (1 / 4) (levelOfSize 5 5)
    { Data := [], Width := 5, Height := 5, Name := "" } [] true true arrivedCreep rfl rfl
    (by norm_num [arrivedCreep, scenarioCreep, NewCreep])
    (by norm_num [arrivedCreep, scenarioCreep, NewCreep])
    (by simp [arrivedCreep, scenarioCreep, NewCreep])

/-- End-to-end path following in exact arithmetic (no `float64` rounding): a live, active creep at `(0,0)` with path `[(0,0),(5,0)]`,
path index 0, speed 2 and start delay 0, on a map of width 5 and height `≥ 0`, is at exactly
`(5,0)` with `PathIndex = 1` and still active after any sequence of `Update(dt)` calls,
`dt ≥ 0`, whose durations sum to exactly 2.5; every later `Update(dt)`, `dt ≥ 0`, adds exactly
`2*dt` to `X` and leaves `Y = 0` and `PathIndex = 1`. With loaded assets and an animation of
positive frame duration the calls return. `hypot` is exact on horizontal vectors. -/
theorem end_to_end_path (A : CreepAssets) (hypot : ℚ → ℚ → ℚ)
    (hhyp : ∀ dx, hypot dx 0 = |dx|) (lv : TilemapJSON) (layer : TilemapLayerJSON)
    (rest : List TilemapLayerJSON) (hlv : lv.Layers = layer :: rest) (hW : layer.Width = 5)
    (hHt : 0 ≤ layer.Height) (onEscape onKilled : Bool) (c : Creep) (hX : c.X = 0)
    (hY : c.Y = 0) (hPath : c.Path = [⟨0, 0⟩, ⟨5, 0⟩]) (hPI : c.PathIndex = 0)
    (hSpeed : c.Speed = 2) (hDelay : c.StartDelay = 0) (hTimer : 0 ≤ c.Timer)
    (hHealth : 0 < c.Health) (hDying : c.IsDying = false) (hActive : c.Active = true)
    (dts : List ℚ) (hdts : ∀ dt ∈ dts, 0 ≤ dt) (hsum : dts.sum = 5 / 2) :
    (∀ fuel c1 log,
        Creep.run A hypot fuel onEscape onKilled (ticksOn (some lv) dts) c = .ok (c1, log) →
        c1.X = 5 ∧ c1.Y = 0 ∧ c1.PathIndex = 1 ∧ c1.Active = true ∧
          ∀ (later : List (ℚ × Option TilemapJSON)) fuel2 c2 log2,
            (∀ t ∈ later, 0 ≤ t.1) →
            Creep.run A hypot fuel2 onEscape onKilled (ticksOf later) c1 = .ok (c2, log2) →
            ∀ dt level fuel3 c3 ev, 0 ≤ dt →
              c2.Update A hypot fuel3 dt level onEscape onKilled = .ok (c3, ev) →
              c3.X = c2.X + 2 * dt ∧ c3.Y = 0 ∧ c3.PathIndex = 1) ∧
      (A.Loaded → c.AnimReady → ∃ k, ∀ fuel, k ≤ fuel →
        ∃ r, Creep.run A hypot fuel onEscape onKilled (ticksOn (some lv) dts) c = .ok r) := by
  have hc : c.OnScenario := ⟨hY, hPath, hSpeed, hDelay, hTimer, hHealth, hDying⟩
  constructor
  · intro fuel c1 log h
    obtain ⟨hon1, hx1, hpi1, hact1⟩ :=
      Creep.scenario_approach A hypot hhyp fuel lv layer rest hlv hW hHt onEscape onKilled dts
        c c1 log hc hActive hdts (by rw [hX]) (by rw [hX, hsum]; norm_num)
        (Or.inl ⟨hPI, by rw [hX]; norm_num⟩) h
    refine ⟨hx1, hon1.1, hpi1, hact1, ?_⟩
    intro later fuel2 c2 log2 hlater h2 dt level fuel3 c3 ev hdt h3
    obtain ⟨hon2, hpi2⟩ :=
      Creep.scenario_beyond A hypot hhyp fuel2 onEscape onKilled later c1 c2 log2 hon1 hpi1
        hlater h2
    obtain ⟨hon3, hx3, hpi3, _⟩ :=
      Creep.scenario_offPath A hypot hhyp fuel3 dt level onEscape onKilled c2 c3 ev hon2 hdt
        hpi2 h3
    exact ⟨hx3, hon3.1, hpi3⟩
  · intro hA hanim
    obtain ⟨k, r, hk⟩ := Creep.run_total A hypot onEscape onKilled (ticksOn (some lv) dts) c hA
      ⟨hanim, by rw [hPI]; norm_num⟩
    exact ⟨k, fun fuel hf => ⟨r, hk fuel hf⟩⟩

theorem end_to_end_path_witness :
    (∀ fuel c1 log,
        Creep.run repoCreepAssets axisHypot fuel true true
          (ticksOn (some (levelOfSize 5 5)) [1, 1 / 2, 1]) scenarioCreep = .ok (c1, log) →
        c1.X = 5 ∧ c1.Y = 0 ∧ c1.PathIndex = 1 ∧ c1.Active = true ∧
          ∀ (later : List (ℚ × Option TilemapJSON)) fuel2 c2 log2,
            (∀ t ∈ later, 0 ≤ t.1) →
            Creep.run repoCreepAssets axisHypot fuel2 true true (ticksOf later) c1 =
              .ok (c2, log2) →
            ∀ dt level fuel3 c3 ev, 0 ≤ dt →
              c2.Update repoCreepAssets axisHypot fuel3 dt level true true = .ok (c3, ev) →
              c3.X = c2.X + 2 * dt ∧ c3.Y = 0 ∧ c3.PathIndex = 1) ∧
      (repoCreepAssets.Loaded → scenarioCreep.AnimReady → ∃ k, ∀ fuel, k ≤ fuel →
        ∃ r, Creep.run repoCreepAssets axisHypot fuel true true
          (ticksOn (some (levelOfSize 5 5)) [1, 1 / 2, 1]) scenarioCreep = .ok r) :=
  end_to_end_path repoCreepAssets axisHypot (by intro dx; simp [axisHypot]) (levelOfSize 5 5)
    { Data := [], Width := 5, Height := 5, Name := "" } [] rfl rfl (by norm_num) true true scenarioCreep
    rfl rfl rfl rfl rfl rfl (by norm_num [scenarioCreep, NewCreep])
    (by norm_num [scenarioCreep, NewCreep]) rfl rfl [1, 1 / 2, 1] (by norm_num) (by norm_num)

/-- C9 (path index monotonicity): for a creep with a non-empty path and
`0 ≤ PathIndex ≤ len(Path)-1`, every `Update` (any `dt ≥ 0`, any level) leaves `PathIndex` at or
above its previous value, raises it by at most one and keeps it at most `len(Path)-1` on the
unchanged path; no call ends in an index fault, so `Path[PathIndex+1]` is always read in range.
With loaded assets and an animation of positive frame duration the call returns. -/
theorem path_index_monotone (A : CreepAssets) (hypot : ℚ → ℚ → ℚ) (dt : ℚ)
    (level : Option TilemapJSON) (onEscape onKilled : Bool) (c : Creep) (hpath : c.Path ≠ [])
    (h0 : 0 ≤ c.PathIndex) (h1 : c.PathIndex ≤ (c.Path.length : Int) - 1) (hdt : 0 ≤ dt) :
    (∀ fuel c1 ev, c.Update A hypot fuel dt level onEscape onKilled = .ok (c1, ev) →
        c.PathIndex ≤ c1.PathIndex ∧ c1.PathIndex ≤ c.PathIndex + 1 ∧
          c1.PathIndex ≤ (c1.Path.length : Int) - 1 ∧ c1.Path = c.Path) ∧
      (∀ fuel, c.Update A hypot fuel dt level onEscape onKilled ≠
        .error Fault.indexOutOfRange) ∧
      (A.Loaded → c.AnimReady → ∃ k, ∀ fuel, k ≤ fuel →
        ∃ r, c.Update A hypot fuel dt level onEscape onKilled = .ok r) := by
  have _ := hpath
  have _ := hdt
  refine ⟨fun fuel c1 ev h => ?_, fun fuel => ?_, fun hA hc => ?_⟩
  · have hp := Creep.Update_pathIndex _ _ _ _ _ _ _ _ _ _ h
    have hf := Creep.Update_frame _ _ _ _ _ _ _ _ _ _ h
    refine ⟨hp.1, hp.2.1, ?_, hf.2.2.2.1⟩
    rw [hf.2.2.2.1]
    exact hp.2.2 h1
  · exact Creep.Update_no_indexFault _ _ _ _ _ _ _ _ (by omega)
  · obtain ⟨k, c1, ev, hk, _⟩ :=
      Creep.Update_total A hypot dt level onEscape onKilled c hA ⟨hc, by omega⟩
    exact ⟨k, fun fuel hf => ⟨_, hk fuel hf⟩⟩

theorem path_index_monotone_witness :
    (∀ fuel c1 ev,
        scenarioCreep.Update repoCreepAssets axisHypot fuel (1 / 2) (some (levelOfSize 5 5))
          true true = .ok (c1, ev) →
        scenarioCreep.PathIndex ≤ c1.PathIndex ∧ c1.PathIndex ≤ scenarioCreep.PathIndex + 1 ∧
          c1.PathIndex ≤ (c1.Path.length : Int) - 1 ∧ c1.Path = scenarioCreep.Path) ∧
      (∀ fuel,
        scenarioCreep.Update repoCreepAssets axisHypot fuel (1 / 2) (some (levelOfSize 5 5))
          true true ≠ .error Fault.indexOutOfRange) ∧
      (repoCreepAssets.Loaded → scenarioCreep.AnimReady → ∃ k, ∀ fuel, k ≤ fuel →
        ∃ r, scenarioCreep.Update repoCreepAssets axisHypot fuel (1 / 2)
          (some (levelOfSize 5 5)) true true = .ok r) :=
  path_index_monotone repoCreepAssets axisHypot (1 / 2) (some (levelOfSize 5 5)) true true
    scenarioCreep (by simp [scenarioCreep, NewCreep]) (by norm_num [scenarioCreep, NewCreep])
    (by norm_num [scenarioCreep, NewCreep]) (by norm_num)

/-- C10 (monotonic health): for a creep with `Health ≥ 0`, `TakeDamage(amount)` leaves
`Health ≥ 0` for every amount and `Health` at most its previous value for every `amount ≥ 0`
(the result is `max(Health - amount, 0)` when the creep is not dying), and `Update` never
changes `Health`. With loaded assets and a ready creep `Update` returns. -/
theorem monotonic_health (c : Creep) (hH : 0 ≤ c.Health) :
    (∀ amount, 0 ≤ (c.TakeDamage amount).Health) ∧
      (∀ amount, 0 ≤ amount → (c.TakeDamage amount).Health ≤ c.Health) ∧
      (c.IsDying = false → ∀ amount, (c.TakeDamage amount).Health = max (c.Health - amount) 0) ∧
      (∀ A hypot fuel dt level onEscape onKilled c1 ev,
        c.Update A hypot fuel dt level onEscape onKilled = .ok (c1, ev) →
          c1.Health = c.Health) ∧
      (∀ A hypot dt level onEscape onKilled, A.Loaded → c.Ready → ∃ k, ∀ fuel, k ≤ fuel →
        ∃ r, c.Update A hypot fuel dt level onEscape onKilled = .ok r) := by
  refine ⟨fun amount => ?_, fun amount ha => ?_, fun hd amount => ?_, ?_, ?_⟩
  · rw [Creep.TakeDamage_health]
    split_ifs with h1 h2
    · exact hH
    · exact le_refl _
    · exact not_lt.mp h2
  · rw [Creep.TakeDamage_health]
    split_ifs with h1 h2
    · exact le_refl _
    · exact hH
    · linarith
  · have hnd : ¬ c.IsDying = true := by
      rw [hd]
      exact Bool.false_ne_true
    rw [Creep.TakeDamage_health, if_neg hnd]
    split_ifs with h2
    · exact (max_eq_right (le_of_lt h2)).symm
    · exact (max_eq_left (not_lt.mp h2)).symm
  · intro A hypot fuel dt level onEscape onKilled c1 ev h
    exact (Creep.Update_frame _ _ _ _ _ _ _ _ _ _ h).1
  · intro A hypot dt level onEscape onKilled hA hc
    obtain ⟨k, c1, ev, hk, _⟩ := Creep.Update_total A hypot dt level onEscape onKilled c hA hc
    exact ⟨k, fun fuel hf => ⟨_, hk fuel hf⟩⟩

theorem monotonic_health_witness :
    0 ≤ scenarioCreep.Health ∧ (scenarioCreep.TakeDamage 25).Health = max (20 - 25) 0 ∧
      (scenarioCreep.TakeDamage 25).Health ≤ scenarioCreep.Health :=
  ⟨by norm_num [scenarioCreep, NewCreep],
    (monotonic_health scenarioCreep (by norm_num [scenarioCreep, NewCreep])).2.2.1 rfl 25,
    (monotonic_health scenarioCreep (by norm_num [scenarioCreep, NewCreep])).2.1 25
      (by norm_num)⟩

/-! ## Dying creeps -/

/-- C11 (a dying creep is frozen): for a creep with `IsDying` set, `TakeDamage` returns the
creep unchanged, and `Update(dt)` leaves `Health`, `X`, `Y` and `PathIndex` unchanged, raises
neither callback, replaces the animation by its advance over `dt` and sets `Active = false`
exactly when that animation is no longer playing after the advance; besides `Animation` and
`Active` only the internal `Timer` is written. With an animation of positive frame duration the
call returns. -/
theorem dying_creep_frozen (c : Creep) (hd : c.IsDying = true) :
    (∀ amount, c.TakeDamage amount = c) ∧
      (∀ A hypot fuel dt level onEscape onKilled c1 ev,
        c.Update A hypot fuel dt level onEscape onKilled = .ok (c1, ev) →
        c1.Health = c.Health ∧ c1.X = c.X ∧ c1.Y = c.Y ∧ c1.PathIndex = c.PathIndex ∧
          ev = [] ∧
          ∃ a a1, c.Animation = some a ∧ a.Update fuel dt = some a1 ∧
            c1.Animation = some a1 ∧
            (c1.Active = false ↔ (a1.isPlaying = false ∨ c.Active = false)) ∧
            c1 = { c with Timer := c.Timer + dt, Animation := some a1, Active := c1.Active }) ∧
      (∀ A hypot dt level onEscape onKilled, c.AnimReady → ∃ k, ∀ fuel, k ≤ fuel →
        ∃ r, c.Update A hypot fuel dt level onEscape onKilled = .ok r) := by
  refine ⟨fun amount => ?_, ?_, ?_⟩
  · simp only [Creep.TakeDamage, hd, if_true]
  · intro A hypot fuel dt level onEscape onKilled c1 ev h
    rcases Creep.Update_cases _ _ _ _ _ _ _ _ _ _ h with
      ⟨_, hnd, _⟩ | ⟨_, ⟨a, a1, ha, ha1, rfl⟩, hev⟩ | ⟨_, hnd, _⟩ | ⟨_, hnd, _⟩
    · rw [hd] at hnd
      cases hnd
    · refine ⟨rfl, rfl, rfl, rfl, hev, a, a1, ha, ha1, rfl, ?_, rfl⟩
      by_cases hp : a1.isPlaying = false
      · simp [hp]
      · simp [hp]
    · rw [hd] at hnd
      cases hnd
    · rw [hd] at hnd
      cases hnd
  · intro A hypot dt level onEscape onKilled hanim
    obtain ⟨a, ha, hpos⟩ := hanim
    obtain ⟨k, a1, hk⟩ := AnimatedSprite.Update_terminates dt a hpos
    refine ⟨k, fun fuel hf => ?_⟩
    simp only [Creep.Update, hd, Bool.true_eq_false, and_false, if_false, if_true,
      Creep.animate, ha, hk fuel hf]
    exact ⟨_, rfl⟩

theorem dying_creep_frozen_witness :
    (scenarioCreep.TakeDamage 25).Health = 0 ∧
      ({ scenarioCreep.TakeDamage 25 with IsDying := true } : Creep).TakeDamage 7 =
        { scenarioCreep.TakeDamage 25 with IsDying := true } :=
  ⟨by norm_num [scenarioCreep, NewCreep, Creep.TakeDamage],
    (dying_creep_frozen { scenarioCreep.TakeDamage 25 with IsDying := true } rfl).1 7⟩

/-! ## Target acquisition -/

theorem scanStep_foldl_spec (cx cy : ℚ) (d : Creep → ℚ)
    (hd : ∀ c, d c = (c.X - cx) * (c.X - cx) + (c.Y - cy) * (c.Y - cy))
    (creeps : List Creep) (s : Option Creep × ℚ) :
    ((creeps.foldl (scanStep cx cy) s).2 ≤ s.2) ∧
      (∀ c' ∈ creeps, c'.Active = true → (creeps.foldl (scanStep cx cy) s).2 ≤ d c') ∧
      ((creeps.foldl (scanStep cx cy) s) = s ∨
        ∃ c pre post, (creeps.foldl (scanStep cx cy) s) = (some c, d c) ∧
          creeps = pre ++ c :: post ∧ c.Active = true ∧ d c < s.2 ∧
          ∀ c' ∈ pre, c'.Active = true → d c < d c') := by
  induction creeps generalizing s with
  | nil =>
    exact ⟨le_refl _, fun c' hc' => absurd hc' (List.not_mem_nil c'), Or.inl rfl⟩
  | cons c rest ih =>
    simp only [List.foldl_cons]
    obtain ⟨ih1, ih2, ih3⟩ := ih (scanStep cx cy s c)
    by_cases hact : c.Active = true
    · by_cases hlt : d c < s.2
      · have hstep : scanStep cx cy s c = (some c, d c) := by
          have hlt2 := hlt
          rw [hd c] at hlt2
          simp only [scanStep, Creep.IsActive, hact, Bool.true_eq_false, if_false, if_pos hlt2,
            hd c]
        rw [hstep] at ih1 ih2 ih3 ⊢
        simp only at ih1 ih3
        refine ⟨le_trans ih1 (le_of_lt hlt), fun c' hc' ha' => ?_, Or.inr ?_⟩
        · rcases List.mem_cons.mp hc' with rfl | hc'
          · exact ih1
          · exact ih2 c' hc' ha'
        · rcases ih3 with heq | ⟨c2, pre, post, heq, hsplit, ha2, hlt2, hpre⟩
          · exact ⟨c, [], rest, heq, rfl, hact, hlt, fun c' hc' => absurd hc' (List.not_mem_nil c')⟩
          · refine ⟨c2, c :: pre, post, heq, by rw [hsplit]; rfl, ha2, lt_trans hlt2 hlt,
              fun c' hc' ha' => ?_⟩
            rcases List.mem_cons.mp hc' with rfl | hc'
            · exact hlt2
            · exact hpre c' hc' ha'
      · have hstep : scanStep cx cy s c = s := by
          have hlt2 := hlt
          rw [hd c] at hlt2
          simp only [scanStep, Creep.IsActive, hact, Bool.true_eq_false, if_false, if_neg hlt2]
        rw [hstep] at ih1 ih2 ih3 ⊢
        refine ⟨ih1, fun c' hc' ha' => ?_, ?_⟩
        · rcases List.mem_cons.mp hc' with rfl | hc'
          · exact le_trans ih1 (not_lt.mp hlt)
          · exact ih2 c' hc' ha'
        · rcases ih3 with heq | ⟨c2, pre, post, heq, hsplit, ha2, hlt2, hpre⟩
          · exact Or.inl heq
          · refine Or.inr ⟨c2, c :: pre, post, heq, by rw [hsplit]; rfl, ha2, hlt2,
              fun c' hc' ha' => ?_⟩
            rcases List.mem_cons.mp hc' with rfl | hc'
            · exact lt_of_lt_of_le hlt2 (not_lt.mp hlt)
            · exact hpre c' hc' ha'
    · have hina : c.Active = false := by
        cases hx : c.Active
        · rfl
        · exact absurd hx hact
      have hstep : scanStep cx cy s c = s := by
        simp only [scanStep, Creep.IsActive, hina, if_true]
      rw [hstep] at ih1 ih2 ih3 ⊢
      refine ⟨ih1, fun c' hc' ha' => ?_, ?_⟩
      · rcases List.mem_cons.mp hc' with rfl | hc'
        · exact absurd ha' hact
        · exact ih2 c' hc' ha'
      · rcases ih3 with heq | ⟨c2, pre, post, heq, hsplit, ha2, hlt2, hpre⟩
        · exact Or.inl heq
        · refine Or.inr ⟨c2, c :: pre, post, heq, by rw [hsplit]; rfl, ha2, hlt2,
            fun c' hc' ha' => ?_⟩
          rcases List.mem_cons.mp hc' with rfl | hc'
          · exact absurd ha' hact
          · exact hpre c' hc' ha'

/-- Outcome of the nearest-creep scan. -/
theorem PlacedTower.nearestCreep_spec (M : GoMath) (tower : PlacedTower) (creeps : List Creep) :
    (∀ c' ∈ creeps, c'.Active = true → (tower.nearestCreep M creeps).2 ≤ tower.distSq c') ∧
      ((tower.nearestCreep M creeps) = (none, M.MaxFloat64) ∨
        ∃ c pre post, (tower.nearestCreep M creeps) = (some c, tower.distSq c) ∧
          creeps = pre ++ c :: post ∧ c.Active = true ∧ tower.distSq c < M.MaxFloat64 ∧
          ∀ c' ∈ pre, c'.Active = true → tower.distSq c < tower.distSq c') := by
  have h := scanStep_foldl_spec tower.centerX tower.centerY tower.distSq (fun c => rfl) creeps
    (none, M.MaxFloat64)
  exact ⟨h.2.1, h.2.2⟩

/-- C15 (nearest-target selection): the creep chosen by the scan of `UpdatePlacedTowers` is an
active creep of the list whose squared distance to the tower centre `(X+0.5, Y+0.5)` is at most
that of every active creep of the list, and every active creep before it in the list is strictly
farther away (first found wins); when every active creep's squared distance is below
`math.MaxFloat64`, no creep is chosen exactly when the list has no active creep. -/
theorem nearest_target_selection (M : GoMath) (tower : PlacedTower) (creeps : List Creep) :
    (∀ c, (tower.nearestCreep M creeps).1 = some c →
        c ∈ creeps ∧ c.Active = true ∧ (tower.nearestCreep M creeps).2 = tower.distSq c ∧
          (∀ c' ∈ creeps, c'.Active = true → tower.distSq c ≤ tower.distSq c') ∧
          ∃ pre post, creeps = pre ++ c :: post ∧
            ∀ c' ∈ pre, c'.Active = true → tower.distSq c < tower.distSq c') ∧
      ((∀ c ∈ creeps, c.Active = true → tower.distSq c < M.MaxFloat64) →
        ((tower.nearestCreep M creeps).1 = none ↔ ∀ c ∈ creeps, c.Active = false)) := by
  obtain ⟨hmin, hcase⟩ := PlacedTower.nearestCreep_spec M tower creeps
  constructor
  · intro c hc
    rcases hcase with heq | ⟨c2, pre, post, heq, hsplit, hact, _, hpre⟩
    · rw [heq] at hc
      cases hc
    · rw [heq] at hc hmin ⊢
      simp only [Option.some.injEq] at hc
      subst hc
      refine ⟨?_, hact, rfl, hmin, pre, post, hsplit, hpre⟩
      rw [hsplit]
      exact List.mem_append_right _ (List.mem_cons_self _ _)
  · intro hbound
    constructor
    · intro hnone c hc
      cases hx : c.Active
      · rfl
      · exfalso
        rcases hcase with heq | ⟨c2, pre, post, heq, _⟩
        · have h1 := hmin c hc hx
          rw [heq] at h1
          exact absurd (hbound c hc hx) (not_lt.mpr h1)
        · rw [heq] at hnone
          cases hnone
    · intro hall
      rcases hcase with heq | ⟨c2, pre, post, heq, hsplit, hact, _⟩
      · rw [heq]
      · exfalso
        have hmem : c2 ∈ creeps := by
          rw [hsplit]
          exact List.mem_append_right _ (List.mem_cons_self _ _)
        rw [hall c2 hmem] at hact
        cases hact

/-- C16, evaluation at the failing input: a Ballista tower at cell `(0,0)` and a creep list
holding one creep that is dying (and still active) one tile to the west. The scan selects the
dying creep, the weapon turns toward it, and the tower fires at it (cooldown reset to 1.5 with
the creep's position stored as the target and a shot pending). -/
theorem dying_creep_is_targeted :
    dyingWestCreep.IsDying = true ∧
      (demoBallista.nearestCreep standInMath [dyingWestCreep]).1 = some dyingWestCreep ∧
      ((TowerManager.engage standInMath repoTowerAssets 1 (1 / 8) [dyingWestCreep]
          demoBallista).map fun t =>
            (t.WeaponAngle, t.FireTimer, t.WeaponFired, t.TargetX, t.TargetY)) =
        .ok (-(355 / 113) / 2 - 3 / 8, 3 / 2, true, -1 / 2, 1 / 2) := by
  refine ⟨rfl, ?_, ?_⟩
  · norm_num [PlacedTower.nearestCreep, scanStep, dyingWestCreep, westCreep, scenarioCreep,
      NewCreep, Creep.IsActive, demoBallista, PlacedTower.centerX, PlacedTower.centerY,
      standInMath]
  · norm_num [TowerManager.engage, PlacedTower.nearestCreep, scanStep, dyingWestCreep,
      westCreep, scenarioCreep, NewCreep, Creep.IsActive, demoBallista, PlacedTower.centerX,
      PlacedTower.centerY, standInMath, PlacedTower.aim, normalizeAngle, wrapAbovePi,
      wrapBelowPi, rotationStep, axisAtan2, MagicTowerID, BallistaTowerID,
      weaponRotationSpeed, weaponRotationSmoothness, towerRange, TowerManager.fireTowerWeapon,
      repoTowerAssets, fireDelay, Except.map, abs_of_neg]

/-! ## Angle normalisation and the rotation step -/

theorem wrapAbovePi_spec (pi : ℚ) (fuel : Nat) (x y : ℚ)
    (h : wrapAbovePi pi fuel x = some y) :
    y ≤ pi ∧ (y = x ∨ -pi < y) ∧ ∃ k : ℤ, y = x + 2 * pi * k := by
  induction fuel generalizing x with
  | zero =>
    simp only [wrapAbovePi] at h
    split_ifs at h with hgt
    cases h
    exact ⟨not_lt.mp hgt, Or.inl rfl, 0, by simp⟩
  | succ n ih =>
    simp only [wrapAbovePi] at h
    split_ifs at h with hgt
    · obtain ⟨h1, h2, k, hk⟩ := ih _ h
      refine ⟨h1, Or.inr ?_, k - 1, ?_⟩
      · rcases h2 with h2 | h2
        · rw [h2]
          linarith
        · exact h2
      · rw [hk]
        push_cast
        ring
    · cases h
      exact ⟨not_lt.mp hgt, Or.inl rfl, 0, by simp⟩

theorem wrapBelowPi_spec (pi : ℚ) (fuel : Nat) (x y : ℚ)
    (h : wrapBelowPi pi fuel x = some y) :
    -pi ≤ y ∧ (y = x ∨ y < pi) ∧ ∃ k : ℤ, y = x + 2 * pi * k := by
  induction fuel generalizing x with
  | zero =>
    simp only [wrapBelowPi] at h
    split_ifs at h with hlt
    cases h
    exact ⟨not_lt.mp hlt, Or.inl rfl, 0, by simp⟩
  | succ n ih =>
    simp only [wrapBelowPi] at h
    split_ifs at h with hlt
    · obtain ⟨h1, h2, k, hk⟩ := ih _ h
      refine ⟨h1, Or.inr ?_, k + 1, ?_⟩
      · rcases h2 with h2 | h2
        · rw [h2]
          linarith
        · exact h2
      · rw [hk]
        push_cast
        ring
    · cases h
      exact ⟨not_lt.mp hlt, Or.inl rfl, 0, by simp⟩

/-- The two normalisation loops leave a value in the closed interval `[-pi, pi]` that differs
from the input by a whole number of turns. -/
theorem normalizeAngle_spec (pi : ℚ) (fuel : Nat) (x z : ℚ)
    (h : normalizeAngle pi fuel x = some z) :
    -pi ≤ z ∧ z ≤ pi ∧ ∃ k : ℤ, z = x + 2 * pi * k := by
  unfold normalizeAngle at h
  split at h
  · cases h
  · rename_i y hy
    obtain ⟨a1, _, k1, hk1⟩ := wrapAbovePi_spec pi fuel x y hy
    obtain ⟨b1, b2, k2, hk2⟩ := wrapBelowPi_spec pi fuel y z h
    refine ⟨b1, ?_, k1 + k2, ?_⟩
    · rcases b2 with b2 | b2
      · rw [b2]
        exact a1
      · exact le_of_lt b2
    · rw [hk2, hk1]
      push_cast
      ring

theorem wrapAbovePi_succ (pi : ℚ) (fuel : Nat) (x y : ℚ) (h : wrapAbovePi pi fuel x = some y) :
    wrapAbovePi pi (fuel + 1) x = some y := by
  induction fuel generalizing x with
  | zero =>
    simp only [wrapAbovePi] at h ⊢
    split_ifs at h with hgt
    rw [if_neg hgt]
    exact h
  | succ n ih =>
    rw [wrapAbovePi] at h ⊢
    split_ifs at h ⊢ with hgt
    · exact ih _ h
    · exact h

theorem wrapBelowPi_succ (pi : ℚ) (fuel : Nat) (x y : ℚ) (h : wrapBelowPi pi fuel x = some y) :
    wrapBelowPi pi (fuel + 1) x = some y := by
  induction fuel generalizing x with
  | zero =>
    simp only [wrapBelowPi] at h ⊢
    split_ifs at h with hlt
    rw [if_neg hlt]
    exact h
  | succ n ih =>
    rw [wrapBelowPi] at h ⊢
    split_ifs at h ⊢ with hlt
    · exact ih _ h
    · exact h

theorem wrapAbovePi_mono (pi : ℚ) (k fuel : Nat) (x y : ℚ) (hk : k ≤ fuel)
    (h : wrapAbovePi pi k x = some y) : wrapAbovePi pi fuel x = some y := by
  induction hk with
  | refl => exact h
  | step _ ih => exact wrapAbovePi_succ _ _ _ _ ih

theorem wrapBelowPi_mono (pi : ℚ) (k fuel : Nat) (x y : ℚ) (hk : k ≤ fuel)
    (h : wrapBelowPi pi k x = some y) : wrapBelowPi pi fuel x = some y := by
  induction hk with
  | refl => exact h
  | step _ ih => exact wrapBelowPi_succ _ _ _ _ ih

theorem wrapAbovePi_terminates (pi : ℚ) (fuel : Nat) (x : ℚ)
    (hx : x ≤ pi + 2 * pi * fuel) : ∃ y, wrapAbovePi pi fuel x = some y := by
  induction fuel generalizing x with
  | zero =>
    simp only [Nat.cast_zero, mul_zero, add_zero] at hx
    exact ⟨x, by simp only [wrapAbovePi, if_neg (not_lt.mpr hx)]⟩
  | succ n ih =>
    rw [wrapAbovePi]
    split_ifs with hgt
    · apply ih
      push_cast at hx
      linarith
    · exact ⟨x, rfl⟩

theorem wrapBelowPi_terminates (pi : ℚ) (fuel : Nat) (x : ℚ)
    (hx : -pi - 2 * pi * fuel ≤ x) : ∃ y, wrapBelowPi pi fuel x = some y := by
  induction fuel generalizing x with
  | zero =>
    simp only [Nat.cast_zero, mul_zero, sub_zero] at hx
    exact ⟨x, by simp only [wrapBelowPi, if_neg (not_lt.mpr hx)]⟩
  | succ n ih =>
    rw [wrapBelowPi]
    split_ifs with hlt
    · apply ih
      push_cast at hx
      linarith
    · exact ⟨x, rfl⟩

theorem normalizeAngle_total (pi : ℚ) (hpi : 0 < pi) (x : ℚ) :
    ∃ k z, ∀ fuel, k ≤ fuel → normalizeAngle pi fuel x = some z := by
  obtain ⟨k1, hk1⟩ := exists_nat_gt (x / (2 * pi))
  have h2pi : (0 : ℚ) < 2 * pi := by linarith
  have hx1 : x ≤ pi + 2 * pi * k1 := by
    rw [div_lt_iff₀ h2pi] at hk1
    linarith
  obtain ⟨y, hy⟩ := wrapAbovePi_terminates pi k1 x hx1
  obtain ⟨k2, hk2⟩ := exists_nat_gt (-y / (2 * pi))
  have hy1 : -pi - 2 * pi * k2 ≤ y := by
    rw [div_lt_iff₀ h2pi] at hk2
    linarith
  obtain ⟨z, hz⟩ := wrapBelowPi_terminates pi k2 y hy1
  refine ⟨max k1 k2, z, fun fuel hf => ?_⟩
  simp only [normalizeAngle, wrapAbovePi_mono pi k1 fuel x y (le_trans (le_max_left _ _) hf) hy,
    wrapBelowPi_mono pi k2 fuel y z (le_trans (le_max_right _ _) hf) hz]

/-- For `dt ≥ 0` the rotation step is the smoothed step clamped to `±weaponRotationSpeed*dt`. -/
theorem rotationStep_eq_clamp (dt delta : ℚ) (hdt : 0 ≤ dt) :
    rotationStep dt delta =
      max (-(weaponRotationSpeed * dt))
        (min (weaponRotationSpeed * dt) (delta * weaponRotationSmoothness * dt)) := by
  have hmax : 0 ≤ weaponRotationSpeed * dt := by
    unfold weaponRotationSpeed
    linarith
  simp only [rotationStep]
  by_cases habs : |delta * weaponRotationSmoothness * dt| > weaponRotationSpeed * dt
  · rw [if_pos habs]
    by_cases hpos : delta * weaponRotationSmoothness * dt > 0
    · rw [if_pos hpos]
      rw [abs_of_pos hpos] at habs
      rw [min_eq_left (le_of_lt habs), max_eq_right (by linarith)]
    · rw [if_neg hpos]
      have hneg : delta * weaponRotationSmoothness * dt ≤ 0 := not_lt.mp hpos
      rw [abs_of_nonpos hneg] at habs
      rw [min_eq_right (by linarith), max_eq_left (by linarith)]
  · rw [if_neg habs]
    have hle := not_lt.mp habs
    rw [abs_le] at hle
    rw [min_eq_right hle.2, max_eq_right hle.1]

theorem rotationStep_bounds (dt delta : ℚ) (hdt : 0 ≤ dt) :
    |rotationStep dt delta| ≤ weaponRotationSpeed * dt ∧
      (0 < rotationStep dt delta → 0 < delta) ∧ (rotationStep dt delta < 0 → delta < 0) ∧
      (0 < dt → 0 < delta → 0 < rotationStep dt delta) ∧
      (0 < dt → delta < 0 → rotationStep dt delta < 0) := by
  have hmax : 0 ≤ weaponRotationSpeed * dt := by
    unfold weaponRotationSpeed
    linarith
  have hsm : (0 : ℚ) < weaponRotationSmoothness := by
    unfold weaponRotationSmoothness
    norm_num
  have hsp : (0 : ℚ) < weaponRotationSpeed := by
    unfold weaponRotationSpeed
    norm_num
  have hraw_pos : 0 < delta * weaponRotationSmoothness * dt → 0 < delta := by
    intro h
    by_contra hn
    have : delta * weaponRotationSmoothness * dt ≤ 0 :=
      mul_nonpos_of_nonpos_of_nonneg
        (mul_nonpos_of_nonpos_of_nonneg (not_lt.mp hn) (le_of_lt hsm)) hdt
    linarith
  have hraw_neg : delta * weaponRotationSmoothness * dt < 0 → delta < 0 := by
    intro h
    by_contra hn
    have : 0 ≤ delta * weaponRotationSmoothness * dt :=
      mul_nonneg (mul_nonneg (not_lt.mp hn) (le_of_lt hsm)) hdt
    linarith
  simp only [rotationStep]
  by_cases habs : |delta * weaponRotationSmoothness * dt| > weaponRotationSpeed * dt
  · rw [if_pos habs]
    by_cases hpos : delta * weaponRotationSmoothness * dt > 0
    · rw [if_pos hpos]
      refine ⟨by rw [abs_of_nonneg hmax], fun _ => hraw_pos hpos, fun h => ?_,
        fun hd _ => mul_pos hsp hd, fun hd hdel => ?_⟩
      · linarith
      · have := hraw_pos hpos
        linarith
    · rw [if_neg hpos]
      have hneg : delta * weaponRotationSmoothness * dt ≤ 0 := not_lt.mp hpos
      have hlt : delta * weaponRotationSmoothness * dt < 0 := by
        rw [abs_of_nonpos hneg] at habs
        linarith
      refine ⟨by rw [abs_neg, abs_of_nonneg hmax], fun h => ?_, fun _ => hraw_neg hlt,
        fun hd hdel => ?_, fun hd _ => ?_⟩
      · linarith
      · have := hraw_neg hlt
        linarith
      · have := mul_pos hsp hd
        linarith
  · rw [if_neg habs]
    refine ⟨not_lt.mp habs, hraw_pos, hraw_neg, fun hd hdel => ?_, fun hd hdel => ?_⟩
    · exact mul_pos (mul_pos hdel hsm) hd
    · have := mul_pos (mul_pos (neg_pos.mpr hdel) hsm) hd
      linarith


/-! ## The loop body of `UpdatePlacedTowers`, phase by phase -/

namespace PlacedTower

theorem tickFireTimer_fields (dt : ℚ) (t : PlacedTower) :
    t.tickFireTimer dt = { t with FireTimer := (t.tickFireTimer dt).FireTimer } := by
  simp only [tickFireTimer]
  split_ifs <;> rfl

theorem tickFireTimer_value (dt : ℚ) (t : PlacedTower) :
    (t.tickFireTimer dt).FireTimer =
      if t.FireTimer > 0 then max (t.FireTimer - dt) 0 else t.FireTimer := by
  simp only [tickFireTimer]
  split_ifs with h1 h2
  · exact (max_eq_right (le_of_lt h2)).symm
  · exact (max_eq_left (not_lt.mp h2)).symm
  · rfl

theorem tickIdleAnimation_spec (fuel : Nat) (dt : ℚ) (t t1 : PlacedTower)
    (h : t.tickIdleAnimation fuel dt = .ok t1) :
    updateOptional fuel dt t.IdleAnimation = .ok t1.IdleAnimation ∧
      t1 = { t with IdleAnimation := t1.IdleAnimation } := by
  unfold tickIdleAnimation at h
  split at h
  · cases h
  · rename_i idle hidle
    cases h
    exact ⟨hidle, rfl⟩

theorem aim_spec (M : GoMath) (fuel : Nat) (dt : ℚ) (nearest : Creep) (t t1 : PlacedTower)
    (h : t.aim M fuel dt nearest = .ok t1) :
    ∃ delta,
      normalizeAngle M.Pi fuel
          (M.Atan2 (nearest.Y - t.centerY) (nearest.X - t.centerX) - t.WeaponAngle) =
        some delta ∧
      normalizeAngle M.Pi fuel (t.WeaponAngle + rotationStep dt delta) = some t1.WeaponAngle ∧
      t1 = { t with WeaponAngle := t1.WeaponAngle } := by
  unfold aim at h
  simp only [] at h
  split at h
  · cases h
  · rename_i delta hdelta
    split at h
    · cases h
    · rename_i angle hangle
      cases h
      exact ⟨delta, hdelta, hangle, rfl⟩

end PlacedTower

namespace TowerManager

theorem fireTowerWeapon_fields (TA : TowerAssets) (c : Creep) (t : PlacedTower) :
    fireTowerWeapon TA c t =
      { t with FireTimer := fireDelay, TargetX := c.X, TargetY := c.Y
               FiringAnimation := (fireTowerWeapon TA c t).FiringAnimation
               WeaponFired := (fireTowerWeapon TA c t).WeaponFired } := by
  simp only [fireTowerWeapon]
  split_ifs <;> rfl

theorem spawnProjectileFromTower_fst (M : GoMath) (TA : TowerAssets) (t : PlacedTower)
    (pm : ProjectileManager) :
    (spawnProjectileFromTower M TA t pm).1 = { t with WeaponFired := false } := by
  by_cases hw : t.WeaponFired = false
  · simp only [spawnProjectileFromTower, if_pos hw]
    cases t
    simp only at hw
    subst hw
    rfl
  · simp only [spawnProjectileFromTower, if_neg hw]

theorem spawnProjectileFromTower_snd (M : GoMath) (TA : TowerAssets) (t : PlacedTower)
    (pm : ProjectileManager) :
    (t.WeaponFired = true →
        ∃ p, (spawnProjectileFromTower M TA t pm).2.projectiles = pm.projectiles ++ [p] ∧
          p.Active = true ∧ p.IsImpacting = false ∧ p.ImpactAnimation = none ∧
          p.TravelDistance = 0 ∧ p.MaxDistance = maxProjectileRange ∧
          p.ProjectileType = t.TowerID) ∧
      (t.WeaponFired = false → (spawnProjectileFromTower M TA t pm).2 = pm) := by
  constructor
  · intro hw
    have hw2 : ¬ t.WeaponFired = false := by
      rw [hw]
      exact Bool.noConfusion
    simp only [spawnProjectileFromTower, if_neg hw2, ProjectileManager.SpawnProjectile]
    exact ⟨_, rfl, rfl, rfl, rfl, rfl, rfl, rfl⟩
  · intro hw
    simp only [spawnProjectileFromTower, if_pos hw]

/-- Outcome of the firing-animation block: the sprite advance, and a spawn exactly when the
advanced sprite has stopped and a shot was pending. -/
theorem tickFiringAnimation_spec (M : GoMath) (TA : TowerAssets) (fuel : Nat) (dt : ℚ)
    (t t1 : PlacedTower) (pm pm1 : ProjectileManager)
    (h : tickFiringAnimation M TA fuel dt t pm = .ok (t1, pm1)) :
    (t.FiringAnimation = none ∧ t1 = t ∧ pm1 = pm) ∨
      (∃ a a1, t.FiringAnimation = some a ∧ a.Update fuel dt = some a1 ∧
        ((a1.isPlaying = true ∧ t1 = { t with FiringAnimation := some a1 } ∧ pm1 = pm) ∨
          (a1.isPlaying = false ∧
            t1 = { t with FiringAnimation := none, WeaponFired := false } ∧
            pm1 = (if t.WeaponFired = true then
              (spawnProjectileFromTower M TA { t with FiringAnimation := some a1 } pm).2
              else pm)))) := by
  unfold tickFiringAnimation at h
  split at h
  · rename_i hnone
    cases h
    exact Or.inl ⟨hnone, rfl, rfl⟩
  · rename_i a ha
    split at h
    · cases h
    · rename_i a1 ha1
      right
      refine ⟨a, a1, ha, ha1, ?_⟩
      simp only [AnimatedSprite.IsPlaying] at h
      cases hp : a1.isPlaying
      · right
        rw [hp] at h
        simp only [if_true] at h
        cases hw : t.WeaponFired
        · rw [hw] at h
          simp only [Bool.false_eq_true, if_false] at h
          cases h
          refine ⟨rfl, ?_, rfl⟩
          cases t
          simp only at hw
          subst hw
          rfl
        · rw [hw] at h
          simp only [if_true] at h
          cases h
          refine ⟨rfl, ?_, rfl⟩
          rw [spawnProjectileFromTower_fst]
      · left
        rw [hp] at h
        simp only [Bool.true_eq_false, if_false] at h
        cases h
        exact ⟨rfl, rfl, rfl⟩

/-- Outcome of the targeting part of the loop body. -/
theorem engage_spec (M : GoMath) (TA : TowerAssets) (fuel : Nat) (dt : ℚ)
    (creeps : List Creep) (t t3 : PlacedTower)
    (h : engage M TA fuel dt creeps t = .ok t3) :
    (t.WeaponImage = none ∧ t3 = t) ∨
      (t.WeaponImage ≠ none ∧ (t.nearestCreep M creeps).1 = none ∧ t3 = t) ∨
      (t.WeaponImage ≠ none ∧
        ∃ c t1, (t.nearestCreep M creeps).1 = some c ∧
          ((t.TowerID ≠ MagicTowerID ∧ t.aim M fuel dt c = .ok t1) ∨
            (t.TowerID = MagicTowerID ∧ t1 = t)) ∧
          ((M.Sqrt (t.nearestCreep M creeps).2 ≤ towerRange ∧ t1.FireTimer ≤ 0 ∧
              t3 = fireTowerWeapon TA c t1) ∨
            (¬ (M.Sqrt (t.nearestCreep M creeps).2 ≤ towerRange ∧ t1.FireTimer ≤ 0) ∧
              t3 = t1))) := by
  unfold engage at h
  split at h
  · rename_i hw
    cases h
    exact Or.inl ⟨hw, rfl⟩
  · rename_i img hw
    have hw2 : t.WeaponImage ≠ none := by
      rw [hw]
      exact Option.some_ne_none img
    right
    split at h
    · rename_i hn
      cases h
      exact Or.inl ⟨hw2, hn, rfl⟩
    · rename_i c hc
      right
      refine ⟨hw2, c, ?_⟩
      split at h
      · cases h
      · rename_i t1 haim
        refine ⟨t1, hc, ?_, ?_⟩
        · by_cases hm : t.TowerID ≠ MagicTowerID
          · rw [if_pos hm] at haim
            exact Or.inl ⟨hm, haim⟩
          · rw [if_neg hm] at haim
            cases haim
            exact Or.inr ⟨not_not.mp hm, rfl⟩
        · simp only [] at h
          split_ifs at h with hfire
          · cases h
            exact Or.inl ⟨hfire.1, hfire.2, rfl⟩
          · cases h
            exact Or.inr ⟨hfire, rfl⟩

/-- The loop body of `UpdatePlacedTowers` split into its blocks. -/
theorem updateTower_spec (M : GoMath) (TA : TowerAssets) (fuel : Nat) (dt : ℚ)
    (creeps : List Creep) (t t3 : PlacedTower) (pm pm1 : ProjectileManager)
    (h : updateTower M TA fuel dt creeps t pm = .ok (t3, pm1)) :
    ∃ t1 t2, tickFiringAnimation M TA fuel dt (t.tickFireTimer dt) pm = .ok (t1, pm1) ∧
      t1.tickIdleAnimation fuel dt = .ok t2 ∧ engage M TA fuel dt creeps t2 = .ok t3 ∧
      t2 = { t with FireTimer := (t.tickFireTimer dt).FireTimer
                    FiringAnimation := t2.FiringAnimation
                    WeaponFired := t2.WeaponFired
                    IdleAnimation := t2.IdleAnimation } := by
  unfold updateTower at h
  split at h
  · cases h
  · rename_i t1 pmA h1
    split at h
    · cases h
    · rename_i t2 h2
      split at h
      · cases h
      · rename_i tC h3
        cases h
        refine ⟨t1, t2, h1, h2, h3, ?_⟩
        obtain ⟨_, hidle⟩ := PlacedTower.tickIdleAnimation_spec _ _ _ _ h2
        rw [hidle]
        rcases tickFiringAnimation_spec _ _ _ _ _ _ _ _ h1 with
          ⟨_, rfl, _⟩ | ⟨a, a1, _, _, ⟨_, rfl, _⟩ | ⟨_, rfl, _⟩⟩
        · rw [PlacedTower.tickFireTimer_fields]
        · rw [PlacedTower.tickFireTimer_fields]
        · rw [PlacedTower.tickFireTimer_fields]

end TowerManager

/-! ## `UpdatePlacedTowers` returns -/

theorem OptReady_none : OptReady none := fun _ h => Option.noConfusion h

theorem startedSprite_ready (frames : List Image) (len : ℚ) (loop : Bool) (hlen : 0 < len) :
    OptReady (startedSprite frames len loop) := by
  intro a ha
  unfold startedSprite NewAnimatedSprite at ha
  split_ifs at ha with h0
  · cases ha
  · simp only [Option.map_some', Option.some.injEq] at ha
    subst ha
    have hne : frames ≠ [] := fun hnil => h0 (by rw [hnil]; rfl)
    simp only [AnimatedSprite.Play]
    exact div_pos hlen (Creep.length_cast_pos frames hne)

theorem updateOptional_total (dt : ℚ) (s : Option AnimatedSprite) (hs : OptReady s) :
    ∃ k r, (∀ fuel, k ≤ fuel → updateOptional fuel dt s = .ok r) ∧ OptReady r := by
  cases s with
  | none => exact ⟨0, none, fun _ _ => rfl, OptReady_none⟩
  | some a =>
    have hd := hs a rfl
    obtain ⟨k, a1, hk⟩ := AnimatedSprite.Update_terminates dt a hd
    have hst := AnimatedSprite.Update_static _ _ _ _ (hk k (le_refl _))
    refine ⟨k, some a1, fun fuel hf => ?_, fun b hb => ?_⟩
    · simp only [updateOptional, hk fuel hf]
    · cases hb
      rw [hst.2.2.1]
      exact hd

namespace TowerManager

theorem fireTowerWeapon_ready (TA : TowerAssets) (c : Creep) (t : PlacedTower) (ht : t.Ready) :
    (fireTowerWeapon TA c t).Ready := by
  have hs : ∀ frames, OptReady (startedSprite frames fireAnimationDuration false) :=
    fun frames => startedSprite_ready frames _ _ (by unfold fireAnimationDuration; norm_num)
  simp only [fireTowerWeapon]
  split_ifs
  · exact ⟨hs _, ht.2⟩
  · exact ht
  · exact ⟨hs _, ht.2⟩
  · exact ht
  · exact ht

theorem SpawnProjectile_ready (M : GoMath) (TA : TowerAssets) (x y angle : ℚ) (ty : Int)
    (pm : ProjectileManager) (hpm : ∀ p ∈ pm.projectiles, p.Ready) :
    ∀ p ∈ (pm.SpawnProjectile M TA x y angle ty).projectiles, p.Ready := by
  intro p hp
  simp only [ProjectileManager.SpawnProjectile] at hp
  rcases List.mem_append.mp hp with hp | hp
  · exact hpm p hp
  · rw [List.mem_singleton] at hp
    subst hp
    have hs : ∀ frames, OptReady (startedSprite frames (1 / 2) true) :=
      fun frames => startedSprite_ready frames _ _ (by norm_num)
    refine ⟨?_, OptReady_none⟩
    simp only
    split_ifs
    · exact hs _
    · exact OptReady_none
    · exact hs _
    · exact OptReady_none
    · exact OptReady_none

theorem spawnProjectileFromTower_ready (M : GoMath) (TA : TowerAssets) (t : PlacedTower)
    (pm : ProjectileManager) (hpm : ∀ p ∈ pm.projectiles, p.Ready) :
    ∀ p ∈ (spawnProjectileFromTower M TA t pm).2.projectiles, p.Ready := by
  by_cases hw : t.WeaponFired = false
  · simp only [spawnProjectileFromTower, if_pos hw]
    exact hpm
  · simp only [spawnProjectileFromTower, if_neg hw]
    exact SpawnProjectile_ready _ _ _ _ _ _ _ hpm

theorem tickFiringAnimation_total (M : GoMath) (TA : TowerAssets) (dt : ℚ) (t : PlacedTower)
    (pm : ProjectileManager) (ht : t.Ready) (hpm : ∀ p ∈ pm.projectiles, p.Ready) :
    ∃ k t1 pm1, (∀ fuel, k ≤ fuel → tickFiringAnimation M TA fuel dt t pm = .ok (t1, pm1)) ∧
      t1.Ready ∧ ∀ p ∈ pm1.projectiles, p.Ready := by
  cases hfa : t.FiringAnimation with
  | none =>
    refine ⟨0, t, pm, fun fuel _ => ?_, ht, hpm⟩
    simp only [tickFiringAnimation, hfa]
  | some a =>
    have hd := ht.1 a hfa
    obtain ⟨k, a1, hk⟩ := AnimatedSprite.Update_terminates dt a hd
    have hst := AnimatedSprite.Update_static _ _ _ _ (hk k (le_refl _))
    cases hp : a1.isPlaying with
    | false =>
      refine ⟨k,
        { (if t.WeaponFired = true then
            spawnProjectileFromTower M TA { t with FiringAnimation := some a1 } pm
            else ({ t with FiringAnimation := some a1 }, pm)).1 with FiringAnimation := none },
        (if t.WeaponFired = true then
            spawnProjectileFromTower M TA { t with FiringAnimation := some a1 } pm
            else ({ t with FiringAnimation := some a1 }, pm)).2, fun fuel hf => ?_, ?_, ?_⟩
      · simp only [tickFiringAnimation, hfa, hk fuel hf, AnimatedSprite.IsPlaying, hp, if_true]
      · refine ⟨OptReady_none, ?_⟩
        split_ifs
        · rw [spawnProjectileFromTower_fst]
          exact ht.2
        · exact ht.2
      · split_ifs
        · exact spawnProjectileFromTower_ready _ _ _ _ hpm
        · exact hpm
    | true =>
      refine ⟨k, { t with FiringAnimation := some a1 }, pm, fun fuel hf => ?_, ?_, hpm⟩
      · simp only [tickFiringAnimation, hfa, hk fuel hf, AnimatedSprite.IsPlaying, hp,
          Bool.true_eq_false, if_false]
      · refine ⟨fun b hb => ?_, ht.2⟩
        simp only [Option.some.injEq] at hb
        subst hb
        rw [hst.2.2.1]
        exact hd

theorem tickIdleAnimation_total (dt : ℚ) (t : PlacedTower) (ht : t.Ready) :
    ∃ k t1, (∀ fuel, k ≤ fuel → t.tickIdleAnimation fuel dt = .ok t1) ∧ t1.Ready := by
  obtain ⟨k, r, hk, hr⟩ := updateOptional_total dt t.IdleAnimation ht.2
  refine ⟨k, { t with IdleAnimation := r }, fun fuel hf => ?_, ⟨ht.1, hr⟩⟩
  simp only [PlacedTower.tickIdleAnimation, hk fuel hf]

theorem aim_total (M : GoMath) (hpi : 0 < M.Pi) (dt : ℚ) (c : Creep) (t : PlacedTower)
    (ht : t.Ready) :
    ∃ k t1, (∀ fuel, k ≤ fuel → t.aim M fuel dt c = .ok t1) ∧ t1.Ready := by
  obtain ⟨k1, delta, h1⟩ := normalizeAngle_total M.Pi hpi
    (M.Atan2 (c.Y - t.centerY) (c.X - t.centerX) - t.WeaponAngle)
  obtain ⟨k2, angle, h2⟩ := normalizeAngle_total M.Pi hpi
    (t.WeaponAngle + rotationStep dt delta)
  refine ⟨max k1 k2, { t with WeaponAngle := angle }, fun fuel hf => ?_, ht⟩
  simp only [PlacedTower.aim, h1 fuel (le_trans (le_max_left _ _) hf),
    h2 fuel (le_trans (le_max_right _ _) hf)]

theorem engage_total (M : GoMath) (TA : TowerAssets) (hpi : 0 < M.Pi) (dt : ℚ)
    (creeps : List Creep) (t : PlacedTower) (ht : t.Ready) :
    ∃ k t1, (∀ fuel, k ≤ fuel → engage M TA fuel dt creeps t = .ok t1) ∧ t1.Ready := by
  cases hw : t.WeaponImage with
  | none => exact ⟨0, t, fun fuel _ => by simp only [engage, hw], ht⟩
  | some img =>
    cases hn : (t.nearestCreep M creeps).1 with
    | none => exact ⟨0, t, fun fuel _ => by simp only [engage, hw, hn], ht⟩
    | some c =>
      have haim : ∃ k t1, (∀ fuel, k ≤ fuel →
          (if t.TowerID ≠ MagicTowerID then t.aim M fuel dt c else .ok t) = .ok t1) ∧
          t1.Ready := by
        by_cases hm : t.TowerID ≠ MagicTowerID
        · obtain ⟨k, t1, hk, hr⟩ := aim_total M hpi dt c t ht
          exact ⟨k, t1, fun fuel hf => by rw [if_pos hm]; exact hk fuel hf, hr⟩
        · exact ⟨0, t, fun fuel _ => by rw [if_neg hm], ht⟩
      obtain ⟨k, t1, hk, hr⟩ := haim
      by_cases hfire : M.Sqrt (t.nearestCreep M creeps).2 ≤ towerRange ∧ t1.FireTimer ≤ 0
      · refine ⟨k, fireTowerWeapon TA c t1, fun fuel hf => ?_, fireTowerWeapon_ready TA c t1 hr⟩
        simp only [engage, hw, hn, hk fuel hf, if_pos hfire]
      · refine ⟨k, t1, fun fuel hf => ?_, hr⟩
        simp only [engage, hw, hn, hk fuel hf, if_neg hfire]

theorem tickFireTimer_ready (dt : ℚ) (t : PlacedTower) (ht : t.Ready) :
    (t.tickFireTimer dt).Ready := by
  rw [PlacedTower.tickFireTimer_fields]
  exact ht

theorem updateTower_total (M : GoMath) (TA : TowerAssets) (hpi : 0 < M.Pi) (dt : ℚ)
    (creeps : List Creep) (t : PlacedTower) (pm : ProjectileManager) (ht : t.Ready)
    (hpm : ∀ p ∈ pm.projectiles, p.Ready) :
    ∃ k t1 pm1, (∀ fuel, k ≤ fuel → updateTower M TA fuel dt creeps t pm = .ok (t1, pm1)) ∧
      t1.Ready ∧ ∀ p ∈ pm1.projectiles, p.Ready := by
  obtain ⟨k1, t1, pm1, h1, hr1, hp1⟩ :=
    tickFiringAnimation_total M TA dt (t.tickFireTimer dt) pm (tickFireTimer_ready dt t ht) hpm
  obtain ⟨k2, t2, h2, hr2⟩ := tickIdleAnimation_total dt t1 hr1
  obtain ⟨k3, t3, h3, hr3⟩ := engage_total M TA hpi dt creeps t2 hr2
  refine ⟨max k1 (max k2 k3), t3, pm1, fun fuel hf => ?_, hr3, hp1⟩
  simp only [updateTower, h1 fuel (le_trans (le_max_left _ _) hf),
    h2 fuel (le_trans (le_trans (le_max_left _ _) (le_max_right _ _)) hf),
    h3 fuel (le_trans (le_trans (le_max_right _ _) (le_max_right _ _)) hf)]

theorem updateTowers_total (M : GoMath) (TA : TowerAssets) (hpi : 0 < M.Pi) (dt : ℚ)
    (creeps : List Creep) (ts : List PlacedTower) (pm : ProjectileManager)
    (hts : ∀ t ∈ ts, t.Ready) (hpm : ∀ p ∈ pm.projectiles, p.Ready) :
    ∃ k ts1 pm1, (∀ fuel, k ≤ fuel →
        updateTowers M TA fuel dt creeps ts pm = .ok (ts1, pm1)) ∧
      (∀ t ∈ ts1, t.Ready) ∧ ∀ p ∈ pm1.projectiles, p.Ready := by
  induction ts generalizing pm with
  | nil => exact ⟨0, [], pm, fun _ _ => rfl, fun t ht => absurd ht (List.not_mem_nil t), hpm⟩
  | cons t rest ih =>
    obtain ⟨k1, t1, pm1, h1, hr1, hp1⟩ :=
      updateTower_total M TA hpi dt creeps t pm (hts t (List.mem_cons_self _ _)) hpm
    obtain ⟨k2, ts1, pm2, h2, hr2, hp2⟩ :=
      ih pm1 (fun x hx => hts x (List.mem_cons_of_mem _ hx)) hp1
    refine ⟨max k1 k2, t1 :: ts1, pm2, fun fuel hf => ?_, fun x hx => ?_, hp2⟩
    · simp only [updateTowers, h1 fuel (le_trans (le_max_left _ _) hf),
        h2 fuel (le_trans (le_max_right _ _) hf)]
    · rcases List.mem_cons.mp hx with rfl | hx
      · exact hr1
      · exact hr2 x hx

end TowerManager

namespace ProjectileManager

theorem startImpactAnimation_ready (TA : TowerAssets) (p : Projectile) (hp : p.Ready) :
    (startImpactAnimation TA p).Ready := by
  have hs : ∀ frames, OptReady (startedSprite frames (1 / 2) false) :=
    fun frames => startedSprite_ready frames _ _ (by norm_num)
  simp only [startImpactAnimation]
  split_ifs
  · exact ⟨OptReady_none, hs _⟩
  · exact ⟨OptReady_none, hp.2⟩
  · exact ⟨OptReady_none, hs _⟩
  · exact ⟨OptReady_none, hp.2⟩
  · exact ⟨OptReady_none, hp.2⟩

theorem keepIfActive_ready (p : Projectile) (hp : p.Ready) :
    ∀ q, keepIfActive p = some q → q.Ready := by
  intro q hq
  unfold keepIfActive at hq
  split_ifs at hq
  cases hq
  exact hp

theorem advance_ready (M : GoMath) (TA : TowerAssets) (dt : ℚ) (p : Projectile)
    (hp : p.Ready) : (advance M TA dt p).Ready := by
  simp only [advance]
  split_ifs
  · exact startImpactAnimation_ready TA _ hp
  · exact hp

theorem resolve_ready (M : GoMath) (TA : TowerAssets) (dt : ℚ) (creeps : List Creep)
    (p : Projectile) (hp : p.Ready) : ∀ q, (resolve M TA dt creeps p).1 = some q → q.Ready := by
  intro q hq
  unfold resolve at hq
  by_cases h1 : hasStopped p.ImpactAnimation = true
  · rw [if_pos h1] at hq
    exact Option.noConfusion hq
  · rw [if_neg h1] at hq
    by_cases h2 : p.IsImpacting = false
    · rw [if_pos h2] at hq
      by_cases h3 : (checkCollisionWithCreeps M p creeps).1 = true
      · rw [if_pos h3] at hq
        exact keepIfActive_ready _ (startImpactAnimation_ready TA p hp) q hq
      · rw [if_neg h3] at hq
        exact keepIfActive_ready _ (advance_ready M TA dt p hp) q hq
    · rw [if_neg h2] at hq
      exact keepIfActive_ready _ hp q hq

theorem updateOne_total (M : GoMath) (TA : TowerAssets) (dt : ℚ) (creeps : List Creep)
    (p : Projectile) (hp : p.Ready) :
    ∃ k kept creeps1, (∀ fuel, k ≤ fuel →
        updateOne M TA fuel dt creeps p = .ok (kept, creeps1)) ∧
      ∀ q, kept = some q → q.Ready := by
  by_cases hact : p.Active = false
  · exact ⟨0, none, creeps, fun fuel _ => by simp only [updateOne, if_pos hact],
      fun q hq => Option.noConfusion hq⟩
  · obtain ⟨k1, anim, h1, hr1⟩ := updateOptional_total dt p.Animation hp.1
    obtain ⟨k2, impact, h2, hr2⟩ := updateOptional_total dt p.ImpactAnimation hp.2
    refine ⟨max k1 k2,
      (resolve M TA dt creeps { p with Animation := anim, ImpactAnimation := impact }).1,
      (resolve M TA dt creeps { p with Animation := anim, ImpactAnimation := impact }).2,
      fun fuel hf => ?_, resolve_ready M TA dt creeps _ ⟨hr1, hr2⟩⟩
    simp only [updateOne, if_neg hact, h1 fuel (le_trans (le_max_left _ _) hf),
      h2 fuel (le_trans (le_max_right _ _) hf)]

theorem updateAll_total (M : GoMath) (TA : TowerAssets) (dt : ℚ) (ps : List Projectile)
    (creeps : List Creep) (hps : ∀ p ∈ ps, p.Ready) :
    ∃ k qs creeps1, (∀ fuel, k ≤ fuel → updateAll M TA fuel dt ps creeps = .ok (qs, creeps1)) ∧
      ∀ q ∈ qs, q.Ready := by
  induction ps generalizing creeps with
  | nil => exact ⟨0, [], creeps, fun _ _ => rfl, fun q hq => absurd hq (List.not_mem_nil q)⟩
  | cons p rest ih =>
    obtain ⟨k1, kept, creeps1, h1, hr1⟩ :=
      updateOne_total M TA dt creeps p (hps p (List.mem_cons_self _ _))
    obtain ⟨k2, qs, creeps2, h2, hr2⟩ := ih creeps1 fun x hx => hps x (List.mem_cons_of_mem _ hx)
    refine ⟨max k1 k2, (match kept with
        | some q => q :: qs
        | none => qs), creeps2, fun fuel hf => ?_, fun q hq => ?_⟩
    · simp only [updateAll, h1 fuel (le_trans (le_max_left _ _) hf),
        h2 fuel (le_trans (le_max_right _ _) hf)]
      cases kept <;> rfl
    · cases kept with
      | none => exact hr2 q hq
      | some x =>
        rcases List.mem_cons.mp hq with rfl | hq
        · exact hr1 q rfl
        · exact hr2 q hq

theorem pmUpdate_total (M : GoMath) (TA : TowerAssets) (dt : ℚ) (creeps : List Creep)
    (pm : ProjectileManager) (hpm : ∀ p ∈ pm.projectiles, p.Ready) :
    ∃ k pm1 creeps1, (∀ fuel, k ≤ fuel → pm.Update M TA fuel dt creeps = .ok (pm1, creeps1)) ∧
      ∀ q ∈ pm1.projectiles, q.Ready := by
  obtain ⟨k, qs, creeps1, hk, hr⟩ := updateAll_total M TA dt pm.projectiles creeps hpm
  refine ⟨k, { pm with projectiles := qs }, creeps1, fun fuel hf => ?_, hr⟩
  simp only [Update, hk fuel hf]

end ProjectileManager

namespace TowerManager

theorem UpdatePlacedTowers_total (M : GoMath) (TA : TowerAssets) (hpi : 0 < M.Pi) (dt : ℚ)
    (creeps : List Creep) (tm : TowerManager) (htm : tm.Ready) :
    ∃ k tm1 creeps1, (∀ fuel, k ≤ fuel →
        tm.UpdatePlacedTowers M TA fuel dt creeps = .ok (tm1, creeps1)) ∧ tm1.Ready := by
  obtain ⟨k1, ts, pm1, h1, hr1, hp1⟩ :=
    updateTowers_total M TA hpi dt creeps tm.placedTowers tm.projectileManager htm.1 htm.2
  obtain ⟨k2, pm2, creeps1, h2, hr2⟩ := ProjectileManager.pmUpdate_total M TA dt creeps pm1 hp1
  refine ⟨max k1 k2, { tm with placedTowers := ts, projectileManager := pm2 }, creeps1,
    fun fuel hf => ?_, ⟨hr1, hr2⟩⟩
  simp only [UpdatePlacedTowers, h1 fuel (le_trans (le_max_left _ _) hf),
    h2 fuel (le_trans (le_max_right _ _) hf)]

theorem tower_run_total (M : GoMath) (TA : TowerAssets) (hpi : 0 < M.Pi)
    (ticks : List (ℚ × List Creep)) (tm : TowerManager) (htm : tm.Ready) :
    ∃ k r, (∀ fuel, k ≤ fuel → tm.run M TA fuel ticks = .ok r) ∧ r.Ready := by
  induction ticks generalizing tm with
  | nil => exact ⟨0, tm, fun _ _ => rfl, htm⟩
  | cons t rest ih =>
    obtain ⟨k1, tm1, creeps1, h1, hr1⟩ := UpdatePlacedTowers_total M TA hpi t.1 t.2 tm htm
    obtain ⟨k2, r, h2, hr2⟩ := ih tm1 hr1
    refine ⟨max k1 k2, r, fun fuel hf => ?_, hr2⟩
    simp only [TowerManager.run, h1 fuel (le_trans (le_max_left _ _) hf)]
    exact h2 fuel (le_trans (le_max_right _ _) hf)

end TowerManager

/-! ## The tower loop of `UpdatePlacedTowers` -/

theorem PlacedTower.nearestCreep_congr (M : GoMath) (t t2 : PlacedTower) (creeps : List Creep)
    (hx : t2.X = t.X) (hy : t2.Y = t.Y) : t2.nearestCreep M creeps = t.nearestCreep M creeps := by
  simp only [PlacedTower.nearestCreep, PlacedTower.centerX, PlacedTower.centerY, hx, hy]

namespace TowerManager

/-- The tower handed to the targeting part of the loop body: only the cooldown, the animations
and the pending-shot flag were written before it. -/
theorem updateTower_engage (M : GoMath) (TA : TowerAssets) (fuel : Nat) (dt : ℚ)
    (creeps : List Creep) (t t3 : PlacedTower) (pm pm1 : ProjectileManager)
    (h : updateTower M TA fuel dt creeps t pm = .ok (t3, pm1)) :
    ∃ t2, engage M TA fuel dt creeps t2 = .ok t3 ∧ t2.X = t.X ∧ t2.Y = t.Y ∧
      t2.TowerID = t.TowerID ∧ t2.WeaponImage = t.WeaponImage ∧
      t2.WeaponAngle = t.WeaponAngle ∧ t2.FireTimer = (t.tickFireTimer dt).FireTimer ∧
      t2.TargetX = t.TargetX ∧ t2.TargetY = t.TargetY := by
  obtain ⟨t1, t2, _, _, h3, h4⟩ := updateTower_spec M TA fuel dt creeps t t3 pm pm1 h
  exact ⟨t2, h3, by rw [h4], by rw [h4], by rw [h4], by rw [h4], by rw [h4], by rw [h4],
    by rw [h4], by rw [h4]⟩

theorem updateTowers_forall₂ (M : GoMath) (TA : TowerAssets) (fuel : Nat) (dt : ℚ)
    (creeps : List Creep) (ts ts1 : List PlacedTower) (pm pm1 : ProjectileManager)
    (h : updateTowers M TA fuel dt creeps ts pm = .ok (ts1, pm1)) :
    List.Forall₂ (fun t t3 => ∃ p p1, updateTower M TA fuel dt creeps t p = .ok (t3, p1))
      ts ts1 := by
  induction ts generalizing ts1 pm with
  | nil =>
    simp only [updateTowers, Except.ok.injEq, Prod.mk.injEq] at h
    rw [← h.1]
    exact List.Forall₂.nil
  | cons t rest ih =>
    simp only [updateTowers] at h
    split at h
    · cases h
    · rename_i t1 pm2 h1
      split at h
      · cases h
      · rename_i ts2 pm3 h2
        simp only [Except.ok.injEq, Prod.mk.injEq] at h
        obtain ⟨h3, h4⟩ := h
        subst h3 h4
        exact List.Forall₂.cons ⟨pm, pm2, h1⟩ (ih ts2 pm2 h2)

theorem UpdatePlacedTowers_spec (M : GoMath) (TA : TowerAssets) (fuel : Nat) (dt : ℚ)
    (creeps cs : List Creep) (tm tm1 : TowerManager)
    (h : tm.UpdatePlacedTowers M TA fuel dt creeps = .ok (tm1, cs)) :
    ∃ pm1, updateTowers M TA fuel dt creeps tm.placedTowers tm.projectileManager =
        .ok (tm1.placedTowers, pm1) ∧
      pm1.Update M TA fuel dt creeps = .ok (tm1.projectileManager, cs) ∧
      tm1.buildingAnimations = tm.buildingAnimations ∧ tm1.towers = tm.towers := by
  simp only [UpdatePlacedTowers] at h
  split at h
  · cases h
  · rename_i ts pm1 h1
    split at h
    · cases h
    · rename_i pm2 cs2 h2
      simp only [Except.ok.injEq, Prod.mk.injEq] at h
      obtain ⟨h3, h4⟩ := h
      subst h3 h4
      exact ⟨pm1, h1, h2, rfl, rfl⟩

theorem UpdatePlacedTowers_forall₂ (M : GoMath) (TA : TowerAssets) (fuel : Nat) (dt : ℚ)
    (creeps cs : List Creep) (tm tm1 : TowerManager)
    (h : tm.UpdatePlacedTowers M TA fuel dt creeps = .ok (tm1, cs)) :
    List.Forall₂ (fun t t3 => ∃ p p1, updateTower M TA fuel dt creeps t p = .ok (t3, p1))
      tm.placedTowers tm1.placedTowers := by
  obtain ⟨pm1, h1, _⟩ := UpdatePlacedTowers_spec M TA fuel dt creeps cs tm tm1 h
  exact updateTowers_forall₂ M TA fuel dt creeps _ _ _ _ h1

/-- What the targeting part may write: the heading (only to a normalised value) and, when it
fires, the cooldown, the target and the firing animation. -/
theorem engage_outcome (M : GoMath) (TA : TowerAssets) (fuel : Nat) (dt : ℚ)
    (creeps : List Creep) (t t3 : PlacedTower) (h : engage M TA fuel dt creeps t = .ok t3) :
    (t3.WeaponAngle = t.WeaponAngle ∨ (-M.Pi ≤ t3.WeaponAngle ∧ t3.WeaponAngle ≤ M.Pi)) ∧
      (t3.FireTimer = t.FireTimer ∨ t3.FireTimer = fireDelay) := by
  have hfire : ∀ c (u : PlacedTower), (fireTowerWeapon TA c u).WeaponAngle = u.WeaponAngle ∧
      (fireTowerWeapon TA c u).FireTimer = fireDelay := fun c u =>
    ⟨by rw [fireTowerWeapon_fields], by rw [fireTowerWeapon_fields]⟩
  rcases engage_spec M TA fuel dt creeps t t3 h with ⟨_, rfl⟩ | ⟨_, _, rfl⟩ |
    ⟨_, c, t1, _, haim, hfired⟩
  · exact ⟨Or.inl rfl, Or.inl rfl⟩
  · exact ⟨Or.inl rfl, Or.inl rfl⟩
  · have h1 : (t1.WeaponAngle = t.WeaponAngle ∨ (-M.Pi ≤ t1.WeaponAngle ∧ t1.WeaponAngle ≤ M.Pi)) ∧
        t1.FireTimer = t.FireTimer := by
      rcases haim with ⟨_, ha⟩ | ⟨_, rfl⟩
      · obtain ⟨delta, _, hn, hrec⟩ := PlacedTower.aim_spec M fuel dt c t t1 ha
        obtain ⟨hlo, hhi, _⟩ := normalizeAngle_spec _ _ _ _ hn
        exact ⟨Or.inr ⟨hlo, hhi⟩, by rw [hrec]⟩
      · exact ⟨Or.inl rfl, rfl⟩
    rcases hfired with ⟨_, _, rfl⟩ | ⟨_, rfl⟩
    · rw [(hfire c t1).1, (hfire c t1).2]
      exact ⟨h1.1, Or.inr rfl⟩
    · exact ⟨h1.1, Or.inl h1.2⟩

theorem forall₂_mem_right {α β : Type} (R : α → β → Prop) (l1 : List α) (l2 : List β)
    (h : List.Forall₂ R l1 l2) : ∀ b ∈ l2, ∃ a ∈ l1, R a b := by
  induction h with
  | nil => exact fun b hb => absurd hb (List.not_mem_nil b)
  | cons hab _ ih =>
    intro b hb
    rcases List.mem_cons.mp hb with rfl | hb
    · exact ⟨_, List.mem_cons_self _ _, hab⟩
    · obtain ⟨a, ha, hr⟩ := ih b hb
      exact ⟨a, List.mem_cons_of_mem _ ha, hr⟩

theorem getTowerImage_valid (TA : TowerAssets) (towerID : Int)
    (hid : towerID = BallistaTowerID ∨ towerID = MagicTowerID) :
    ∃ img, getTowerImage TA towerID = some img := by
  rcases hid with rfl | rfl
  · exact ⟨TA.BallistaTower, by simp only [getTowerImage, if_true]⟩
  · exact ⟨TA.MagicTower, by simp [getTowerImage, BallistaTowerID, MagicTowerID]⟩

/-- The tower built by `placeTower`. -/
theorem newPlacedTower_spec (M : GoMath) (TA : TowerAssets) (col row towerID : Int)
    (img : Image) :
    (newPlacedTower M TA col row towerID img).X = col ∧
      (newPlacedTower M TA col row towerID img).Y = row ∧
      (newPlacedTower M TA col row towerID img).TowerID = towerID ∧
      (newPlacedTower M TA col row towerID img).WeaponAngle = -M.Pi / 2 ∧
      (newPlacedTower M TA col row towerID img).FireTimer = 0 ∧
      (newPlacedTower M TA col row towerID img).FiringAnimation = none ∧
      (newPlacedTower M TA col row towerID img).WeaponFired = false ∧
      (newPlacedTower M TA col row towerID img).Ready ∧
      (towerID = BallistaTowerID →
        (newPlacedTower M TA col row towerID img).IdleAnimation = none ∧
          (newPlacedTower M TA col row towerID img).WeaponImage =
            (if TA.BallistaWeaponFire.length > 0 then TA.BallistaWeaponFire[0]? else none)) := by
  have hidle : OptReady (startedSprite TA.MagicTowerWeaponIdleAnimation 1 true) :=
    startedSprite_ready _ _ _ one_pos
  have hne : ¬ (BallistaTowerID = MagicTowerID) := by decide
  unfold newPlacedTower
  simp only
  refine ⟨?_, ?_, ?_, ?_, ?_, ?_, ?_, ?_, ?_⟩
  · split_ifs <;> rfl
  · split_ifs <;> rfl
  · split_ifs <;> rfl
  · split_ifs <;> rfl
  · split_ifs <;> rfl
  · split_ifs <;> rfl
  · split_ifs <;> rfl
  · split_ifs <;> first
      | exact ⟨OptReady_none, hidle⟩
      | exact ⟨OptReady_none, OptReady_none⟩
  · rintro rfl
    simp only [hne, false_and, if_false, true_and]
    split_ifs <;> exact ⟨rfl, rfl⟩

/-- The tower appended by `placeTower` for a valid tower type. -/
theorem placeTower_spec (M : GoMath) (TA : TowerAssets) (col row towerID : Int)
    (tm : TowerManager) (hid : towerID = BallistaTowerID ∨ towerID = MagicTowerID) :
    ∃ img, tm.placeTower M TA col row towerID =
      { tm with placedTowers := tm.placedTowers ++ [newPlacedTower M TA col row towerID img] } := by
  obtain ⟨img, himg⟩ := getTowerImage_valid TA towerID hid
  exact ⟨img, by simp only [placeTower, himg]⟩

theorem placeTower_invalid (M : GoMath) (TA : TowerAssets) (col row towerID : Int)
    (tm : TowerManager) (h1 : towerID ≠ BallistaTowerID) (h2 : towerID ≠ MagicTowerID) :
    tm.placeTower M TA col row towerID = tm := by
  simp only [placeTower, getTowerImage, if_neg h1, if_neg h2]

end TowerManager

/-! ## Aiming -/

theorem demoTowers_ready : demoTowers.Ready := by
  obtain ⟨img, himg⟩ := TowerManager.placeTower_spec standInMath repoTowerAssets 0 0
    BallistaTowerID (NewTowerManager repoTowerAssets) (Or.inl rfl)
  unfold demoTowers
  rw [himg]
  refine ⟨fun t ht => ?_, fun p hp => ?_⟩
  · simp only [NewTowerManager, List.nil_append, List.mem_singleton] at ht
    rw [ht]
    exact (TowerManager.newPlacedTower_spec _ _ _ _ _ _).2.2.2.2.2.2.2.1
  · simp only [NewTowerManager] at hp
    exact absurd hp (List.not_mem_nil p)

/-- C17 (bounded, smoothed aiming): in one `UpdatePlacedTowers` tick with `dt ≥ 0`, every tower
that has a weapon, is not the Magic tower and for which the scan found a nearest creep turns by
`step = clamp(delta*8*dt, -3*dt, 3*dt)`: the new `WeaponAngle` is the normalisation of the old
one plus `step`, where `delta` lies in `[-Pi, Pi]` and differs from (bearing to the creep minus
the old heading) by a multiple of `2*Pi`. So `|step| ≤ weaponRotationSpeed*dt` and `step` has
the sign of `delta`. With `0 < Pi` and animations of positive frame duration the tick returns. -/
theorem bounded_smoothed_aiming (M : GoMath) (TA : TowerAssets) (dt : ℚ) (hdt : 0 ≤ dt)
    (creeps : List Creep) (tm : TowerManager) :
    (∀ fuel tm1 cs, tm.UpdatePlacedTowers M TA fuel dt creeps = .ok (tm1, cs) →
      List.Forall₂ (fun t t3 =>
        t.WeaponImage ≠ none → t.TowerID ≠ MagicTowerID →
        ∀ c, (t.nearestCreep M creeps).1 = some c →
          ∃ delta step : ℚ,
            (-M.Pi ≤ delta ∧ delta ≤ M.Pi ∧
              ∃ k : ℤ, delta =
                M.Atan2 (c.Y - t.centerY) (c.X - t.centerX) - t.WeaponAngle + 2 * M.Pi * k) ∧
            step = max (-(3 * dt)) (min (3 * dt) (delta * 8 * dt)) ∧
            |step| ≤ weaponRotationSpeed * dt ∧
            (0 < step → 0 < delta) ∧ (step < 0 → delta < 0) ∧
            (0 < dt → 0 < delta → 0 < step) ∧ (0 < dt → delta < 0 → step < 0) ∧
            normalizeAngle M.Pi fuel (t.WeaponAngle + step) = some t3.WeaponAngle)
        tm.placedTowers tm1.placedTowers) ∧
      (0 < M.Pi → tm.Ready → ∃ k, ∀ fuel, k ≤ fuel →
        ∃ r, tm.UpdatePlacedTowers M TA fuel dt creeps = .ok r) := by
  constructor
  · intro fuel tm1 cs h
    refine (TowerManager.UpdatePlacedTowers_forall₂ M TA fuel dt creeps cs tm tm1 h).imp ?_
    rintro t t3 ⟨p, p1, hu⟩ hw hid c hc
    obtain ⟨t2, he, hx, hy, hid2, hw2, hang, _⟩ :=
      TowerManager.updateTower_engage M TA fuel dt creeps t t3 p p1 hu
    have hscan := PlacedTower.nearestCreep_congr M t t2 creeps hx hy
    have hcx : t2.centerX = t.centerX := by simp only [PlacedTower.centerX, hx]
    have hcy : t2.centerY = t.centerY := by simp only [PlacedTower.centerY, hy]
    rcases TowerManager.engage_spec M TA fuel dt creeps t2 t3 he with
      ⟨hnone, _⟩ | ⟨_, hnone, _⟩ | ⟨_, c2, t1, hc2, haim, hfired⟩
    · rw [hw2] at hnone
      exact absurd hnone hw
    · rw [hscan, hc] at hnone
      cases hnone
    · rw [hscan, hc] at hc2
      have hcc := Option.some.inj hc2
      subst hcc
      rcases haim with ⟨_, ha⟩ | ⟨hmagic, _⟩
      · obtain ⟨delta, hn1, hn2, _⟩ := PlacedTower.aim_spec M fuel dt c t2 t1 ha
        rw [hcx, hcy, hang] at hn1
        rw [hang] at hn2
        have h3 : t3.WeaponAngle = t1.WeaponAngle := by
          rcases hfired with ⟨_, _, rfl⟩ | ⟨_, rfl⟩
          · rw [TowerManager.fireTowerWeapon_fields]
          · rfl
        obtain ⟨hlo, hhi, k, hk⟩ := normalizeAngle_spec _ _ _ _ hn1
        have hclamp := rotationStep_eq_clamp dt delta hdt
        simp only [weaponRotationSpeed, weaponRotationSmoothness] at hclamp
        obtain ⟨hb1, hb2, hb3, hb4, hb5⟩ := rotationStep_bounds dt delta hdt
        exact ⟨delta, rotationStep dt delta, ⟨hlo, hhi, k, hk⟩, hclamp, hb1, hb2, hb3, hb4, hb5,
          by rw [h3]; exact hn2⟩
      · rw [hid2] at hmagic
        exact absurd hmagic hid
  · intro hpi htm
    obtain ⟨k, tm1, cs, hk, _⟩ := TowerManager.UpdatePlacedTowers_total M TA hpi dt creeps tm htm
    exact ⟨k, fun fuel hf => ⟨_, hk fuel hf⟩⟩

theorem bounded_smoothed_aiming_witness :
    (0 : ℚ) ≤ 1 / 8 ∧ ∃ k, ∀ fuel, k ≤ fuel →
      ∃ r, demoTowers.UpdatePlacedTowers standInMath repoTowerAssets fuel (1 / 8) [westCreep] =
        .ok r :=
  ⟨by norm_num,
    (bounded_smoothed_aiming standInMath repoTowerAssets (1 / 8) (by norm_num) [westCreep]
      demoTowers).2 (by norm_num [standInMath]) demoTowers_ready⟩

/-! ## Heading range -/

/-- C18, counterexample: the Ballista tower of `demoTowers` (heading `-Pi/2`) and a creep due
west of it (bearing `Pi`); one tick of length `Pi/6` turns the weapon by the clamped step
`-Pi/2` and leaves `WeaponAngle = -Pi`, which the normalisation loops keep: the lower end of the
interval is attained. -/
theorem weapon_heading_lower_end_counterexample :
    standInMath.Pi = 355 / 113 ∧
      demoTowers.placedTowers.map PlacedTower.WeaponAngle = [-(355 / 113) / 2] ∧
      ((demoTowers.run standInMath repoTowerAssets 1 [(355 / 678, [westCreep])]).map fun tm =>
          tm.placedTowers.map PlacedTower.WeaponAngle) = .ok [-(355 / 113)] ∧
      ¬ (-standInMath.Pi < -(355 / 113)) := by
  refine ⟨rfl, ?_, ?_, by norm_num [standInMath]⟩
  · norm_num [demoTowers, TowerManager.placeTower, TowerManager.getTowerImage,
      TowerManager.newPlacedTower, NewTowerManager, BallistaTowerID, MagicTowerID,
      repoTowerAssets, standInMath]
  · norm_num [demoTowers, TowerManager.placeTower, TowerManager.getTowerImage,
      TowerManager.newPlacedTower, NewTowerManager, BallistaTowerID, MagicTowerID,
      repoTowerAssets, standInMath, TowerManager.run, TowerManager.UpdatePlacedTowers,
      TowerManager.updateTowers, TowerManager.updateTower, PlacedTower.tickFireTimer,
      TowerManager.tickFiringAnimation, PlacedTower.tickIdleAnimation, updateOptional,
      TowerManager.engage, PlacedTower.nearestCreep, scanStep, westCreep, scenarioCreep,
      NewCreep, Creep.IsActive, PlacedTower.centerX, PlacedTower.centerY, PlacedTower.aim,
      normalizeAngle, wrapAbovePi, wrapBelowPi, rotationStep, axisAtan2, weaponRotationSpeed,
      weaponRotationSmoothness, towerRange, TowerManager.fireTowerWeapon, fireDelay,
      ProjectileManager.Update, ProjectileManager.updateAll, Except.map, abs_of_neg]

/-- C18, amended (weapon heading stays in the closed interval `[-Pi, Pi]`): if every placed
tower's `WeaponAngle` lies in `[-Pi, Pi]`, it still does after every sequence of
`UpdatePlacedTowers` ticks, whatever the elapsed times and creep lists; `placeTower` appends a
tower with heading `-Pi/2`, which lies in the interval; with `0 < Pi` and animations of positive
frame duration the ticks return. -/
theorem weapon_heading_closed_range (M : GoMath) (TA : TowerAssets)
    (ticks : List (ℚ × List Creep)) (tm : TowerManager)
    (h0 : ∀ t ∈ tm.placedTowers, -M.Pi ≤ t.WeaponAngle ∧ t.WeaponAngle ≤ M.Pi) :
    (∀ fuel tm1, tm.run M TA fuel ticks = .ok tm1 →
        ∀ t ∈ tm1.placedTowers, -M.Pi ≤ t.WeaponAngle ∧ t.WeaponAngle ≤ M.Pi) ∧
      (0 ≤ M.Pi → ∀ col row towerID,
        ∀ t ∈ (tm.placeTower M TA col row towerID).placedTowers,
          (t ∈ tm.placedTowers ∨ t.WeaponAngle = -M.Pi / 2) ∧
            -M.Pi ≤ t.WeaponAngle ∧ t.WeaponAngle ≤ M.Pi) ∧
      (0 < M.Pi → tm.Ready → ∃ k, ∀ fuel, k ≤ fuel → ∃ r, tm.run M TA fuel ticks = .ok r) := by
  refine ⟨?_, ?_, ?_⟩
  · intro fuel
    induction ticks generalizing tm with
    | nil =>
      intro tm1 h
      simp only [TowerManager.run, Except.ok.injEq] at h
      rw [← h]
      exact h0
    | cons x rest ih =>
      intro tm1 h
      simp only [TowerManager.run] at h
      split at h
      · cases h
      · rename_i tm2 cs h2
        refine ih tm2 (fun t3 ht3 => ?_) tm1 h
        obtain ⟨t, ht, p, p1, hu⟩ := TowerManager.forall₂_mem_right _ _ _
          (TowerManager.UpdatePlacedTowers_forall₂ M TA fuel x.1 x.2 cs tm tm2 h2) t3 ht3
        obtain ⟨t2, he, _, _, _, _, hang, _⟩ :=
          TowerManager.updateTower_engage M TA fuel x.1 x.2 t t3 p p1 hu
        rcases (TowerManager.engage_outcome M TA fuel x.1 x.2 t2 t3 he).1 with heq | hin
        · rw [heq, hang]
          exact h0 t ht
        · exact hin
  · intro hpi col row towerID t ht
    by_cases hid : towerID = BallistaTowerID ∨ towerID = MagicTowerID
    · obtain ⟨img, himg⟩ := TowerManager.placeTower_spec M TA col row towerID tm hid
      rw [himg] at ht
      simp only [List.mem_append, List.mem_singleton] at ht
      rcases ht with ht | rfl
      · exact ⟨Or.inl ht, h0 t ht⟩
      · have ha := (TowerManager.newPlacedTower_spec M TA col row towerID img).2.2.2.1
        refine ⟨Or.inr ha, ?_, ?_⟩ <;> rw [ha] <;> linarith
    · rw [TowerManager.placeTower_invalid M TA col row towerID tm (fun h => hid (Or.inl h))
        (fun h => hid (Or.inr h))] at ht
      exact ⟨Or.inl ht, h0 t ht⟩
  · intro hpi htm
    obtain ⟨k, r, hk, _⟩ := TowerManager.tower_run_total M TA hpi ticks tm htm
    exact ⟨k, fun fuel hf => ⟨r, hk fuel hf⟩⟩

theorem weapon_heading_closed_range_witness :
    (∀ t ∈ demoTowers.placedTowers,
        -standInMath.Pi ≤ t.WeaponAngle ∧ t.WeaponAngle ≤ standInMath.Pi) ∧
      ∃ k, ∀ fuel, k ≤ fuel →
        ∃ r, demoTowers.run standInMath repoTowerAssets fuel [(355 / 678, [westCreep])] = .ok r :=
  have h0 : ∀ t ∈ demoTowers.placedTowers,
      -standInMath.Pi ≤ t.WeaponAngle ∧ t.WeaponAngle ≤ standInMath.Pi := by
    norm_num [demoTowers, TowerManager.placeTower, TowerManager.getTowerImage,
      TowerManager.newPlacedTower, NewTowerManager, BallistaTowerID, MagicTowerID,
      repoTowerAssets, standInMath]
  ⟨h0, (weapon_heading_closed_range standInMath repoTowerAssets [(355 / 678, [westCreep])]
    demoTowers h0).2.2 (by norm_num [standInMath]) demoTowers_ready⟩

/-! ## Cooldown and firing -/

theorem PlacedTower.nearestCreep_snd (M : GoMath) (t : PlacedTower) (creeps : List Creep)
    (c : Creep) (h : (t.nearestCreep M creeps).1 = some c) :
    (t.nearestCreep M creeps).2 = t.distSq c := by
  rcases (PlacedTower.nearestCreep_spec M t creeps).2 with heq | ⟨c2, _, _, heq, _⟩
  · rw [heq] at h
    cases h
  · rw [heq] at h ⊢
    have hc := Option.some.inj h
    subst hc
    rfl

theorem PlacedTower.distSq_congr (t t2 : PlacedTower) (c : Creep) (hx : t2.X = t.X)
    (hy : t2.Y = t.Y) : t2.distSq c = t.distSq c := by
  simp only [PlacedTower.distSq, PlacedTower.centerX, PlacedTower.centerY, hx, hy]

theorem PlacedTower.tickFireTimer_bounds (dt : ℚ) (hdt : 0 ≤ dt) (t : PlacedTower)
    (h0 : 0 ≤ t.FireTimer) :
    0 ≤ (t.tickFireTimer dt).FireTimer ∧ (t.tickFireTimer dt).FireTimer ≤ t.FireTimer := by
  rw [PlacedTower.tickFireTimer_value]
  split_ifs with h
  · exact ⟨le_max_right _ _, max_le (by linarith) (le_of_lt h)⟩
  · exact ⟨h0, le_refl _⟩

namespace TowerManager

/-- When the targeting part fires: a weapon, a nearest creep in range and an expired cooldown. -/
theorem engage_fire_iff (M : GoMath) (TA : TowerAssets) (fuel : Nat) (dt : ℚ)
    (creeps : List Creep) (t t3 : PlacedTower) (h : engage M TA fuel dt creeps t = .ok t3) :
    (∀ c, t.WeaponImage ≠ none → (t.nearestCreep M creeps).1 = some c →
        M.Sqrt (t.distSq c) ≤ towerRange → t.FireTimer ≤ 0 →
        t3.FireTimer = fireDelay ∧ t3.TargetX = c.X ∧ t3.TargetY = c.Y) ∧
      (¬ (t.WeaponImage ≠ none ∧ ∃ c, (t.nearestCreep M creeps).1 = some c ∧
            M.Sqrt (t.distSq c) ≤ towerRange ∧ t.FireTimer ≤ 0) →
        t3.FireTimer = t.FireTimer ∧ t3.TargetX = t.TargetX ∧ t3.TargetY = t.TargetY ∧
          t3.FiringAnimation = t.FiringAnimation ∧ t3.WeaponFired = t.WeaponFired) := by
  rcases engage_spec M TA fuel dt creeps t t3 h with ⟨hw, rfl⟩ | ⟨_, hnone, rfl⟩ |
    ⟨hw, c, t1, hc, haim, hfired⟩
  · exact ⟨fun c hw2 => absurd hw hw2, fun _ => ⟨rfl, rfl, rfl, rfl, rfl⟩⟩
  · refine ⟨fun c _ hc => ?_, fun _ => ⟨rfl, rfl, rfl, rfl, rfl⟩⟩
    rw [hnone] at hc
    cases hc
  · have h1 : t1.FireTimer = t.FireTimer ∧ t1.TargetX = t.TargetX ∧ t1.TargetY = t.TargetY ∧
        t1.FiringAnimation = t.FiringAnimation ∧ t1.WeaponFired = t.WeaponFired := by
      rcases haim with ⟨_, ha⟩ | ⟨_, rfl⟩
      · obtain ⟨delta, _, _, hrec⟩ := PlacedTower.aim_spec M fuel dt c t t1 ha
        exact ⟨by rw [hrec], by rw [hrec], by rw [hrec], by rw [hrec], by rw [hrec]⟩
      · exact ⟨rfl, rfl, rfl, rfl, rfl⟩
    have hsnd := PlacedTower.nearestCreep_snd M t creeps c hc
    rw [hsnd, h1.1] at hfired
    rcases hfired with ⟨hr, hf, rfl⟩ | ⟨hno, rfl⟩
    · refine ⟨fun c2 _ hc2 _ _ => ?_, fun hneg => absurd ⟨hw, c, hc, hr, hf⟩ hneg⟩
      rw [hc] at hc2
      have hcc := Option.some.inj hc2
      subst hcc
      exact ⟨by rw [fireTowerWeapon_fields], by rw [fireTowerWeapon_fields],
        by rw [fireTowerWeapon_fields]⟩
    · refine ⟨fun c2 _ hc2 hr hf => ?_, fun _ => h1⟩
      rw [hc] at hc2
      have hcc := Option.some.inj hc2
      subst hcc
      exact absurd ⟨hr, hf⟩ hno

end TowerManager

/-- C19 (cooldown bounds): over every sequence of `UpdatePlacedTowers` ticks with `dt ≥ 0`,
a `FireTimer` that starts in `[0, fireDelay] = [0, 1.5]` stays there. In one tick with `dt ≥ 0`
the timer seen by the targeting part is `d = max(FireTimer - dt, 0)` for a positive `FireTimer`
(and `FireTimer` itself otherwise), with `0 ≤ d ≤ FireTimer` when `FireTimer ≥ 0`; the tower
fires, which sets `FireTimer` to `fireDelay` and stores the creep's position as target, exactly
when it has a weapon, the scan found a nearest creep whose distance to the tower centre is at
most `towerRange = 5`, and `d ≤ 0`; otherwise `FireTimer` is left at `d` and the target is
unchanged. With `0 < Pi` and animations of positive frame duration the ticks return. -/
theorem cooldown_bounds (M : GoMath) (TA : TowerAssets) (ticks : List (ℚ × List Creep))
    (tm : TowerManager) (hdt : ∀ x ∈ ticks, 0 ≤ x.1)
    (h0 : ∀ t ∈ tm.placedTowers, 0 ≤ t.FireTimer ∧ t.FireTimer ≤ fireDelay) :
    (∀ fuel tm1, tm.run M TA fuel ticks = .ok tm1 →
        ∀ t ∈ tm1.placedTowers, 0 ≤ t.FireTimer ∧ t.FireTimer ≤ fireDelay) ∧
      (∀ fuel dt creeps tm1 cs, 0 ≤ dt →
        tm.UpdatePlacedTowers M TA fuel dt creeps = .ok (tm1, cs) →
        List.Forall₂ (fun t t3 =>
          ∃ d : ℚ, d = (if t.FireTimer > 0 then max (t.FireTimer - dt) 0 else t.FireTimer) ∧
            (0 ≤ t.FireTimer → 0 ≤ d ∧ d ≤ t.FireTimer) ∧
            (∀ c, t.WeaponImage ≠ none → (t.nearestCreep M creeps).1 = some c →
              M.Sqrt (t.distSq c) ≤ towerRange → d ≤ 0 →
              c.Active = true ∧ t3.FireTimer = fireDelay ∧ t3.TargetX = c.X ∧
                t3.TargetY = c.Y) ∧
            (¬ (t.WeaponImage ≠ none ∧ ∃ c, (t.nearestCreep M creeps).1 = some c ∧
                  M.Sqrt (t.distSq c) ≤ towerRange ∧ d ≤ 0) →
              t3.FireTimer = d ∧ t3.TargetX = t.TargetX ∧ t3.TargetY = t.TargetY))
          tm.placedTowers tm1.placedTowers) ∧
      fireDelay = 3 / 2 ∧ towerRange = 5 ∧
      (0 < M.Pi → tm.Ready → ∃ k, ∀ fuel, k ≤ fuel → ∃ r, tm.run M TA fuel ticks = .ok r) := by
  refine ⟨?_, ?_, rfl, rfl, ?_⟩
  · intro fuel
    induction ticks generalizing tm with
    | nil =>
      intro tm1 h
      simp only [TowerManager.run, Except.ok.injEq] at h
      rw [← h]
      exact h0
    | cons x rest ih =>
      intro tm1 h
      simp only [TowerManager.run] at h
      split at h
      · cases h
      · rename_i tm2 cs h2
        refine ih tm2 (fun y hy => hdt y (List.mem_cons_of_mem _ hy)) (fun t3 ht3 => ?_) tm1 h
        obtain ⟨t, ht, p, p1, hu⟩ := TowerManager.forall₂_mem_right _ _ _
          (TowerManager.UpdatePlacedTowers_forall₂ M TA fuel x.1 x.2 cs tm tm2 h2) t3 ht3
        obtain ⟨t2, he, _, _, _, _, _, hft, _⟩ :=
          TowerManager.updateTower_engage M TA fuel x.1 x.2 t t3 p p1 hu
        have hb := PlacedTower.tickFireTimer_bounds x.1 (hdt x (List.mem_cons_self _ _)) t
          (h0 t ht).1
        rcases (TowerManager.engage_outcome M TA fuel x.1 x.2 t2 t3 he).2 with heq | heq
        · rw [heq, hft]
          exact ⟨hb.1, le_trans hb.2 (h0 t ht).2⟩
        · rw [heq]
          exact ⟨by norm_num [fireDelay], le_refl _⟩
  · intro fuel dt creeps tm1 cs hdt1 h
    refine (TowerManager.UpdatePlacedTowers_forall₂ M TA fuel dt creeps cs tm tm1 h).imp ?_
    rintro t t3 ⟨p, p1, hu⟩
    obtain ⟨t2, he, hx, hy, _, hw2, _, hft, htx, hty⟩ :=
      TowerManager.updateTower_engage M TA fuel dt creeps t t3 p p1 hu
    have hscan := PlacedTower.nearestCreep_congr M t t2 creeps hx hy
    have hdist : ∀ c, t2.distSq c = t.distSq c := fun c =>
      PlacedTower.distSq_congr t t2 c hx hy
    obtain ⟨hfire, hkeep⟩ := TowerManager.engage_fire_iff M TA fuel dt creeps t2 t3 he
    rw [hw2, hscan, hft, htx, hty] at hkeep
    simp only [hdist] at hkeep
    refine ⟨(t.tickFireTimer dt).FireTimer, PlacedTower.tickFireTimer_value dt t,
      fun hpos => PlacedTower.tickFireTimer_bounds dt hdt1 t hpos, fun c hw hc hr hd => ?_,
      fun hneg => ⟨(hkeep hneg).1, (hkeep hneg).2.1, (hkeep hneg).2.2.1⟩⟩
    have hact : c.Active = true := by
      rcases (PlacedTower.nearestCreep_spec M t creeps).2 with heq | ⟨c2, _, _, heq, _, ha, _⟩
      · rw [heq] at hc
        cases hc
      · rw [heq] at hc
        have hcc := Option.some.inj hc
        subst hcc
        exact ha
    exact ⟨hact, hfire c (by rw [hw2]; exact hw) (by rw [hscan]; exact hc)
      (by rw [hdist]; exact hr) (by rw [hft]; exact hd)⟩
  · intro hpi htm
    obtain ⟨k, r, hk, _⟩ := TowerManager.tower_run_total M TA hpi ticks tm htm
    exact ⟨k, fun fuel hf => ⟨r, hk fuel hf⟩⟩

theorem cooldown_bounds_witness :
    (∀ x ∈ [((1 : ℚ) / 8, [westCreep]), (1 / 4, [westCreep])], (0 : ℚ) ≤ x.1) ∧
      (∀ t ∈ demoTowers.placedTowers, 0 ≤ t.FireTimer ∧ t.FireTimer ≤ fireDelay) ∧
      ∃ k, ∀ fuel, k ≤ fuel →
        ∃ r, demoTowers.run standInMath repoTowerAssets fuel
          [(1 / 8, [westCreep]), (1 / 4, [westCreep])] = .ok r :=
  have hdt : ∀ x ∈ [((1 : ℚ) / 8, [westCreep]), (1 / 4, [westCreep])], (0 : ℚ) ≤ x.1 := by
    intro x hx
    simp only [List.mem_cons, List.mem_singleton, List.not_mem_nil, or_false] at hx
    rcases hx with rfl | rfl <;> norm_num
  have h0 : ∀ t ∈ demoTowers.placedTowers, 0 ≤ t.FireTimer ∧ t.FireTimer ≤ fireDelay := by
    norm_num [demoTowers, TowerManager.placeTower, TowerManager.getTowerImage,
      TowerManager.newPlacedTower, NewTowerManager, BallistaTowerID, MagicTowerID,
      repoTowerAssets, standInMath, fireDelay]
  ⟨hdt, h0, (cooldown_bounds standInMath repoTowerAssets _ demoTowers hdt h0).2.2.2.2
    (by norm_num [standInMath]) demoTowers_ready⟩

/-! ## Projectile release -/

theorem PlacedTower.releases_iff (fuel : Nat) (dt : ℚ) (t : PlacedTower) :
    t.releases fuel dt = true ↔
      ∃ a a1, t.FiringAnimation = some a ∧ a.Update fuel dt = some a1 ∧
        a1.isPlaying = false ∧ t.WeaponFired = true := by
  unfold PlacedTower.releases
  constructor
  · intro h
    split at h
    · cases h
    · rename_i a ha
      split at h
      · cases h
      · rename_i a1 ha1
        simp only [AnimatedSprite.IsPlaying, Bool.and_eq_true, Bool.not_eq_true'] at h
        exact ⟨a, a1, ha, ha1, h.1, h.2⟩
  · rintro ⟨a, a1, ha, ha1, hp, hw⟩
    simp only [ha, ha1, AnimatedSprite.IsPlaying, hp, hw, Bool.not_false, Bool.and_self]

namespace TowerManager

/-- The projectile list after the loop body for one tower. -/
theorem updateTower_spawn (M : GoMath) (TA : TowerAssets) (fuel : Nat) (dt : ℚ)
    (creeps : List Creep) (t t3 : PlacedTower) (pm pm1 : ProjectileManager)
    (h : updateTower M TA fuel dt creeps t pm = .ok (t3, pm1)) :
    ∃ t1, tickFiringAnimation M TA fuel dt (t.tickFireTimer dt) pm = .ok (t1, pm1) ∧
      ((t.releases fuel dt = true ∧ t1.WeaponFired = false ∧ t1.FiringAnimation = none ∧
          ∃ p, pm1.projectiles = pm.projectiles ++ [p] ∧ p.Active = true ∧
            p.IsImpacting = false ∧ p.TravelDistance = 0 ∧
            p.MaxDistance = maxProjectileRange ∧ p.ProjectileType = t.TowerID) ∨
        (t.releases fuel dt = false ∧ pm1 = pm)) := by
  obtain ⟨t1, t2, h1, _, _, _⟩ := updateTower_spec M TA fuel dt creeps t t3 pm pm1 h
  refine ⟨t1, h1, ?_⟩
  have hfa : (t.tickFireTimer dt).FiringAnimation = t.FiringAnimation := by
    rw [PlacedTower.tickFireTimer_fields]
  have hwf : (t.tickFireTimer dt).WeaponFired = t.WeaponFired := by
    rw [PlacedTower.tickFireTimer_fields]
  have hid : (t.tickFireTimer dt).TowerID = t.TowerID := by
    rw [PlacedTower.tickFireTimer_fields]
  rcases tickFiringAnimation_spec M TA fuel dt _ t1 pm pm1 h1 with
    ⟨hnone, _, rfl⟩ | ⟨a, a1, ha, ha1, ⟨hp, _, rfl⟩ | ⟨hp, ht1, hpm⟩⟩
  · rw [hfa] at hnone
    exact Or.inr ⟨by simp only [PlacedTower.releases, hnone], rfl⟩
  · rw [hfa] at ha
    exact Or.inr ⟨by simp only [PlacedTower.releases, ha, ha1, AnimatedSprite.IsPlaying, hp,
      Bool.not_true, Bool.false_and], rfl⟩
  · rw [hfa] at ha
    rw [hwf] at hpm
    cases hw : t.WeaponFired with
    | false =>
      rw [hw] at hpm
      simp only [Bool.false_eq_true, if_false] at hpm
      exact Or.inr ⟨by simp only [PlacedTower.releases, ha, ha1, hw, Bool.and_false], hpm⟩
    | true =>
      rw [hw] at hpm
      simp only [if_true] at hpm
      obtain ⟨p, hp1, hp2, hp3, _, hp5, hp6, hp7⟩ :
          ∃ p, pm1.projectiles = pm.projectiles ++ [p] ∧ p.Active = true ∧
            p.IsImpacting = false ∧ p.ImpactAnimation = none ∧ p.TravelDistance = 0 ∧
            p.MaxDistance = maxProjectileRange ∧
            p.ProjectileType = (t.tickFireTimer dt).TowerID := by
        rw [hpm]
        exact (spawnProjectileFromTower_snd M TA _ pm).1 rfl
      exact Or.inl ⟨(PlacedTower.releases_iff fuel dt t).mpr ⟨a, a1, ha, ha1, hp, hw⟩,
        by rw [ht1], by rw [ht1], p, hp1, hp2, hp3, hp5, hp6, hp7.trans hid⟩

/-- The projectile list after the tower loop: one projectile per releasing tower. -/
theorem updateTowers_spawn (M : GoMath) (TA : TowerAssets) (fuel : Nat) (dt : ℚ)
    (creeps : List Creep) (ts ts1 : List PlacedTower) (pm pm1 : ProjectileManager)
    (h : updateTowers M TA fuel dt creeps ts pm = .ok (ts1, pm1)) :
    ∃ ps, pm1.projectiles = pm.projectiles ++ ps ∧
      ps.length = ts.countP (fun t => t.releases fuel dt) ∧
      ∀ p ∈ ps, p.Active = true ∧ p.IsImpacting = false ∧ p.TravelDistance = 0 := by
  induction ts generalizing ts1 pm with
  | nil =>
    simp only [updateTowers, Except.ok.injEq, Prod.mk.injEq] at h
    exact ⟨[], by rw [← h.2, List.append_nil], rfl, fun p hp => absurd hp (List.not_mem_nil p)⟩
  | cons t rest ih =>
    simp only [updateTowers] at h
    split at h
    · cases h
    · rename_i t1 pm2 h1
      split at h
      · cases h
      · rename_i ts2 pm3 h2
        simp only [Except.ok.injEq, Prod.mk.injEq] at h
        obtain ⟨h3, h4⟩ := h
        subst h3 h4
        obtain ⟨ps, hps, hlen, hall⟩ := ih ts2 pm2 h2
        obtain ⟨_, _, hcase⟩ := updateTower_spawn M TA fuel dt creeps t t1 pm pm2 h1
        rcases hcase with ⟨hrel, _, _, p, hp, hp1, hp2, hp3, _⟩ | ⟨hrel, rfl⟩
        · refine ⟨p :: ps, ?_, ?_, fun q hq => ?_⟩
          · rw [hps, hp, List.append_assoc, List.singleton_append]
          · rw [List.countP_cons_of_pos _ _ hrel, List.length_cons, hlen]
          · rcases List.mem_cons.mp hq with rfl | hq
            · exact ⟨hp1, hp2, hp3⟩
            · exact hall q hq
        · refine ⟨ps, hps, ?_, hall⟩
          rw [List.countP_cons_of_neg _ _ (by rw [hrel]; exact Bool.false_ne_true), hlen]

end TowerManager

/-- C12 (fire-to-spawn gating): in the loop body of `UpdatePlacedTowers` for one tower, a
projectile is appended to the projectile list exactly when the tower had a firing animation that
is no longer playing after this tick's advance and its `WeaponFired` flag was set; otherwise the
projectile manager is left as it was, in particular when `FiringAnimation` is nil or still
playing. `FireTimer` does not enter the condition. The spawn leaves `WeaponFired = false` and
`FiringAnimation = nil` behind. Over the whole tower loop the list grows by one projectile per
such tower. With `0 < Pi` and animations of positive frame duration the loop body returns. -/
theorem fire_to_spawn_gating (M : GoMath) (TA : TowerAssets) (dt : ℚ) (creeps : List Creep)
    (t : PlacedTower) (pm : ProjectileManager) :
    (∀ fuel t3 pm1, TowerManager.updateTower M TA fuel dt creeps t pm = .ok (t3, pm1) →
        ((∃ p, pm1.projectiles = pm.projectiles ++ [p]) ↔
          ∃ a a1, t.FiringAnimation = some a ∧ a.Update fuel dt = some a1 ∧
            a1.isPlaying = false ∧ t.WeaponFired = true) ∧
        ((¬ ∃ p, pm1.projectiles = pm.projectiles ++ [p]) → pm1 = pm) ∧
        (t.FiringAnimation = none → pm1 = pm) ∧
        (∀ a a1, t.FiringAnimation = some a → a.Update fuel dt = some a1 →
          a1.isPlaying = true → pm1 = pm) ∧
        ∃ t1, TowerManager.tickFiringAnimation M TA fuel dt (t.tickFireTimer dt) pm =
            .ok (t1, pm1) ∧
          ((∃ p, pm1.projectiles = pm.projectiles ++ [p]) →
            t1.WeaponFired = false ∧ t1.FiringAnimation = none)) ∧
      (∀ fuel ts ts1 pm1, TowerManager.updateTowers M TA fuel dt creeps ts pm = .ok (ts1, pm1) →
        ∃ ps, pm1.projectiles = pm.projectiles ++ ps ∧
          ps.length = ts.countP (fun u => u.releases fuel dt)) ∧
      (0 < M.Pi → t.Ready → (∀ p ∈ pm.projectiles, p.Ready) → ∃ k, ∀ fuel, k ≤ fuel →
        ∃ r, TowerManager.updateTower M TA fuel dt creeps t pm = .ok r) := by
  refine ⟨fun fuel t3 pm1 h => ?_, fun fuel ts ts1 pm1 h => ?_, fun hpi ht hpm => ?_⟩
  · obtain ⟨t1, h1, hcase⟩ := TowerManager.updateTower_spawn M TA fuel dt creeps t t3 pm pm1 h
    have hself : ¬ ∃ p, pm.projectiles = pm.projectiles ++ [p] := by
      rintro ⟨p, hp⟩
      have hlen := congrArg List.length hp
      simp only [List.length_append, List.length_singleton] at hlen
      omega
    rcases hcase with ⟨hrel, hw, hfa, p, hp, _⟩ | ⟨hrel, rfl⟩
    · have hcond := (PlacedTower.releases_iff fuel dt t).mp hrel
      obtain ⟨a, a1, ha, ha1, hstop, _⟩ := hcond
      refine ⟨⟨fun _ => ⟨a, a1, ha, ha1, hstop, by assumption⟩, fun _ => ⟨p, hp⟩⟩,
        fun hno => absurd ⟨p, hp⟩ hno, fun hnone => ?_, fun b b1 hb hb1 hplay => ?_,
        t1, h1, fun _ => ⟨hw, hfa⟩⟩
      · rw [hnone] at ha
        cases ha
      · rw [ha] at hb
        have hab := Option.some.inj hb
        subst hab
        rw [ha1] at hb1
        have hab1 := Option.some.inj hb1
        subst hab1
        rw [hstop] at hplay
        cases hplay
    · refine ⟨⟨fun hex => absurd hex hself, fun hcond => ?_⟩, fun _ => rfl, fun _ => rfl,
        fun _ _ _ _ _ => rfl, t1, h1, fun hex => absurd hex hself⟩
      rw [(PlacedTower.releases_iff fuel dt t).mpr hcond] at hrel
      cases hrel
  · obtain ⟨ps, hps, hlen, _⟩ := TowerManager.updateTowers_spawn M TA fuel dt creeps ts ts1 pm
      pm1 h
    exact ⟨ps, hps, hlen⟩
  · obtain ⟨k, t1, pm1, hk, _⟩ := TowerManager.updateTower_total M TA hpi dt creeps t pm ht hpm
    exact ⟨k, fun fuel hf => ⟨_, hk fuel hf⟩⟩

/-! ## The build queue -/

namespace TowerManager

theorem buildStep_spec (M : GoMath) (TA : TowerAssets) (fuel : Nat) (dt : ℚ)
    (ba : BuildingAnimationState) (tm tm1 : TowerManager)
    (kept : Option BuildingAnimationState)
    (h : buildStep M TA fuel dt ba tm = .ok (kept, tm1)) :
    (ba.CurrentAnimation = none ∧ kept = none ∧ tm1 = tm) ∨
      ∃ a a1, ba.CurrentAnimation = some a ∧ a.Update fuel dt = some a1 ∧
        ((a1.isPlaying = true ∧ kept = some { ba with CurrentAnimation := some a1 } ∧
            tm1 = tm) ∨
          (a1.isPlaying = false ∧ ba.Stage = StageBuilding ∧
            ∃ tr, NewAnimatedSprite TA.TowerTransitionAnimation (3 / 4) false = some tr ∧
              kept = some { ba with Stage := StageTransitioning
                                    CurrentAnimation := some tr.Play } ∧ tm1 = tm) ∨
          (a1.isPlaying = false ∧ ba.Stage ≠ StageBuilding ∧ ba.Stage = StageTransitioning ∧
            kept = none ∧ tm1 = tm.placeTower M TA ba.X ba.Y ba.TowerIDToPlace) ∨
          (a1.isPlaying = false ∧ ba.Stage ≠ StageBuilding ∧ ba.Stage ≠ StageTransitioning ∧
            kept = none ∧ tm1 = tm)) := by
  unfold buildStep at h
  split at h
  · rename_i hnone
    simp only [Except.ok.injEq, Prod.mk.injEq] at h
    exact Or.inl ⟨hnone, h.1.symm, h.2.symm⟩
  · rename_i a ha
    split at h
    · cases h
    · rename_i a1 ha1
      refine Or.inr ⟨a, a1, ha, ha1, ?_⟩
      cases hp : a1.isPlaying with
      | true =>
        simp only [AnimatedSprite.IsPlaying, hp, Bool.true_eq_false, if_false, Except.ok.injEq,
          Prod.mk.injEq] at h
        exact Or.inl ⟨rfl, h.1.symm, h.2.symm⟩
      | false =>
        simp only [AnimatedSprite.IsPlaying, hp, if_true] at h
        by_cases hs : ba.Stage = StageBuilding
        · rw [if_pos hs] at h
          split at h
          · cases h
          · rename_i tr htr
            simp only [Except.ok.injEq, Prod.mk.injEq] at h
            exact Or.inr (Or.inl ⟨rfl, hs, tr, htr, h.1.symm, h.2.symm⟩)
        · rw [if_neg hs] at h
          by_cases hs2 : ba.Stage = StageTransitioning
          · rw [if_pos hs2] at h
            simp only [Except.ok.injEq, Prod.mk.injEq] at h
            exact Or.inr (Or.inr (Or.inl ⟨rfl, hs, hs2, h.1.symm, h.2.symm⟩))
          · rw [if_neg hs2] at h
            simp only [Except.ok.injEq, Prod.mk.injEq] at h
            exact Or.inr (Or.inr (Or.inr ⟨rfl, hs, hs2, h.1.symm, h.2.symm⟩))

theorem buildLoop_spec (M : GoMath) (TA : TowerAssets) (fuel : Nat) (dt : ℚ)
    (tasks updated : List BuildingAnimationState) (tm tm2 : TowerManager)
    (hq : ∀ ba ∈ tasks, ba.CurrentAnimation ≠ none ∧
        (ba.TowerIDToPlace = BallistaTowerID ∨ ba.TowerIDToPlace = MagicTowerID) ∧
        (ba.Stage = StageBuilding ∨ ba.Stage = StageTransitioning))
    (h : buildLoop M TA fuel dt tasks tm = .ok (updated, tm2)) :
    ∃ outcomes : List (Option BuildingAnimationState × Option PlacedTower),
      List.Forall₂ (fun ba o =>
          ∃ a a1, ba.CurrentAnimation = some a ∧ a.Update fuel dt = some a1 ∧
            ((a1.isPlaying = true ∧ o = (some { ba with CurrentAnimation := some a1 }, none)) ∨
              (a1.isPlaying = false ∧ ba.Stage = StageBuilding ∧
                ∃ tr, NewAnimatedSprite TA.TowerTransitionAnimation (3 / 4) false = some tr ∧
                  o = (some { ba with Stage := StageTransitioning
                                      CurrentAnimation := some tr.Play }, none)) ∨
              (a1.isPlaying = false ∧ ba.Stage = StageTransitioning ∧
                ∃ pt : PlacedTower, o = (none, some pt) ∧ pt.X = ba.X ∧ pt.Y = ba.Y ∧
                  pt.TowerID = ba.TowerIDToPlace ∧ pt.FireTimer = 0 ∧
                  pt.WeaponAngle = -M.Pi / 2)))
        tasks outcomes ∧
      updated = outcomes.filterMap Prod.fst ∧
      tm2 = { tm with placedTowers := tm.placedTowers ++ outcomes.filterMap Prod.snd } ∧
      (outcomes.filterMap Prod.fst).length + (outcomes.filterMap Prod.snd).length =
        tasks.length := by
  induction tasks generalizing updated tm tm2 with
  | nil =>
    simp only [buildLoop, Except.ok.injEq, Prod.mk.injEq] at h
    refine ⟨[], List.Forall₂.nil, h.1.symm, ?_, rfl⟩
    rw [← h.2]
    simp only [List.filterMap_nil, List.append_nil]
  | cons ba rest ih =>
    simp only [buildLoop] at h
    split at h
    · cases h
    · rename_i kept tm1 h1
      split at h
      · cases h
      · rename_i upd tm3 h2
        simp only [Except.ok.injEq, Prod.mk.injEq] at h
        obtain ⟨h3, h4⟩ := h
        subst h3 h4
        obtain ⟨hanim, hid, hstage⟩ := hq ba (List.mem_cons_self _ _)
        obtain ⟨os, hos, hupd, htm, hlen⟩ :=
          ih upd tm1 tm3 (fun b hb => hq b (List.mem_cons_of_mem _ hb)) h2
        rcases buildStep_spec M TA fuel dt ba tm tm1 kept h1 with
          ⟨hnone, _⟩ | ⟨a, a1, ha, ha1, ⟨hp, hk, rfl⟩ | ⟨hp, hs, tr, htr, hk, rfl⟩ |
            ⟨hp, _, hs, hk, htm1⟩ | ⟨_, hs1, hs2, _⟩⟩
        · exact absurd hnone hanim
        · refine ⟨(some { ba with CurrentAnimation := some a1 }, none) :: os,
            List.Forall₂.cons ⟨a, a1, ha, ha1, Or.inl ⟨hp, rfl⟩⟩ hos, ?_, ?_, ?_⟩
          · rw [hk, hupd]
            rfl
          · rw [htm]
            rfl
          · simp only [List.filterMap_cons, List.length_cons]
            omega
        · refine ⟨(some { ba with Stage := StageTransitioning
                                  CurrentAnimation := some tr.Play }, none) :: os,
            List.Forall₂.cons ⟨a, a1, ha, ha1, Or.inr (Or.inl ⟨hp, hs, tr, htr, rfl⟩)⟩ hos,
            ?_, ?_, ?_⟩
          · rw [hk, hupd]
            rfl
          · rw [htm]
            rfl
          · simp only [List.filterMap_cons, List.length_cons]
            omega
        · obtain ⟨img, himg⟩ := placeTower_spec M TA ba.X ba.Y ba.TowerIDToPlace tm hid
          obtain ⟨hx, hy, hty, hang, hft, _⟩ :=
            newPlacedTower_spec M TA ba.X ba.Y ba.TowerIDToPlace img
          refine ⟨(none, some (newPlacedTower M TA ba.X ba.Y ba.TowerIDToPlace img)) :: os,
            List.Forall₂.cons ⟨a, a1, ha, ha1,
              Or.inr (Or.inr ⟨hp, hs, _, rfl, hx, hy, hty, hft, hang⟩)⟩ hos, ?_, ?_, ?_⟩
          · rw [hk, hupd]
            rfl
          · rw [htm, htm1, himg]
            simp only [List.filterMap_cons, List.append_assoc, List.singleton_append]
          · simp only [List.filterMap_cons, List.length_cons]
            omega
        · rcases hstage with hst | hst
          · exact absurd hst hs1
          · exact absurd hst hs2

theorem buildStep_total (M : GoMath) (TA : TowerAssets) (dt : ℚ)
    (htr : TA.TowerTransitionAnimation ≠ []) (ba : BuildingAnimationState)
    (tm : TowerManager) (hba : OptReady ba.CurrentAnimation) :
    ∃ k kept tm1, (∀ fuel, k ≤ fuel → buildStep M TA fuel dt ba tm = .ok (kept, tm1)) ∧
      ∀ b, kept = some b → OptReady b.CurrentAnimation := by
  have hlen : TA.TowerTransitionAnimation.length ≠ 0 := fun h => htr (List.length_eq_zero.mp h)
  have hready := startedSprite_ready TA.TowerTransitionAnimation (3 / 4) false (by norm_num)
  cases ha : ba.CurrentAnimation with
  | none =>
    exact ⟨0, none, tm, fun fuel _ => by simp only [buildStep, ha],
      fun b hb => Option.noConfusion hb⟩
  | some a =>
    obtain ⟨k, a1, hk⟩ := AnimatedSprite.Update_terminates dt a (hba a ha)
    have hs := AnimatedSprite.Update_static _ _ _ _ (hk k (le_refl _))
    cases hp : a1.isPlaying with
    | true =>
      refine ⟨k, some { ba with CurrentAnimation := some a1 }, tm, fun fuel hf => ?_,
        fun b hb => ?_⟩
      · simp only [buildStep, ha, hk fuel hf, AnimatedSprite.IsPlaying, hp, Bool.true_eq_false,
          if_false]
      · have hb2 := Option.some.inj hb
        subst hb2
        intro x hx
        have hx2 := Option.some.inj hx
        subst hx2
        rw [hs.2.2.1]
        exact hba a ha
    | false =>
      by_cases hst : ba.Stage = StageBuilding
      · cases htr2 : NewAnimatedSprite TA.TowerTransitionAnimation (3 / 4) false with
        | none =>
          simp only [NewAnimatedSprite, if_neg hlen] at htr2
          cases htr2
        | some tr =>
          refine ⟨k, some { ba with Stage := StageTransitioning
                                    CurrentAnimation := some tr.Play }, tm,
            fun fuel hf => ?_, fun b hb => ?_⟩
          · simp only [buildStep, ha, hk fuel hf, AnimatedSprite.IsPlaying, hp, if_true,
              if_pos hst, htr2]
          · have hb2 := Option.some.inj hb
            subst hb2
            have hr2 := hready
            simp only [startedSprite, htr2, Option.map_some'] at hr2
            exact hr2
      · by_cases hst2 : ba.Stage = StageTransitioning
        · exact ⟨k, none, tm.placeTower M TA ba.X ba.Y ba.TowerIDToPlace, fun fuel hf => by
            simp only [buildStep, ha, hk fuel hf, AnimatedSprite.IsPlaying, hp, if_true,
              if_neg hst, if_pos hst2], fun b hb => Option.noConfusion hb⟩
        · exact ⟨k, none, tm, fun fuel hf => by
            simp only [buildStep, ha, hk fuel hf, AnimatedSprite.IsPlaying, hp, if_true,
              if_neg hst, if_neg hst2], fun b hb => Option.noConfusion hb⟩

theorem buildLoop_total (M : GoMath) (TA : TowerAssets) (dt : ℚ)
    (htr : TA.TowerTransitionAnimation ≠ []) (tasks : List BuildingAnimationState)
    (tm : TowerManager) (hq : ∀ ba ∈ tasks, OptReady ba.CurrentAnimation) :
    ∃ k updated tm1, (∀ fuel, k ≤ fuel →
        buildLoop M TA fuel dt tasks tm = .ok (updated, tm1)) ∧
      ∀ b ∈ updated, OptReady b.CurrentAnimation := by
  induction tasks generalizing tm with
  | nil => exact ⟨0, [], tm, fun _ _ => rfl, fun b hb => absurd hb (List.not_mem_nil b)⟩
  | cons ba rest ih =>
    obtain ⟨k1, kept, tm1, h1, hr1⟩ :=
      buildStep_total M TA dt htr ba tm (hq ba (List.mem_cons_self _ _))
    obtain ⟨k2, upd, tm2, h2, hr2⟩ := ih tm1 fun b hb => hq b (List.mem_cons_of_mem _ hb)
    refine ⟨max k1 k2, (match kept with
        | some b => b :: upd
        | none => upd), tm2, fun fuel hf => ?_, fun b hb => ?_⟩
    · simp only [buildLoop, h1 fuel (le_trans (le_max_left _ _) hf),
        h2 fuel (le_trans (le_max_right _ _) hf)]
      cases kept <;> rfl
    · cases kept with
      | none => exact hr2 b hb
      | some x =>
        rcases List.mem_cons.mp hb with rfl | hb
        · exact hr1 b rfl
        · exact hr2 b hb

end TowerManager

/-- C20 (build queue hand-over): for a queue whose tasks have a non-nil animation, a valid tower
type (Ballista or Magic) and a stage that is one of the two declared stages, one
`UpdateBuildingAnimations` call maps each task, in queue order, to exactly one outcome: (a) its
animation is still playing and the task stays in the queue with only the animation advanced;
(b) its animation has finished in stage building and the task stays with stage transitioning and
a freshly started transition animation; (c) its animation has finished in stage transitioning
and the task leaves the queue while one `PlacedTower` with the task's cell and tower type is
appended. The new queue and the towers appended are the kept tasks and the new towers in task
order, so `len(buildingAnimations) + len(placedTowers)` is unchanged. With a non-empty
transition animation asset and animations of positive frame duration the call returns. -/
theorem build_queue_handover (M : GoMath) (TA : TowerAssets) (dt : ℚ) (tm : TowerManager)
    (hq : ∀ ba ∈ tm.buildingAnimations, ba.CurrentAnimation ≠ none ∧
        (ba.TowerIDToPlace = BallistaTowerID ∨ ba.TowerIDToPlace = MagicTowerID) ∧
        (ba.Stage = StageBuilding ∨ ba.Stage = StageTransitioning)) :
    (∀ fuel tm1, tm.UpdateBuildingAnimations M TA fuel dt = .ok tm1 →
      ∃ outcomes : List (Option BuildingAnimationState × Option PlacedTower),
        List.Forall₂ (fun ba o =>
          ∃ a a1, ba.CurrentAnimation = some a ∧ a.Update fuel dt = some a1 ∧
            ((a1.isPlaying = true ∧ o = (some { ba with CurrentAnimation := some a1 }, none)) ∨
              (a1.isPlaying = false ∧ ba.Stage = StageBuilding ∧
                ∃ tr, NewAnimatedSprite TA.TowerTransitionAnimation (3 / 4) false = some tr ∧
                  o = (some { ba with Stage := StageTransitioning
                                      CurrentAnimation := some tr.Play }, none)) ∨
              (a1.isPlaying = false ∧ ba.Stage = StageTransitioning ∧
                ∃ pt : PlacedTower, o = (none, some pt) ∧ pt.X = ba.X ∧ pt.Y = ba.Y ∧
                  pt.TowerID = ba.TowerIDToPlace ∧ pt.FireTimer = 0 ∧
                  pt.WeaponAngle = -M.Pi / 2)))
          tm.buildingAnimations outcomes ∧
        tm1.buildingAnimations = outcomes.filterMap Prod.fst ∧
        tm1.placedTowers = tm.placedTowers ++ outcomes.filterMap Prod.snd ∧
        tm1.projectileManager = tm.projectileManager ∧
        tm1.buildingAnimations.length + tm1.placedTowers.length =
          tm.buildingAnimations.length + tm.placedTowers.length) ∧
      (TA.TowerTransitionAnimation ≠ [] →
        (∀ ba ∈ tm.buildingAnimations, OptReady ba.CurrentAnimation) →
        ∃ k, ∀ fuel, k ≤ fuel → ∃ r, tm.UpdateBuildingAnimations M TA fuel dt = .ok r) := by
  constructor
  · intro fuel tm1 h
    simp only [TowerManager.UpdateBuildingAnimations] at h
    split at h
    · cases h
    · rename_i upd tm2 h2
      simp only [Except.ok.injEq] at h
      obtain ⟨os, hos, hupd, htm, hlen⟩ :=
        TowerManager.buildLoop_spec M TA fuel dt tm.buildingAnimations upd tm tm2 hq h2
      refine ⟨os, hos, ?_, ?_, ?_, ?_⟩
      · rw [← h, hupd]
      · rw [← h, htm]
      · rw [← h, htm]
      · rw [← h, htm, hupd]
        simp only [List.length_append]
        omega
  · intro htr hready
    obtain ⟨k, upd, tm1, hk, _⟩ :=
      TowerManager.buildLoop_total M TA dt htr tm.buildingAnimations tm hready
    exact ⟨k, fun fuel hf => ⟨{ tm1 with buildingAnimations := upd }, by
      simp only [TowerManager.UpdateBuildingAnimations, hk fuel hf]⟩⟩

theorem build_queue_handover_witness :
    (NewTowerManager repoTowerAssets).startBuildingAnimation repoTowerAssets 2 3
        BallistaTowerID = .ok demoBuilder ∧
      ∃ k, ∀ fuel, k ≤ fuel →
        ∃ r, demoBuilder.UpdateBuildingAnimations standInMath repoTowerAssets fuel (1 / 4) =
          .ok r :=
  ⟨by
    simp [TowerManager.startBuildingAnimation, demoBuilder, NewTowerManager, startedSprite,
      NewAnimatedSprite, repoTowerAssets],
    (build_queue_handover standInMath repoTowerAssets (1 / 4) demoBuilder (by
      intro ba hba
      simp only [demoBuilder, List.mem_singleton] at hba
      subst hba
      exact ⟨by simp [startedSprite, NewAnimatedSprite, repoTowerAssets], Or.inl rfl,
        Or.inl rfl⟩)).2 (by simp [repoTowerAssets]) (by
      intro ba hba
      simp only [demoBuilder, List.mem_singleton] at hba
      subst hba
      exact startedSprite_ready repoTowerAssets.TowerBuildAnimation 1 false one_pos)⟩

/-! ## Projectile flight -/

namespace ProjectileManager

theorem checkCollision_congr (M : GoMath) (p q : Projectile) (hx : q.X = p.X) (hy : q.Y = p.Y)
    (ht : q.ProjectileType = p.ProjectileType) (cs : List Creep) :
    checkCollisionWithCreeps M q cs = checkCollisionWithCreeps M p cs := by
  induction cs with
  | nil => rfl
  | cons c rest ih => simp only [checkCollisionWithCreeps, hx, hy, ht, ih]

theorem startImpactAnimation_impacting (TA : TowerAssets) (p : Projectile) :
    (startImpactAnimation TA p).IsImpacting = true := by
  unfold startImpactAnimation
  simp only
  split_ifs <;> rfl

theorem keepIfActive_cases (p : Projectile) :
    keepIfActive p = none ∨ keepIfActive p = some p := by
  unfold keepIfActive
  split_ifs
  · exact Or.inr rfl
  · exact Or.inl rfl

/-- One tick of a flying projectile whose collision test fails: the creep list is untouched and
the projectile is dropped, impacting, or moved along its velocity and still short of its range. -/
theorem updateOne_flying (M : GoMath) (TA : TowerAssets) (fuel : Nat) (dt : ℚ)
    (creeps cs : List Creep) (q : Projectile) (kept : Option Projectile)
    (hfly : q.IsImpacting = false) (hmiss : (checkCollisionWithCreeps M q creeps).1 = false)
    (h : updateOne M TA fuel dt creeps q = .ok (kept, cs)) :
    cs = creeps ∧
      (kept = none ∨ ∃ q1, kept = some q1 ∧
        (q1.IsImpacting = true ∨
          (q1.IsImpacting = false ∧ q1.X = q.X + q.VelocityX * dt ∧
            q1.Y = q.Y + q.VelocityY * dt ∧ q1.VelocityX = q.VelocityX ∧
            q1.VelocityY = q.VelocityY ∧
            q1.TravelDistance = q.TravelDistance + projectileSpeed * dt ∧
            q1.MaxDistance = q.MaxDistance ∧ q1.ProjectileType = q.ProjectileType ∧
            q1.TravelDistance < q1.MaxDistance))) := by
  unfold updateOne at h
  by_cases hact : q.Active = false
  · rw [if_pos hact] at h
    simp only [Except.ok.injEq, Prod.mk.injEq] at h
    exact ⟨h.2.symm, Or.inl h.1.symm⟩
  · rw [if_neg hact] at h
    split at h
    · cases h
    · rename_i anim _
      split at h
      · cases h
      · rename_i impact _
        simp only [Except.ok.injEq] at h
        unfold resolve at h
        by_cases hs : hasStopped impact = true
        · rw [if_pos hs] at h
          simp only [Prod.mk.injEq] at h
          exact ⟨h.2.symm, Or.inl h.1.symm⟩
        · rw [if_neg hs, if_pos hfly] at h
          have hcol : (checkCollisionWithCreeps M
              { q with Animation := anim, ImpactAnimation := impact } creeps).1 = false := by
            have hc := checkCollision_congr M q
              { q with Animation := anim, ImpactAnimation := impact } rfl rfl rfl creeps
            rw [hc]
            exact hmiss
          rw [if_neg (by rw [hcol]; exact Bool.false_ne_true)] at h
          simp only [Prod.mk.injEq] at h
          obtain ⟨hk, hcs⟩ := h
          refine ⟨hcs.symm, ?_⟩
          rcases keepIfActive_cases
            (advance M TA dt { q with Animation := anim, ImpactAnimation := impact }) with
            hnone | hsome
          · exact Or.inl (by rw [← hk, hnone])
          · refine Or.inr ⟨advance M TA dt { q with Animation := anim, ImpactAnimation := impact },
              by rw [← hk, hsome], ?_⟩
            unfold advance
            simp only
            by_cases hr : q.TravelDistance + projectileSpeed * dt ≥ q.MaxDistance
            · rw [if_pos hr]
              exact Or.inl (startImpactAnimation_impacting TA _)
            · rw [if_neg hr]
              exact Or.inr ⟨hfly, rfl, rfl, rfl, rfl, rfl, rfl, rfl, not_le.mp hr⟩

/-- One tick of an impacting projectile: the creep list is untouched and the projectile is
dropped or stays impacting. -/
theorem updateOne_impacting (M : GoMath) (TA : TowerAssets) (fuel : Nat) (dt : ℚ)
    (creeps cs : List Creep) (q : Projectile) (kept : Option Projectile)
    (himp : q.IsImpacting = true) (h : updateOne M TA fuel dt creeps q = .ok (kept, cs)) :
    cs = creeps ∧ (kept = none ∨ ∃ q1, kept = some q1 ∧ q1.IsImpacting = true) := by
  unfold updateOne at h
  by_cases hact : q.Active = false
  · rw [if_pos hact] at h
    simp only [Except.ok.injEq, Prod.mk.injEq] at h
    exact ⟨h.2.symm, Or.inl h.1.symm⟩
  · rw [if_neg hact] at h
    split at h
    · cases h
    · rename_i anim _
      split at h
      · cases h
      · rename_i impact _
        simp only [Except.ok.injEq] at h
        unfold resolve at h
        by_cases hs : hasStopped impact = true
        · rw [if_pos hs] at h
          simp only [Prod.mk.injEq] at h
          exact ⟨h.2.symm, Or.inl h.1.symm⟩
        · rw [if_neg hs, if_neg (by simp [himp])] at h
          simp only [Prod.mk.injEq] at h
          obtain ⟨hk, hcs⟩ := h
          refine ⟨hcs.symm, ?_⟩
          rcases keepIfActive_cases { q with Animation := anim, ImpactAnimation := impact } with
            hnone | hsome
          · exact Or.inl (by rw [← hk, hnone])
          · exact Or.inr ⟨{ q with Animation := anim, ImpactAnimation := impact },
              by rw [← hk, hsome], himp⟩

theorem Update_nil (M : GoMath) (TA : TowerAssets) (fuel : Nat) (dt : ℚ)
    (creeps : List Creep) (pm : ProjectileManager) (hpm : pm.projectiles = []) :
    pm.Update M TA fuel dt creeps = .ok ({ pm with projectiles := [] }, creeps) := by
  simp only [Update, hpm, updateAll]

theorem Update_single (M : GoMath) (TA : TowerAssets) (fuel : Nat) (dt : ℚ)
    (creeps cs : List Creep) (pm pm1 : ProjectileManager) (q : Projectile)
    (hpm : pm.projectiles = [q]) (h : pm.Update M TA fuel dt creeps = .ok (pm1, cs)) :
    ∃ kept, updateOne M TA fuel dt creeps q = .ok (kept, cs) ∧
      ((kept = none ∧ pm1.projectiles = []) ∨ ∃ q1, kept = some q1 ∧ pm1.projectiles = [q1]) := by
  simp only [Update, hpm, updateAll] at h
  split at h
  · cases h
  · rename_i ps cs2 h2
    split at h2
    · cases h2
    · rename_i kept cs3 h3
      simp only [Except.ok.injEq, Prod.mk.injEq] at h2 h
      obtain ⟨hps, hcs⟩ := h2
      obtain ⟨hpm1, hcs2⟩ := h
      subst hcs hcs2 hpm1 hps
      refine ⟨kept, h3, ?_⟩
      cases kept with
      | none => exact Or.inl ⟨rfl, rfl⟩
      | some q1 => exact Or.inr ⟨q1, rfl, rfl⟩

end ProjectileManager

theorem Projectile.missesAll_congr (M : GoMath) (ticks : List (ℚ × List Creep))
    (p q : Projectile) (hx : q.X = p.X) (hy : q.Y = p.Y) (hvx : q.VelocityX = p.VelocityX)
    (hvy : q.VelocityY = p.VelocityY) (ht : q.ProjectileType = p.ProjectileType) :
    Projectile.missesAll M ticks q = Projectile.missesAll M ticks p := by
  induction ticks generalizing p q with
  | nil => rfl
  | cons t rest ih =>
    simp only [Projectile.missesAll]
    rw [ProjectileManager.checkCollision_congr M p q hx hy ht t.2,
      ih (p.coast t.1) (q.coast t.1) (by simp only [Projectile.coast, hx, hvx])
        (by simp only [Projectile.coast, hy, hvy]) hvx hvy ht]

namespace ProjectileManager

/-- A manager holding at most one projectile, which is impacting or flies along the straight
path of `p` without hitting a creep: every tick returns its creep list untouched, and a
projectile still flying at the end has travelled `projectileSpeed` times the elapsed time. -/
theorem run_flight (M : GoMath) (TA : TowerAssets) (fuel : Nat) (P : Prop)
    (ticks : List (ℚ × List Creep)) (pm pm1 : ProjectileManager) (css : List (List Creep))
    (p : Projectile)
    (hstate : pm.projectiles = [] ∨ (∃ q, pm.projectiles = [q] ∧ q.IsImpacting = true) ∨
      ∃ q, pm.projectiles = [q] ∧ q.IsImpacting = false ∧ q.X = p.X ∧ q.Y = p.Y ∧
        q.VelocityX = p.VelocityX ∧ q.VelocityY = p.VelocityY ∧
        q.TravelDistance = p.TravelDistance ∧ q.MaxDistance = p.MaxDistance ∧
        q.ProjectileType = p.ProjectileType ∧ (P → q.TravelDistance < q.MaxDistance))
    (hmiss : Projectile.missesAll M ticks p = true)
    (h : run M TA fuel ticks pm = .ok (pm1, css)) :
    css = ticks.map Prod.snd ∧
      (pm1.projectiles = [] ∨ (∃ q, pm1.projectiles = [q] ∧ q.IsImpacting = true) ∨
        ∃ q, pm1.projectiles = [q] ∧ q.IsImpacting = false ∧
          q.TravelDistance = p.TravelDistance + projectileSpeed * (ticks.map Prod.fst).sum ∧
          q.MaxDistance = p.MaxDistance ∧ (P ∨ ticks ≠ [] → q.TravelDistance < q.MaxDistance)) := by
  induction ticks generalizing pm p css P with
  | nil =>
    simp only [run, Except.ok.injEq, Prod.mk.injEq] at h
    obtain ⟨h1, h2⟩ := h
    subst h1 h2
    refine ⟨rfl, ?_⟩
    rcases hstate with h0 | h1 | ⟨q, hq, hf, _, _, _, _, htd, hmax, _, hlt⟩
    · exact Or.inl h0
    · exact Or.inr (Or.inl h1)
    · refine Or.inr (Or.inr ⟨q, hq, hf, ?_, hmax, fun hP => ?_⟩)
      · simp only [List.map_nil, List.sum_nil, mul_zero, add_zero]
        exact htd
      · rcases hP with hP | hne
        · exact hlt hP
        · exact absurd rfl hne
  | cons t rest ih =>
    simp only [run] at h
    split at h
    · cases h
    · rename_i pm2 cs h2
      split at h
      · cases h
      · rename_i pm3 css2 h3
        simp only [Except.ok.injEq, Prod.mk.injEq] at h
        obtain ⟨h4, h5⟩ := h
        subst h4 h5
        simp only [Projectile.missesAll, Bool.and_eq_true, Bool.not_eq_true'] at hmiss
        obtain ⟨hm1, hm2⟩ := hmiss
        have key : cs = t.2 ∧
            (pm2.projectiles = [] ∨ (∃ q, pm2.projectiles = [q] ∧ q.IsImpacting = true) ∨
              ∃ q, pm2.projectiles = [q] ∧ q.IsImpacting = false ∧ q.X = (p.coast t.1).X ∧
                q.Y = (p.coast t.1).Y ∧ q.VelocityX = (p.coast t.1).VelocityX ∧
                q.VelocityY = (p.coast t.1).VelocityY ∧
                q.TravelDistance = (p.coast t.1).TravelDistance ∧
                q.MaxDistance = (p.coast t.1).MaxDistance ∧
                q.ProjectileType = (p.coast t.1).ProjectileType ∧
                (True → q.TravelDistance < q.MaxDistance)) := by
          rcases hstate with h0 | ⟨q, hq, himp⟩ | ⟨q, hq, hf, hx, hy, hvx, hvy, htd, hmax, hty, _⟩
          · rw [Update_nil M TA fuel t.1 t.2 pm h0] at h2
            simp only [Except.ok.injEq, Prod.mk.injEq] at h2
            exact ⟨h2.2.symm, Or.inl (by rw [← h2.1])⟩
          · obtain ⟨kept, hk, hcase⟩ := Update_single M TA fuel t.1 t.2 cs pm pm2 q hq h2
            obtain ⟨hcs, hkept⟩ := updateOne_impacting M TA fuel t.1 t.2 cs q kept himp hk
            refine ⟨hcs, ?_⟩
            rcases hcase with ⟨_, hnil⟩ | ⟨q1, hq1, hone⟩
            · exact Or.inl hnil
            · rcases hkept with hnone | ⟨q2, hq2, himp2⟩
              · rw [hnone] at hq1
                cases hq1
              · rw [hq1] at hq2
                have he := Option.some.inj hq2
                subst he
                exact Or.inr (Or.inl ⟨q1, hone, himp2⟩)
          · obtain ⟨kept, hk, hcase⟩ := Update_single M TA fuel t.1 t.2 cs pm pm2 q hq h2
            have hcol : (checkCollisionWithCreeps M q t.2).1 = false := by
              rw [checkCollision_congr M p q hx hy hty t.2]
              exact hm1
            obtain ⟨hcs, hkept⟩ := updateOne_flying M TA fuel t.1 t.2 cs q kept hf hcol hk
            refine ⟨hcs, ?_⟩
            rcases hcase with ⟨_, hnil⟩ | ⟨q1, hq1, hone⟩
            · exact Or.inl hnil
            · rcases hkept with hnone | ⟨q2, hq2, hres⟩
              · rw [hnone] at hq1
                cases hq1
              · rw [hq1] at hq2
                have he := Option.some.inj hq2
                subst he
                rcases hres with himp2 | ⟨hf1, hx1, hy1, hvx1, hvy1, htd1, hmax1, hty1, hlt1⟩
                · exact Or.inr (Or.inl ⟨q1, hone, himp2⟩)
                · refine Or.inr (Or.inr ⟨q1, hone, hf1, ?_, ?_, ?_, ?_, ?_, ?_, ?_, fun _ => hlt1⟩)
                  · simp only [Projectile.coast, hx1, hx, hvx]
                  · simp only [Projectile.coast, hy1, hy, hvy]
                  · simp only [Projectile.coast, hvx1, hvx]
                  · simp only [Projectile.coast, hvy1, hvy]
                  · simp only [Projectile.coast, htd1, htd]
                  · simp only [Projectile.coast, hmax1, hmax]
                  · simp only [Projectile.coast, hty1, hty]
        obtain ⟨hcs, hstate2⟩ := key
        obtain ⟨hcss, hfin⟩ := ih True pm2 css2 (p.coast t.1) hstate2 hm2 h3
        refine ⟨by rw [hcs, hcss]; rfl, ?_⟩
        rcases hfin with h0 | h1 | ⟨q, hq, hf, htd, hmax, hlt⟩
        · exact Or.inl h0
        · exact Or.inr (Or.inl h1)
        · refine Or.inr (Or.inr ⟨q, hq, hf, ?_, hmax, fun _ => hlt (Or.inl trivial)⟩)
          rw [htd]
          simp only [Projectile.coast, List.map_cons, List.sum_cons]
          ring

theorem pm_run_total (M : GoMath) (TA : TowerAssets) (ticks : List (ℚ × List Creep))
    (pm : ProjectileManager) (hpm : ∀ p ∈ pm.projectiles, p.Ready) :
    ∃ k r, ∀ fuel, k ≤ fuel → run M TA fuel ticks pm = .ok r := by
  induction ticks generalizing pm with
  | nil => exact ⟨0, (pm, []), fun _ _ => rfl⟩
  | cons t rest ih =>
    obtain ⟨k1, pm1, cs, h1, hr1⟩ := pmUpdate_total M TA t.1 t.2 pm hpm
    obtain ⟨k2, r, h2⟩ := ih pm1 hr1
    refine ⟨max k1 k2, (r.1, cs :: r.2), fun fuel hf => ?_⟩
    simp only [run, h1 fuel (le_trans (le_max_left _ _) hf),
      h2 fuel (le_trans (le_max_right _ _) hf)]

end ProjectileManager

/-- C14 (projectile range cutoff): a flying projectile whose collision test finds no creep in
any tick is followed through a sequence of `ProjectileManager.Update` ticks. Every tick returns
its creep list untouched (no creep is damaged or otherwise changed), and after the ticks the
projectile is removed, or impacting, or still flying with
`TravelDistance = start + projectileSpeed * elapsed < MaxDistance`. So once the accumulated
distance is at least `MaxDistance` the projectile is impacting or removed; for a spawned
projectile (`TravelDistance = 0`, `MaxDistance = maxProjectileRange = 5`, speed 12) that is as
soon as the elapsed time is at least `5/12`. With animations of positive frame duration the
ticks return. -/
theorem projectile_range_cutoff (M : GoMath) (TA : TowerAssets) (p : Projectile)
    (ticks : List (ℚ × List Creep)) (hfly : p.IsImpacting = false)
    (hstart : ticks ≠ [] ∨ p.TravelDistance < p.MaxDistance)
    (hmiss : Projectile.missesAll M ticks p = true) :
    (∀ fuel pm1 css,
        ProjectileManager.run M TA fuel ticks { projectiles := [p] } = .ok (pm1, css) →
        css = ticks.map Prod.snd ∧
          (pm1.projectiles = [] ∨ ∃ q, pm1.projectiles = [q] ∧
            (q.IsImpacting = true ∨
              (q.TravelDistance =
                  p.TravelDistance + projectileSpeed * (ticks.map Prod.fst).sum ∧
                q.MaxDistance = p.MaxDistance ∧ q.TravelDistance < q.MaxDistance))) ∧
          (p.MaxDistance ≤ p.TravelDistance + projectileSpeed * (ticks.map Prod.fst).sum →
            pm1.projectiles = [] ∨ ∃ q, pm1.projectiles = [q] ∧ q.IsImpacting = true) ∧
          (p.TravelDistance = 0 → p.MaxDistance = maxProjectileRange →
            5 / 12 ≤ (ticks.map Prod.fst).sum →
            pm1.projectiles = [] ∨ ∃ q, pm1.projectiles = [q] ∧ q.IsImpacting = true)) ∧
      (p.Ready → ∃ k, ∀ fuel, k ≤ fuel →
        ∃ r, ProjectileManager.run M TA fuel ticks { projectiles := [p] } = .ok r) := by
  constructor
  · intro fuel pm1 css h
    obtain ⟨hcss, hfin⟩ := ProjectileManager.run_flight M TA fuel
      (p.TravelDistance < p.MaxDistance) ticks { projectiles := [p] } pm1 css p
      (Or.inr (Or.inr ⟨p, rfl, hfly, rfl, rfl, rfl, rfl, rfl, rfl, rfl, fun hlt => hlt⟩)) hmiss h
    have hcut : p.MaxDistance ≤ p.TravelDistance + projectileSpeed * (ticks.map Prod.fst).sum →
        pm1.projectiles = [] ∨ ∃ q, pm1.projectiles = [q] ∧ q.IsImpacting = true := by
      intro hge
      rcases hfin with h0 | h1 | ⟨q, _, _, htd, hmax, hlt⟩
      · exact Or.inl h0
      · exact Or.inr h1
      · exfalso
        have hlt2 := hlt hstart.symm
        rw [htd, hmax] at hlt2
        exact absurd hge (not_le.mpr hlt2)
    refine ⟨hcss, ?_, hcut, fun h0 hmax hsum => hcut ?_⟩
    · rcases hfin with h0 | ⟨q, hq, himp⟩ | ⟨q, hq, _, htd, hmax, hlt⟩
      · exact Or.inl h0
      · exact Or.inr ⟨q, hq, Or.inl himp⟩
      · exact Or.inr ⟨q, hq, Or.inr ⟨htd, hmax, hlt hstart.symm⟩⟩
    · rw [h0, hmax]
      simp only [maxProjectileRange, projectileSpeed]
      linarith
  · intro hp
    obtain ⟨k, r, hk⟩ := ProjectileManager.pm_run_total M TA ticks { projectiles := [p] }
      (fun q hq => by
        simp only [List.mem_singleton] at hq
        rw [hq]
        exact hp)
    exact ⟨k, fun fuel hf => ⟨r, hk fuel hf⟩⟩

theorem projectile_range_cutoff_witness :
    demoBolt.IsImpacting = false ∧
      Projectile.missesAll standInMath [(1 / 4, [westCreep]), (1 / 4, [westCreep])] demoBolt =
        true ∧
      ∃ k, ∀ fuel, k ≤ fuel →
        ∃ r, ProjectileManager.run standInMath repoTowerAssets fuel
          [(1 / 4, [westCreep]), (1 / 4, [westCreep])] { projectiles := [demoBolt] } = .ok r :=
  have hmiss : Projectile.missesAll standInMath [(1 / 4, [westCreep]), (1 / 4, [westCreep])]
      demoBolt = true := by
    norm_num [Projectile.missesAll, ProjectileManager.checkCollisionWithCreeps, westCreep,
      scenarioCreep, NewCreep, Creep.IsActive, demoBolt, Projectile.coast, standInMath,
      projectileCollisionRadius, creepCollisionRadius, projectileSpeed]
  ⟨rfl, hmiss,
    (projectile_range_cutoff standInMath repoTowerAssets demoBolt
      [(1 / 4, [westCreep]), (1 / 4, [westCreep])] rfl (Or.inl (by simp)) hmiss).2
      ⟨OptReady_none, OptReady_none⟩⟩

/-! ## The firing cycle -/

namespace AnimatedSprite

/-- A non-looping clock stops only when the time fed to it since `Play()` has reached
`frameCount * frameDuration`. -/
theorem advanceFrames_stop_elapsed (fuel : Nat) (as as1 : AnimatedSprite) (elapsed : ℚ)
    (h : advanceFrames fuel as = some as1) (hloop : as.loop = false)
    (hd : 0 < as.frameDuration) (hp : as.isPlaying = true)
    (hsum : (as.currentFrame : ℚ) * as.frameDuration + as.frameTimer = elapsed)
    (hstop : as1.isPlaying = false) :
    (as.frameCount : ℚ) * as.frameDuration ≤ elapsed := by
  induction fuel generalizing as with
  | zero =>
    rw [advanceFrames_zero_eq] at h
    split_ifs at h
    cases h
    rw [hp] at hstop
    cases hstop
  | succ k ih =>
    rw [advanceFrames_succ_eq] at h
    split_ifs at h with hc hge hl
    · rw [hloop] at hl
      cases hl
    · have hq : (as.frameCount : ℚ) ≤ (as.currentFrame : ℚ) + 1 := by exact_mod_cast hge
      have h1 : as.frameDuration ≤ as.frameTimer := hc.1
      have h2 := mul_le_mul_of_nonneg_right hq (le_of_lt hd)
      rw [← hsum]
      linarith
    · exact ih
        { as with frameTimer := as.frameTimer - as.frameDuration
                  currentFrame := as.currentFrame + 1 }
        h hloop hd hp (by simp only; push_cast; linarith)
    · cases h
      rw [hp] at hstop
      cases hstop

theorem Update_stop_elapsed (fuel : Nat) (dt : ℚ) (as as1 : AnimatedSprite) (elapsed : ℚ)
    (h : as.Update fuel dt = some as1) (hloop : as.loop = false)
    (hd : 0 < as.frameDuration) (hp : as.isPlaying = true)
    (hsum : (as.currentFrame : ℚ) * as.frameDuration + as.frameTimer = elapsed)
    (hstop : as1.isPlaying = false) :
    (as.frameCount : ℚ) * as.frameDuration ≤ elapsed + dt := by
  unfold Update at h
  split_ifs at h with hg
  · cases h
    rw [hp] at hstop
    cases hstop
  · exact advanceFrames_stop_elapsed fuel { as with frameTimer := as.frameTimer + dt } as1
      (elapsed + dt) h hloop hd hp (by simp only; linarith) hstop

end AnimatedSprite

/-- The clock that `fireTowerWeapon` starts: playing from frame 0, non-looping, of total
duration `len`. -/
theorem startedSprite_fresh (frames : List Image) (len : ℚ) (hlen : 0 < len)
    (hn : 2 ≤ frames.length) :
    ∃ a, startedSprite frames len false = some a ∧ a.isPlaying = true ∧ a.NonLoopInv 0 ∧
      a.frameTimer < a.frameDuration ∧ 2 ≤ a.frameCount ∧
      (a.frameCount : ℚ) * a.frameDuration = len := by
  have h0 : frames.length ≠ 0 := by omega
  have hq : (0 : ℚ) < (frames.length : ℚ) := by
    have : 0 < frames.length := by omega
    exact_mod_cast this
  have hd : (0 : ℚ) < len / (frames.length : ℚ) := div_pos hlen hq
  simp only [startedSprite, NewAnimatedSprite, if_neg h0, Option.map_some']
  refine ⟨_, rfl, rfl, ⟨rfl, hd, Or.inl ⟨rfl, le_refl _, ?_, ?_⟩⟩, hd, ?_, ?_⟩
  · simp only [AnimatedSprite.Play]
    omega
  · simp only [AnimatedSprite.Play]
    push_cast
    ring
  · simp only [AnimatedSprite.Play]
    exact_mod_cast hn
  · simp only [AnimatedSprite.Play]
    field_simp

namespace ProjectileManager

theorem startImpactAnimation_active (TA : TowerAssets) (p : Projectile)
    (hty : p.ProjectileType = BallistaTowerID)
    (himpact : TA.BallisticWeaponImpactAnimation ≠ []) :
    (startImpactAnimation TA p).Active = p.Active := by
  have hlen : TA.BallisticWeaponImpactAnimation.length > 0 :=
    List.length_pos.mpr himpact
  simp only [startImpactAnimation, hty, if_true, if_pos hlen]

theorem keepIfActive_of_active (p : Projectile) (h : p.Active = true) :
    keepIfActive p = some p := by
  simp only [keepIfActive, h, if_true]

/-- A Ballista projectile in its first tick is kept, whether it hits, uses up its range or
flies on. -/
theorem updateOne_fresh_kept (M : GoMath) (TA : TowerAssets) (fuel : Nat) (dt : ℚ)
    (creeps cs : List Creep) (p : Projectile) (kept : Option Projectile)
    (hact : p.Active = true) (hnoimp : p.ImpactAnimation = none) (hfly : p.IsImpacting = false)
    (hty : p.ProjectileType = BallistaTowerID)
    (himpact : TA.BallisticWeaponImpactAnimation ≠ [])
    (h : updateOne M TA fuel dt creeps p = .ok (kept, cs)) : ∃ q, kept = some q := by
  unfold updateOne at h
  rw [if_neg (by simp [hact])] at h
  split at h
  · cases h
  · rename_i anim _
    split at h
    · cases h
    · rename_i impact himp
      rw [hnoimp] at himp
      simp only [updateOptional, Except.ok.injEq] at himp
      subst himp
      simp only [Except.ok.injEq] at h
      unfold resolve at h
      rw [if_neg (by simp [hasStopped]), if_pos hfly] at h
      by_cases hcol : (checkCollisionWithCreeps M
          { p with Animation := anim, ImpactAnimation := none } creeps).1 = true
      · rw [if_pos hcol] at h
        simp only [Prod.mk.injEq] at h
        refine ⟨startImpactAnimation TA { p with Animation := anim, ImpactAnimation := none },
          ?_⟩
        rw [← h.1]
        refine keepIfActive_of_active _ ?_
        rw [startImpactAnimation_active TA _ ?_ himpact]
        · exact hact
        · exact hty
      · rw [if_neg hcol] at h
        simp only [Prod.mk.injEq] at h
        refine ⟨advance M TA dt { p with Animation := anim, ImpactAnimation := none }, ?_⟩
        rw [← h.1]
        have hadv : (advance M TA dt
            { p with Animation := anim, ImpactAnimation := none }).Active = true := by
          unfold advance
          simp only
          split_ifs
          · rw [startImpactAnimation_active TA _ ?_ himpact]
            · exact hact
            · exact hty
          · exact hact
        exact keepIfActive_of_active _ hadv

end ProjectileManager

theorem AnimatedSprite.nonLoop_playing_lt (a : AnimatedSprite) (elapsed : ℚ)
    (hinv : a.NonLoopInv elapsed) (hp : a.isPlaying = true)
    (ht : a.frameTimer < a.frameDuration) :
    elapsed < (a.frameCount : ℚ) * a.frameDuration := by
  obtain ⟨_, hd, hcase⟩ := hinv
  rcases hcase with ⟨_, _, hlt, hsum⟩ | ⟨hstop, _⟩
  · have hq : (a.currentFrame : ℚ) + 1 ≤ (a.frameCount : ℚ) := by
      have : a.currentFrame + 1 ≤ a.frameCount := by omega
      exact_mod_cast this
    have h2 := mul_le_mul_of_nonneg_right hq (le_of_lt hd)
    rw [← hsum]
    linarith
  · rw [hp] at hstop
    cases hstop

theorem PlacedTower.nearestCreep_single (M : GoMath) (t : PlacedTower) (c : Creep)
    (hact : c.Active = true) (hlt : t.distSq c < M.MaxFloat64) :
    t.nearestCreep M [c] = (some c, t.distSq c) := by
  have hlt2 := hlt
  unfold PlacedTower.distSq at hlt2
  simp only [PlacedTower.nearestCreep, List.foldl_cons, List.foldl_nil, scanStep,
    Creep.IsActive, hact, Bool.true_eq_false, if_false, if_pos hlt2, PlacedTower.distSq]

namespace TowerManager

theorem updateTowers_single (M : GoMath) (TA : TowerAssets) (fuel : Nat) (dt : ℚ)
    (creeps : List Creep) (t : PlacedTower) (ts1 : List PlacedTower)
    (pm pm1 : ProjectileManager)
    (h : updateTowers M TA fuel dt creeps [t] pm = .ok (ts1, pm1)) :
    ∃ t3, updateTower M TA fuel dt creeps t pm = .ok (t3, pm1) ∧ ts1 = [t3] := by
  simp only [updateTowers] at h
  split at h
  · cases h
  · rename_i t3 pm2 h1
    simp only [Except.ok.injEq, Prod.mk.injEq] at h
    obtain ⟨h2, h3⟩ := h
    subst h2 h3
    exact ⟨t3, h1, rfl⟩

/-- Fields the targeting part never writes. -/
theorem engage_frame (M : GoMath) (TA : TowerAssets) (fuel : Nat) (dt : ℚ)
    (creeps : List Creep) (t t3 : PlacedTower) (h : engage M TA fuel dt creeps t = .ok t3) :
    t3.TowerID = t.TowerID ∧ t3.IdleAnimation = t.IdleAnimation ∧ t3.X = t.X ∧ t3.Y = t.Y ∧
      t3.WeaponImage = t.WeaponImage := by
  rcases engage_spec M TA fuel dt creeps t t3 h with ⟨_, rfl⟩ | ⟨_, _, rfl⟩ |
    ⟨_, c, t1, _, haim, hfired⟩
  · exact ⟨rfl, rfl, rfl, rfl, rfl⟩
  · exact ⟨rfl, rfl, rfl, rfl, rfl⟩
  · have h1 : t1.TowerID = t.TowerID ∧ t1.IdleAnimation = t.IdleAnimation ∧ t1.X = t.X ∧
        t1.Y = t.Y ∧ t1.WeaponImage = t.WeaponImage := by
      rcases haim with ⟨_, ha⟩ | ⟨_, rfl⟩
      · obtain ⟨delta, _, _, hrec⟩ := PlacedTower.aim_spec M fuel dt c t t1 ha
        exact ⟨by rw [hrec], by rw [hrec], by rw [hrec], by rw [hrec], by rw [hrec]⟩
      · exact ⟨rfl, rfl, rfl, rfl, rfl⟩
    rcases hfired with ⟨_, _, rfl⟩ | ⟨_, rfl⟩
    · rw [fireTowerWeapon_fields]
      exact h1
    · exact h1

/-- The tower left by the targeting part when it fires. -/
theorem engage_fired_form (M : GoMath) (TA : TowerAssets) (fuel : Nat) (dt : ℚ)
    (creeps : List Creep) (t t3 : PlacedTower) (c : Creep)
    (h : engage M TA fuel dt creeps t = .ok t3) (hw : t.WeaponImage ≠ none)
    (hc : (t.nearestCreep M creeps).1 = some c) (hr : M.Sqrt (t.distSq c) ≤ towerRange)
    (hf : t.FireTimer ≤ 0) :
    ∃ u, t3 = fireTowerWeapon TA c u ∧ u.TowerID = t.TowerID := by
  rcases engage_spec M TA fuel dt creeps t t3 h with ⟨hnone, _⟩ | ⟨_, hnone, _⟩ |
    ⟨_, c2, t1, hc2, haim, hfired⟩
  · exact absurd hnone hw
  · rw [hc] at hnone
    cases hnone
  · rw [hc] at hc2
    have hcc := Option.some.inj hc2
    subst hcc
    have h1 : t1.TowerID = t.TowerID ∧ t1.FireTimer = t.FireTimer := by
      rcases haim with ⟨_, ha⟩ | ⟨_, rfl⟩
      · obtain ⟨delta, _, _, hrec⟩ := PlacedTower.aim_spec M fuel dt c t t1 ha
        exact ⟨by rw [hrec], by rw [hrec]⟩
      · exact ⟨rfl, rfl⟩
    rw [PlacedTower.nearestCreep_snd M t creeps c hc, h1.2] at hfired
    rcases hfired with ⟨_, _, h3⟩ | ⟨hno, _⟩
    · exact ⟨t1, h3, h1.1⟩
    · exact absurd ⟨hr, hf⟩ hno

theorem fireTowerWeapon_ballista (TA : TowerAssets) (c : Creep) (u : PlacedTower)
    (hid : u.TowerID = BallistaTowerID) (hlen : TA.BallistaWeaponFire.length > 0) :
    (fireTowerWeapon TA c u).FiringAnimation =
        startedSprite TA.BallistaWeaponFire fireAnimationDuration false ∧
      (fireTowerWeapon TA c u).WeaponFired = true ∧
      (fireTowerWeapon TA c u).FireTimer = fireDelay ∧
      (fireTowerWeapon TA c u).TowerID = BallistaTowerID ∧
      (fireTowerWeapon TA c u).IdleAnimation = u.IdleAnimation := by
  simp only [fireTowerWeapon, hid, if_true, if_pos hlen, and_self]

end TowerManager

namespace TowerManager

/-- One tick of a manager with a pending shot: while the firing animation keeps playing the
shot stays pending and no projectile exists; in the tick in which it stops, exactly one
projectile is left in the list. -/
theorem pending_step (M : GoMath) (TA : TowerAssets) (fuel : Nat) (dt e : ℚ)
    (creeps cs : List Creep) (tm tm1 : TowerManager)
    (himpact : TA.BallisticWeaponImpactAnimation ≠ []) (hpend : tm.ShotPending e)
    (h : tm.UpdatePlacedTowers M TA fuel dt creeps = .ok (tm1, cs)) :
    (e + dt < fireAnimationDuration ∧ tm1.ShotPending (e + dt)) ∨
      (fireAnimationDuration ≤ e + dt ∧ ∃ p, tm1.projectileManager.projectiles = [p]) := by
  obtain ⟨hproj, t, a, hts, hid, hwf, hfa, hplay, hinv, htimer, hfc, hdur, hft⟩ := hpend
  have helt : e < fireAnimationDuration := by
    rw [← hdur]
    exact AnimatedSprite.nonLoop_playing_lt a e hinv hplay htimer
  obtain ⟨pm1, h1, h2, _⟩ := UpdatePlacedTowers_spec M TA fuel dt creeps cs tm tm1 h
  rw [hts] at h1
  obtain ⟨t3, hu, hts1⟩ := updateTowers_single M TA fuel dt creeps t _ _ pm1 h1
  obtain ⟨t1, t2, hfire, hidle, heng, _⟩ :=
    updateTower_spec M TA fuel dt creeps t t3 _ pm1 hu
  have hidle2 := (PlacedTower.tickIdleAnimation_spec fuel dt t1 t2 hidle).2
  have hfa0 : (t.tickFireTimer dt).FiringAnimation = some a := by
    rw [PlacedTower.tickFireTimer_fields]
    exact hfa
  have hwf0 : (t.tickFireTimer dt).WeaponFired = true := by
    rw [PlacedTower.tickFireTimer_fields]
    exact hwf
  have hid0 : (t.tickFireTimer dt).TowerID = BallistaTowerID := by
    rw [PlacedTower.tickFireTimer_fields]
    exact hid
  have hft0 : (t.tickFireTimer dt).FireTimer = max (fireDelay - e - dt) 0 := by
    rw [PlacedTower.tickFireTimer_value, hft, if_pos (by
      simp only [fireDelay, fireAnimationDuration] at helt ⊢
      linarith)]
  rcases tickFiringAnimation_spec M TA fuel dt _ t1 _ pm1 hfire with
    ⟨hnone, _⟩ | ⟨a0, a1, ha0, ha1, ⟨hp1, ht1, hpm1⟩ | ⟨hp1, ht1, hpm1⟩⟩
  · rw [hfa0] at hnone
    cases hnone
  · rw [hfa0] at ha0
    have hae := Option.some.inj ha0
    subst hae
    have hstat := AnimatedSprite.Update_static fuel dt a a1 ha1
    obtain ⟨hinv1, htimer1⟩ := AnimatedSprite.Update_nonLoop fuel dt a a1 e ha1 hfc hinv
    have hlt1 : e + dt < fireAnimationDuration := by
      rw [← hdur, ← hstat.2.1, ← hstat.2.2.1]
      exact AnimatedSprite.nonLoop_playing_lt a1 (e + dt) hinv1 hp1 (htimer1 hp1)
    refine Or.inl ⟨hlt1, ?_⟩
    have ht2fa : t2.FiringAnimation = some a1 := by rw [hidle2, ht1]
    have ht2wf : t2.WeaponFired = true := by
      rw [hidle2, ht1]
      exact hwf0
    have ht2id : t2.TowerID = BallistaTowerID := by
      rw [hidle2, ht1]
      exact hid0
    have ht2ft : t2.FireTimer = max (fireDelay - e - dt) 0 := by
      rw [hidle2, ht1]
      exact hft0
    have hpos : 0 < fireDelay - e - dt := by
      simp only [fireDelay, fireAnimationDuration] at hlt1 ⊢
      linarith
    have hkeep := (engage_fire_iff M TA fuel dt creeps t2 t3 heng).2 (by
      rintro ⟨_, c, _, _, hle⟩
      rw [ht2ft, max_eq_left (le_of_lt hpos)] at hle
      linarith)
    have hframe := engage_frame M TA fuel dt creeps t2 t3 heng
    subst hpm1
    rw [ProjectileManager.Update_nil M TA fuel dt creeps _ hproj] at h2
    simp only [Except.ok.injEq, Prod.mk.injEq] at h2
    refine ⟨by rw [← h2.1], t3, a1, hts1, by rw [hframe.1, ht2id],
      by rw [hkeep.2.2.2.2, ht2wf], by rw [hkeep.2.2.2.1, ht2fa], hp1, hinv1, htimer1 hp1,
      by rw [hstat.2.1]; exact hfc, by rw [hstat.2.1, hstat.2.2.1]; exact hdur, ?_⟩
    rw [hkeep.1, ht2ft, max_eq_left (le_of_lt hpos)]
    ring
  · rw [hfa0] at ha0
    have hae := Option.some.inj ha0
    subst hae
    obtain ⟨hloop, hd, hcase⟩ := hinv
    have hsum : (a.currentFrame : ℚ) * a.frameDuration + a.frameTimer = e := by
      rcases hcase with ⟨_, _, _, hs⟩ | ⟨hstop, _⟩
      · exact hs
      · rw [hplay] at hstop
        cases hstop
    have hge := AnimatedSprite.Update_stop_elapsed fuel dt a a1 e ha1 hloop hd hplay hsum hp1
    rw [hdur] at hge
    refine Or.inr ⟨hge, ?_⟩
    rw [hwf0, if_pos rfl] at hpm1
    obtain ⟨p, hp, hpact, hpfly, hpimp, _, _, hpty⟩ :
        ∃ p, pm1.projectiles = tm.projectileManager.projectiles ++ [p] ∧ p.Active = true ∧
          p.IsImpacting = false ∧ p.ImpactAnimation = none ∧ p.TravelDistance = 0 ∧
          p.MaxDistance = maxProjectileRange ∧
          p.ProjectileType = (t.tickFireTimer dt).TowerID := by
      rw [hpm1]
      exact (spawnProjectileFromTower_snd M TA _ _).1 rfl
    rw [hproj, List.nil_append] at hp
    obtain ⟨kept, hk, hcase2⟩ :=
      ProjectileManager.Update_single M TA fuel dt creeps cs pm1 _ p hp h2
    obtain ⟨q, hq⟩ := ProjectileManager.updateOne_fresh_kept M TA fuel dt creeps cs p kept
      hpact hpimp hpfly (hpty.trans hid0) himpact hk
    rcases hcase2 with ⟨hnone, _⟩ | ⟨q1, _, hone⟩
    · rw [hq] at hnone
      cases hnone
    · exact ⟨q1, hone⟩

theorem pending_run (M : GoMath) (TA : TowerAssets) (fuel : Nat) (e : ℚ)
    (ticks : List (ℚ × List Creep)) (tm tm2 : TowerManager)
    (hdt : ∀ x ∈ ticks, 0 ≤ x.1) (himpact : TA.BallisticWeaponImpactAnimation ≠ [])
    (hpend : tm.ShotPending e) (h : tm.run M TA fuel ticks = .ok tm2)
    (hsum : e + (ticks.map Prod.fst).sum < fireAnimationDuration) :
    tm2.ShotPending (e + (ticks.map Prod.fst).sum) := by
  induction ticks generalizing tm e with
  | nil =>
    simp only [TowerManager.run, Except.ok.injEq] at h
    rw [← h]
    simpa using hpend
  | cons x rest ih =>
    simp only [TowerManager.run] at h
    split at h
    · cases h
    · rename_i tm1 cs h1
      have hrest : 0 ≤ (rest.map Prod.fst).sum := by
        apply List.sum_nonneg
        intro y hy
        obtain ⟨z, hz, rfl⟩ := List.mem_map.mp hy
        exact hdt z (List.mem_cons_of_mem _ hz)
      simp only [List.map_cons, List.sum_cons] at hsum ⊢
      have hx0 := hdt x (List.mem_cons_self _ _)
      rcases pending_step M TA fuel x.1 e x.2 cs tm tm1 himpact hpend h1 with
        ⟨_, hp1⟩ | ⟨hge, _⟩
      · have := ih (e + x.1) tm1 (fun y hy => hdt y (List.mem_cons_of_mem _ hy)) hp1 h
          (by linarith)
        rw [add_assoc] at this
        exact this
      · exfalso
        linarith

theorem run_snoc (M : GoMath) (TA : TowerAssets) (fuel : Nat)
    (ticks : List (ℚ × List Creep)) (last : ℚ × List Creep) (tm tm3 : TowerManager)
    (h : tm.run M TA fuel (ticks ++ [last]) = .ok tm3) :
    ∃ tm2 cs, tm.run M TA fuel ticks = .ok tm2 ∧
      tm2.UpdatePlacedTowers M TA fuel last.1 last.2 = .ok (tm3, cs) := by
  induction ticks generalizing tm with
  | nil =>
    simp only [List.nil_append, TowerManager.run] at h
    split at h
    · cases h
    · rename_i tm1 cs h1
      simp only [Except.ok.injEq] at h
      subst h
      exact ⟨tm, cs, rfl, h1⟩
  | cons x rest ih =>
    simp only [List.cons_append, TowerManager.run] at h
    split at h
    · cases h
    · rename_i tm1 cs h1
      obtain ⟨tm2, cs2, h2, h3⟩ := ih tm1 h
      exact ⟨tm2, cs2, by simp only [TowerManager.run, h1, h2], h3⟩

/-- The first tick of a freshly placed Ballista tower with an active creep in range: the tower
fires and the shot is pending. -/
theorem first_shot (M : GoMath) (TA : TowerAssets) (fuel : Nat) (dt : ℚ) (col row : Int)
    (c : Creep) (cs : List Creep) (tm1 : TowerManager)
    (hfire : 2 ≤ TA.BallistaWeaponFire.length) (hact : c.Active = true)
    (hnear : ∀ t ∈ ((NewTowerManager TA).placeTower M TA col row BallistaTowerID).placedTowers,
      t.distSq c < M.MaxFloat64 ∧ M.Sqrt (t.distSq c) ≤ towerRange)
    (h : ((NewTowerManager TA).placeTower M TA col row BallistaTowerID).UpdatePlacedTowers
      M TA fuel dt [c] = .ok (tm1, cs)) :
    tm1.ShotPending 0 ∧ cs = [c] ∧
      ∃ t, tm1.placedTowers = [t] ∧
        t.FiringAnimation = startedSprite TA.BallistaWeaponFire fireAnimationDuration false ∧
        t.WeaponFired = true ∧ t.FireTimer = fireDelay ∧ t.TargetX = c.X ∧ t.TargetY = c.Y := by
  obtain ⟨img, himg⟩ := placeTower_spec M TA col row BallistaTowerID (NewTowerManager TA)
    (Or.inl rfl)
  rw [himg] at h hnear
  obtain ⟨hx, hy, hid, _, hft, hfa, hwf, _, hball⟩ :=
    newPlacedTower_spec M TA col row BallistaTowerID img
  obtain ⟨hidle, hwi⟩ := hball rfl
  have hlen : TA.BallistaWeaponFire.length > 0 := by omega
  rw [if_pos hlen] at hwi
  obtain ⟨hlt, hrange⟩ := hnear (newPlacedTower M TA col row BallistaTowerID img)
    (by simp only [NewTowerManager, List.nil_append, List.mem_singleton])
  obtain ⟨pm1, h1, h2, _⟩ := UpdatePlacedTowers_spec M TA fuel dt [c] cs _ tm1 h
  obtain ⟨t3, hu, hts1⟩ := updateTowers_single M TA fuel dt [c]
    (newPlacedTower M TA col row BallistaTowerID img) _ _ pm1 h1
  obtain ⟨_, _, hspawn⟩ := updateTower_spawn M TA fuel dt [c] _ t3 _ pm1 hu
  have hpm1 : pm1 = { projectiles := [] } := by
    rcases hspawn with ⟨hrel, _⟩ | ⟨_, hpm⟩
    · simp only [PlacedTower.releases, hfa] at hrel
      cases hrel
    · exact hpm
  subst hpm1
  rw [ProjectileManager.Update_nil M TA fuel dt [c] _ rfl] at h2
  simp only [Except.ok.injEq, Prod.mk.injEq] at h2
  obtain ⟨t2, heng, hx2, hy2, hid2, hw2, _, hft2, _⟩ :=
    updateTower_engage M TA fuel dt [c] _ t3 _ _ hu
  have hft3 : t2.FireTimer ≤ 0 := by
    rw [hft2, PlacedTower.tickFireTimer_value, hft, if_neg (lt_irrefl _)]
  have hscan : (t2.nearestCreep M [c]).1 = some c := by
    rw [PlacedTower.nearestCreep_congr M _ t2 [c] hx2 hy2,
      PlacedTower.nearestCreep_single M _ c hact hlt]
  have hw3 : t2.WeaponImage ≠ none := by
    rw [hw2, hwi, List.getElem?_eq_getElem hlen]
    exact Option.some_ne_none _
  have hr3 : M.Sqrt (t2.distSq c) ≤ towerRange := by
    rw [PlacedTower.distSq_congr _ t2 c hx2 hy2]
    exact hrange
  obtain ⟨u, hu3, huid⟩ := engage_fired_form M TA fuel dt [c] t2 t3 c heng hw3 hscan hr3 hft3
  obtain ⟨hfire3, hwf3, hft4, hid3, _⟩ :=
    fireTowerWeapon_ballista TA c u (by rw [huid, hid2, hid]) hlen
  obtain ⟨a, ha, hplay, hinv, htimer, hfc, hdur⟩ :=
    startedSprite_fresh TA.BallistaWeaponFire fireAnimationDuration
      (by norm_num [fireAnimationDuration]) hfire
  have htarget := (engage_fire_iff M TA fuel dt [c] t2 t3 heng).1 c hw3 hscan hr3 hft3
  rw [← hu3] at hfire3 hwf3 hft4 hid3
  refine ⟨⟨by rw [← h2.1], t3, a, hts1, hid3, hwf3, by rw [hfire3, ha], hplay, hinv, htimer,
    hfc, hdur, by rw [hft4, sub_zero]⟩, h2.2.symm, t3, hts1, hfire3, hwf3, hft4, htarget.2.1,
    htarget.2.2⟩

end TowerManager

/-- End-to-end firing cycle in exact arithmetic (no `float64` rounding): a Ballista tower freshly placed by `placeTower` in a new
manager (`FireTimer = 0`, no firing animation, no shot pending), a firing animation asset of at
least two frames (total duration `fireAnimationDuration = 0.5`), a non-empty impact animation
asset, and an active creep within `towerRange = 5` tiles of the tower centre. The first
`UpdatePlacedTowers` call starts the firing animation, sets `WeaponFired`, sets `FireTimer` to
`fireDelay = 1.5` and leaves the projectile list empty. After any later ticks with `dt ≥ 0`
whose times sum to less than 0.5 the list is still empty and the shot still pending; after the
first tick with which the sum reaches 0.5 the list holds exactly one projectile. The creep
lists of the later ticks are arbitrary. With `0 < Pi` every sequence of ticks returns. -/
theorem firing_cycle (M : GoMath) (TA : TowerAssets) (col row : Int) (c : Creep) (dt1 : ℚ)
    (tm0 : TowerManager)
    (htm : tm0 = (NewTowerManager TA).placeTower M TA col row BallistaTowerID)
    (hfire : 2 ≤ TA.BallistaWeaponFire.length)
    (himpact : TA.BallisticWeaponImpactAnimation ≠ []) (hact : c.Active = true)
    (hnear : ∀ t ∈ tm0.placedTowers,
      t.distSq c < M.MaxFloat64 ∧ M.Sqrt (t.distSq c) ≤ towerRange) :
    (tm0.projectileManager.projectiles = [] ∧
        ∃ t, tm0.placedTowers = [t] ∧ t.FireTimer = 0 ∧ t.FiringAnimation = none ∧
          t.WeaponFired = false) ∧
      (∀ fuel tm1, tm0.run M TA fuel [(dt1, [c])] = .ok tm1 →
        tm1.projectileManager.projectiles = [] ∧
          ∃ t a, tm1.placedTowers = [t] ∧
            t.FiringAnimation =
              startedSprite TA.BallistaWeaponFire fireAnimationDuration false ∧
            t.FiringAnimation = some a ∧ a.isPlaying = true ∧ t.WeaponFired = true ∧
            t.FireTimer = fireDelay) ∧
      (∀ fuel ticks tm2, (∀ x ∈ ticks, 0 ≤ x.1) →
        (ticks.map Prod.fst).sum < fireAnimationDuration →
        tm0.run M TA fuel ((dt1, [c]) :: ticks) = .ok tm2 →
        tm2.projectileManager.projectiles = [] ∧
          ∃ t a, tm2.placedTowers = [t] ∧ t.FiringAnimation = some a ∧ a.isPlaying = true ∧
            t.WeaponFired = true) ∧
      (∀ fuel ticks last tm3, (∀ x ∈ ticks, 0 ≤ x.1) →
        (ticks.map Prod.fst).sum < fireAnimationDuration →
        fireAnimationDuration ≤ (ticks.map Prod.fst).sum + last.1 →
        tm0.run M TA fuel ((dt1, [c]) :: (ticks ++ [last])) = .ok tm3 →
        ∃ p, tm3.projectileManager.projectiles = [p]) ∧
      fireAnimationDuration = 1 / 2 ∧ fireDelay = 3 / 2 ∧ towerRange = 5 ∧
      (0 < M.Pi → ∀ ticks, ∃ k, ∀ fuel, k ≤ fuel → ∃ r, tm0.run M TA fuel ticks = .ok r) := by
  subst htm
  obtain ⟨img, himg⟩ := TowerManager.placeTower_spec M TA col row BallistaTowerID
    (NewTowerManager TA) (Or.inl rfl)
  obtain ⟨_, _, _, _, hft, hfa, hwf, hready, _⟩ :=
    TowerManager.newPlacedTower_spec M TA col row BallistaTowerID img
  have hstep : ∀ (fuel : Nat) (rest : List (ℚ × List Creep)) (tmx : TowerManager),
      ((NewTowerManager TA).placeTower M TA col row BallistaTowerID).run M TA fuel
          ((dt1, [c]) :: rest) = .ok tmx →
        ∃ tm1 : TowerManager, tm1.ShotPending 0 ∧ tm1.run M TA fuel rest = .ok tmx ∧
          ∃ t : PlacedTower, tm1.placedTowers = [t] ∧
            t.FiringAnimation =
              startedSprite TA.BallistaWeaponFire fireAnimationDuration false ∧
            t.WeaponFired = true ∧ t.FireTimer = fireDelay := by
    intro fuel rest tmx h
    simp only [TowerManager.run] at h
    split at h
    · cases h
    · rename_i tm1 cs h1
      obtain ⟨hp, _, t, ht, hf1, hf2, hf3, _⟩ :=
        TowerManager.first_shot M TA fuel dt1 col row c cs tm1 hfire hact hnear h1
      exact ⟨tm1, hp, h, t, ht, hf1, hf2, hf3⟩
  refine ⟨?_, ?_, ?_, ?_, rfl, rfl, rfl, ?_⟩
  · rw [himg]
    exact ⟨rfl, _, rfl, hft, hfa, hwf⟩
  · intro fuel tm1 h
    obtain ⟨tmx, hp, hrun, t, ht, hf1, hf2, hf3⟩ := hstep fuel [] tm1 h
    simp only [TowerManager.run, Except.ok.injEq] at hrun
    subst hrun
    obtain ⟨hproj, t2, a, ht2, _, _, hfa2, hplay, _⟩ := hp
    rw [ht] at ht2
    have hte := List.head_eq_of_cons_eq ht2
    subst hte
    exact ⟨hproj, t, a, ht, hf1, hfa2, hplay, hf2, hf3⟩
  · intro fuel ticks tm2 hdt hsum h
    obtain ⟨tm1, hp, hrun, _⟩ := hstep fuel ticks tm2 h
    have hp2 := TowerManager.pending_run M TA fuel 0 ticks tm1 tm2 hdt himpact hp hrun
      (by rw [zero_add]; exact hsum)
    obtain ⟨hproj, t, a, ht, _, hwf2, hfa2, hplay, _⟩ := hp2
    exact ⟨hproj, t, a, ht, hfa2, hplay, hwf2⟩
  · intro fuel ticks last tm3 hdt hsum hge h
    obtain ⟨tm1, hp, hrun, _⟩ := hstep fuel (ticks ++ [last]) tm3 h
    obtain ⟨tm2, cs, hrun2, hlast⟩ := TowerManager.run_snoc M TA fuel ticks last tm1 tm3 hrun
    have hp2 := TowerManager.pending_run M TA fuel 0 ticks tm1 tm2 hdt himpact hp hrun2
      (by rw [zero_add]; exact hsum)
    rcases TowerManager.pending_step M TA fuel last.1 _ last.2 cs tm2 tm3 himpact hp2 hlast
      with ⟨hlt, _⟩ | ⟨_, hone⟩
    · exfalso
      rw [zero_add] at hlt
      linarith
    · exact hone
  · intro hpi ticks
    have hr : ((NewTowerManager TA).placeTower M TA col row BallistaTowerID).Ready := by
      rw [himg]
      refine ⟨fun t ht => ?_, fun p hp => ?_⟩
      · simp only [NewTowerManager, List.nil_append, List.mem_singleton] at ht
        rw [ht]
        exact hready
      · simp only [NewTowerManager] at hp
        exact absurd hp (List.not_mem_nil p)
    obtain ⟨k, r, hk, _⟩ := TowerManager.tower_run_total M TA hpi ticks _ hr
    exact ⟨k, fun fuel hf => ⟨r, hk fuel hf⟩⟩

theorem firing_cycle_witness :
    2 ≤ repoTowerAssets.BallistaWeaponFire.length ∧
      repoTowerAssets.BallisticWeaponImpactAnimation ≠ [] ∧ westCreep.Active = true ∧
      (∀ t ∈ demoTowers.placedTowers,
        t.distSq westCreep < standInMath.MaxFloat64 ∧
          standInMath.Sqrt (t.distSq westCreep) ≤ towerRange) ∧
      ∃ k, ∀ fuel, k ≤ fuel →
        ∃ r, demoTowers.run standInMath repoTowerAssets fuel
          [(1 / 8, [westCreep]), (1 / 4, [westCreep]), (1 / 4, [westCreep])] = .ok r :=
  have hnear : ∀ t ∈ demoTowers.placedTowers,
      t.distSq westCreep < standInMath.MaxFloat64 ∧
        standInMath.Sqrt (t.distSq westCreep) ≤ towerRange := by
    norm_num [demoTowers, TowerManager.placeTower, TowerManager.getTowerImage,
      TowerManager.newPlacedTower, NewTowerManager, BallistaTowerID, MagicTowerID,
      repoTowerAssets, standInMath, PlacedTower.distSq, PlacedTower.centerX,
      PlacedTower.centerY, westCreep, scenarioCreep, NewCreep, towerRange]
  ⟨by simp [repoTowerAssets], by simp [repoTowerAssets], rfl, hnear,
    (firing_cycle standInMath repoTowerAssets 0 0 westCreep (1 / 8) demoTowers rfl
      (by simp [repoTowerAssets]) (by simp [repoTowerAssets]) rfl hnear).2.2.2.2.2.2.2
      (by norm_num [standInMath]) _⟩

/-! ## Tower placement -/

theorem truncToInt_five_halves : truncToInt ((5 : ℚ) / 2) = 2 := by
  simp only [truncToInt]
  rw [if_pos (by norm_num), Int.floor_eq_iff]
  norm_num

theorem truncToInt_seven_halves : truncToInt ((7 : ℚ) / 2) = 3 := by
  simp only [truncToInt]
  rw [if_pos (by norm_num), Int.floor_eq_iff]
  norm_num

theorem grass_tile_unflipped : Int.land 1 (Int.not flipMask) = 1 := by
  norm_num [flipMask, Int.land, Int.not, Nat.ldiff, Nat.bitwise]

/-- The test `isTileBuildable` reads the placed towers and the map, never the build queue. -/
theorem TowerManager.isTileBuildable_queue (col row : Int) (level : TilemapJSON)
    (tm : TowerManager) (queue : List BuildingAnimationState) :
    TowerManager.isTileBuildable col row level { tm with buildingAnimations := queue } =
      tm.isTileBuildable col row level := rfl

theorem demoLevel_buildable (queue : List BuildingAnimationState) :
    TowerManager.isTileBuildable 2 3 demoLevel
      { NewTowerManager repoTowerAssets with buildingAnimations := queue } = .ok true := by
  have hname : ¬ ("ground" = "details") := by decide
  norm_num [hname, demoLevel, TowerManager.isTileBuildable, NewTowerManager, layerBlocks,
    grass_tile_unflipped, waterFirstTileIDLocal]

theorem placement_first_request :
    (NewTowerManager repoTowerAssets).HandleTowerPlacement repoTowerAssets BallistaTowerID
        (some demoLevel) demoParams 160 224 true 350 = .ok (demoBuilder, 275) := by
  have hname : ¬ ("ground" = "details") := by decide
  norm_num [hname, TowerManager.HandleTowerPlacement, demoLevel, demoParams, BallistaTowerID,
    truncToInt_five_halves, truncToInt_seven_halves, TowerManager.isTileBuildable,
    NewTowerManager, layerBlocks, grass_tile_unflipped, waterFirstTileIDLocal, towerCost,
    TowerManager.startBuildingAnimation, demoBuilder, startedSprite, NewAnimatedSprite,
    repoTowerAssets, StageBuilding]

theorem placement_second_request :
    demoBuilder.HandleTowerPlacement repoTowerAssets BallistaTowerID
        (some demoLevel) demoParams 160 224 true 275 = .ok (demoTwoTasks, 200) := by
  have hname : ¬ ("ground" = "details") := by decide
  norm_num [hname, TowerManager.HandleTowerPlacement, demoLevel, demoParams, BallistaTowerID,
    truncToInt_five_halves, truncToInt_seven_halves, TowerManager.isTileBuildable,
    NewTowerManager, layerBlocks, grass_tile_unflipped, waterFirstTileIDLocal, towerCost,
    TowerManager.startBuildingAnimation, demoBuilder, demoTwoTasks, startedSprite,
    NewAnimatedSprite, repoTowerAssets, StageBuilding]

theorem two_tasks_build :
    (((demoTwoTasks.UpdateBuildingAnimations standInMath repoTowerAssets 6 (3 / 2)).bind
        fun tm => tm.UpdateBuildingAnimations standInMath repoTowerAssets 5 1).map fun tm =>
          tm.placedTowers.map fun t => (t.X, t.Y)) = .ok [(2, 3), (2, 3)] := by
  norm_num [demoTwoTasks, demoBuilder, NewTowerManager, startedSprite, NewAnimatedSprite,
    repoTowerAssets, TowerManager.UpdateBuildingAnimations, TowerManager.buildLoop,
    TowerManager.buildStep, AnimatedSprite.Update, AnimatedSprite.advanceFrames,
    AnimatedSprite.Play, AnimatedSprite.IsPlaying, StageBuilding, StageTransitioning,
    TowerManager.placeTower, TowerManager.getTowerImage, TowerManager.newPlacedTower,
    BallistaTowerID, MagicTowerID, Except.bind, Except.map, standInMath]

/-! ## The duplicate tower under float64 rounding -/

/-- The two placement requests and the two ticks of the duplicate-tower scenario, every
`float64` operation rounded to nearest. -/
theorem two_requests_rounded :
    (F64.TowerManager.HandleTowerPlacement round64 repoTowerAssets BallistaTowerID
        (some demoLevel) demoParams 160 224 true 350
        (NewTowerManager repoTowerAssets)).toOption = some (demoBuilder64, 275) ∧
      (F64.TowerManager.HandleTowerPlacement round64 repoTowerAssets BallistaTowerID
        (some demoLevel) demoParams 160 224 true 275 demoBuilder64).toOption =
          some (demoTwoTasks64, 200) ∧
      TowerManager.placedCells
        ((F64.TowerManager.UpdateBuildingAnimations round64 floatMath repoTowerAssets 6 (3 / 2)
          demoTwoTasks64).bind fun tm =>
            F64.TowerManager.UpdateBuildingAnimations round64 floatMath repoTowerAssets 5 1 tm) =
        some [(2, 3), (2, 3)] := by
  refine ⟨by decide!, by decide!, by decide!⟩

/-- C21, evaluation at the failing input: on a 5 by 5 grass map, with 350 gold and the Ballista
selected, the cell `(2,3)` is clicked twice before any build task has finished. Both requests
pass `isTileBuildable` (which looks at `placedTowers` only) and the gold test, so two build
tasks for `(2,3)` are queued (gold 350, 275, 200). `UpdateBuildingAnimations(1.5)` moves both
to the transition stage (the 1 s build clock makes its six advances with the timer at 1.5 down
to 0.67 against a frame duration of 0.17) and `UpdateBuildingAnimations(1)` places both (the
0.75 s transition clock makes its five advances with the timer at 1 down to 0.4 against a frame
duration of 0.15): `placedTowers` holds two towers with `(X, Y) = (2, 3)`. Every comparison
of the trace has a margin far above the rounding of `float64`: the last three conjuncts are the
same two requests and the same two ticks with every `float64` operation rounded to nearest
(`round64`), and they too end with two towers on `(2, 3)`. -/
theorem duplicate_tower_in_cell :
    (NewTowerManager repoTowerAssets).isTileBuildable 2 3 demoLevel = .ok true ∧
      (NewTowerManager repoTowerAssets).HandleTowerPlacement repoTowerAssets BallistaTowerID
          (some demoLevel) demoParams 160 224 true 350 = .ok (demoBuilder, 275) ∧
      demoBuilder.isTileBuildable 2 3 demoLevel = .ok true ∧
      demoBuilder.HandleTowerPlacement repoTowerAssets BallistaTowerID
          (some demoLevel) demoParams 160 224 true 275 = .ok (demoTwoTasks, 200) ∧
      (demoTwoTasks.buildingAnimations.map fun ba => (ba.X, ba.Y)) = [(2, 3), (2, 3)] ∧
      (((demoTwoTasks.UpdateBuildingAnimations standInMath repoTowerAssets 6 (3 / 2)).bind
          fun tm => tm.UpdateBuildingAnimations standInMath repoTowerAssets 5 1).map fun tm =>
            tm.placedTowers.map fun t => (t.X, t.Y)) = .ok [(2, 3), (2, 3)] ∧
      (F64.TowerManager.HandleTowerPlacement round64 repoTowerAssets BallistaTowerID
        (some demoLevel) demoParams 160 224 true 350
        (NewTowerManager repoTowerAssets)).toOption = some (demoBuilder64, 275) ∧
      (F64.TowerManager.HandleTowerPlacement round64 repoTowerAssets BallistaTowerID
        (some demoLevel) demoParams 160 224 true 275 demoBuilder64).toOption =
          some (demoTwoTasks64, 200) ∧
      TowerManager.placedCells
        ((F64.TowerManager.UpdateBuildingAnimations round64 floatMath repoTowerAssets 6 (3 / 2)
          demoTwoTasks64).bind fun tm =>
            F64.TowerManager.UpdateBuildingAnimations round64 floatMath repoTowerAssets 5 1 tm) =
        some [(2, 3), (2, 3)] :=
  ⟨demoLevel_buildable [], placement_first_request, demoLevel_buildable _,
    placement_second_request, rfl, two_tasks_build, two_requests_rounded.1,
    two_requests_rounded.2.1, two_requests_rounded.2.2⟩

/-! ## Absent creep animation assets -/

/-- C24, evaluation at the failing inputs. With an empty death animation asset, `Update` on a
creep whose health has reached 0 dereferences the nil sprite returned by `NewAnimatedSprite`
(`c.Animation.Play()`); this holds for every creep with `Health ≤ 0` that is not yet dying. With
an empty side-walk asset, the first `Update` of a fresh creep walking east does the same in
`setAnimation`. `NewAnimatedSprite` returns nil for an empty frame slice. -/
theorem absent_asset_crashes :
    (∀ (A : CreepAssets) hypot fuel dt level onEscape onKilled (c : Creep),
        A.FirebugSideDeath = [] → c.Health ≤ 0 → c.IsDying = false →
        c.Update A hypot fuel dt level onEscape onKilled = .error Fault.nilDeref) ∧
      (∀ fuel,
        scenarioCreep.Update { repoCreepAssets with FirebugSideWalk := [] } axisHypot fuel
          (1 / 8) (some (levelOfSize 5 5)) true true = .error Fault.nilDeref) ∧
      NewAnimatedSprite [] 1 true = none := by
  refine ⟨?_, fun fuel => ?_, rfl⟩
  · intro A hypot fuel dt level onEscape onKilled c hA hh hd
    simp only [Creep.Update, hh, hd, and_self, if_true, Creep.installAnimation, hA,
      NewAnimatedSprite, List.length_nil]
  · norm_num [Creep.Update, scenarioCreep, NewCreep, repoCreepAssets, Creep.move,
      Creep.followPath, axisHypot, Creep.updateDirection, Creep.hasEscaped, levelOfSize,
      Creep.setAnimation, Creep.desiredFrames, animationFramesEqual, Creep.installAnimation,
      NewAnimatedSprite]

/-! ## Facing direction -/

/-- C25, counterexample: with `dx = dy = 1` (a tie, `dx ≠ 0`) `updateDirection` selects
`DirectionDown`, a vertical direction; with `dx = 1`, `dy = -1` it selects `DirectionUp`. -/
theorem facing_tie_counterexample :
    |(1 : ℚ)| ≥ |(1 : ℚ)| ∧ (1 : ℚ) ≠ 0 ∧
      (Creep.updateDirection 1 1 scenarioCreep).CurrentDirection = Direction.DirectionDown ∧
      (Creep.updateDirection 1 (-1) scenarioCreep).CurrentDirection =
        Direction.DirectionUp := by
  refine ⟨le_refl _, one_ne_zero, ?_, ?_⟩ <;> norm_num [Creep.updateDirection]

/-- C25, amended (facing direction, vertical wins ties): `updateDirection(dx, dy)` selects a
horizontal direction (Right if `dx > 0`, otherwise Left) exactly when `|dx| > |dy|`, and a
vertical direction (Down if `dy > 0`, otherwise Up) whenever `|dx| ≤ |dy|`, in particular on a
tie; no other field of the creep is written. -/
theorem facing_direction (dx dy : ℚ) (c : Creep) :
    (|dx| > |dy| → 0 < dx →
        (c.updateDirection dx dy).CurrentDirection = Direction.DirectionRight) ∧
      (|dx| > |dy| → dx ≤ 0 →
        (c.updateDirection dx dy).CurrentDirection = Direction.DirectionLeft) ∧
      (|dx| ≤ |dy| → 0 < dy →
        (c.updateDirection dx dy).CurrentDirection = Direction.DirectionDown) ∧
      (|dx| ≤ |dy| → dy ≤ 0 →
        (c.updateDirection dx dy).CurrentDirection = Direction.DirectionUp) ∧
      (((c.updateDirection dx dy).CurrentDirection = Direction.DirectionRight ∨
          (c.updateDirection dx dy).CurrentDirection = Direction.DirectionLeft) ↔
        |dx| > |dy|) ∧
      c.updateDirection dx dy =
        { c with CurrentDirection := (c.updateDirection dx dy).CurrentDirection } := by
  unfold Creep.updateDirection
  by_cases h1 : |dx| > |dy|
  · by_cases h2 : dx > 0
    · rw [if_pos h1, if_pos h2]
      exact ⟨fun _ _ => rfl, fun _ h => absurd h2 (not_lt.mpr h),
        fun h => absurd h1 (not_lt.mpr h), fun h => absurd h1 (not_lt.mpr h),
        ⟨fun _ => h1, fun _ => Or.inl rfl⟩, rfl⟩
    · rw [if_pos h1, if_neg h2]
      exact ⟨fun _ h => absurd h h2, fun _ _ => rfl,
        fun h => absurd h1 (not_lt.mpr h), fun h => absurd h1 (not_lt.mpr h),
        ⟨fun _ => h1, fun _ => Or.inr rfl⟩, rfl⟩
  · by_cases h2 : dy > 0
    · rw [if_neg h1, if_pos h2]
      refine ⟨fun h => absurd h h1, fun h => absurd h h1, fun _ _ => rfl,
        fun _ h => absurd h2 (not_lt.mpr h), ⟨fun h => ?_, fun h => absurd h h1⟩, rfl⟩
      rcases h with h | h <;> cases h
    · rw [if_neg h1, if_neg h2]
      refine ⟨fun h => absurd h h1, fun h => absurd h h1, fun _ h => absurd h h2,
        fun _ _ => rfl, ⟨fun h => ?_, fun h => absurd h h1⟩, rfl⟩
      rcases h with h | h <;> cases h

/-! ## Single-frame clocks -/

/-- C26 (a single-frame clock never advances): for a sprite with `frameCount ≤ 1`, `Update(dt)`
returns the sprite unchanged for every `dt` (in every field, and without entering the
frame-advance loop, so for every fuel), the same holds for any sequence of `Update` calls, and
`GetCurrentFrame` returns the same result before and after. -/
theorem single_frame_clock_static (as : AnimatedSprite) (h : as.frameCount ≤ 1) :
    (∀ fuel dt, as.Update fuel dt = some as) ∧
      (∀ fuel dts, runUpdates fuel dts as = some as) ∧
      (∀ fuel dt as1, as.Update fuel dt = some as1 →
        as1.currentFrame = as.currentFrame ∧ as1.frameTimer = as.frameTimer ∧
          as1.isPlaying = as.isPlaying ∧ as1.GetCurrentFrame = as.GetCurrentFrame) := by
  have hu : ∀ fuel dt, as.Update fuel dt = some as := fun fuel dt => by
    simp only [AnimatedSprite.Update, h, or_true, if_true]
  refine ⟨hu, fun fuel dts => ?_, fun fuel dt as1 h1 => ?_⟩
  · induction dts with
    | nil => rfl
    | cons dt rest ih => simp only [runUpdates, hu fuel dt, ih]
  · rw [hu fuel dt] at h1
    have e := Option.some.inj h1
    subst e
    exact ⟨rfl, rfl, rfl, rfl⟩

theorem single_frame_clock_static_witness :
    (AnimatedSprite.Play
        { frames := [7], frameCount := 1, frameDuration := 1, currentFrame := 0
          frameTimer := 0, isPlaying := false, loop := true, totalDuration := 1 }).frameCount
        ≤ 1 ∧
      NewAnimatedSprite [7] 1 true =
        some { frames := [7], frameCount := 1, frameDuration := 1, currentFrame := 0
               frameTimer := 0, isPlaying := false, loop := true, totalDuration := 1 } ∧
      ∀ fuel dt,
        (AnimatedSprite.Play
          { frames := [7], frameCount := 1, frameDuration := 1, currentFrame := 0
            frameTimer := 0, isPlaying := false, loop := true, totalDuration := 1 }).Update
            fuel dt =
          some (AnimatedSprite.Play
            { frames := [7], frameCount := 1, frameDuration := 1, currentFrame := 0
              frameTimer := 0, isPlaying := false, loop := true, totalDuration := 1 }) :=
  ⟨by decide, by norm_num [NewAnimatedSprite],
    (single_frame_clock_static _ (by decide)).1⟩

/-! ## Bounded termination of the frame-advance loop -/

namespace AnimatedSprite

/-- The exit condition of the frame-advance loop: a clock that is still playing when the loop
ends has less than one frame duration on its timer. -/
theorem advanceFrames_exit (fuel : Nat) (as as1 : AnimatedSprite)
    (h : advanceFrames fuel as = some as1) (hp : as1.isPlaying = true) :
    as1.frameTimer < as1.frameDuration := by
  induction fuel generalizing as with
  | zero =>
    rw [advanceFrames_zero_eq] at h
    split_ifs at h with hc
    cases h
    by_contra hlt
    exact hc ⟨not_lt.mp hlt, hp⟩
  | succ k ih =>
    rw [advanceFrames_succ_eq] at h
    split_ifs at h with hc hge hl
    · exact ih _ h
    · cases h
      cases hp
    · exact ih _ h
    · cases h
      by_contra hlt
      exact hc ⟨not_lt.mp hlt, hp⟩

/-- The loop never drives the timer below zero. -/
theorem advanceFrames_timer_nonneg (fuel : Nat) (as as1 : AnimatedSprite)
    (h : advanceFrames fuel as = some as1) (h0 : 0 ≤ as.frameTimer) : 0 ≤ as1.frameTimer := by
  induction fuel generalizing as with
  | zero =>
    rw [advanceFrames_zero_eq] at h
    split_ifs at h
    cases h
    exact h0
  | succ k ih =>
    rw [advanceFrames_succ_eq] at h
    split_ifs at h with hc hge hl
    · exact ih _ h (by simp only; linarith [hc.1])
    · cases h
      simp only
      linarith [hc.1]
    · exact ih _ h (by simp only; linarith [hc.1])
    · cases h
      exact h0

theorem Update_floor_fuel (as : AnimatedSprite) (dt : ℚ) (hd : 0 < as.frameDuration) :
    ∃ as1, ∀ fuel, ⌊(as.frameTimer + dt) / as.frameDuration⌋₊ ≤ fuel →
      as.Update fuel dt = some as1 := by
  by_cases hg : as.isPlaying = false ∨ as.frameCount ≤ 1
  · exact ⟨as, fun fuel _ => by simp only [Update, if_pos hg]⟩
  · have hlt : as.frameTimer + dt <
        ((⌊(as.frameTimer + dt) / as.frameDuration⌋₊ : ℚ) + 1) * as.frameDuration := by
      have h1 := Nat.lt_floor_add_one ((as.frameTimer + dt) / as.frameDuration)
      rwa [div_lt_iff₀ hd] at h1
    obtain ⟨as1, h1⟩ := advanceFrames_terminates
      ⌊(as.frameTimer + dt) / as.frameDuration⌋₊ { as with frameTimer := as.frameTimer + dt }
      hd hlt
    refine ⟨as1, fun fuel hf => ?_⟩
    simp only [Update, if_neg hg]
    exact advanceFrames_mono _ _ _ _ hf h1

theorem Update_exit (fuel : Nat) (dt : ℚ) (as as1 : AnimatedSprite)
    (h : as.Update fuel dt = some as1) (hp : as1.isPlaying = true)
    (hentry : 2 ≤ as.frameCount ∨ as.frameTimer < as.frameDuration) :
    as1.frameTimer < as1.frameDuration := by
  unfold Update at h
  split_ifs at h with hg
  · cases h
    rcases hg with hg | hg
    · rw [hp] at hg
      cases hg
    · rcases hentry with h2 | h2
      · omega
      · exact h2
  · exact advanceFrames_exit fuel _ as1 h hp

theorem Update_timer_nonneg (fuel : Nat) (dt : ℚ) (as as1 : AnimatedSprite)
    (h : as.Update fuel dt = some as1) (h0 : 0 ≤ as.frameTimer) (hdt : 0 ≤ dt) :
    0 ≤ as1.frameTimer := by
  unfold Update at h
  split_ifs at h with hg
  · cases h
    exact h0
  · exact advanceFrames_timer_nonneg fuel _ as1 h (by simp only; linarith)

end AnimatedSprite

/-- Every clock the program can build and drive keeps `0 ≤ frameTimer`, and
`frameTimer < frameDuration` while it plays. -/
theorem runCalls_timer_range (fuel : Nat) (calls : List SpriteCall) (as as1 : AnimatedSprite)
    (h : runCalls fuel calls as = some as1) (hcalls : ∀ c ∈ calls, 0 ≤ c.time)
    (hd : 0 < as.frameDuration) (h0 : 0 ≤ as.frameTimer)
    (hp : as.isPlaying = true → as.frameTimer < as.frameDuration) :
    0 ≤ as1.frameTimer ∧ (as1.isPlaying = true → as1.frameTimer < as1.frameDuration) := by
  induction calls generalizing as with
  | nil =>
    simp only [runCalls] at h
    cases h
    exact ⟨h0, hp⟩
  | cons c rest ih =>
    have hrest : ∀ x ∈ rest, 0 ≤ x.time := fun x hx => hcalls x (List.mem_cons_of_mem _ hx)
    cases c with
    | play =>
      simp only [runCalls] at h
      exact ih as.Play h hrest hd (le_refl _) (fun _ => hd)
    | update dt =>
      simp only [runCalls] at h
      split at h
      · cases h
      · rename_i as2 h2
        have hdt : 0 ≤ dt := hcalls (SpriteCall.update dt) (List.mem_cons_self _ _)
        have hs := AnimatedSprite.Update_static _ _ _ _ h2
        refine ih as2 h hrest (by rw [hs.2.2.1]; exact hd)
          (AnimatedSprite.Update_timer_nonneg fuel dt as as2 h2 h0 hdt) (fun hp2 => ?_)
        by_cases hg : 2 ≤ as.frameCount
        · exact AnimatedSprite.Update_exit fuel dt as as2 h2 hp2 (Or.inl hg)
        · have hu : as.Update fuel dt = some as := by
            simp only [AnimatedSprite.Update, show as.frameCount ≤ 1 by omega, or_true, if_true]
          rw [hu] at h2
          have e := Option.some.inj h2
          subst e
          exact hp hp2

/-- Bounded termination of `Update` in exact arithmetic (no `float64` rounding): for a clock with `frameDuration > 0` and any `dt`,
`Update(dt)` returns, and its frame-advance loop needs at most
`floor((frameTimer + dt) / frameDuration)` iterations (0 when that quotient is negative): that
much loop fuel, one unit per iteration, is enough, and the result does not depend on the fuel.
When the loop ends with the clock still playing, `frameTimer < frameDuration`; this also holds
after `Update` of a clock that skips the loop when it held on entry. With `frameTimer ≥ 0` and
`dt ≥ 0` on entry, `frameTimer ≥ 0` on exit. Every clock built by `NewAnimatedSprite` with a
positive length and driven by `Play()` and `Update(dt ≥ 0)` calls satisfies
`0 ≤ frameTimer`, and `frameTimer < frameDuration` while it plays. -/
theorem update_terminates_bounded (as : AnimatedSprite) (dt : ℚ)
    (hd : 0 < as.frameDuration) :
    (∃ as1, ∀ fuel, ⌊(as.frameTimer + dt) / as.frameDuration⌋₊ ≤ fuel →
        as.Update fuel dt = some as1) ∧
      (∀ fuel as0 as1, AnimatedSprite.advanceFrames fuel as0 = some as1 →
        as1.isPlaying = true → as1.frameTimer < as1.frameDuration) ∧
      (∀ fuel as1, as.Update fuel dt = some as1 → as1.isPlaying = true →
        (2 ≤ as.frameCount ∨ as.frameTimer < as.frameDuration) →
        as1.frameTimer < as1.frameDuration) ∧
      (∀ fuel as1, as.Update fuel dt = some as1 → 0 ≤ as.frameTimer → 0 ≤ dt →
        0 ≤ as1.frameTimer) ∧
      (∀ frames len loop as0 calls fuel as1, NewAnimatedSprite frames len loop = some as0 →
        0 < len → (∀ c ∈ calls, 0 ≤ c.time) → runCalls fuel calls as0 = some as1 →
        0 ≤ as1.frameTimer ∧ (as1.isPlaying = true → as1.frameTimer < as1.frameDuration)) := by
  refine ⟨AnimatedSprite.Update_floor_fuel as dt hd,
    fun fuel as0 as1 h hp => AnimatedSprite.advanceFrames_exit fuel as0 as1 h hp,
    fun fuel as1 h hp he => AnimatedSprite.Update_exit fuel dt as as1 h hp he,
    fun fuel as1 h h0 hdt => AnimatedSprite.Update_timer_nonneg fuel dt as as1 h h0 hdt, ?_⟩
  intro frames len loop as0 calls fuel as1 hnew hlen hcalls hrun
  unfold NewAnimatedSprite at hnew
  split_ifs at hnew with hempty
  have e := Option.some.inj hnew
  subst e
  have hq : (0 : ℚ) < (frames.length : ℚ) := by
    have : 0 < frames.length := Nat.pos_of_ne_zero hempty
    exact_mod_cast this
  exact runCalls_timer_range fuel calls _ as1 hrun hcalls (div_pos hlen hq) (le_refl _)
    (fun hp => by cases hp)

theorem update_terminates_bounded_witness :
    0 < demoClock.frameDuration ∧
      ∃ as1, ∀ fuel, ⌊(demoClock.frameTimer + 1 / 2) / demoClock.frameDuration⌋₊ ≤ fuel →
        demoClock.Update fuel (1 / 2) = some as1 :=
  ⟨by norm_num [demoClock],
    (update_terminates_bounded demoClock (1 / 2) (by norm_num [demoClock])).1⟩

/-! ## Aiming for small time steps -/

namespace TowerManager

end TowerManager

namespace ProjectileManager

theorem checkCollision_cons (M : GoMath) (p : Projectile) (c : Creep) (rest : List Creep) :
    checkCollisionWithCreeps M p (c :: rest) =
      if collides M p c = true then
        (true, c.TakeDamage (collisionDamage p.ProjectileType) :: rest)
      else
        ((checkCollisionWithCreeps M p rest).1, c :: (checkCollisionWithCreeps M p rest).2) := by
  by_cases ha : c.Active = true
  · by_cases hd : c.IsDying = true
    · simp only [checkCollisionWithCreeps, collides, Creep.IsActive, ha, hd, Bool.not_true,
        Bool.and_false, Bool.false_and, Bool.false_eq_true, Bool.true_eq_false, if_false,
        if_true]
    · have hd2 : c.IsDying = false := by simpa using hd
      simp only [checkCollisionWithCreeps, collides, Creep.IsActive, ha, hd2, Bool.not_false,
        Bool.and_true, Bool.true_and, Bool.true_eq_false, Bool.false_eq_true, if_false,
        decide_eq_true_eq]
  · have ha2 : c.Active = false := by simpa using ha
    simp only [checkCollisionWithCreeps, collides, Creep.IsActive, ha2, Bool.false_and,
      Bool.false_eq_true, if_false, if_true]

/-- The outcome of `checkCollisionWithCreeps`: either no creep meets the guards and the list is
returned as it was, or `TakeDamage` was applied to the first creep that meets them, and to no
other. -/
theorem checkCollision_cases (M : GoMath) (p : Projectile) (creeps : List Creep) :
    ((∀ c ∈ creeps, collides M p c = false) ∧
        checkCollisionWithCreeps M p creeps = (false, creeps)) ∨
      ∃ pre c post, creeps = pre ++ c :: post ∧ (∀ c' ∈ pre, collides M p c' = false) ∧
        collides M p c = true ∧
        checkCollisionWithCreeps M p creeps =
          (true, pre ++ c.TakeDamage (collisionDamage p.ProjectileType) :: post) := by
  induction creeps with
  | nil => exact Or.inl ⟨fun c hc => absurd hc (List.not_mem_nil c), rfl⟩
  | cons c rest ih =>
    rw [checkCollision_cons]
    cases hcol : collides M p c with
    | true =>
      exact Or.inr ⟨[], c, rest, rfl, fun c' hc' => absurd hc' (List.not_mem_nil c'), hcol,
        by simp only [if_true, List.nil_append]⟩
    | false =>
      simp only [Bool.false_eq_true, if_false]
      rcases ih with ⟨hall, heq⟩ | ⟨pre, c2, post, hsplit, hpre, hc2, heq⟩
      · refine Or.inl ⟨fun c' hc' => ?_, by rw [heq]⟩
        rcases List.mem_cons.mp hc' with rfl | hc'
        · exact hcol
        · exact hall c' hc'
      · refine Or.inr ⟨c :: pre, c2, post, by rw [hsplit]; rfl, fun c' hc' => ?_, hc2,
          by rw [heq]; rfl⟩
        rcases List.mem_cons.mp hc' with rfl | hc'
        · exact hcol
        · exact hpre c' hc'

/-- The first creep meeting the guards is determined by the list. -/
theorem first_collider_unique (M : GoMath) (p : Projectile) (pre1 pre2 post1 post2 : List Creep)
    (c1 c2 : Creep) (h : pre1 ++ c1 :: post1 = pre2 ++ c2 :: post2)
    (h1 : ∀ c ∈ pre1, collides M p c = false) (hc1 : collides M p c1 = true)
    (h2 : ∀ c ∈ pre2, collides M p c = false) (hc2 : collides M p c2 = true) :
    pre1 = pre2 ∧ c1 = c2 ∧ post1 = post2 := by
  induction pre1 generalizing pre2 with
  | nil =>
    cases pre2 with
    | nil =>
      simp only [List.nil_append, List.cons.injEq] at h
      exact ⟨rfl, h.1, h.2⟩
    | cons x xs =>
      simp only [List.nil_append, List.cons_append, List.cons.injEq] at h
      have := h2 x (List.mem_cons_self _ _)
      rw [← h.1, hc1] at this
      cases this
  | cons y ys ih =>
    cases pre2 with
    | nil =>
      simp only [List.nil_append, List.cons_append, List.cons.injEq] at h
      have := h1 y (List.mem_cons_self _ _)
      rw [h.1, hc2] at this
      cases this
    | cons x xs =>
      simp only [List.cons_append, List.cons.injEq] at h
      obtain ⟨e1, e2, e3⟩ := ih xs h.2 (fun c hc => h1 c (List.mem_cons_of_mem _ hc))
        (fun c hc => h2 c (List.mem_cons_of_mem _ hc))
      exact ⟨by rw [h.1, e1], e2, e3⟩

theorem startImpactAnimation_frame (TA : TowerAssets) (p : Projectile) :
    (startImpactAnimation TA p).IsImpacting = true ∧ (startImpactAnimation TA p).X = p.X ∧
      (startImpactAnimation TA p).Y = p.Y ∧
      (startImpactAnimation TA p).TravelDistance = p.TravelDistance ∧
      (startImpactAnimation TA p).MaxDistance = p.MaxDistance ∧
      (startImpactAnimation TA p).ProjectileType = p.ProjectileType ∧
      (startImpactAnimation TA p).Animation = none ∧
      (startImpactAnimation TA p).VelocityX = p.VelocityX ∧
      (startImpactAnimation TA p).VelocityY = p.VelocityY := by
  unfold startImpactAnimation
  simp only
  split_ifs <;> exact ⟨rfl, rfl, rfl, rfl, rfl, rfl, rfl, rfl, rfl⟩

theorem startImpactAnimation_unknown (TA : TowerAssets) (p : Projectile)
    (h1 : p.ProjectileType ≠ BallistaTowerID) (h2 : p.ProjectileType ≠ MagicTowerID) :
    (startImpactAnimation TA p).Active = false := by
  simp only [startImpactAnimation, if_neg h1, if_neg h2]

theorem startImpactAnimation_kept (TA : TowerAssets) (p : Projectile)
    (h : (p.ProjectileType = BallistaTowerID ∧ TA.BallisticWeaponImpactAnimation ≠ []) ∨
      (p.ProjectileType = MagicTowerID ∧ TA.MagicTowerProjectileImpactAnimation ≠ [])) :
    (startImpactAnimation TA p).Active = p.Active := by
  rcases h with ⟨hty, hne⟩ | ⟨hty, hne⟩
  · exact startImpactAnimation_active TA p hty hne
  · have hlen : TA.MagicTowerProjectileImpactAnimation.length > 0 := List.length_pos.mpr hne
    have hnb : ¬ (MagicTowerID = BallistaTowerID) := by decide
    simp only [startImpactAnimation, hty, hnb, if_false, if_true, if_pos hlen]

/-- The loop body of `Update` for an active projectile, in terms of `resolve`. -/
theorem updateOne_resolve (M : GoMath) (TA : TowerAssets) (fuel : Nat) (dt : ℚ)
    (creeps cs : List Creep) (p : Projectile) (kept : Option Projectile)
    (hact : p.Active = true) (h : updateOne M TA fuel dt creeps p = .ok (kept, cs)) :
    ∃ anim impact, updateOptional fuel dt p.Animation = .ok anim ∧
      updateOptional fuel dt p.ImpactAnimation = .ok impact ∧
      (kept, cs) =
        resolve M TA dt creeps { p with Animation := anim, ImpactAnimation := impact } := by
  unfold updateOne at h
  rw [if_neg (by simp [hact])] at h
  split at h
  · cases h
  · rename_i anim hanim
    split at h
    · cases h
    · rename_i impact himp
      simp only [Except.ok.injEq] at h
      exact ⟨anim, impact, hanim, himp, h.symm⟩

theorem updateOptional_none (fuel : Nat) (dt : ℚ) (r : Option AnimatedSprite)
    (h : updateOptional fuel dt none = .ok r) : r = none := by
  simp only [updateOptional, Except.ok.injEq] at h
  exact h.symm

/-- One tick of a flying projectile (active, not impacting, no impact animation yet), as a
function of the collision test. -/
theorem updateOne_flying_spec (M : GoMath) (TA : TowerAssets) (fuel : Nat) (dt : ℚ)
    (creeps cs : List Creep) (p : Projectile) (kept : Option Projectile)
    (hact : p.Active = true) (hfly : p.IsImpacting = false) (hnoimp : p.ImpactAnimation = none)
    (h : updateOne M TA fuel dt creeps p = .ok (kept, cs)) :
    ∃ anim, updateOptional fuel dt p.Animation = .ok anim ∧
      (((checkCollisionWithCreeps M p creeps).1 = true ∧
          cs = (checkCollisionWithCreeps M p creeps).2 ∧
          kept = keepIfActive (startImpactAnimation TA { p with Animation := anim })) ∨
        ((checkCollisionWithCreeps M p creeps).1 = false ∧ cs = creeps ∧
          kept = keepIfActive (advance M TA dt { p with Animation := anim }))) := by
  obtain ⟨anim, impact, hanim, himp, hres⟩ :=
    updateOne_resolve M TA fuel dt creeps cs p kept hact h
  rw [hnoimp] at himp
  have e := updateOptional_none fuel dt impact himp
  subst e
  refine ⟨anim, hanim, ?_⟩
  have hcongr := checkCollision_congr M p { p with Animation := anim, ImpactAnimation := none }
    rfl rfl rfl creeps
  have hp : ({ p with Animation := anim, ImpactAnimation := none } : Projectile) =
      { p with Animation := anim } := by
    cases p
    simp only at hnoimp
    subst hnoimp
    rfl
  unfold resolve at hres
  rw [if_neg (by simp [hasStopped]), if_pos hfly, hcongr] at hres
  rw [hp] at hres
  cases hcol : (checkCollisionWithCreeps M p creeps).1 with
  | true =>
    rw [hcol, if_pos rfl] at hres
    simp only [Prod.mk.injEq] at hres
    exact Or.inl ⟨rfl, hres.2, hres.1⟩
  | false =>
    rw [hcol, if_neg (by simp)] at hres
    simp only [Prod.mk.injEq] at hres
    exact Or.inr ⟨rfl, hres.2, hres.1⟩

end ProjectileManager

namespace ProjectileManager

theorem collides_iff (M : GoMath) (p : Projectile) (c : Creep) :
    collides M p c = true ↔
      c.Active = true ∧ c.IsDying = false ∧
        M.Sqrt ((p.X - c.X) * (p.X - c.X) + (p.Y - c.Y) * (p.Y - c.Y)) ≤ 7 / 10 := by
  have hr : projectileCollisionRadius + creepCollisionRadius = 7 / 10 := by
    norm_num [projectileCollisionRadius, creepCollisionRadius]
  simp only [collides, Creep.IsActive, Bool.and_eq_true, Bool.not_eq_true', decide_eq_true_eq,
    hr, and_assoc]

/-- One `Update` of a manager holding a single flying projectile, as a function of the
collision test. -/
theorem Update_flying_spec (M : GoMath) (TA : TowerAssets) (fuel : Nat) (dt : ℚ)
    (creeps cs : List Creep) (p : Projectile) (pm1 : ProjectileManager)
    (hact : p.Active = true) (hfly : p.IsImpacting = false) (hnoimp : p.ImpactAnimation = none)
    (h : Update M TA fuel dt creeps { projectiles := [p] } = .ok (pm1, cs)) :
    ∃ anim kept, updateOptional fuel dt p.Animation = .ok anim ∧
      pm1.projectiles = kept.toList ∧
      (((checkCollisionWithCreeps M p creeps).1 = true ∧
          cs = (checkCollisionWithCreeps M p creeps).2 ∧
          kept = keepIfActive (startImpactAnimation TA { p with Animation := anim })) ∨
        ((checkCollisionWithCreeps M p creeps).1 = false ∧ cs = creeps ∧
          kept = keepIfActive (advance M TA dt { p with Animation := anim }))) := by
  obtain ⟨kept, hk, hcase⟩ := Update_single M TA fuel dt creeps cs _ pm1 p rfl h
  obtain ⟨anim, hanim, hres⟩ :=
    updateOne_flying_spec M TA fuel dt creeps cs p kept hact hfly hnoimp hk
  refine ⟨anim, kept, hanim, ?_, hres⟩
  rcases hcase with ⟨hnone, hnil⟩ | ⟨q1, hq1, hone⟩
  · rw [hnone, hnil]
    rfl
  · rw [hq1, hone]
    rfl

theorem keepIfActive_toList (p : Projectile) :
    ((keepIfActive p).toList = [] ∧ p.Active = false) ∨
      ((keepIfActive p).toList = [p] ∧ p.Active = true) := by
  unfold keepIfActive
  cases h : p.Active
  · exact Or.inl ⟨by simp, rfl⟩
  · exact Or.inr ⟨by simp, rfl⟩

theorem single_Update_total (M : GoMath) (TA : TowerAssets) (dt : ℚ) (creeps : List Creep)
    (p : Projectile) (hp : p.Ready) :
    ∃ k, ∀ fuel, k ≤ fuel →
      ∃ r, Update M TA fuel dt creeps { projectiles := [p] } = .ok r := by
  obtain ⟨k, pm1, cs, hk, _⟩ := pmUpdate_total M TA dt creeps { projectiles := [p] }
    (fun q hq => by
      simp only [List.mem_singleton] at hq
      rw [hq]
      exact hp)
  exact ⟨k, fun fuel hf => ⟨_, hk fuel hf⟩⟩

end ProjectileManager

/-- C22 (collision resolution is first-match): one `ProjectileManager.Update` tick of a manager
holding a flying projectile (active, not impacting, impact animation still nil). If the creep
list is `pre ++ c :: post` where `c` is active, not dying and within distance `0.7 = 0.3 + 0.4`
of the projectile and no creep of `pre` is, the list after the tick is
`pre ++ c.TakeDamage(amount) :: post` with the amount of the projectile's type (25 for the
Ballista, 20 for the Magic tower); the projectile is impacting with its position and
`TravelDistance` unchanged and its flight animation dropped, or it is removed, and it is kept
whenever its type has a non-empty impact animation asset. If no creep of the list meets the
three conditions, the list is returned unchanged. With animations of positive frame duration the
tick returns. -/
theorem first_match_collision (M : GoMath) (TA : TowerAssets) (dt : ℚ) (p : Projectile)
    (creeps : List Creep) (hact : p.Active = true) (hfly : p.IsImpacting = false)
    (hnoimp : p.ImpactAnimation = none) :
    (∀ fuel pm1 cs,
        ProjectileManager.Update M TA fuel dt creeps { projectiles := [p] } = .ok (pm1, cs) →
        (∀ pre c post, creeps = pre ++ c :: post →
          (∀ c' ∈ pre, ProjectileManager.collides M p c' = false) →
          ProjectileManager.collides M p c = true →
          cs = pre ++
              c.TakeDamage (ProjectileManager.collisionDamage p.ProjectileType) :: post ∧
            (pm1.projectiles = [] ∨
              ∃ q, pm1.projectiles = [q] ∧ q.IsImpacting = true ∧ q.X = p.X ∧ q.Y = p.Y ∧
                q.TravelDistance = p.TravelDistance ∧ q.Animation = none) ∧
            (((p.ProjectileType = BallistaTowerID ∧ TA.BallisticWeaponImpactAnimation ≠ []) ∨
                (p.ProjectileType = MagicTowerID ∧
                  TA.MagicTowerProjectileImpactAnimation ≠ [])) →
              ∃ q, pm1.projectiles = [q])) ∧
        ((∀ c ∈ creeps, ProjectileManager.collides M p c = false) → cs = creeps)) ∧
      (∀ c, ProjectileManager.collides M p c = true ↔
        c.Active = true ∧ c.IsDying = false ∧
          M.Sqrt ((p.X - c.X) * (p.X - c.X) + (p.Y - c.Y) * (p.Y - c.Y)) ≤ 7 / 10) ∧
      ProjectileManager.collisionDamage BallistaTowerID = 25 ∧
      ProjectileManager.collisionDamage MagicTowerID = 20 ∧
      (p.Ready → ∃ k, ∀ fuel, k ≤ fuel →
        ∃ r, ProjectileManager.Update M TA fuel dt creeps { projectiles := [p] } = .ok r) := by
  refine ⟨fun fuel pm1 cs h => ?_, fun c => ProjectileManager.collides_iff M p c, rfl, rfl,
    fun hp => ProjectileManager.single_Update_total M TA dt creeps p hp⟩
  obtain ⟨anim, kept, _, hlist, hres⟩ :=
    ProjectileManager.Update_flying_spec M TA fuel dt creeps cs p pm1 hact hfly hnoimp h
  have hcases := ProjectileManager.checkCollision_cases M p creeps
  constructor
  · intro pre c post hsplit hpre hc
    rcases hcases with ⟨hall, _⟩ | ⟨pre2, c2, post2, hsplit2, hpre2, hc2, heq⟩
    · have hmem : c ∈ creeps := by
        rw [hsplit]
        exact List.mem_append_right _ (List.mem_cons_self _ _)
      rw [hall c hmem] at hc
      cases hc
    · obtain ⟨e1, e2, e3⟩ := ProjectileManager.first_collider_unique M p pre pre2 post post2
        c c2 (hsplit.symm.trans hsplit2) hpre hc hpre2 hc2
      subst e1 e2 e3
      rw [heq] at hres
      rcases hres with ⟨_, hcs, hkept⟩ | ⟨hfalse, _⟩
      · obtain ⟨hf1, hf2, hf3, hf4, _, _, hf7, _⟩ :=
          ProjectileManager.startImpactAnimation_frame TA { p with Animation := anim }
        refine ⟨hcs, ?_, fun hasset => ?_⟩
        · rcases ProjectileManager.keepIfActive_toList
            (ProjectileManager.startImpactAnimation TA { p with Animation := anim }) with
            ⟨hnil, _⟩ | ⟨hone, _⟩
          · exact Or.inl (by rw [hlist, hkept, hnil])
          · exact Or.inr ⟨_, by rw [hlist, hkept, hone], hf1, hf2, hf3, hf4, hf7⟩
        · have hkeep := ProjectileManager.startImpactAnimation_kept TA
            { p with Animation := anim } hasset
          rcases ProjectileManager.keepIfActive_toList
            (ProjectileManager.startImpactAnimation TA { p with Animation := anim }) with
            ⟨_, hina⟩ | ⟨hone, _⟩
          · rw [hkeep] at hina
            exact absurd (hact.symm.trans hina) (by simp)
          · exact ⟨_, by rw [hlist, hkept, hone]⟩
      · cases hfalse
  · intro hall
    rcases hcases with ⟨_, heq⟩ | ⟨pre2, c2, post2, hsplit2, _, hc2, _⟩
    · rw [heq] at hres
      rcases hres with ⟨htrue, _⟩ | ⟨_, hcs, _⟩
      · cases htrue
      · exact hcs
    · have hmem : c2 ∈ creeps := by
        rw [hsplit2]
        exact List.mem_append_right _ (List.mem_cons_self _ _)
      rw [hall c2 hmem] at hc2
      cases hc2

theorem first_match_collision_witness :
    demoBolt.Active = true ∧ demoBolt.IsImpacting = false ∧ demoBolt.ImpactAnimation = none ∧
      ∃ k, ∀ fuel, k ≤ fuel →
        ∃ r, ProjectileManager.Update standInMath repoTowerAssets fuel (1 / 8) [westCreep]
          { projectiles := [demoBolt] } = .ok r :=
  ⟨rfl, rfl, rfl,
    (first_match_collision standInMath repoTowerAssets (1 / 8) demoBolt [westCreep] rfl rfl
      rfl).2.2.2.2 ⟨OptReady_none, OptReady_none⟩⟩

/-! ## Projectiles of unknown type -/

/-- C23, counterexample: a projectile of type 3 (neither Ballista nor Magic) at the position of
an active creep with health 20. One `Update` tick applies `TakeDamage(15)`, the `default` branch
of the damage switch, leaving the creep with health 5, and removes the projectile. -/
theorem unknown_projectile_damages :
    strayBolt.ProjectileType ≠ BallistaTowerID ∧ strayBolt.ProjectileType ≠ MagicTowerID ∧
      westCreep.Health = 20 ∧
      ((ProjectileManager.Update standInMath repoTowerAssets 0 (1 / 8) [westCreep]
          { projectiles := [strayBolt] }).map fun r =>
            (r.1.projectiles.length, r.2.map Creep.Health)) = .ok (0, [5]) := by
  refine ⟨by decide, by decide, by norm_num [westCreep, scenarioCreep, NewCreep], ?_⟩
  norm_num [ProjectileManager.Update, ProjectileManager.updateAll, ProjectileManager.updateOne,
    ProjectileManager.resolve, ProjectileManager.checkCollisionWithCreeps,
    ProjectileManager.startImpactAnimation, ProjectileManager.keepIfActive,
    ProjectileManager.collisionDamage, updateOptional, hasStopped, strayBolt, demoBolt,
    westCreep, scenarioCreep, NewCreep, Creep.IsActive, Creep.TakeDamage, standInMath,
    projectileCollisionRadius, creepCollisionRadius, BallistaTowerID, MagicTowerID,
    Except.map]

/-- C23, amended (a projectile of unknown type deals the default damage): one `Update` tick of
a manager holding a flying projectile whose type is neither `BallistaTowerID` nor
`MagicTowerID`. If some creep is active, not dying and within reach, `TakeDamage(15)` is applied
to the first such creep, no other creep changes, and the projectile is removed. Otherwise the
creep list is unchanged, and the projectile is removed when its travelled distance reaches its
range in this tick and flies on otherwise. With animations of positive frame duration the tick
returns without error. -/
theorem unknown_projectile_outcome (M : GoMath) (TA : TowerAssets) (dt : ℚ) (p : Projectile)
    (creeps : List Creep) (hact : p.Active = true) (hfly : p.IsImpacting = false)
    (hnoimp : p.ImpactAnimation = none) (h1 : p.ProjectileType ≠ BallistaTowerID)
    (h2 : p.ProjectileType ≠ MagicTowerID) :
    (∀ fuel pm1 cs,
        ProjectileManager.Update M TA fuel dt creeps { projectiles := [p] } = .ok (pm1, cs) →
        (∀ pre c post, creeps = pre ++ c :: post →
          (∀ c' ∈ pre, ProjectileManager.collides M p c' = false) →
          ProjectileManager.collides M p c = true →
          cs = pre ++ c.TakeDamage 15 :: post ∧ pm1.projectiles = []) ∧
        ((∀ c ∈ creeps, ProjectileManager.collides M p c = false) →
          cs = creeps ∧
            (p.MaxDistance ≤ p.TravelDistance + projectileSpeed * dt →
              pm1.projectiles = []) ∧
            (p.TravelDistance + projectileSpeed * dt < p.MaxDistance →
              ∃ q, pm1.projectiles = [q] ∧ q.IsImpacting = false ∧
                q.TravelDistance = p.TravelDistance + projectileSpeed * dt ∧
                q.X = p.X + p.VelocityX * dt ∧ q.Y = p.Y + p.VelocityY * dt))) ∧
      ProjectileManager.collisionDamage p.ProjectileType = 15 ∧
      (p.Ready → ∃ k, ∀ fuel, k ≤ fuel →
        ∃ r, ProjectileManager.Update M TA fuel dt creeps { projectiles := [p] } = .ok r) := by
  have hdmg : ProjectileManager.collisionDamage p.ProjectileType = 15 := by
    simp only [ProjectileManager.collisionDamage, if_neg h1, if_neg h2]
  refine ⟨fun fuel pm1 cs h => ?_, hdmg,
    fun hp => ProjectileManager.single_Update_total M TA dt creeps p hp⟩
  obtain ⟨anim, kept, _, hlist, hres⟩ :=
    ProjectileManager.Update_flying_spec M TA fuel dt creeps cs p pm1 hact hfly hnoimp h
  have hcases := ProjectileManager.checkCollision_cases M p creeps
  constructor
  · intro pre c post hsplit hpre hc
    rcases hcases with ⟨hall, _⟩ | ⟨pre2, c2, post2, hsplit2, hpre2, hc2, heq⟩
    · have hmem : c ∈ creeps := by
        rw [hsplit]
        exact List.mem_append_right _ (List.mem_cons_self _ _)
      rw [hall c hmem] at hc
      cases hc
    · obtain ⟨e1, e2, e3⟩ := ProjectileManager.first_collider_unique M p pre pre2 post post2
        c c2 (hsplit.symm.trans hsplit2) hpre hc hpre2 hc2
      subst e1 e2 e3
      rw [heq, hdmg] at hres
      rcases hres with ⟨_, hcs, hkept⟩ | ⟨hfalse, _⟩
      · refine ⟨hcs, ?_⟩
        have hina := ProjectileManager.startImpactAnimation_unknown TA
          { p with Animation := anim } h1 h2
        rcases ProjectileManager.keepIfActive_toList
          (ProjectileManager.startImpactAnimation TA { p with Animation := anim }) with
          ⟨hnil, _⟩ | ⟨_, hactive⟩
        · rw [hlist, hkept, hnil]
        · rw [hina] at hactive
          cases hactive
      · cases hfalse
  · intro hall
    rcases hcases with ⟨_, heq⟩ | ⟨pre2, c2, post2, hsplit2, _, hc2, _⟩
    · rw [heq] at hres
      rcases hres with ⟨htrue, _⟩ | ⟨_, hcs, hkept⟩
      · cases htrue
      · refine ⟨hcs, fun hge => ?_, fun hlt => ?_⟩
        · have hadv : ProjectileManager.advance M TA dt { p with Animation := anim } =
              ProjectileManager.startImpactAnimation TA
                { p with Animation := anim
                         X := p.X + p.VelocityX * dt
                         Y := p.Y + p.VelocityY * dt
                         TravelDistance := p.TravelDistance + projectileSpeed * dt
                         Angle := M.Atan2 p.VelocityY p.VelocityX } := by
            unfold ProjectileManager.advance
            simp only
            rw [if_pos hge]
          have hina := ProjectileManager.startImpactAnimation_unknown TA
            { p with Animation := anim
                     X := p.X + p.VelocityX * dt
                     Y := p.Y + p.VelocityY * dt
                     TravelDistance := p.TravelDistance + projectileSpeed * dt
                     Angle := M.Atan2 p.VelocityY p.VelocityX } h1 h2
          rw [hlist, hkept, hadv]
          simp only [ProjectileManager.keepIfActive, hina, Bool.false_eq_true, if_false,
            Option.toList]
        · have hadv : ProjectileManager.advance M TA dt { p with Animation := anim } =
              { p with Animation := anim
                       X := p.X + p.VelocityX * dt
                       Y := p.Y + p.VelocityY * dt
                       TravelDistance := p.TravelDistance + projectileSpeed * dt
                       Angle := M.Atan2 p.VelocityY p.VelocityX } := by
            unfold ProjectileManager.advance
            simp only
            rw [if_neg (not_le.mpr hlt)]
          refine ⟨{ p with Animation := anim
                           X := p.X + p.VelocityX * dt
                           Y := p.Y + p.VelocityY * dt
                           TravelDistance := p.TravelDistance + projectileSpeed * dt
                           Angle := M.Atan2 p.VelocityY p.VelocityX }, ?_, hfly, rfl, rfl, rfl⟩
          rw [hlist, hkept, hadv]
          simp only [ProjectileManager.keepIfActive, hact, if_true, Option.toList]
    · have hmem : c2 ∈ creeps := by
        rw [hsplit2]
        exact List.mem_append_right _ (List.mem_cons_self _ _)
      rw [hall c2 hmem] at hc2
      cases hc2

theorem unknown_projectile_outcome_witness :
    strayBolt.Active = true ∧ strayBolt.IsImpacting = false ∧
      strayBolt.ImpactAnimation = none ∧ strayBolt.ProjectileType ≠ BallistaTowerID ∧
      strayBolt.ProjectileType ≠ MagicTowerID ∧
      ProjectileManager.collisionDamage strayBolt.ProjectileType = 15 :=
  ⟨rfl, rfl, rfl, by decide, by decide,
    (unknown_projectile_outcome standInMath repoTowerAssets (1 / 8) strayBolt [westCreep] rfl
      rfl rfl (by decide) (by decide)).2.1⟩

namespace ProjectileManager

theorem advance_frame (M : GoMath) (TA : TowerAssets) (dt : ℚ) (p : Projectile) :
    (advance M TA dt p).X = p.X + p.VelocityX * dt ∧
      (advance M TA dt p).Y = p.Y + p.VelocityY * dt ∧
      (advance M TA dt p).TravelDistance = p.TravelDistance + projectileSpeed * dt ∧
      (advance M TA dt p).MaxDistance = p.MaxDistance ∧
      (advance M TA dt p).ProjectileType = p.ProjectileType ∧
      (((advance M TA dt p).IsImpacting = true ∧
          p.MaxDistance ≤ p.TravelDistance + projectileSpeed * dt) ∨
        ((advance M TA dt p).IsImpacting = p.IsImpacting ∧
          p.TravelDistance + projectileSpeed * dt < p.MaxDistance)) := by
  unfold advance
  simp only
  by_cases hr : p.TravelDistance + projectileSpeed * dt ≥ p.MaxDistance
  · rw [if_pos hr]
    obtain ⟨h1, h2, h3, h4, h5, h6, _, _, _⟩ := startImpactAnimation_frame TA
      { p with X := p.X + p.VelocityX * dt
               Y := p.Y + p.VelocityY * dt
               TravelDistance := p.TravelDistance + projectileSpeed * dt
               Angle := M.Atan2 p.VelocityY p.VelocityX }
    exact ⟨h2, h3, h4, h5, h6, Or.inl ⟨h1, hr⟩⟩
  · rw [if_neg hr]
    exact ⟨rfl, rfl, rfl, rfl, rfl, Or.inr ⟨rfl, not_le.mp hr⟩⟩

/-- The four outcomes of the loop body of `Update` for one projectile: dropped without touching
the creeps; kept while impacting; a collision; a move. -/
theorem updateOne_step (M : GoMath) (TA : TowerAssets) (fuel : Nat) (dt : ℚ)
    (creeps cs : List Creep) (q : Projectile) (kept : Option Projectile)
    (h : updateOne M TA fuel dt creeps q = .ok (kept, cs)) :
    (kept = none ∧ cs = creeps) ∨
      (q.IsImpacting = true ∧ cs = creeps ∧
        ∃ q1, kept = some q1 ∧ q1.IsImpacting = true ∧ q1.X = q.X ∧ q1.Y = q.Y ∧
          q1.TravelDistance = q.TravelDistance ∧ q1.MaxDistance = q.MaxDistance ∧
          q1.ProjectileType = q.ProjectileType) ∨
      (q.IsImpacting = false ∧
        (∃ pre c post, creeps = pre ++ c :: post ∧ (∀ c' ∈ pre, collides M q c' = false) ∧
          collides M q c = true ∧
          cs = pre ++ c.TakeDamage (collisionDamage q.ProjectileType) :: post) ∧
        (kept = none ∨ ∃ q1, kept = some q1 ∧ q1.IsImpacting = true ∧ q1.X = q.X ∧
          q1.Y = q.Y ∧ q1.TravelDistance = q.TravelDistance ∧
          q1.MaxDistance = q.MaxDistance ∧ q1.ProjectileType = q.ProjectileType)) ∨
      (q.IsImpacting = false ∧ cs = creeps ∧
        ∃ q1, kept = some q1 ∧ q1.X = q.X + q.VelocityX * dt ∧
          q1.Y = q.Y + q.VelocityY * dt ∧
          q1.TravelDistance = q.TravelDistance + projectileSpeed * dt ∧
          q1.MaxDistance = q.MaxDistance ∧ q1.ProjectileType = q.ProjectileType ∧
          ((q1.IsImpacting = true ∧ q.MaxDistance ≤ q1.TravelDistance) ∨
            (q1.IsImpacting = false ∧ q1.TravelDistance < q.MaxDistance))) := by
  by_cases hact : q.Active = true
  · obtain ⟨anim, impact, _, _, hres⟩ := updateOne_resolve M TA fuel dt creeps cs q kept hact h
    unfold resolve at hres
    by_cases hs : hasStopped impact = true
    · rw [if_pos hs] at hres
      simp only [Prod.mk.injEq] at hres
      exact Or.inl hres
    · rw [if_neg hs] at hres
      by_cases himp : q.IsImpacting = true
      · rw [if_neg (by simp [himp])] at hres
        simp only [Prod.mk.injEq] at hres
        obtain ⟨hk, hcs⟩ := hres
        rcases keepIfActive_cases { q with Animation := anim, ImpactAnimation := impact } with
          hnone | hsome
        · exact Or.inl ⟨by rw [hk, hnone], hcs⟩
        · exact Or.inr (Or.inl ⟨himp, hcs,
            { q with Animation := anim, ImpactAnimation := impact }, by rw [hk, hsome], himp,
            rfl, rfl, rfl, rfl, rfl⟩)
      · have hfly : q.IsImpacting = false := by simpa using himp
        rw [if_pos hfly] at hres
        have hcongr := checkCollision_congr M q
          { q with Animation := anim, ImpactAnimation := impact } rfl rfl rfl creeps
        rw [hcongr] at hres
        rcases checkCollision_cases M q creeps with ⟨_, heq⟩ | ⟨pre, c, post, hsplit, hpre, hc,
          heq⟩
        · rw [heq, if_neg (by simp)] at hres
          simp only [Prod.mk.injEq] at hres
          obtain ⟨hk, hcs⟩ := hres
          rcases keepIfActive_cases
            (advance M TA dt { q with Animation := anim, ImpactAnimation := impact }) with
            hnone | hsome
          · exact Or.inl ⟨by rw [hk, hnone], hcs⟩
          · obtain ⟨a1, a2, a3, a4, a5, a6⟩ := advance_frame M TA dt
              { q with Animation := anim, ImpactAnimation := impact }
            refine Or.inr (Or.inr (Or.inr ⟨hfly, hcs,
              advance M TA dt { q with Animation := anim, ImpactAnimation := impact },
              by rw [hk, hsome], a1, a2, a3, a4, a5, ?_⟩))
            rcases a6 with ⟨b1, b2⟩ | ⟨b1, b2⟩
            · exact Or.inl ⟨b1, by rw [a3]; exact b2⟩
            · exact Or.inr ⟨b1.trans hfly, by rw [a3]; exact b2⟩
        · rw [heq, if_pos rfl] at hres
          simp only [Prod.mk.injEq] at hres
          obtain ⟨hk, hcs⟩ := hres
          refine Or.inr (Or.inr (Or.inl ⟨hfly, ⟨pre, c, post, hsplit, hpre, hc, hcs⟩, ?_⟩))
          obtain ⟨f1, f2, f3, f4, f5, f6, _, _, _⟩ := startImpactAnimation_frame TA
            { q with Animation := anim, ImpactAnimation := impact }
          rcases keepIfActive_cases
            (startImpactAnimation TA { q with Animation := anim, ImpactAnimation := impact })
            with hnone | hsome
          · exact Or.inl (by rw [hk, hnone])
          · exact Or.inr ⟨_, by rw [hk, hsome], f1, f2, f3, f4, f5, f6⟩
  · have hina : q.Active = false := by simpa using hact
    unfold updateOne at h
    rw [if_pos hina] at h
    simp only [Except.ok.injEq, Prod.mk.injEq] at h
    exact Or.inl ⟨h.1.symm, h.2.symm⟩

/-- A manager that is empty or holds one impacting projectile: every tick returns its creep
list untouched and the projectile, while it exists, stays impacting where it is. -/
theorem run_impacting (M : GoMath) (TA : TowerAssets) (fuel : Nat)
    (ticks : List (ℚ × List Creep)) (pm pm1 : ProjectileManager) (css : List (List Creep))
    (x y d : ℚ)
    (hstate : pm.projectiles = [] ∨ ∃ q, pm.projectiles = [q] ∧ q.IsImpacting = true ∧
      q.X = x ∧ q.Y = y ∧ q.TravelDistance = d)
    (h : run M TA fuel ticks pm = .ok (pm1, css)) :
    css = ticks.map Prod.snd ∧
      (pm1.projectiles = [] ∨ ∃ q, pm1.projectiles = [q] ∧ q.IsImpacting = true ∧
        q.X = x ∧ q.Y = y ∧ q.TravelDistance = d) := by
  induction ticks generalizing pm css with
  | nil =>
    simp only [run, Except.ok.injEq, Prod.mk.injEq] at h
    obtain ⟨h1, h2⟩ := h
    subst h1 h2
    exact ⟨rfl, hstate⟩
  | cons t rest ih =>
    simp only [run] at h
    split at h
    · cases h
    · rename_i pm2 cs h2
      split at h
      · cases h
      · rename_i pm3 css2 h3
        simp only [Except.ok.injEq, Prod.mk.injEq] at h
        obtain ⟨h4, h5⟩ := h
        subst h4 h5
        have key : cs = t.2 ∧
            (pm2.projectiles = [] ∨ ∃ q, pm2.projectiles = [q] ∧ q.IsImpacting = true ∧
              q.X = x ∧ q.Y = y ∧ q.TravelDistance = d) := by
          rcases hstate with h0 | ⟨q, hq, himp, hx, hy, hd⟩
          · rw [Update_nil M TA fuel t.1 t.2 pm h0] at h2
            simp only [Except.ok.injEq, Prod.mk.injEq] at h2
            exact ⟨h2.2.symm, Or.inl (by rw [← h2.1])⟩
          · obtain ⟨kept, hk, hcase⟩ := Update_single M TA fuel t.1 t.2 cs pm pm2 q hq h2
            rcases updateOne_step M TA fuel t.1 t.2 cs q kept hk with
              ⟨hnone, hcs⟩ | ⟨_, hcs, q1, hq1, i1, i2, i3, i4, _, _⟩ | ⟨hfly, _⟩ | ⟨hfly, _⟩
            · refine ⟨hcs, Or.inl ?_⟩
              rcases hcase with ⟨_, hnil⟩ | ⟨q1, hq1, _⟩
              · exact hnil
              · rw [hnone] at hq1
                cases hq1
            · refine ⟨hcs, ?_⟩
              rcases hcase with ⟨_, hnil⟩ | ⟨q2, hq2, hone⟩
              · exact Or.inl hnil
              · rw [hq1] at hq2
                have he := Option.some.inj hq2
                subst he
                exact Or.inr ⟨q1, hone, i1, i2.trans hx, i3.trans hy, i4.trans hd⟩
            · rw [himp] at hfly
              cases hfly
            · rw [himp] at hfly
              cases hfly
        obtain ⟨hcs, hstate2⟩ := key
        obtain ⟨hcss, hfin⟩ := ih pm2 css2 hstate2 h3
        exact ⟨by rw [hcs, hcss]; rfl, hfin⟩

/-- A manager that is empty or holds one projectile of type `ty`: over any ticks, either every
creep list comes back untouched, or exactly one tick applies one `TakeDamage` call to the first
creep within reach and the projectile is impacting or removed from then on. -/
theorem run_damage_once (M : GoMath) (TA : TowerAssets) (fuel : Nat) (ty : Int)
    (ticks : List (ℚ × List Creep)) (pm pm1 : ProjectileManager) (css : List (List Creep))
    (hstate : pm.projectiles = [] ∨ ∃ q, pm.projectiles = [q] ∧ q.ProjectileType = ty)
    (h : run M TA fuel ticks pm = .ok (pm1, css)) :
    css = ticks.map Prod.snd ∨
      ∃ before t after pre c post, ticks = before ++ t :: after ∧ t.2 = pre ++ c :: post ∧
        css = before.map Prod.snd ++
          (pre ++ c.TakeDamage (collisionDamage ty) :: post) :: after.map Prod.snd ∧
        (pm1.projectiles = [] ∨ ∃ q, pm1.projectiles = [q] ∧ q.IsImpacting = true) := by
  induction ticks generalizing pm css with
  | nil =>
    simp only [run, Except.ok.injEq, Prod.mk.injEq] at h
    exact Or.inl h.2.symm
  | cons t rest ih =>
    simp only [run] at h
    split at h
    · cases h
    · rename_i pm2 cs h2
      split at h
      · cases h
      · rename_i pm3 css2 h3
        simp only [Except.ok.injEq, Prod.mk.injEq] at h
        obtain ⟨h4, h5⟩ := h
        subst h4 h5
        have hquiet : cs = t.2 →
            (pm2.projectiles = [] ∨ ∃ q, pm2.projectiles = [q] ∧ q.ProjectileType = ty) →
            (cs :: css2 = (t :: rest).map Prod.snd ∨
              ∃ before t1 after pre c post, t :: rest = before ++ t1 :: after ∧
                t1.2 = pre ++ c :: post ∧
                cs :: css2 = before.map Prod.snd ++
                  (pre ++ c.TakeDamage (collisionDamage ty) :: post) :: after.map Prod.snd ∧
                (pm3.projectiles = [] ∨
                  ∃ q, pm3.projectiles = [q] ∧ q.IsImpacting = true)) := by
          intro hcs hstate2
          rcases ih pm2 css2 hstate2 h3 with hcss | ⟨before, t1, after, pre, c, post, e1, e2,
            e3, e4⟩
          · exact Or.inl (by rw [hcs, hcss]; rfl)
          · exact Or.inr ⟨t :: before, t1, after, pre, c, post, by rw [e1]; rfl, e2,
              by rw [hcs, e3]; rfl, e4⟩
        rcases hstate with h0 | ⟨q, hq, hty⟩
        · rw [Update_nil M TA fuel t.1 t.2 pm h0] at h2
          simp only [Except.ok.injEq, Prod.mk.injEq] at h2
          exact hquiet h2.2.symm (Or.inl (by rw [← h2.1]))
        · obtain ⟨kept, hk, hcase⟩ := Update_single M TA fuel t.1 t.2 cs pm pm2 q hq h2
          rcases updateOne_step M TA fuel t.1 t.2 cs q kept hk with
            ⟨hnone, hcs⟩ | ⟨_, hcs, q1, hq1, _, _, _, _, _, i6⟩ |
            ⟨_, ⟨pre, c, post, hsplit, _, _, hcs⟩, hkept⟩ |
            ⟨_, hcs, q1, hq1, _, _, _, _, i6, _⟩
          · refine hquiet hcs (Or.inl ?_)
            rcases hcase with ⟨_, hnil⟩ | ⟨q1, hq1, _⟩
            · exact hnil
            · rw [hnone] at hq1
              cases hq1
          · refine hquiet hcs ?_
            rcases hcase with ⟨_, hnil⟩ | ⟨q2, hq2, hone⟩
            · exact Or.inl hnil
            · rw [hq1] at hq2
              have he := Option.some.inj hq2
              subst he
              exact Or.inr ⟨q1, hone, i6.trans hty⟩
          · have hstate2 : pm2.projectiles = [] ∨ ∃ q1, pm2.projectiles = [q1] ∧
                q1.IsImpacting = true ∧ q1.X = q.X ∧ q1.Y = q.Y ∧
                q1.TravelDistance = q.TravelDistance := by
              rcases hcase with ⟨_, hnil⟩ | ⟨q2, hq2, hone⟩
              · exact Or.inl hnil
              · rcases hkept with hnone | ⟨q1, hq1, i1, i2, i3, i4, _, _⟩
                · rw [hnone] at hq2
                  cases hq2
                · rw [hq1] at hq2
                  have he := Option.some.inj hq2
                  subst he
                  exact Or.inr ⟨q1, hone, i1, i2, i3, i4⟩
            obtain ⟨hcss, hfin⟩ := run_impacting M TA fuel rest pm2 pm3 css2 q.X q.Y
              q.TravelDistance hstate2 h3
            refine Or.inr ⟨[], t, rest, pre, c, post, rfl, hsplit, ?_, ?_⟩
            · rw [hcs, hcss, hty]
              rfl
            · rcases hfin with hnil | ⟨q1, hone, i1, _⟩
              · exact Or.inl hnil
              · exact Or.inr ⟨q1, hone, i1⟩
          · refine hquiet hcs ?_
            rcases hcase with ⟨_, hnil⟩ | ⟨q2, hq2, hone⟩
            · exact Or.inl hnil
            · rw [hq1] at hq2
              have he := Option.some.inj hq2
              subst he
              exact Or.inr ⟨q1, hone, i6.trans hty⟩

end ProjectileManager

/-- C29 (a projectile deals damage at most once): a projectile is followed through any sequence
of `ProjectileManager.Update` ticks with arbitrary creep lists. Either every tick returns its
creep list untouched, or exactly one tick changes its list, and changes it by one `TakeDamage`
call on one creep, after which the projectile is impacting or removed. A projectile that is
impacting leaves every creep list untouched, whatever creeps are within reach, keeps its
position and `TravelDistance`, and stays impacting for as long as it is in the manager. With
animations of positive frame duration the ticks return. -/
theorem damage_at_most_once (M : GoMath) (TA : TowerAssets) (p : Projectile)
    (ticks : List (ℚ × List Creep)) :
    (∀ fuel pm1 css,
        ProjectileManager.run M TA fuel ticks { projectiles := [p] } = .ok (pm1, css) →
        (css = ticks.map Prod.snd ∨
          ∃ before t after pre c post, ticks = before ++ t :: after ∧
            t.2 = pre ++ c :: post ∧
            css = before.map Prod.snd ++
              (pre ++ c.TakeDamage (ProjectileManager.collisionDamage p.ProjectileType) ::
                post) :: after.map Prod.snd ∧
            (pm1.projectiles = [] ∨ ∃ q, pm1.projectiles = [q] ∧ q.IsImpacting = true)) ∧
        (p.IsImpacting = true →
          css = ticks.map Prod.snd ∧
            (pm1.projectiles = [] ∨ ∃ q, pm1.projectiles = [q] ∧ q.IsImpacting = true ∧
              q.X = p.X ∧ q.Y = p.Y ∧ q.TravelDistance = p.TravelDistance))) ∧
      (p.Ready → ∃ k, ∀ fuel, k ≤ fuel →
        ∃ r, ProjectileManager.run M TA fuel ticks { projectiles := [p] } = .ok r) := by
  refine ⟨fun fuel pm1 css h => ⟨?_, fun himp => ?_⟩, fun hp => ?_⟩
  · exact ProjectileManager.run_damage_once M TA fuel p.ProjectileType ticks
      { projectiles := [p] } pm1 css (Or.inr ⟨p, rfl, rfl⟩) h
  · exact ProjectileManager.run_impacting M TA fuel ticks { projectiles := [p] } pm1 css p.X p.Y
      p.TravelDistance (Or.inr ⟨p, rfl, himp, rfl, rfl, rfl⟩) h
  · obtain ⟨k, r, hk⟩ := ProjectileManager.pm_run_total M TA ticks { projectiles := [p] }
      (fun q hq => by
        simp only [List.mem_singleton] at hq
        rw [hq]
        exact hp)
    exact ⟨k, fun fuel hf => ⟨r, hk fuel hf⟩⟩

namespace ProjectileManager

/-- Every projectile left in the list by the loop of `Update` is the result of the loop body on
a projectile of the list before. -/
theorem updateAll_mem (M : GoMath) (TA : TowerAssets) (fuel : Nat) (dt : ℚ)
    (ps : List Projectile) (creeps : List Creep) (ps1 : List Projectile) (cs : List Creep)
    (h : updateAll M TA fuel dt ps creeps = .ok (ps1, cs)) (q1 : Projectile) (hq1 : q1 ∈ ps1) :
    ∃ q, q ∈ ps ∧ ∃ creeps0 cs0, updateOne M TA fuel dt creeps0 q = .ok (some q1, cs0) := by
  induction ps generalizing creeps ps1 cs with
  | nil =>
    simp only [updateAll, Except.ok.injEq, Prod.mk.injEq] at h
    rw [← h.1] at hq1
    exact absurd hq1 (List.not_mem_nil q1)
  | cons p rest ih =>
    simp only [updateAll] at h
    split at h
    · cases h
    · rename_i kept creeps1 h1
      split at h
      · cases h
      · rename_i ps2 creeps2 h2
        simp only [Except.ok.injEq, Prod.mk.injEq] at h
        obtain ⟨hps, _⟩ := h
        have hrest : q1 ∈ ps2 → ∃ q, q ∈ p :: rest ∧ ∃ creeps0 cs0,
            updateOne M TA fuel dt creeps0 q = .ok (some q1, cs0) := by
          intro hmem
          obtain ⟨q, hq, hex⟩ := ih creeps1 ps2 creeps2 h2 hmem
          exact ⟨q, List.mem_cons_of_mem _ hq, hex⟩
        cases kept with
        | none =>
          simp only at hps
          rw [← hps] at hq1
          exact hrest hq1
        | some q2 =>
          simp only at hps
          rw [← hps] at hq1
          rcases List.mem_cons.mp hq1 with heq | hmem
          · rw [heq]
            exact ⟨p, List.mem_cons_self _ _, creeps, creeps1, h1⟩
          · exact hrest hmem

/-- A property of projectiles that the loop body of `Update` preserves in every tick holds for
all projectiles of the manager after the ticks. -/
theorem run_preserves (M : GoMath) (TA : TowerAssets) (fuel : Nat) (P : Projectile → Prop)
    (ticks : List (ℚ × List Creep))
    (hstep : ∀ t ∈ ticks, ∀ (creeps cs : List Creep) (q q1 : Projectile), P q →
      updateOne M TA fuel t.1 creeps q = .ok (some q1, cs) → P q1)
    (pm pm1 : ProjectileManager) (css : List (List Creep))
    (hpm : ∀ q ∈ pm.projectiles, P q) (h : run M TA fuel ticks pm = .ok (pm1, css)) :
    ∀ q ∈ pm1.projectiles, P q := by
  induction ticks generalizing pm css with
  | nil =>
    simp only [run, Except.ok.injEq, Prod.mk.injEq] at h
    rw [← h.1]
    exact hpm
  | cons t rest ih =>
    simp only [run] at h
    split at h
    · cases h
    · rename_i pm2 cs h2
      split at h
      · cases h
      · rename_i pm3 css2 h3
        simp only [Except.ok.injEq, Prod.mk.injEq] at h
        obtain ⟨h4, _⟩ := h
        subst h4
        have hpm2 : ∀ q ∈ pm2.projectiles, P q := by
          intro q1 hq1
          simp only [Update] at h2
          split at h2
          · cases h2
          · rename_i ps creeps1 h5
            simp only [Except.ok.injEq, Prod.mk.injEq] at h2
            rw [← h2.1] at hq1
            obtain ⟨q, hq, creeps0, cs0, hone⟩ :=
              updateAll_mem M TA fuel t.1 pm.projectiles t.2 ps creeps1 h5 q1 hq1
            exact hstep t (List.mem_cons_self _ _) creeps0 cs0 q q1 (hpm q hq) hone
        exact ih (fun t1 ht1 => hstep t1 (List.mem_cons_of_mem _ ht1)) pm2 css2 hpm2 h3

/-- One loop body of `Update` with `0 ≤ dt ≤ D` keeps the travelled distance below the range
while the projectile flies and below the range plus one tick's travel afterwards. -/
theorem updateOne_reach (M : GoMath) (TA : TowerAssets) (fuel : Nat) (dt D : ℚ)
    (hdt0 : 0 ≤ dt) (hdt : dt ≤ D) (creeps cs : List Creep) (q q1 : Projectile)
    (hq : q.MaxDistance = maxProjectileRange ∧ 0 ≤ q.TravelDistance ∧
      (q.IsImpacting = false → q.TravelDistance < q.MaxDistance) ∧
      q.TravelDistance < q.MaxDistance + projectileSpeed * D)
    (h : updateOne M TA fuel dt creeps q = .ok (some q1, cs)) :
    q1.MaxDistance = maxProjectileRange ∧ 0 ≤ q1.TravelDistance ∧
      (q1.IsImpacting = false → q1.TravelDistance < q1.MaxDistance) ∧
      q1.TravelDistance < q1.MaxDistance + projectileSpeed * D := by
  obtain ⟨hmax, h0, hfly, hub⟩ := hq
  have hspeed : (0 : ℚ) ≤ projectileSpeed := by norm_num [projectileSpeed]
  rcases updateOne_step M TA fuel dt creeps cs q (some q1) h with
    ⟨hnone, _⟩ | ⟨_, _, q2, hq2, i1, _, _, i4, i5, _⟩ |
    ⟨_, _, hkept⟩ | ⟨hf, _, q2, hq2, _, _, i4, i5, _, i7⟩
  · cases hnone
  · have he := Option.some.inj hq2
    subst he
    refine ⟨i5.trans hmax, by rw [i4]; exact h0, fun hf => ?_, by rw [i4, i5]; exact hub⟩
    rw [i1] at hf
    cases hf
  · rcases hkept with hnone | ⟨q2, hq2, i1, _, _, i4, i5, _⟩
    · cases hnone
    · have he := Option.some.inj hq2
      subst he
      refine ⟨i5.trans hmax, by rw [i4]; exact h0, fun hf => ?_, by rw [i4, i5]; exact hub⟩
      rw [i1] at hf
      cases hf
  · have he := Option.some.inj hq2
    subst he
    have hmove : projectileSpeed * dt ≤ projectileSpeed * D :=
      mul_le_mul_of_nonneg_left hdt hspeed
    have hmove0 : 0 ≤ projectileSpeed * dt := mul_nonneg hspeed hdt0
    have hlt := hfly hf
    refine ⟨i5.trans hmax, by rw [i4]; linarith, fun hf1 => ?_, by rw [i4, i5]; linarith⟩
    rcases i7 with ⟨j1, _⟩ | ⟨_, j2⟩
    · rw [j1] at hf1
      cases hf1
    · rw [i5]
      exact j2

end ProjectileManager

/-! ## Travelled distance and range -/

/-- C27, counterexample: a Ballista projectile created by `SpawnProjectile` at `(0,0)` with
heading 0 in a new manager, then one `Update` tick with `deltaTime = 0.5` and no creeps. The
move block adds `projectileSpeed * 0.5 = 6` to `TravelDistance` and starts the impact animation
without clamping, so the projectile stays in the manager, impacting, with
`TravelDistance = 6 > 5 = MaxDistance`. -/
theorem travel_distance_overshoots :
    ((ProjectileManager.Update standInMath repoTowerAssets 3 (1 / 2) []
        (NewProjectileManager.SpawnProjectile standInMath repoTowerAssets 0 0 0
          BallistaTowerID)).map fun r =>
            r.1.projectiles.map fun q =>
              (q.TravelDistance, q.MaxDistance, q.IsImpacting, q.Active)) =
      .ok [(6, 5, true, true)] := by
  norm_num [ProjectileManager.Update, ProjectileManager.updateAll, ProjectileManager.updateOne,
    ProjectileManager.resolve, ProjectileManager.checkCollisionWithCreeps,
    ProjectileManager.startImpactAnimation, ProjectileManager.keepIfActive,
    ProjectileManager.advance, ProjectileManager.SpawnProjectile, NewProjectileManager,
    updateOptional, hasStopped, startedSprite, NewAnimatedSprite, AnimatedSprite.Play,
    AnimatedSprite.Update, AnimatedSprite.advanceFrames, AnimatedSprite.IsPlaying,
    repoTowerAssets, standInMath, projectileSpeed, maxProjectileRange, BallistaTowerID,
    MagicTowerID, Except.map]

/-- C27, amended (the travelled distance overshoots the range by less than one tick of travel):
a projectile is created by `SpawnProjectile` in a manager and followed through any sequence of
`ProjectileManager.Update` ticks with `0 ≤ dt ≤ D`. If every projectile already in the manager
satisfies the four bounds below, then after the ticks every projectile of the manager has
`MaxDistance = maxProjectileRange` (5 tiles), `0 ≤ TravelDistance`,
`TravelDistance < MaxDistance` while it is flying, and
`TravelDistance < MaxDistance + projectileSpeed * D` once it is impacting. With animations of
positive frame duration the ticks return. -/
theorem travel_distance_bound (M : GoMath) (TA : TowerAssets) (x y angle : ℚ) (ty : Int)
    (D : ℚ) (ticks : List (ℚ × List Creep)) (pm : ProjectileManager) (hD : 0 ≤ D)
    (hdt : ∀ t ∈ ticks, 0 ≤ t.1 ∧ t.1 ≤ D)
    (hpm : ∀ q ∈ pm.projectiles,
      q.MaxDistance = maxProjectileRange ∧ 0 ≤ q.TravelDistance ∧
        (q.IsImpacting = false → q.TravelDistance < q.MaxDistance) ∧
        q.TravelDistance < q.MaxDistance + projectileSpeed * D) :
    (∀ fuel pm1 css,
        ProjectileManager.run M TA fuel ticks (pm.SpawnProjectile M TA x y angle ty) =
          .ok (pm1, css) →
        ∀ q ∈ pm1.projectiles,
          q.MaxDistance = maxProjectileRange ∧ 0 ≤ q.TravelDistance ∧
            (q.IsImpacting = false → q.TravelDistance < q.MaxDistance) ∧
            q.TravelDistance < q.MaxDistance + projectileSpeed * D) ∧
      ((∀ p ∈ pm.projectiles, p.Ready) → ∃ k, ∀ fuel, k ≤ fuel →
        ∃ r, ProjectileManager.run M TA fuel ticks (pm.SpawnProjectile M TA x y angle ty) =
          .ok r) := by
  constructor
  · intro fuel pm1 css h
    refine ProjectileManager.run_preserves M TA fuel
      (fun q => q.MaxDistance = maxProjectileRange ∧ 0 ≤ q.TravelDistance ∧
        (q.IsImpacting = false → q.TravelDistance < q.MaxDistance) ∧
        q.TravelDistance < q.MaxDistance + projectileSpeed * D) ticks
      (fun t ht creeps cs q q1 hq hone =>
        ProjectileManager.updateOne_reach M TA fuel t.1 D (hdt t ht).1 (hdt t ht).2 creeps cs q
          q1 hq hone)
      (pm.SpawnProjectile M TA x y angle ty) pm1 css ?_ h
    intro q hq
    simp only [ProjectileManager.SpawnProjectile] at hq
    rcases List.mem_append.mp hq with hq | hq
    · exact hpm q hq
    · rw [List.mem_singleton] at hq
      subst hq
      have hspeed : (0 : ℚ) ≤ projectileSpeed * D :=
        mul_nonneg (by norm_num [projectileSpeed]) hD
      refine ⟨rfl, le_refl _, fun _ => ?_, ?_⟩
      · norm_num [maxProjectileRange]
      · simp only [maxProjectileRange]
        linarith
  · intro hready
    obtain ⟨k, r, hk⟩ := ProjectileManager.pm_run_total M TA ticks
      (pm.SpawnProjectile M TA x y angle ty)
      (TowerManager.SpawnProjectile_ready M TA x y angle ty pm hready)
    exact ⟨k, fun fuel hf => ⟨r, hk fuel hf⟩⟩

theorem travel_distance_bound_witness :
    (∀ t ∈ [((1 / 2 : ℚ), ([] : List Creep))], 0 ≤ t.1 ∧ t.1 ≤ 1 / 2) ∧
      ∃ k, ∀ fuel, k ≤ fuel →
        ∃ r, ProjectileManager.run standInMath repoTowerAssets fuel [(1 / 2, [])]
          (NewProjectileManager.SpawnProjectile standInMath repoTowerAssets 0 0 0
            BallistaTowerID) = .ok r :=
  have hdt : ∀ t ∈ [((1 / 2 : ℚ), ([] : List Creep))], 0 ≤ t.1 ∧ t.1 ≤ 1 / 2 := by
    intro t ht
    rw [List.mem_singleton] at ht
    rw [ht]
    norm_num
  ⟨hdt,
    (travel_distance_bound standInMath repoTowerAssets 0 0 0 BallistaTowerID (1 / 2)
      [(1 / 2, [])] NewProjectileManager (by norm_num) hdt
      (fun q hq => absurd hq (List.not_mem_nil q))).2
      (fun p hp => absurd hp (List.not_mem_nil p))⟩

/-! ## Facts about float64 rounding -/

theorem roundHalfEven_near (q : ℚ) : |(roundHalfEven q : ℚ) - q| ≤ 1 / 2 := by
  have h1 : (⌊q⌋ : ℚ) ≤ q := Int.floor_le q
  have h2 : q < (⌊q⌋ : ℚ) + 1 := Int.lt_floor_add_one q
  unfold roundHalfEven
  split_ifs with a b c
  · rw [abs_le]
    constructor <;> linarith
  · push_cast
    rw [abs_le]
    constructor <;> linarith
  · have hb : q - ⌊q⌋ = 1 / 2 := le_antisymm (not_lt.mp b) (not_lt.mp a)
    rw [abs_le]
    constructor <;> linarith
  · have hb : q - ⌊q⌋ = 1 / 2 := le_antisymm (not_lt.mp b) (not_lt.mp a)
    push_cast
    rw [abs_le]
    constructor <;> linarith

theorem roundHalfEven_nonneg (q : ℚ) (h : 0 ≤ q) : 0 ≤ roundHalfEven q := by
  have h0 : 0 ≤ ⌊q⌋ := Int.floor_nonneg.mpr h
  unfold roundHalfEven
  split_ifs <;> omega

theorem round64_nonneg (x : ℚ) (h : 0 ≤ x) : 0 ≤ round64 x := by
  unfold round64
  split_ifs with h0
  · exact le_refl _
  · have hp : (0 : ℚ) < 2 ^ ulpExponent x := zpow_pos (by norm_num) _
    have hq : 0 ≤ x / 2 ^ ulpExponent x := div_nonneg h hp.le
    have hr : (0 : ℚ) ≤ (roundHalfEven (x / 2 ^ ulpExponent x) : ℚ) := by
      exact_mod_cast roundHalfEven_nonneg _ hq
    exact mul_nonneg hr hp.le

theorem round64_zero : round64 0 = 0 := by
  simp [round64]

theorem halvings_spec (fuel n : Nat) (hf : n ≤ fuel) (hn : 1 ≤ n) :
    2 ^ halvings fuel n ≤ n ∧ n < 2 ^ (halvings fuel n + 1) := by
  induction fuel generalizing n with
  | zero => omega
  | succ fuel ih =>
    unfold halvings
    split_ifs with h2
    · constructor
      · simpa using hn
      · simpa using h2
    · obtain ⟨h3, h4⟩ := ih (n / 2) (by omega) (by omega)
      rw [pow_succ] at h4
      rw [pow_succ, pow_succ, pow_succ]
      generalize 2 ^ halvings fuel (n / 2) = p at h3 h4
      constructor <;> omega

/-- The exponent chosen by `binade` is the one of the binade that holds `x`. -/
theorem binade_spec (x : ℚ) (h0 : x ≠ 0) :
    (2 : ℚ) ^ binade x ≤ |x| ∧ |x| < 2 ^ (binade x + 1) := by
  have hn : 1 ≤ x.num.natAbs := Nat.one_le_iff_ne_zero.mpr
    (Int.natAbs_ne_zero.mpr (Rat.num_ne_zero.mpr h0))
  have hd : 1 ≤ x.den := x.den_pos
  obtain ⟨a1, a2⟩ := halvings_spec x.num.natAbs x.num.natAbs (le_refl _) hn
  obtain ⟨b1, b2⟩ := halvings_spec x.den x.den (le_refl _) hd
  have habs : |x| = (x.num.natAbs : ℚ) / (x.den : ℚ) := by
    rw [Rat.abs_def, Rat.divInt_eq_div]
    push_cast
    rw [Nat.cast_natAbs, Int.cast_abs]
  have hdq : (0 : ℚ) < (x.den : ℚ) := by exact_mod_cast x.den_pos
  have a1q : (2 : ℚ) ^ halvings x.num.natAbs x.num.natAbs ≤ (x.num.natAbs : ℚ) := by
    exact_mod_cast a1
  have a2q : (x.num.natAbs : ℚ) < 2 ^ (halvings x.num.natAbs x.num.natAbs + 1) := by
    exact_mod_cast a2
  have b1q : (2 : ℚ) ^ halvings x.den x.den ≤ (x.den : ℚ) := by exact_mod_cast b1
  have b2q : (x.den : ℚ) < 2 ^ (halvings x.den x.den + 1) := by exact_mod_cast b2
  unfold binade
  generalize halvings x.num.natAbs x.num.natAbs = a at a1q a2q ⊢
  generalize halvings x.den x.den = b at b1q b2q ⊢
  have hpa : (0 : ℚ) < 2 ^ a := pow_pos (by norm_num) _
  have hpb : (0 : ℚ) < 2 ^ b := pow_pos (by norm_num) _
  have hz : ∀ k : ℤ, (2 : ℚ) ^ ((a : ℤ) - (b : ℤ) + k) = 2 ^ a / 2 ^ b * 2 ^ k := by
    intro k
    rw [zpow_add₀ (by norm_num), zpow_sub₀ (by norm_num), zpow_natCast, zpow_natCast]
  have hz0 : (2 : ℚ) ^ ((a : ℤ) - (b : ℤ)) = 2 ^ a / 2 ^ b := by
    have := hz 0
    simpa using this
  split_ifs with hc
  · refine ⟨hc, ?_⟩
    rw [hz 1, habs, zpow_one, div_lt_iff₀ hdq]
    rw [pow_succ] at a2q
    have : (2 : ℚ) ^ a / 2 ^ b * 2 * (x.den : ℚ) = 2 ^ a * 2 * ((x.den : ℚ) / 2 ^ b) := by
      field_simp
    rw [this]
    have hone : 1 ≤ (x.den : ℚ) / 2 ^ b := by
      rw [le_div_iff₀ hpb]
      linarith
    nlinarith
  · constructor
    · have : (a : ℤ) - (b : ℤ) - 1 = (a : ℤ) - (b : ℤ) + (-1) := by ring
      rw [this, hz (-1), habs, le_div_iff₀ hdq]
      rw [pow_succ] at b2q
      have h1 : (2 : ℚ) ^ a / 2 ^ b * 2 ^ (-1 : ℤ) * (x.den : ℚ) =
          2 ^ a * ((x.den : ℚ) / (2 ^ b * 2)) := by
        rw [zpow_neg, zpow_one]
        field_simp
      rw [h1]
      have hlt : (x.den : ℚ) / (2 ^ b * 2) ≤ 1 := by
        rw [div_le_iff₀ (by positivity)]
        linarith
      nlinarith
    · have : (a : ℤ) - (b : ℤ) - 1 + 1 = (a : ℤ) - (b : ℤ) := by ring
      rw [this]
      exact not_le.mp hc

/-- The error of `round64` is at most half a unit in the last place. -/
theorem round64_error (x : ℚ) : |round64 x - x| ≤ |x| / 2 ^ 53 + 1 / 2 ^ 1075 := by
  by_cases h0 : x = 0
  · subst h0
    rw [round64_zero]
    norm_num
  · have hx : 0 < |x| := abs_pos.mpr h0
    have hp : (0 : ℚ) < 2 ^ ulpExponent x := zpow_pos (by norm_num) _
    have hnear := roundHalfEven_near (x / 2 ^ ulpExponent x)
    have hdiff : round64 x - x =
        ((roundHalfEven (x / 2 ^ ulpExponent x) : ℚ) - x / 2 ^ ulpExponent x) *
          2 ^ ulpExponent x := by
      unfold round64
      rw [if_neg h0]
      field_simp
    have hhalf : |round64 x - x| ≤ 2 ^ ulpExponent x / 2 := by
      rw [hdiff, abs_mul, abs_of_pos hp]
      calc |(roundHalfEven (x / 2 ^ ulpExponent x) : ℚ) - x / 2 ^ ulpExponent x| *
            2 ^ ulpExponent x ≤ 1 / 2 * 2 ^ ulpExponent x :=
            mul_le_mul_of_nonneg_right hnear hp.le
        _ = 2 ^ ulpExponent x / 2 := by ring
    have hlog : (2 : ℚ) ^ binade x ≤ |x| := (binade_spec x h0).1
    by_cases hc : -1022 ≤ binade x
    · have he : ulpExponent x = binade x - 53 + 1 := by
        unfold ulpExponent
        rw [max_eq_left hc]
        ring
      have h2 : (2 : ℚ) ^ ulpExponent x / 2 = 2 ^ binade x / 2 ^ 53 := by
        rw [he, zpow_add₀ (by norm_num), zpow_sub₀ (by norm_num)]
        norm_num
      have h3 : (2 : ℚ) ^ binade x / 2 ^ 53 ≤ |x| / 2 ^ 53 :=
        div_le_div_of_nonneg_right hlog (by positivity)
      have h4 : (0 : ℚ) ≤ 1 / 2 ^ 1075 := by positivity
      linarith
    · have he : ulpExponent x = -1074 := by
        unfold ulpExponent
        rw [max_eq_right (le_of_lt (not_le.mp hc))]
        norm_num
      have h2 : (2 : ℚ) ^ ulpExponent x / 2 = 1 / 2 ^ 1075 := by
        have hpow : (2 : ℚ) ^ 1075 = 2 ^ 1074 * 2 := by rw [← pow_succ]
        have hz : (2 : ℚ) ^ (-1074 : ℤ) = (2 ^ 1074)⁻¹ := by
          rw [zpow_neg]
          exact congrArg _ (zpow_natCast 2 1074)
        have hP : (0 : ℚ) < 2 ^ 1074 := pow_pos (by norm_num) _
        rw [he, hz, hpow]
        generalize (2 : ℚ) ^ 1074 = P at hP
        field_simp
      have h4 : (0 : ℚ) ≤ |x| / 2 ^ 53 := by positivity
      linarith

theorem round64_rounds : Rounds round64 :=
  fun x => ⟨round64_error x, round64_nonneg x⟩

theorem id_rounds : Rounds id := by
  intro x
  refine ⟨?_, fun h => h⟩
  simp only [id, sub_self, abs_zero]
  positivity

/-! ## The frame-advance loop under float64 rounding -/

theorem Rounds.upper {fl : ℚ → ℚ} (hfl : Rounds fl) (x : ℚ) (hx : 0 ≤ x) :
    fl x ≤ x + x / 2 ^ 53 + 1 / 2 ^ 1075 := by
  have h := (hfl x).1
  rw [abs_of_nonneg hx] at h
  have := (abs_le.mp h).2
  linarith

theorem Rounds.lower {fl : ℚ → ℚ} (hfl : Rounds fl) (x : ℚ) (hx : 0 ≤ x) :
    x - x / 2 ^ 53 - 1 / 2 ^ 1075 ≤ fl x := by
  have h := (hfl x).1
  rw [abs_of_nonneg hx] at h
  have := (abs_le.mp h).1
  linarith

theorem subnormal_le (d : ℚ) (hd : 1 / 2 ^ 1022 ≤ d) : (1 : ℚ) / 2 ^ 1075 ≤ d / 2 ^ 53 := by
  have hpow : (2 : ℚ) ^ 1075 = 2 ^ 1022 * 2 ^ 53 := by
    rw [← pow_add]
  have hP : (0 : ℚ) < 2 ^ 1022 := pow_pos (by norm_num) _
  rw [hpow]
  generalize (2 : ℚ) ^ 1022 = P at hP hd ⊢
  have h53 : (0 : ℚ) < 2 ^ 53 := by positivity
  have e : (1 : ℚ) / (P * 2 ^ 53) = 1 / P / 2 ^ 53 := by
    field_simp
  rw [e]
  exact div_le_div_of_nonneg_right hd h53.le

namespace F64

theorem advanceFrames_succ_fuel (fl : ℚ → ℚ) (fuel : Nat) (as as1 : AnimatedSprite)
    (h : AnimatedSprite.advanceFrames fl fuel as = some as1) :
    AnimatedSprite.advanceFrames fl (fuel + 1) as = some as1 := by
  induction fuel generalizing as with
  | zero =>
    unfold AnimatedSprite.advanceFrames at h ⊢
    split_ifs at h with hc
    rw [if_neg hc]
    exact h
  | succ fuel ih =>
    unfold AnimatedSprite.advanceFrames at h ⊢
    by_cases hc : as.frameTimer ≥ as.frameDuration ∧ as.isPlaying = true
    · rw [if_pos hc] at h ⊢
      simp only [] at h ⊢
      by_cases hn : as.currentFrame + 1 ≥ as.frameCount
      · rw [if_pos hn] at h ⊢
        by_cases hl : as.loop = true
        · rw [if_pos hl] at h ⊢
          exact ih _ h
        · rw [if_neg hl] at h ⊢
          exact h
      · rw [if_neg hn] at h ⊢
        exact ih _ h
    · rw [if_neg hc] at h ⊢
      exact h

theorem advanceFrames_more_fuel (fl : ℚ → ℚ) (fuel fuel2 : Nat) (as as1 : AnimatedSprite)
    (hle : fuel ≤ fuel2) (h : AnimatedSprite.advanceFrames fl fuel as = some as1) :
    AnimatedSprite.advanceFrames fl fuel2 as = some as1 := by
  induction hle with
  | refl => exact h
  | step _ ih => exact advanceFrames_succ_fuel fl _ as as1 ih

/-- With a rounding error of at most `ε` per subtraction, a timer below `(fuel + 1) (d - ε)`
leaves the loop within `fuel` iterations. -/
theorem advanceFrames_fuel (fl : ℚ → ℚ) (hfl : Rounds fl) (d ε B : ℚ)
    (hε : B / 2 ^ 53 + 1 / 2 ^ 1075 ≤ ε) (hεd : ε ≤ d) (fuel : Nat) (as : AnimatedSprite)
    (hdur : as.frameDuration = d) (h0 : 0 ≤ as.frameTimer) (hB : as.frameTimer ≤ B)
    (hlt : as.frameTimer < ((fuel : ℚ) + 1) * (d - ε)) :
    ∃ as1, AnimatedSprite.advanceFrames fl fuel as = some as1 := by
  induction fuel generalizing as with
  | zero =>
    unfold AnimatedSprite.advanceFrames
    have hε0 : 0 ≤ ε := by
      have : (0 : ℚ) ≤ 1 / 2 ^ 1075 := by positivity
      have : (0 : ℚ) ≤ B / 2 ^ 53 := div_nonneg (le_trans h0 hB) (by positivity)
      linarith
    have hnot : ¬ (as.frameTimer ≥ as.frameDuration ∧ as.isPlaying = true) := by
      rintro ⟨hge, _⟩
      rw [hdur] at hge
      simp only [Nat.cast_zero, zero_add, one_mul] at hlt
      linarith
    rw [if_neg hnot]
    exact ⟨as, rfl⟩
  | succ fuel ih =>
    unfold AnimatedSprite.advanceFrames
    by_cases hc : as.frameTimer ≥ as.frameDuration ∧ as.isPlaying = true
    · rw [if_pos hc]
      simp only []
      have hge : d ≤ as.frameTimer := by
        rw [← hdur]
        exact hc.1
      have hx : 0 ≤ as.frameTimer - as.frameDuration := by
        rw [hdur]
        linarith
      have hup := hfl.upper _ hx
      have hnn : 0 ≤ fl (as.frameTimer - as.frameDuration) := (hfl _).2 hx
      have hdiv : (as.frameTimer - as.frameDuration) / 2 ^ 53 ≤ B / 2 ^ 53 :=
        div_le_div_of_nonneg_right (by linarith) (by positivity)
      have hstep : fl (as.frameTimer - as.frameDuration) ≤ as.frameTimer - d + ε := by
        linarith
      have hB1 : fl (as.frameTimer - as.frameDuration) ≤ B := by linarith
      have hlt1 : fl (as.frameTimer - as.frameDuration) < ((fuel : ℚ) + 1) * (d - ε) := by
        have e1 : (((fuel + 1 : ℕ) : ℚ) + 1) * (d - ε) =
            ((fuel : ℚ) + 1) * (d - ε) + (d - ε) := by
          push_cast
          ring
        rw [e1] at hlt
        linarith
      by_cases hn : as.currentFrame + 1 ≥ as.frameCount
      · rw [if_pos hn]
        by_cases hl : as.loop = true
        · rw [if_pos hl]
          exact ih _ hdur hnn hB1 hlt1
        · rw [if_neg hl]
          exact ⟨_, rfl⟩
      · rw [if_neg hn]
        exact ih _ hdur hnn hB1 hlt1
    · rw [if_neg hc]
      exact ⟨as, rfl⟩

theorem advanceFrames_exit_timer (fl : ℚ → ℚ) (fuel : Nat) (as as1 : AnimatedSprite)
    (h : AnimatedSprite.advanceFrames fl fuel as = some as1) (hp : as1.isPlaying = true) :
    as1.frameTimer < as1.frameDuration := by
  induction fuel generalizing as with
  | zero =>
    unfold AnimatedSprite.advanceFrames at h
    split_ifs at h with hc
    have e := Option.some.inj h
    subst e
    by_contra hge
    exact hc ⟨not_lt.mp hge, hp⟩
  | succ fuel ih =>
    unfold AnimatedSprite.advanceFrames at h
    by_cases hc : as.frameTimer ≥ as.frameDuration ∧ as.isPlaying = true
    · rw [if_pos hc] at h
      simp only [] at h
      by_cases hn : as.currentFrame + 1 ≥ as.frameCount
      · rw [if_pos hn] at h
        by_cases hl : as.loop = true
        · rw [if_pos hl] at h
          exact ih _ h
        · rw [if_neg hl] at h
          have e := Option.some.inj h
          subst e
          cases hp
      · rw [if_neg hn] at h
        exact ih _ h
    · rw [if_neg hc] at h
      have e := Option.some.inj h
      subst e
      by_contra hge
      exact hc ⟨not_lt.mp hge, hp⟩

theorem advanceFrames_nonneg_timer (fl : ℚ → ℚ) (hfl : Rounds fl) (fuel : Nat)
    (as as1 : AnimatedSprite) (h : AnimatedSprite.advanceFrames fl fuel as = some as1)
    (h0 : 0 ≤ as.frameTimer) : 0 ≤ as1.frameTimer := by
  induction fuel generalizing as with
  | zero =>
    unfold AnimatedSprite.advanceFrames at h
    split_ifs at h
    have e := Option.some.inj h
    subst e
    exact h0
  | succ fuel ih =>
    unfold AnimatedSprite.advanceFrames at h
    by_cases hc : as.frameTimer ≥ as.frameDuration ∧ as.isPlaying = true
    · rw [if_pos hc] at h
      simp only [] at h
      have hnn : 0 ≤ fl (as.frameTimer - as.frameDuration) :=
        (hfl _).2 (sub_nonneg.mpr hc.1)
      by_cases hn : as.currentFrame + 1 ≥ as.frameCount
      · rw [if_pos hn] at h
        by_cases hl : as.loop = true
        · rw [if_pos hl] at h
          exact ih _ h hnn
        · rw [if_neg hl] at h
          have e := Option.some.inj h
          subst e
          exact hnn
      · rw [if_neg hn] at h
        exact ih _ h hnn
    · rw [if_neg hc] at h
      have e := Option.some.inj h
      subst e
      exact h0

end F64

/-- The looping clock whose timer holds `10^16` makes no progress: the rounded subtraction
returns the timer unchanged, and the loop asks for another iteration whatever the fuel. -/
theorem loopClock_absorbs (fuel : Nat) (f : Int) (hf0 : 0 ≤ f) (hf : f < 3) :
    F64.AnimatedSprite.advanceFrames round64 fuel
      { frames := [7, 8, 9], frameCount := 3, frameDuration := round64 (1 / 3)
        currentFrame := f, frameTimer := 10000000000000000, isPlaying := true, loop := true
        totalDuration := 1 } = none := by
  have hsub : round64 (10000000000000000 - round64 (1 / 3)) = 10000000000000000 := by decide!
  have hge : (10000000000000000 : ℚ) ≥ round64 (1 / 3) := by decide!
  induction fuel generalizing f with
  | zero =>
    unfold F64.AnimatedSprite.advanceFrames
    rw [if_pos ⟨hge, rfl⟩]
  | succ fuel ih =>
    unfold F64.AnimatedSprite.advanceFrames
    rw [if_pos ⟨hge, rfl⟩]
    simp only [hsub]
    by_cases hn : f + 1 ≥ 3
    · rw [if_pos hn, if_pos trivial]
      exact ih 0 (le_refl _) (by norm_num)
    · rw [if_neg hn]
      exact ih (f + 1) (by omega) (by omega)

/-! ## Termination of `Update` -/

/-- C28, counterexample (with `float64` rounding). The ten-frame one-second death clock after
`Play()` has `frameDuration = 1.0 / 10 > 0` and `frameTimer = 0`, and
`floor((frameTimer + 1.0) / frameDuration) = 9`; `Update(1.0)` needs ten iterations of the
frame-advance loop (nine units of loop fuel are not enough, ten are). The three-frame
one-second looping clock after `Play()` has `frameDuration = 1.0 / 3 > 0`; `Update(1e16)` does
not return for any loop fuel, because `1e16 - frameDuration` rounds to `1e16`. -/
theorem update_bound_exceeded :
    (∃ a, deathClock64 = some a ∧ 0 < a.frameDuration ∧ a.frameTimer = 0 ∧
        ⌊(a.frameTimer + 1) / a.frameDuration⌋₊ = 9 ∧
        F64.AnimatedSprite.Update round64 9 1 a = none ∧
        (F64.AnimatedSprite.Update round64 10 1 a).map
          (fun a1 => (a1.currentFrame, a1.isPlaying)) = some (9, false)) ∧
      ∃ a, loopClock64 = some a ∧ 0 < a.frameDuration ∧ a.frameTimer = 0 ∧
        ∀ fuel, F64.AnimatedSprite.Update round64 fuel 10000000000000000 a = none := by
  constructor
  · refine ⟨{ frames := repoCreepAssets.FirebugSideDeath, frameCount := 10
              frameDuration := 3602879701896397 / 36028797018963968, currentFrame := 0
              frameTimer := 0, isPlaying := true, loop := false, totalDuration := 1 },
      by decide!, by norm_num, rfl, ?_, by decide!, by decide!⟩
    rw [Nat.floor_eq_iff (by norm_num)]
    norm_num
  · refine ⟨{ frames := [7, 8, 9], frameCount := 3, frameDuration := round64 (1 / 3)
              currentFrame := 0, frameTimer := 0, isPlaying := true, loop := true
              totalDuration := 1 }, by decide!, by decide!, rfl, fun fuel => ?_⟩
    have hadd : round64 (0 + 10000000000000000) = 10000000000000000 := by decide!
    unfold F64.AnimatedSprite.Update
    rw [if_neg (by decide)]
    simp only [hadd]
    exact loopClock_absorbs fuel 0 (le_refl _) (by norm_num)

/-- Termination of `Update` under rounding when the timer after the addition is not negative:
loop fuel `floor((frameTimer + dt) / frameDuration) + 1` is enough, and on exit the timer is
not negative and, for a clock that still plays, below the frame duration. -/
theorem Update_fuel_rounded (fl : ℚ → ℚ) (hfl : Rounds fl) (as : AnimatedSprite)
    (dt : ℚ) (hd : 1 / 2 ^ 1022 ≤ as.frameDuration) (hmax : as.frameDuration ≤ 2 ^ 1000)
    (ht : 0 ≤ as.frameTimer) (hs : 0 ≤ as.frameTimer + dt)
    (hq : as.frameTimer + dt ≤ 2 ^ 20 * as.frameDuration) :
    (∃ as1, ∀ fuel, ⌊(as.frameTimer + dt) / as.frameDuration⌋₊ + 1 ≤ fuel →
        F64.AnimatedSprite.Update fl fuel dt as = some as1) ∧
      (∀ fuel as1, F64.AnimatedSprite.Update fl fuel dt as = some as1 →
        0 ≤ as1.frameTimer ∧
          (as1.isPlaying = true → (2 ≤ as.frameCount ∨ as.frameTimer < as.frameDuration) →
            as1.frameTimer < as1.frameDuration)) := by
  have _hrange := hmax
  clear hmax _hrange
  have ht0 : 0 ≤ fl (as.frameTimer + dt) := (hfl _).2 hs
  constructor
  · by_cases hearly : as.isPlaying = false ∨ as.frameCount ≤ 1
    · exact ⟨as, fun fuel _ => by
        unfold F64.AnimatedSprite.Update
        rw [if_pos hearly]⟩
    · have hdpos : 0 < as.frameDuration := lt_of_lt_of_le (by positivity) hd
      have hη := subnormal_le as.frameDuration hd
      have hup := hfl.upper _ hs
      have hsdiv : (as.frameTimer + dt) / 2 ^ 53 ≤ 2 ^ 20 * as.frameDuration / 2 ^ 53 :=
        div_le_div_of_nonneg_right hq (by positivity)
      have hq0 : 0 ≤ (as.frameTimer + dt) / as.frameDuration := div_nonneg hs hdpos.le
      have hK1 : (as.frameTimer + dt) / as.frameDuration <
          (⌊(as.frameTimer + dt) / as.frameDuration⌋₊ : ℚ) + 1 := Nat.lt_floor_add_one _
      have hK2 : (⌊(as.frameTimer + dt) / as.frameDuration⌋₊ : ℚ) ≤
          (as.frameTimer + dt) / as.frameDuration := Nat.floor_le hq0
      rw [div_lt_iff₀ hdpos] at hK1
      rw [le_div_iff₀ hdpos] at hK2
      obtain ⟨as1, h1⟩ := F64.advanceFrames_fuel fl hfl as.frameDuration
        (as.frameDuration / 2 ^ 30) (2 ^ 21 * as.frameDuration)
        (by
          generalize (1 : ℚ) / 2 ^ 1075 = η at hη
          norm_num at hη ⊢
          linarith)
        (by
          rw [div_le_iff₀ (by positivity)]
          nlinarith)
        (⌊(as.frameTimer + dt) / as.frameDuration⌋₊ + 1)
        { as with frameTimer := fl (as.frameTimer + dt) } rfl ht0
        (by
          show fl (as.frameTimer + dt) ≤ 2 ^ 21 * as.frameDuration
          generalize (1 : ℚ) / 2 ^ 1075 = η at hη hup
          norm_num at hη hup hsdiv ⊢
          linarith)
        (by
          show fl (as.frameTimer + dt) <
            (((⌊(as.frameTimer + dt) / as.frameDuration⌋₊ + 1 : ℕ) : ℚ) + 1) *
              (as.frameDuration - as.frameDuration / 2 ^ 30)
          push_cast
          generalize (⌊(as.frameTimer + dt) / as.frameDuration⌋₊ : ℚ) = K at hK1 hK2
          generalize (1 : ℚ) / 2 ^ 1075 = η at hη hup
          have e : (K + 1 + 1) * (as.frameDuration - as.frameDuration / 2 ^ 30) =
              (K * as.frameDuration + as.frameDuration + as.frameDuration) *
                (1 - 1 / 2 ^ 30) := by ring
          rw [e]
          rw [show (K + 1) * as.frameDuration = K * as.frameDuration + as.frameDuration
            from by ring] at hK1
          generalize K * as.frameDuration = Kd at hK1 hK2
          norm_num at hη hup hsdiv hq ⊢
          linarith)
      refine ⟨as1, fun fuel hf => ?_⟩
      unfold F64.AnimatedSprite.Update
      rw [if_neg hearly]
      exact F64.advanceFrames_more_fuel fl _ fuel _ as1 hf h1
  · intro fuel as1 h
    unfold F64.AnimatedSprite.Update at h
    by_cases hearly : as.isPlaying = false ∨ as.frameCount ≤ 1
    · rw [if_pos hearly] at h
      have e := Option.some.inj h
      subst e
      refine ⟨ht, fun hp hentry => ?_⟩
      rcases hearly with hnp | hone
      · rw [hp] at hnp
        cases hnp
      · rcases hentry with h2 | hlt
        · omega
        · exact hlt
    · rw [if_neg hearly] at h
      exact ⟨F64.advanceFrames_nonneg_timer fl hfl fuel _ as1 h ht0,
        fun hp _ => F64.advanceFrames_exit_timer fl fuel _ as1 h hp⟩

/-- C28, amended (termination of `Update` under `float64` rounding): for a clock with
`2^-1022 ≤ frameDuration ≤ 2^1000` and `frameTimer ≥ 0`, any `dt` (negative ones included) such
that `frameTimer + dt ≤ 2^20 * frameDuration`, and any rounding of the two `float64` operations
within half a unit in the last place, `Update(dt)` returns and its frame-advance loop runs at
most `floor((frameTimer + dt) / frameDuration) + 1` times (the floor is 0 when the quotient is
negative): that much loop fuel, one unit per iteration, is enough, and the result does not
depend on the fuel. On exit `frameTimer ≥ 0` when `dt ≥ 0`, and a clock that is still playing
has `frameTimer < frameDuration` (for a single-frame clock, which skips the loop, when that held
on entry). -/
theorem update_terminates_rounded (fl : ℚ → ℚ) (hfl : Rounds fl) (as : AnimatedSprite)
    (dt : ℚ) (hd : 1 / 2 ^ 1022 ≤ as.frameDuration) (hmax : as.frameDuration ≤ 2 ^ 1000)
    (ht : 0 ≤ as.frameTimer) (hq : as.frameTimer + dt ≤ 2 ^ 20 * as.frameDuration) :
    (∃ as1, ∀ fuel, ⌊(as.frameTimer + dt) / as.frameDuration⌋₊ + 1 ≤ fuel →
        F64.AnimatedSprite.Update fl fuel dt as = some as1) ∧
      (∀ fuel as1, F64.AnimatedSprite.Update fl fuel dt as = some as1 →
        (0 ≤ dt → 0 ≤ as1.frameTimer) ∧
          (as1.isPlaying = true → (2 ≤ as.frameCount ∨ as.frameTimer < as.frameDuration) →
            as1.frameTimer < as1.frameDuration)) := by
  by_cases hs : 0 ≤ as.frameTimer + dt
  · obtain ⟨h1, h2⟩ := Update_fuel_rounded fl hfl as dt hd hmax ht hs hq
    exact ⟨h1, fun fuel as1 h => ⟨fun _ => (h2 fuel as1 h).1, (h2 fuel as1 h).2⟩⟩
  · have hneg : as.frameTimer + dt < 0 := not_le.mp hs
    have hdpos : 0 < as.frameDuration :=
      lt_of_lt_of_le (one_div_pos.mpr (pow_pos (by norm_num) _)) hd
    have hη := subnormal_le as.frameDuration hd
    have herr := (hfl (as.frameTimer + dt)).1
    rw [abs_of_neg hneg] at herr
    have hsmall : fl (as.frameTimer + dt) < as.frameDuration := by
      have h1 := (abs_le.mp herr).2
      generalize (1 : ℚ) / 2 ^ 1075 = η at hη h1
      generalize fl (as.frameTimer + dt) = τ at h1
      norm_num at hη h1 ⊢
      linarith
    have hexit : ∀ fuel, F64.AnimatedSprite.advanceFrames fl fuel
        { as with frameTimer := fl (as.frameTimer + dt) } =
          some { as with frameTimer := fl (as.frameTimer + dt) } := by
      intro fuel
      have hno : ¬ (({ as with frameTimer := fl (as.frameTimer + dt) } :
          AnimatedSprite).frameTimer ≥
            ({ as with frameTimer := fl (as.frameTimer + dt) } : AnimatedSprite).frameDuration ∧
          ({ as with frameTimer := fl (as.frameTimer + dt) } : AnimatedSprite).isPlaying =
            true) := fun h => absurd h.1 (not_le.mpr hsmall)
      cases fuel with
      | zero =>
        unfold F64.AnimatedSprite.advanceFrames
        rw [if_neg hno]
      | succ n =>
        unfold F64.AnimatedSprite.advanceFrames
        rw [if_neg hno]
    constructor
    · by_cases hearly : as.isPlaying = false ∨ as.frameCount ≤ 1
      · exact ⟨as, fun fuel _ => by
          unfold F64.AnimatedSprite.Update
          rw [if_pos hearly]⟩
      · exact ⟨_, fun fuel _ => by
          unfold F64.AnimatedSprite.Update
          rw [if_neg hearly]
          exact hexit fuel⟩
    · intro fuel as1 h
      refine ⟨fun hdt => absurd (add_nonneg ht hdt) hs, fun hp hentry => ?_⟩
      unfold F64.AnimatedSprite.Update at h
      by_cases hearly : as.isPlaying = false ∨ as.frameCount ≤ 1
      · rw [if_pos hearly] at h
        have e := Option.some.inj h
        subst e
        rcases hearly with hnp | hone
        · rw [hp] at hnp
          cases hnp
        · rcases hentry with h2 | hlt
          · omega
          · exact hlt
      · rw [if_neg hearly] at h
        exact F64.advanceFrames_exit_timer fl fuel _ as1 h hp

theorem update_terminates_rounded_witness :
    1 / 2 ^ 1022 ≤ demoClock64.frameDuration ∧ demoClock64.frameDuration ≤ 2 ^ 1000 ∧
      0 ≤ demoClock64.frameTimer ∧
      demoClock64.frameTimer + 1 / 2 ≤ 2 ^ 20 * demoClock64.frameDuration ∧
      ∃ as1, ∀ fuel, ⌊(demoClock64.frameTimer + 1 / 2) / demoClock64.frameDuration⌋₊ + 1 ≤
          fuel → F64.AnimatedSprite.Update round64 fuel (1 / 2) demoClock64 = some as1 :=
  have hd : 1 / 2 ^ 1022 ≤ demoClock64.frameDuration := by
    have h1 : (1 : ℚ) / 2 ^ 1022 ≤ 1 / 2 ^ 2 :=
      one_div_le_one_div_of_le (by norm_num) (pow_le_pow_right₀ (by norm_num) (by norm_num))
    have h2 : (1 : ℚ) / 2 ^ 2 ≤ demoClock64.frameDuration := by decide!
    exact le_trans h1 h2
  have hq : demoClock64.frameTimer + 1 / 2 ≤ 2 ^ 20 * demoClock64.frameDuration := by decide!
  have hmax : demoClock64.frameDuration ≤ 2 ^ 1000 :=
    le_trans (by decide! : demoClock64.frameDuration ≤ 1) (one_le_pow₀ (by norm_num))
  ⟨hd, hmax, le_refl _, hq,
    (update_terminates_rounded round64 round64_rounds demoClock64 (1 / 2) hd hmax (le_refl _)
      hq).1⟩

/-! ## Completion of a non-looping clock under float64 rounding -/

namespace F64

/-- Inside one `Update` of a non-looping clock: `c0` is the timer after the addition plus the
time of the frames completed before the call, and every subtraction errs by at most `δ`. -/
theorem advanceFrames_nonloop (fl : ℚ → ℚ) (d W δ c0 : ℚ) (f0 n : Int) (hd0 : 0 ≤ d)
    (hδ : 0 ≤ δ) (herr : ∀ x, 0 ≤ x → x ≤ 2 * W → |fl x - x| ≤ δ ∧ 0 ≤ fl x)
    (hc0 : c0 - f0 * d ≤ 3 / 2 * W) (hnδ : ((n : ℚ) - f0) * δ ≤ W / 2)
    (fuel : Nat) (as as1 : AnimatedSprite) (hdur : as.frameDuration = d)
    (hcnt : as.frameCount = n) (hloop : as.loop = false) (hplay : as.isPlaying = true)
    (hf0 : f0 ≤ as.currentFrame) (hfn : as.currentFrame < n) (ht : 0 ≤ as.frameTimer)
    (hinv : |as.frameTimer + as.currentFrame * d - c0| ≤ ((as.currentFrame : ℚ) - f0) * δ)
    (h : AnimatedSprite.advanceFrames fl fuel as = some as1) :
    as1.frameDuration = d ∧ as1.frameCount = n ∧ as1.loop = false ∧ 0 ≤ as1.frameTimer ∧
      ((as1.isPlaying = true ∧ as.currentFrame ≤ as1.currentFrame ∧ as1.currentFrame < n ∧
          as1.frameTimer < d ∧
          |as1.frameTimer + as1.currentFrame * d - c0| ≤ ((as1.currentFrame : ℚ) - f0) * δ) ∨
        (as1.isPlaying = false ∧ as1.currentFrame = n - 1 ∧
          (n : ℚ) * d ≤ c0 + ((n : ℚ) - f0) * δ)) := by
  induction fuel generalizing as with
  | zero =>
    unfold AnimatedSprite.advanceFrames at h
    split_ifs at h with hc
    have e := Option.some.inj h
    subst e
    refine ⟨hdur, hcnt, hloop, ht, Or.inl ⟨hplay, le_refl _, hfn, ?_, hinv⟩⟩
    by_contra hge
    rw [← hdur] at hge
    exact hc ⟨not_lt.mp hge, hplay⟩
  | succ fuel ih =>
    unfold AnimatedSprite.advanceFrames at h
    by_cases hc : as.frameTimer ≥ as.frameDuration ∧ as.isPlaying = true
    · rw [if_pos hc] at h
      simp only [] at h
      have hge : d ≤ as.frameTimer := by
        rw [← hdur]
        exact hc.1
      have hfq0 : (0 : ℚ) ≤ (as.currentFrame : ℚ) - f0 := by
        have : (f0 : ℚ) ≤ (as.currentFrame : ℚ) := by exact_mod_cast hf0
        linarith
      have hfqn : (0 : ℚ) ≤ (n : ℚ) - as.currentFrame := by
        have : (as.currentFrame : ℚ) ≤ (n : ℚ) := by exact_mod_cast hfn.le
        linarith
      have hp1 : 0 ≤ ((as.currentFrame : ℚ) - f0) * d := mul_nonneg hfq0 hd0
      have hp2 : 0 ≤ ((n : ℚ) - as.currentFrame) * δ := mul_nonneg hfqn hδ
      obtain ⟨hinv1, hinv2⟩ := abs_le.mp hinv
      have htW : as.frameTimer - as.frameDuration ≤ 2 * W := by
        rw [hdur]
        nlinarith
      obtain ⟨he, hnn⟩ := herr (as.frameTimer - as.frameDuration) (by linarith) htW
      obtain ⟨he1, he2⟩ := abs_le.mp he
      by_cases hn : as.currentFrame + 1 ≥ as.frameCount
      · rw [if_pos hn, if_neg (by rw [hloop]; exact Bool.false_ne_true)] at h
        have e := Option.some.inj h
        subst e
        have hlast : ((as.currentFrame : ℚ)) + 1 = (n : ℚ) := by
          have : as.currentFrame + 1 = n := by omega
          exact_mod_cast this
        refine ⟨hdur, hcnt, hloop, hnn, Or.inr ⟨rfl, by simp only [hcnt], ?_⟩⟩
        nlinarith
      · rw [if_neg hn] at h
        have hcast : ((as.currentFrame + 1 : Int) : ℚ) = (as.currentFrame : ℚ) + 1 := by
          push_cast
          ring
        obtain ⟨r1, r2, r3, r4, r5⟩ := ih
          { as with frameTimer := fl (as.frameTimer - as.frameDuration)
                    currentFrame := as.currentFrame + 1 }
          hdur hcnt hloop hplay (by show f0 ≤ as.currentFrame + 1; omega)
          (by show as.currentFrame + 1 < n; omega) hnn
          (by
            show |fl (as.frameTimer - as.frameDuration) +
                ((as.currentFrame + 1 : Int) : ℚ) * d - c0| ≤
              (((as.currentFrame + 1 : Int) : ℚ) - f0) * δ
            rw [hcast, abs_le]
            constructor <;> nlinarith) h
        refine ⟨r1, r2, r3, r4, ?_⟩
        rcases r5 with ⟨p1, p2, p3, p4, p5⟩ | hstop
        · exact Or.inl ⟨p1, by
            have : as.currentFrame + 1 ≤ as1.currentFrame := p2
            omega, p3, p4, p5⟩
        · exact Or.inr hstop
    · rw [if_neg hc] at h
      have e := Option.some.inj h
      subst e
      refine ⟨hdur, hcnt, hloop, ht, Or.inl ⟨hplay, le_refl _, hfn, ?_, hinv⟩⟩
      by_contra hge
      rw [← hdur] at hge
      exact hc ⟨not_lt.mp hge, hplay⟩

/-- One `Update(dt)` of a playing non-looping clock with at most 1024 frames: the completed
frames and the timer account for the time fed to the clock up to `(n + 1) (d + dt) / 2^51`, and
the clock stops only when they reach `n d` up to that error. -/
theorem Update_nonloop_step (fl : ℚ → ℚ) (hfl : Rounds fl) (fuel : Nat) (dt d : ℚ) (n : Int)
    (as as1 : AnimatedSprite) (hdur : as.frameDuration = d) (hcnt : as.frameCount = n)
    (hloop : as.loop = false) (hplay : as.isPlaying = true) (hn2 : 2 ≤ n) (hn : n ≤ 1024)
    (hη : (1 : ℚ) / 2 ^ 1075 ≤ d / 2 ^ 53) (hf0 : 0 ≤ as.currentFrame)
    (hfn : as.currentFrame < n) (ht0 : 0 ≤ as.frameTimer) (htd : as.frameTimer < d)
    (hdt : 0 ≤ dt) (h : AnimatedSprite.Update fl fuel dt as = some as1) :
    as1.frameDuration = d ∧ as1.frameCount = n ∧ as1.loop = false ∧
      ((as1.isPlaying = true ∧ 0 ≤ as1.currentFrame ∧ as1.currentFrame < n ∧
          0 ≤ as1.frameTimer ∧ as1.frameTimer < d ∧
          |as1.frameTimer + as1.currentFrame * d -
              (as.frameTimer + as.currentFrame * d + dt)| ≤
            ((n : ℚ) + 1) * ((d + dt) / 2 ^ 51)) ∨
        (as1.isPlaying = false ∧ as1.currentFrame = n - 1 ∧
          (n : ℚ) * d ≤ as.frameTimer + as.currentFrame * d + dt +
            ((n : ℚ) + 1) * ((d + dt) / 2 ^ 51))) := by
  have hd0 : 0 ≤ d := le_of_lt (lt_of_le_of_lt ht0 htd)
  have hW : 0 ≤ d + dt := add_nonneg hd0 hdt
  have hδ : 0 ≤ (d + dt) / 2 ^ 51 := div_nonneg hW (by positivity)
  have herr : ∀ x, 0 ≤ x → x ≤ 2 * (d + dt) →
      |fl x - x| ≤ (d + dt) / 2 ^ 51 ∧ 0 ≤ fl x := by
    intro x hx0 hx
    refine ⟨le_trans ((hfl x).1) ?_, (hfl x).2 hx0⟩
    rw [abs_of_nonneg hx0]
    generalize (1 : ℚ) / 2 ^ 1075 = η at hη
    have h1 : x / 2 ^ 53 ≤ 2 * (d + dt) / 2 ^ 53 :=
      div_le_div_of_nonneg_right hx (by positivity)
    norm_num at h1 hη ⊢
    linarith
  unfold AnimatedSprite.Update at h
  rw [if_neg (by
    rw [hplay, hcnt]
    simp only [Bool.true_eq_false, false_or, not_le]
    omega)] at h
  obtain ⟨hadd, hadd0⟩ := herr (as.frameTimer + dt) (by linarith) (by linarith)
  obtain ⟨ha1, ha2⟩ := abs_le.mp hadd
  have hnq : (n : ℚ) ≤ 1024 := by exact_mod_cast hn
  have hfq : (0 : ℚ) ≤ (as.currentFrame : ℚ) := by exact_mod_cast hf0
  have hfnq : (as.currentFrame : ℚ) + 1 ≤ (n : ℚ) := by exact_mod_cast hfn
  obtain ⟨r1, r2, r3, r4, r5⟩ := advanceFrames_nonloop fl d (d + dt) ((d + dt) / 2 ^ 51)
    (fl (as.frameTimer + dt) + as.currentFrame * d) as.currentFrame n hd0 hδ herr
    (by
      norm_num at ha2 ⊢
      linarith)
    (by
      have : ((n : ℚ) - as.currentFrame) * ((d + dt) / 2 ^ 51) ≤
          1024 * ((d + dt) / 2 ^ 51) :=
        mul_le_mul_of_nonneg_right (by linarith) hδ
      norm_num at this ⊢
      linarith)
    fuel { as with frameTimer := fl (as.frameTimer + dt) } as1 hdur hcnt hloop hplay
    (le_refl _) hfn hadd0
    (by
      show |fl (as.frameTimer + dt) + as.currentFrame * d -
        (fl (as.frameTimer + dt) + as.currentFrame * d)| ≤
          ((as.currentFrame : ℚ) - as.currentFrame) * ((d + dt) / 2 ^ 51)
      simp) h
  refine ⟨r1, r2, r3, ?_⟩
  rcases r5 with ⟨p1, p2, p3, p4, p5⟩ | ⟨s1, s2, s3⟩
  · have p2' : as.currentFrame ≤ as1.currentFrame := p2
    have hf1q : (as1.currentFrame : ℚ) + 1 ≤ (n : ℚ) := by exact_mod_cast p3
    have hf1f : (as.currentFrame : ℚ) ≤ (as1.currentFrame : ℚ) := by exact_mod_cast p2'
    obtain ⟨q1, q2⟩ := abs_le.mp p5
    have hb : ((as1.currentFrame : ℚ) - as.currentFrame) * ((d + dt) / 2 ^ 51) ≤
        (n : ℚ) * ((d + dt) / 2 ^ 51) :=
      mul_le_mul_of_nonneg_right (by linarith) hδ
    refine Or.inl ⟨p1, by omega, p3, r4, p4, ?_⟩
    rw [abs_le]
    constructor <;> linarith
  · have hb : ((n : ℚ) - as.currentFrame) * ((d + dt) / 2 ^ 51) ≤
        (n : ℚ) * ((d + dt) / 2 ^ 51) :=
      mul_le_mul_of_nonneg_right (by linarith) hδ
    exact Or.inr ⟨s1, s2, by linarith⟩

theorem Update_stopped (fl : ℚ → ℚ) (fuel : Nat) (dt : ℚ) (as : AnimatedSprite)
    (h : as.isPlaying = false) : AnimatedSprite.Update fl fuel dt as = some as := by
  unfold AnimatedSprite.Update
  rw [if_pos (Or.inl h)]

theorem runUpdates_stopped (fl : ℚ → ℚ) (fuel : Nat) (dts : List ℚ) (as : AnimatedSprite)
    (h : as.isPlaying = false) : runUpdates fl fuel dts as = some as := by
  induction dts with
  | nil => rfl
  | cons dt rest ih => simp only [runUpdates, Update_stopped fl fuel dt as h, ih]

/-- A run of `Update` calls on a non-looping clock with at most 1024 frames, started from a
playing state that accounts for the elapsed time `E` up to the error budget of `c` calls. -/
theorem runUpdates_nonloop (fl : ℚ → ℚ) (hfl : Rounds fl) (fuel : Nat) (d : ℚ) (n : Int)
    (hn2 : 2 ≤ n) (hn : n ≤ 1024) (hη : (1 : ℚ) / 2 ^ 1075 ≤ d / 2 ^ 53) (dts : List ℚ)
    (hdts : ∀ dt ∈ dts, 0 ≤ dt) (as as1 : AnimatedSprite) (c E : ℚ) (hc : 0 ≤ c)
    (hE : 0 ≤ E) (hdur : as.frameDuration = d) (hcnt : as.frameCount = n)
    (hloop : as.loop = false) (hplay : as.isPlaying = true) (hf0 : 0 ≤ as.currentFrame)
    (hfn : as.currentFrame < n) (ht0 : 0 ≤ as.frameTimer) (htd : as.frameTimer < d)
    (hinv : |as.frameTimer + as.currentFrame * d - E| ≤
      ((n : ℚ) + 1) * ((c * d + E) / 2 ^ 51))
    (h : runUpdates fl fuel dts as = some as1) :
    as1.frameCount = n ∧
      ((as1.isPlaying = true ∧ 0 ≤ as1.currentFrame ∧ as1.currentFrame < n ∧
          0 ≤ as1.frameTimer ∧ as1.frameTimer < d ∧
          |as1.frameTimer + as1.currentFrame * d - (E + dts.sum)| ≤
            ((n : ℚ) + 1) * (((c + dts.length) * d + (E + dts.sum)) / 2 ^ 51)) ∨
        (as1.isPlaying = false ∧ as1.currentFrame = n - 1 ∧
          (n : ℚ) * d ≤ E + dts.sum +
            ((n : ℚ) + 1) * (((c + dts.length) * d + (E + dts.sum)) / 2 ^ 51))) := by
  have hd0 : 0 ≤ d := le_of_lt (lt_of_le_of_lt ht0 htd)
  have hn0 : (0 : ℚ) ≤ (n : ℚ) + 1 := by
    have : (2 : ℚ) ≤ (n : ℚ) := by exact_mod_cast hn2
    linarith
  induction dts generalizing as c E with
  | nil =>
    simp only [runUpdates, Option.some.injEq] at h
    subst h
    simp only [List.sum_nil, List.length_nil, Nat.cast_zero, add_zero]
    exact ⟨hcnt, Or.inl ⟨hplay, hf0, hfn, ht0, htd, hinv⟩⟩
  | cons dt rest ih =>
    have hdt : 0 ≤ dt := hdts dt (List.mem_cons_self _ _)
    have hrest : ∀ x ∈ rest, 0 ≤ x := fun x hx => hdts x (List.mem_cons_of_mem _ hx)
    have hsum0 : 0 ≤ rest.sum := List.sum_nonneg hrest
    simp only [runUpdates] at h
    split at h
    · cases h
    · rename_i as2 h2
      obtain ⟨r1, r2, r3, r4⟩ := Update_nonloop_step fl hfl fuel dt d n as as2 hdur hcnt hloop
        hplay hn2 hn hη hf0 hfn ht0 htd hdt h2
      obtain ⟨i1, i2⟩ := abs_le.mp hinv
      have hcast : ((c + ((dt :: rest).length : ℕ)) : ℚ) = c + 1 + (rest.length : ℚ) := by
        simp only [List.length_cons]
        push_cast
        ring
      have hsum : (dt :: rest).sum = dt + rest.sum := List.sum_cons
      have hexp : ((n : ℚ) + 1) * ((c * d + E) / 2 ^ 51) +
          ((n : ℚ) + 1) * ((d + dt) / 2 ^ 51) =
            ((n : ℚ) + 1) * (((c + 1) * d + (E + dt)) / 2 ^ 51) := by ring
      rcases r4 with ⟨p1, p2, p3, p4, p5, p6⟩ | ⟨s1, s2, s3⟩
      · obtain ⟨q1, q2⟩ := abs_le.mp p6
        have key := ih hrest as2 (c + 1) (E + dt) (by linarith) (by linarith) r1 r2 r3 p1 p2 p3
          p4 p5 (by
            rw [← hexp, abs_le]
            constructor <;> linarith) h
        rw [hcast, hsum]
        rw [show E + (dt + rest.sum) = E + dt + rest.sum from by ring]
        exact key
      · rw [runUpdates_stopped fl fuel rest as2 s1] at h
        have e := Option.some.inj h
        subst e
        refine ⟨r2, Or.inr ⟨s1, s2, ?_⟩⟩
        rw [hcast, hsum]
        have hlen : (0 : ℚ) ≤ (rest.length : ℚ) := Nat.cast_nonneg _
        have hmono : ((n : ℚ) + 1) * (((c + 1) * d + (E + dt)) / 2 ^ 51) ≤
            ((n : ℚ) + 1) * (((c + 1 + (rest.length : ℚ)) * d + (E + (dt + rest.sum))) /
              2 ^ 51) := by
          apply mul_le_mul_of_nonneg_left _ hn0
          apply div_le_div_of_nonneg_right _ (by positivity)
          nlinarith [mul_nonneg hlen hd0]
        linarith

/-- A non-looping clock needs at most `frameCount - currentFrame` iterations of the loop,
whatever the rounding. -/
theorem advanceFrames_nonloop_total (fl : ℚ → ℚ) (fuel : Nat) (as : AnimatedSprite)
    (hloop : as.loop = false) (hfn : as.currentFrame < as.frameCount)
    (hfuel : (as.frameCount - as.currentFrame).toNat ≤ fuel) :
    ∃ as1, AnimatedSprite.advanceFrames fl fuel as = some as1 := by
  induction fuel generalizing as with
  | zero => omega
  | succ fuel ih =>
    unfold AnimatedSprite.advanceFrames
    by_cases hc : as.frameTimer ≥ as.frameDuration ∧ as.isPlaying = true
    · rw [if_pos hc]
      simp only []
      by_cases hn : as.currentFrame + 1 ≥ as.frameCount
      · rw [if_pos hn, if_neg (by rw [hloop]; exact Bool.false_ne_true)]
        exact ⟨_, rfl⟩
      · rw [if_neg hn]
        exact ih _ hloop (by show as.currentFrame + 1 < as.frameCount; omega)
          (by show (as.frameCount - (as.currentFrame + 1)).toNat ≤ fuel; omega)
    · rw [if_neg hc]
      exact ⟨as, rfl⟩

end F64

namespace F64

theorem advanceFrames_keeps (fl : ℚ → ℚ) (fuel : Nat) (as as1 : AnimatedSprite)
    (h : AnimatedSprite.advanceFrames fl fuel as = some as1) (hloop : as.loop = false)
    (hf0 : 0 ≤ as.currentFrame) (hfn : as.currentFrame < as.frameCount) :
    as1.loop = false ∧ as1.frameCount = as.frameCount ∧ as1.frameDuration = as.frameDuration ∧
      0 ≤ as1.currentFrame ∧ as1.currentFrame < as1.frameCount := by
  induction fuel generalizing as with
  | zero =>
    unfold AnimatedSprite.advanceFrames at h
    split_ifs at h
    have e := Option.some.inj h
    subst e
    exact ⟨hloop, rfl, rfl, hf0, hfn⟩
  | succ fuel ih =>
    unfold AnimatedSprite.advanceFrames at h
    by_cases hc : as.frameTimer ≥ as.frameDuration ∧ as.isPlaying = true
    · rw [if_pos hc] at h
      simp only [] at h
      by_cases hn : as.currentFrame + 1 ≥ as.frameCount
      · rw [if_pos hn, if_neg (by rw [hloop]; exact Bool.false_ne_true)] at h
        have e := Option.some.inj h
        subst e
        refine ⟨hloop, rfl, rfl, ?_, ?_⟩
        · show 0 ≤ as.frameCount - 1
          omega
        · show as.frameCount - 1 < as.frameCount
          omega
      · rw [if_neg hn] at h
        exact ih
          { as with frameTimer := fl (as.frameTimer - as.frameDuration)
                    currentFrame := as.currentFrame + 1 } h hloop
          (by show 0 ≤ as.currentFrame + 1; omega)
          (by show as.currentFrame + 1 < as.frameCount; omega)
    · rw [if_neg hc] at h
      have e := Option.some.inj h
      subst e
      exact ⟨hloop, rfl, rfl, hf0, hfn⟩

theorem Update_more_fuel (fl : ℚ → ℚ) (fuel fuel2 : Nat) (dt : ℚ) (as as1 : AnimatedSprite)
    (hle : fuel ≤ fuel2) (h : AnimatedSprite.Update fl fuel dt as = some as1) :
    AnimatedSprite.Update fl fuel2 dt as = some as1 := by
  unfold AnimatedSprite.Update at h ⊢
  split_ifs at h ⊢ with hc
  · exact h
  · exact advanceFrames_more_fuel fl fuel fuel2 _ as1 hle h

theorem runUpdates_mono (fl : ℚ → ℚ) (fuel fuel2 : Nat) (dts : List ℚ)
    (as as1 : AnimatedSprite) (hle : fuel ≤ fuel2) (h : runUpdates fl fuel dts as = some as1) :
    runUpdates fl fuel2 dts as = some as1 := by
  induction dts generalizing as with
  | nil => exact h
  | cons dt rest ih =>
    simp only [runUpdates] at h ⊢
    split at h
    · cases h
    · rename_i as2 h2
      rw [Update_more_fuel fl fuel fuel2 dt as as2 hle h2]
      exact ih as2 h

/-- Every `Update` of a non-looping clock returns once the loop fuel is at least the frame
count, whatever the rounding and the time steps. -/
theorem runUpdates_nonloop_total (fl : ℚ → ℚ) (dts : List ℚ) (as : AnimatedSprite)
    (hloop : as.loop = false) (hf0 : 0 ≤ as.currentFrame)
    (hfn : as.currentFrame < as.frameCount) :
    ∃ as1, runUpdates fl as.frameCount.toNat dts as = some as1 := by
  induction dts generalizing as with
  | nil => exact ⟨as, rfl⟩
  | cons dt rest ih =>
    simp only [runUpdates]
    by_cases hearly : as.isPlaying = false ∨ as.frameCount ≤ 1
    · have hu : AnimatedSprite.Update fl as.frameCount.toNat dt as = some as := by
        unfold AnimatedSprite.Update
        rw [if_pos hearly]
      rw [hu]
      exact ih as hloop hf0 hfn
    · obtain ⟨as2, h2⟩ := advanceFrames_nonloop_total fl as.frameCount.toNat
        { as with frameTimer := fl (as.frameTimer + dt) } hloop hfn
        (by show (as.frameCount - as.currentFrame).toNat ≤ as.frameCount.toNat; omega)
      obtain ⟨k1, k2, _, k4, k5⟩ := advanceFrames_keeps fl _ _ as2 h2 hloop hf0 hfn
      have hu : AnimatedSprite.Update fl as.frameCount.toNat dt as = some as2 := by
        unfold AnimatedSprite.Update
        rw [if_neg hearly]
        exact h2
      rw [hu]
      have hcnt : as2.frameCount = as.frameCount := k2
      rw [← hcnt]
      exact ih as2 k1 k4 k5

end F64

/-- Tolerance of a non-looping clock under rounding: started with `Play()` and advanced by at
most `2^20` calls `Update(dt)`, `dt ≥ 0`, a clock of 2 to 1024 frames and total duration `T` has
stopped on its last frame once the durations sum to at least `T (1 + 2^-20)` and is still
playing while they sum to at most `T (1 - 2^-20)`. -/
theorem runUpdates_tolerance (fl : ℚ → ℚ) (hfl : Rounds fl) (frames : List Image)
    (T : ℚ) (as0 : AnimatedSprite) (dts : List ℚ)
    (hnew : F64.NewAnimatedSprite fl frames T false = some as0)
    (hn2 : 2 ≤ frames.length) (hn : frames.length ≤ 1024) (hT : 1 / 2 ^ 1000 ≤ T)
    (hTmax : T ≤ 2 ^ 1000) (hlen : dts.length ≤ 2 ^ 20) (hdts : ∀ dt ∈ dts, 0 ≤ dt)
    (hsum : dts.sum ≤ 2 ^ 1000) :
    (T * (1 + 1 / 2 ^ 20) ≤ dts.sum → ∀ fuel as1,
        F64.runUpdates fl fuel dts as0.Play = some as1 →
        as1.currentFrame = as1.frameCount - 1 ∧ as1.isPlaying = false ∧
          ∀ fuel2 dt2, F64.AnimatedSprite.Update fl fuel2 dt2 as1 = some as1) ∧
      (dts.sum ≤ T * (1 - 1 / 2 ^ 20) → ∀ fuel as1,
        F64.runUpdates fl fuel dts as0.Play = some as1 → as1.isPlaying = true) ∧
      ∃ as1, ∀ fuel, frames.length ≤ fuel → F64.runUpdates fl fuel dts as0.Play = some as1 := by
  have _hrange := And.intro hTmax hsum
  clear hTmax hsum _hrange
  have hne : frames.length ≠ 0 := by omega
  unfold F64.NewAnimatedSprite at hnew
  rw [if_neg hne] at hnew
  have e := Option.some.inj hnew
  subst e
  have hnq2 : (2 : ℚ) ≤ (frames.length : ℚ) := by exact_mod_cast hn2
  have hnq : (frames.length : ℚ) ≤ 1024 := by exact_mod_cast hn
  have hnpos : (0 : ℚ) < (frames.length : ℚ) := by linarith
  have hTpos : 0 < T := lt_of_lt_of_le (one_div_pos.mpr (pow_pos (by norm_num) _)) hT
  have hx0 : 0 ≤ T / (frames.length : ℚ) := div_nonneg hTpos.le hnpos.le
  have hup := hfl.upper _ hx0
  have hlo := hfl.lower _ hx0
  have hTn : T / 1024 ≤ T / (frames.length : ℚ) :=
    div_le_div_of_nonneg_left hTpos.le hnpos hnq
  have hd : 1 / 2 ^ 1022 ≤ fl (T / (frames.length : ℚ)) := by
    have hpow : (2 : ℚ) ^ 1022 = 2 ^ 1000 * 2 ^ 22 := by rw [← pow_add]
    have hpow2 : (2 : ℚ) ^ 1075 = 2 ^ 1000 * 2 ^ 75 := by rw [← pow_add]
    have hP : (0 : ℚ) < 2 ^ 1000 := pow_pos (by norm_num) _
    rw [hpow]
    rw [hpow2] at hlo
    generalize (2 : ℚ) ^ 1000 = P at hP hT hlo ⊢
    have h1 : (1 : ℚ) / (P * 2 ^ 22) = 1 / P / 2 ^ 22 := by field_simp
    have h2 : (1 : ℚ) / (P * 2 ^ 75) = 1 / P / 2 ^ 75 := by field_simp
    rw [h1]
    rw [h2] at hlo
    have hP1 : (0 : ℚ) < 1 / P := one_div_pos.mpr hP
    generalize (1 : ℚ) / P = p at hP1 hT hlo ⊢
    generalize T / (frames.length : ℚ) = x at hx0 hlo hTn ⊢
    norm_num at hlo hTn ⊢
    linarith
  have hη := subnormal_le _ hd
  have hdpos : 0 < fl (T / (frames.length : ℚ)) :=
    lt_of_lt_of_le (one_div_pos.mpr (pow_pos (by norm_num) _)) hd
  have hnd : (frames.length : ℚ) * (T / (frames.length : ℚ)) = T := by
    field_simp
  have hS0 : 0 ≤ dts.sum := List.sum_nonneg hdts
  have hlenq : (dts.length : ℚ) ≤ 2 ^ 20 := by exact_mod_cast hlen
  -- `n d` against `T`
  have hU : (frames.length : ℚ) * fl (T / (frames.length : ℚ)) ≤
      T + T / 2 ^ 53 + (frames.length : ℚ) * fl (T / (frames.length : ℚ)) / 2 ^ 53 := by
    have h1 := mul_le_mul_of_nonneg_left hup hnpos.le
    have h2 := mul_le_mul_of_nonneg_left hη hnpos.le
    have e1 : (frames.length : ℚ) * (T / (frames.length : ℚ) +
        T / (frames.length : ℚ) / 2 ^ 53 + 1 / 2 ^ 1075) =
          (frames.length : ℚ) * (T / (frames.length : ℚ)) +
            (frames.length : ℚ) * (T / (frames.length : ℚ)) / 2 ^ 53 +
              (frames.length : ℚ) * (1 / 2 ^ 1075) := by ring
    have e2 : (frames.length : ℚ) * (fl (T / (frames.length : ℚ)) / 2 ^ 53) =
        (frames.length : ℚ) * fl (T / (frames.length : ℚ)) / 2 ^ 53 := by ring
    rw [e1, hnd] at h1
    rw [e2] at h2
    linarith
  have hL : T - T / 2 ^ 53 -
      (frames.length : ℚ) * fl (T / (frames.length : ℚ)) / 2 ^ 53 ≤
        (frames.length : ℚ) * fl (T / (frames.length : ℚ)) := by
    have h1 := mul_le_mul_of_nonneg_left hlo hnpos.le
    have h2 := mul_le_mul_of_nonneg_left hη hnpos.le
    have e1 : (frames.length : ℚ) * (T / (frames.length : ℚ) -
        T / (frames.length : ℚ) / 2 ^ 53 - 1 / 2 ^ 1075) =
          (frames.length : ℚ) * (T / (frames.length : ℚ)) -
            (frames.length : ℚ) * (T / (frames.length : ℚ)) / 2 ^ 53 -
              (frames.length : ℚ) * (1 / 2 ^ 1075) := by ring
    have e2 : (frames.length : ℚ) * (fl (T / (frames.length : ℚ)) / 2 ^ 53) =
        (frames.length : ℚ) * fl (T / (frames.length : ℚ)) / 2 ^ 53 := by ring
    rw [e1, hnd] at h1
    rw [e2] at h2
    linarith
  have h2d : 2 * fl (T / (frames.length : ℚ)) ≤
      (frames.length : ℚ) * fl (T / (frames.length : ℚ)) :=
    mul_le_mul_of_nonneg_right hnq2 hdpos.le
  -- the run from the state after `Play()`
  have hrun : ∀ fuel as1,
      F64.runUpdates fl fuel dts
        (AnimatedSprite.Play
          { frames := frames, frameCount := (frames.length : Int)
            frameDuration := fl (T / (frames.length : ℚ)), currentFrame := 0, frameTimer := 0
            isPlaying := false, loop := false, totalDuration := T }) = some as1 →
      as1.frameCount = (frames.length : Int) ∧
        ((as1.isPlaying = true ∧
            dts.sum - (dts.sum + 2 ^ 20 * fl (T / (frames.length : ℚ))) / 2 ^ 40 <
              (frames.length : ℚ) * fl (T / (frames.length : ℚ))) ∨
          (as1.isPlaying = false ∧ as1.currentFrame = (frames.length : Int) - 1 ∧
            (frames.length : ℚ) * fl (T / (frames.length : ℚ)) ≤
              dts.sum + (dts.sum + 2 ^ 20 * fl (T / (frames.length : ℚ))) / 2 ^ 40)) := by
    intro fuel as1 h
    obtain ⟨hcnt, hres⟩ := F64.runUpdates_nonloop fl hfl fuel (fl (T / (frames.length : ℚ)))
      (frames.length : Int) (by exact_mod_cast hn2) (by exact_mod_cast hn) hη dts hdts _ as1 0 0
      (le_refl _) (le_refl _) rfl rfl rfl rfl (le_refl _)
      (by show (0 : Int) < (frames.length : Int); omega) (le_refl _) hdpos
      (by
        show |(0 : ℚ) + ((0 : Int) : ℚ) * fl (T / (frames.length : ℚ)) - 0| ≤ _
        simp) h
    have hbudget : (((frames.length : Int) : ℚ) + 1) *
        (((0 + (dts.length : ℚ)) * fl (T / (frames.length : ℚ)) + (0 + dts.sum)) / 2 ^ 51) ≤
          (dts.sum + 2 ^ 20 * fl (T / (frames.length : ℚ))) / 2 ^ 40 := by
      have h1 : (dts.length : ℚ) * fl (T / (frames.length : ℚ)) ≤
          2 ^ 20 * fl (T / (frames.length : ℚ)) :=
        mul_le_mul_of_nonneg_right hlenq hdpos.le
      have h0 : 0 ≤ (dts.length : ℚ) * fl (T / (frames.length : ℚ)) :=
        mul_nonneg (Nat.cast_nonneg _) hdpos.le
      have h2 : 0 ≤ ((0 + (dts.length : ℚ)) * fl (T / (frames.length : ℚ)) +
          (0 + dts.sum)) / 2 ^ 51 :=
        div_nonneg (by linarith) (by norm_num)
      have h3 : (((frames.length : Int) : ℚ) + 1) *
          (((0 + (dts.length : ℚ)) * fl (T / (frames.length : ℚ)) + (0 + dts.sum)) / 2 ^ 51) ≤
            2 ^ 11 *
              (((0 + (dts.length : ℚ)) * fl (T / (frames.length : ℚ)) + (0 + dts.sum)) /
                2 ^ 51) := by
        apply mul_le_mul_of_nonneg_right _ h2
        push_cast
        linarith
      norm_num at h1 h3 ⊢
      linarith
    refine ⟨hcnt, ?_⟩
    rcases hres with ⟨p1, p2, p3, p4, p5, p6⟩ | ⟨s1, s2, s3⟩
    · refine Or.inl ⟨p1, ?_⟩
      obtain ⟨q1, q2⟩ := abs_le.mp p6
      have hf1 : (as1.currentFrame : ℚ) + 1 ≤ (frames.length : ℚ) := by
        have : as1.currentFrame + 1 ≤ (frames.length : Int) := p3
        exact_mod_cast this
      have hfd : (as1.currentFrame : ℚ) * fl (T / (frames.length : ℚ)) ≤
          ((frames.length : ℚ) - 1) * fl (T / (frames.length : ℚ)) :=
        mul_le_mul_of_nonneg_right (by linarith) hdpos.le
      simp only [zero_add] at q1 hbudget
      push_cast at hbudget q1
      nlinarith
    · refine Or.inr ⟨s1, s2, ?_⟩
      simp only [zero_add] at s3 hbudget
      push_cast at hbudget s3
      linarith
  refine ⟨fun hge fuel as1 h => ?_, fun hle fuel as1 h => ?_, ?_⟩
  · obtain ⟨hcnt, hres⟩ := hrun fuel as1 h
    rcases hres with ⟨_, hlt⟩ | ⟨s1, s2, _⟩
    · exfalso
      generalize (frames.length : ℚ) * fl (T / (frames.length : ℚ)) = ND at hU hL h2d hlt
      generalize fl (T / (frames.length : ℚ)) = d at hdpos h2d hlt
      norm_num at hU hlt hge
      linarith
    · exact ⟨by rw [hcnt]; exact s2, s1, fun fuel2 dt2 => F64.Update_stopped fl fuel2 dt2 as1 s1⟩
  · obtain ⟨_, hres⟩ := hrun fuel as1 h
    rcases hres with ⟨p1, _⟩ | ⟨_, _, hge⟩
    · exact p1
    · exfalso
      generalize (frames.length : ℚ) * fl (T / (frames.length : ℚ)) = ND at hU hL h2d hge
      generalize fl (T / (frames.length : ℚ)) = d at hdpos h2d hge
      norm_num at hL hge hle
      linarith
  · obtain ⟨as1, h1⟩ := F64.runUpdates_nonloop_total fl dts
      (AnimatedSprite.Play
        { frames := frames, frameCount := (frames.length : Int)
          frameDuration := fl (T / (frames.length : ℚ)), currentFrame := 0, frameTimer := 0
          isPlaying := false, loop := false, totalDuration := T }) rfl (le_refl _)
      (by show (0 : Int) < (frames.length : Int); omega)
    refine ⟨as1, fun fuel hf => F64.runUpdates_mono fl _ fuel dts _ as1 ?_ h1⟩
    show ((frames.length : Int)).toNat ≤ fuel
    rw [Int.toNat_natCast]
    exact hf

/-- C2, amended (non-looping completion under `float64` rounding): a non-looping clock built
by `NewAnimatedSprite` from 2 to 1024 frames with total duration `T` (between `2^-1000` and
`2^1000`), started with `Play()` and advanced by at most `2^20` calls `Update(dt)`, `dt ≥ 0`,
each operation rounded within half a unit in the last place. If the durations sum to at least
`T (1 + 2^-20)` then `currentFrame = frameCount - 1` and `isPlaying` is false, and every further
`Update` returns the clock unchanged; if they sum to at most `T (1 - 2^-20)` the clock is still
playing. Loop fuel equal to the frame count is enough for every call to return. -/
theorem nonlooping_completion_rounded (fl : ℚ → ℚ) (hfl : Rounds fl) (frames : List Image)
    (T : ℚ) (as0 : AnimatedSprite) (dts : List ℚ)
    (hnew : F64.NewAnimatedSprite fl frames T false = some as0)
    (hn2 : 2 ≤ frames.length) (hn : frames.length ≤ 1024) (hT : 1 / 2 ^ 1000 ≤ T)
    (hTmax : T ≤ 2 ^ 1000) (hlen : dts.length ≤ 2 ^ 20) (hdts : ∀ dt ∈ dts, 0 ≤ dt)
    (hsum : dts.sum ≤ 2 ^ 1000) :
    (T * (1 + 1 / 2 ^ 20) ≤ dts.sum → ∀ fuel as1,
        F64.runUpdates fl fuel dts as0.Play = some as1 →
        as1.currentFrame = as1.frameCount - 1 ∧ as1.isPlaying = false ∧
          ∀ fuel2 dt2, F64.AnimatedSprite.Update fl fuel2 dt2 as1 = some as1) ∧
      (dts.sum ≤ T * (1 - 1 / 2 ^ 20) → ∀ fuel as1,
        F64.runUpdates fl fuel dts as0.Play = some as1 → as1.isPlaying = true) ∧
      ∃ as1, ∀ fuel, frames.length ≤ fuel → F64.runUpdates fl fuel dts as0.Play = some as1 := by
  obtain ⟨h1, h2, h3⟩ := runUpdates_tolerance fl hfl frames T as0 dts hnew hn2 hn hT hTmax hlen
    hdts hsum
  refine ⟨fun hge fuel as1 h => h1 hge fuel as1 h, fun hle fuel as1 h => h2 hle fuel as1 h, ?_⟩
  obtain ⟨as1, h4⟩ := h3
  exact ⟨as1, fun fuel hf => h4 fuel hf⟩

theorem nonlooping_completion_rounded_witness :
    F64.NewAnimatedSprite round64 repoCreepAssets.FirebugSideDeath 1 false =
        some { frames := repoCreepAssets.FirebugSideDeath, frameCount := 10
               frameDuration := round64 (1 / 10), currentFrame := 0, frameTimer := 0
               isPlaying := false, loop := false, totalDuration := 1 } ∧
      (∀ dt ∈ [(1 : ℚ) / 4, 1 / 4, 1 / 4, 1 / 4, 1 / 4], 0 ≤ dt) ∧
      (1 : ℚ) * (1 + 1 / 2 ^ 20) ≤ [(1 : ℚ) / 4, 1 / 4, 1 / 4, 1 / 4, 1 / 4].sum ∧
      ∃ as1, ∀ fuel, repoCreepAssets.FirebugSideDeath.length ≤ fuel →
        F64.runUpdates round64 fuel [1 / 4, 1 / 4, 1 / 4, 1 / 4, 1 / 4]
          (AnimatedSprite.Play
            { frames := repoCreepAssets.FirebugSideDeath, frameCount := 10
              frameDuration := round64 (1 / 10), currentFrame := 0, frameTimer := 0
              isPlaying := false, loop := false, totalDuration := 1 }) = some as1 :=
  have hnew : F64.NewAnimatedSprite round64 repoCreepAssets.FirebugSideDeath 1 false =
      some { frames := repoCreepAssets.FirebugSideDeath, frameCount := 10
             frameDuration := round64 (1 / 10), currentFrame := 0, frameTimer := 0
             isPlaying := false, loop := false, totalDuration := 1 } := by decide!
  have hdts : ∀ dt ∈ [(1 : ℚ) / 4, 1 / 4, 1 / 4, 1 / 4, 1 / 4], 0 ≤ dt := by
    intro dt hdt
    simp only [List.mem_cons, List.mem_singleton, List.not_mem_nil, or_false, or_self] at hdt
    rw [hdt]
    norm_num
  have hbig : (1 : ℚ) ≤ 2 ^ 1000 := one_le_pow₀ (by norm_num)
  ⟨hnew, hdts, by norm_num,
    (nonlooping_completion_rounded round64 round64_rounds repoCreepAssets.FirebugSideDeath 1 _
      [1 / 4, 1 / 4, 1 / 4, 1 / 4, 1 / 4] hnew (by decide) (by decide)
      ((div_le_one (pow_pos (by norm_num) _)).mpr hbig) hbig (by norm_num) hdts
      (le_trans (by norm_num : [(1 : ℚ) / 4, 1 / 4, 1 / 4, 1 / 4, 1 / 4].sum ≤ 2 ^ 1)
        (pow_le_pow_right₀ (by norm_num) (by norm_num)))).2.2⟩

/-- At exactly the total duration the rounded timer can fall short of the last advance: the
death clock after `Play()` and four calls `Update(0.25)` is at frame 9 and still playing; the
fifth call stops it. -/
theorem death_clock_after_one_second :
    (deathClock64.bind (F64.runUpdates round64 10 [1 / 4, 1 / 4, 1 / 4, 1 / 4])).map
        (fun a => (a.currentFrame, a.isPlaying)) = some (9, true) ∧
      (deathClock64.bind (F64.runUpdates round64 10 [1 / 4, 1 / 4, 1 / 4, 1 / 4, 1 / 4])).map
        (fun a => (a.currentFrame, a.isPlaying)) = some (9, false) := by
  constructor <;> decide!

/-- C2, counterexample (with `float64` rounding). A one-frame non-looping clock of one second
started with `Play()` is still playing after `Update(1.0)`, which covers its whole duration; and
the ten-frame one-second death clock after `Play()` and four calls `Update(0.25)`, whose
durations sum to exactly the total duration, is on frame 9 and still playing. -/
theorem nonlooping_completion_counterexample :
    ((F64.startedSprite round64 [7] 1 false).bind (F64.runUpdates round64 10 [1])).map
        (fun a => (a.currentFrame, a.frameCount, a.isPlaying)) = some (0, 1, true) ∧
      ([(1 : ℚ) / 4, 1 / 4, 1 / 4, 1 / 4].map round64).sum = 1 ∧
      (deathClock64.bind (F64.runUpdates round64 10 [1 / 4, 1 / 4, 1 / 4, 1 / 4])).map
        (fun a => (a.currentFrame, a.frameCount, a.isPlaying)) = some (9, 10, true) := by
  refine ⟨by decide!, by decide!, by decide!⟩

/-! ## The creep that stops on a waypoint -/

namespace F64

theorem Creep.installAnimation_same (fl : ℚ → ℚ) (frames : List Image) (len : ℚ) (loop : Bool)
    (c c1 : Creep) (h : Creep.installAnimation fl frames len loop c = .ok c1) :
    c.SameWalk c1 := by
  unfold Creep.installAnimation at h
  split at h
  · cases h
  · simp only [Except.ok.injEq] at h
    subst h
    exact ⟨rfl, rfl, rfl, rfl, rfl, rfl, rfl⟩

theorem Creep.setAnimation_same (fl : ℚ → ℚ) (A : CreepAssets) (c c1 : Creep)
    (h : Creep.setAnimation fl A c = .ok c1) : c.SameWalk c1 := by
  unfold Creep.setAnimation at h
  split at h
  · exact Creep.installAnimation_same fl _ _ _ c c1 h
  · split_ifs at h
    · exact Creep.installAnimation_same fl _ _ _ c c1 h
    · simp only [Except.ok.injEq] at h
      subst h
      exact ⟨rfl, rfl, rfl, rfl, rfl, rfl, rfl⟩

theorem Creep.animate_same (fl : ℚ → ℚ) (fuel : Nat) (dt : ℚ) (c c1 : Creep)
    (h : Creep.animate fl fuel dt c = .ok c1) : c.SameWalk c1 := by
  unfold Creep.animate at h
  split at h
  · cases h
  · split at h
    · cases h
    · simp only [Except.ok.injEq] at h
      subst h
      exact ⟨rfl, rfl, rfl, rfl, rfl, rfl, rfl⟩

/-- A creep that stands exactly on the waypoint it is heading for is left where it is by
`Update`: the distance is 0 and the guard `if distance > 0` skips the move and the increment
of `PathIndex`. -/
theorem Creep.Update_on_waypoint (fl : ℚ → ℚ) (hfl0 : fl 0 = 0) (A : CreepAssets)
    (hypot : ℚ → ℚ → ℚ) (hh : hypot 0 0 = 0) (fuel : Nat) (dt : ℚ) (height : Int)
    (onEscape onKilled : Bool) (c c1 : Creep) (ev : List CreepEvent) (hx : c.X = 5)
    (hy : c.Y = 0) (hidx : c.PathIndex = 0) (hpath : c.Path = [⟨0, 0⟩, ⟨5, 0⟩])
    (hhealth : 0 < c.Health) (hdying : c.IsDying = false) (hheight : 0 ≤ height)
    (h : Creep.Update fl A hypot fuel dt (some (levelOfSize 5 height)) onEscape onKilled c =
      .ok (c1, ev)) :
    c.SameWalk c1 ∧ ev = [] := by
  unfold Creep.Update at h
  simp only [] at h
  rw [if_neg (by
    rintro ⟨hle, _⟩
    exact absurd hhealth (not_lt.mpr hle))] at h
  rw [if_neg (by rw [hdying]; exact Bool.false_ne_true)] at h
  by_cases hwait : fl (c.Timer + dt) < c.StartDelay
  · rw [if_pos hwait] at h
    split at h
    · cases h
    · rename_i c2 h2
      simp only [Except.ok.injEq, Prod.mk.injEq] at h
      obtain ⟨h3, h4⟩ := h
      subst h3
      exact ⟨Creep.animate_same fl fuel dt { c with Timer := fl (c.Timer + dt) } c2 h2,
        h4.symm⟩
  · rw [if_neg hwait, if_neg (by rw [hpath]; decide)] at h
    have hmove : Creep.move fl hypot dt { c with Timer := fl (c.Timer + dt) } =
        .ok { c with Timer := fl (c.Timer + dt) } := by
      unfold Creep.move
      rw [if_pos (by
        show c.PathIndex < ((c.Path.length : Nat) : Int) - 1
        rw [hidx, hpath]
        decide)]
      unfold Creep.followPath
      rw [if_neg (by
        show ¬ (c.PathIndex + 1 < 0)
        rw [hidx]
        decide)]
      have hget : c.Path[(c.PathIndex + 1).toNat]? = some ⟨5, 0⟩ := by
        rw [hidx, hpath]
        rfl
      simp only [hget, hx, hy]
      norm_num [hfl0, hh]
    rw [hmove] at h
    simp only [] at h
    have hesc : TowerDefense.Creep.hasEscaped (some (levelOfSize 5 height))
        { c with Timer := fl (c.Timer + dt) } = false := by
      have hq : (0 : ℚ) ≤ (height : ℚ) := by exact_mod_cast hheight
      simp only [TowerDefense.Creep.hasEscaped, levelOfSize, hx, hy, decide_eq_false_iff_not]
      push_neg
      refine ⟨by norm_num, by norm_num, by norm_num, ?_⟩
      exact_mod_cast hq
    rw [if_neg (by rw [hesc]; exact Bool.false_ne_true)] at h
    split at h
    · cases h
    · rename_i c2 h2
      split at h
      · cases h
      · rename_i c3 h3
        simp only [Except.ok.injEq, Prod.mk.injEq] at h
        obtain ⟨h4, h5⟩ := h
        subst h4
        obtain ⟨a1, a2, a3, a4, a5, a6, a7⟩ :=
          Creep.setAnimation_same fl A { c with Timer := fl (c.Timer + dt) } c2 h2
        obtain ⟨b1, b2, b3, b4, b5, b6, b7⟩ := Creep.animate_same fl fuel dt c2 c3 h3
        exact ⟨⟨b1.trans a1, b2.trans a2, b3.trans a3, b4.trans a4, b5.trans a5, b6.trans a6,
          b7.trans a7⟩, h5.symm⟩

end F64

/-- C7, evaluation at the failing input (with `float64` rounding). The creep of the scenario,
speed 2, path `[(0,0),(5,0)]`, on a 5 by 5 map, with `Update(0.017)`, `Update(2.367)` and
`Update(0.116)`: the three `float64` time steps sum to exactly 2.5. In the third call
`moveDistance = 0.232` is below the remaining distance `0.2320000000000002`, so the creep moves
part way, and `X + moveDistance` rounds to exactly 5: the creep stands on the waypoint with
`PathIndex = 0`. From such a state every further `Update`, whatever its time step, the loop
fuel and the callbacks, leaves position and `PathIndex` unchanged and makes no callback: the
creep never reaches `PathIndex = 1`, never moves on and never escapes. -/
theorem creep_sticks_at_waypoint :
    round64 (17 / 1000) + round64 (2367 / 1000) + round64 (116 / 1000) = 5 / 2 ∧
      Creep.outcome
          (F64.Creep.updates round64 repoCreepAssets axisHypot 20 (some (levelOfSize 5 5)) true
            true [round64 (17 / 1000), round64 (2367 / 1000), round64 (116 / 1000)]
            scenarioCreep64) =
        some { X := 5, Y := 0, PathIndex := 0, Active := true, IsDying := false, Health := 20
               events := [] } ∧
      Creep.outcome
          (F64.Creep.updates round64 repoCreepAssets axisHypot 20 (some (levelOfSize 5 5)) true
            true [round64 (17 / 1000), round64 (2367 / 1000), round64 (116 / 1000), 1 / 2, 1]
            scenarioCreep64) =
        some { X := 5, Y := 0, PathIndex := 0, Active := true, IsDying := false, Health := 20
               events := [] } ∧
      ∀ (A : CreepAssets) (fuel : Nat) (dt : ℚ) (height : Int) (onEscape onKilled : Bool)
        (c c1 : Creep) (ev : List CreepEvent),
        c.X = 5 → c.Y = 0 → c.PathIndex = 0 → c.Path = [⟨0, 0⟩, ⟨5, 0⟩] → 0 < c.Health →
        c.IsDying = false → 0 ≤ height →
        F64.Creep.Update round64 A axisHypot fuel dt (some (levelOfSize 5 height)) onEscape
          onKilled c = .ok (c1, ev) →
        c1.X = 5 ∧ c1.Y = 0 ∧ c1.PathIndex = 0 ∧ c1.Path = [⟨0, 0⟩, ⟨5, 0⟩] ∧
          0 < c1.Health ∧ c1.IsDying = false ∧ c1.Active = c.Active ∧ ev = [] := by
  refine ⟨by decide!, by decide!, by decide!, ?_⟩
  intro A fuel dt height onEscape onKilled c c1 ev hx hy hidx hpath hhealth hdying hheight h
  obtain ⟨⟨a1, a2, a3, a4, a5, a6, a7⟩, hev⟩ :=
    F64.Creep.Update_on_waypoint round64 round64_zero A axisHypot
      (by norm_num [axisHypot]) fuel dt height onEscape onKilled c c1 ev hx hy hidx hpath
      hhealth hdying hheight h
  exact ⟨a1.trans hx, a2.trans hy, a3.trans hidx, a4.trans hpath, by rw [a5]; exact hhealth,
    a6.trans hdying, a7, hev⟩

/-! ## The angle loops under float64 rounding -/

theorem subnormal_tiny : (1 : ℚ) / 2 ^ 1075 ≤ 1 / 2 ^ 53 := by
  have hpow : (2 : ℚ) ^ 1075 = 2 ^ 53 * 2 ^ 1022 := by rw [← pow_add]
  have hP : (1 : ℚ) ≤ 2 ^ 1022 := one_le_pow₀ (by norm_num)
  rw [hpow]
  generalize (2 : ℚ) ^ 1022 = P at hP
  have h53 : (0 : ℚ) < 2 ^ 53 := by norm_num
  rw [div_le_div_iff₀ (mul_pos h53 (by linarith)) h53]
  nlinarith

/-- A rounded value of magnitude at most `2^20` is within `2^-32` of the exact one. -/
theorem Rounds.near {fl : ℚ → ℚ} (hfl : Rounds fl) (x : ℚ) (hx : |x| ≤ 2 ^ 20) :
    |fl x - x| ≤ 1 / 2 ^ 32 := by
  have h := (hfl x).1
  have ht := subnormal_tiny
  generalize (1 : ℚ) / 2 ^ 1075 = η at h ht
  have h2 : |x| / 2 ^ 53 ≤ 2 ^ 20 / 2 ^ 53 := div_le_div_of_nonneg_right hx (by norm_num)
  norm_num at h2 ht ⊢
  linarith

namespace F64

theorem wrapAbovePi_rounded (fl : ℚ → ℚ) (hfl : Rounds fl) (pi : ℚ) (hpi1 : 1 ≤ pi)
    (hpi4 : pi ≤ 4) (fuel : Nat) (x : ℚ) (hx : x ≤ 2 ^ 20) (hfuel : x ≤ pi + fuel * pi) :
    ∃ y, wrapAbovePi fl pi fuel x = some y ∧ y ≤ pi ∧ min x (-(2 * pi)) ≤ y := by
  induction fuel generalizing x with
  | zero =>
    have hle : x ≤ pi := by
      simp only [Nat.cast_zero, zero_mul, add_zero] at hfuel
      exact hfuel
    exact ⟨x, by simp only [wrapAbovePi, if_neg (not_lt.mpr hle)], hle, min_le_left _ _⟩
  | succ fuel ih =>
    by_cases hgt : x > pi
    · have hz : |x - 2 * pi| ≤ 2 ^ 20 := by
        rw [abs_le]
        constructor <;> norm_num at hx ⊢ <;> linarith
      have hn := abs_le.mp (hfl.near _ hz)
      norm_num at hn
      obtain ⟨hn1, hn2⟩ := hn
      push_cast at hfuel
      obtain ⟨y, hy, hy1, hy2⟩ := ih (fl (x - 2 * pi)) (by norm_num at hx ⊢; linarith)
        (by linarith)
      refine ⟨y, by simp only [wrapAbovePi, if_pos hgt, hy], hy1, ?_⟩
      have h1 : -(2 * pi) ≤ fl (x - 2 * pi) := by linarith
      exact le_trans (min_le_right _ _) (le_trans (le_min h1 (le_refl _)) hy2)
    · exact ⟨x, by simp only [wrapAbovePi, if_neg hgt], not_lt.mp hgt, min_le_left _ _⟩

theorem wrapBelowPi_rounded (fl : ℚ → ℚ) (hfl : Rounds fl) (pi : ℚ) (hpi1 : 1 ≤ pi)
    (hpi4 : pi ≤ 4) (fuel : Nat) (x : ℚ) (hx : -(2 ^ 20) ≤ x)
    (hfuel : -(pi + fuel * pi) ≤ x) :
    ∃ y, wrapBelowPi fl pi fuel x = some y ∧ -pi ≤ y ∧ y ≤ max x (2 * pi) := by
  induction fuel generalizing x with
  | zero =>
    have hle : -pi ≤ x := by
      simp only [Nat.cast_zero, zero_mul, add_zero] at hfuel
      exact hfuel
    exact ⟨x, by simp only [wrapBelowPi, if_neg (not_lt.mpr hle)], hle, le_max_left _ _⟩
  | succ fuel ih =>
    by_cases hlt : x < -pi
    · have hz : |x + 2 * pi| ≤ 2 ^ 20 := by
        rw [abs_le]
        constructor <;> norm_num at hx ⊢ <;> linarith
      have hn := abs_le.mp (hfl.near _ hz)
      norm_num at hn
      obtain ⟨hn1, hn2⟩ := hn
      push_cast at hfuel
      obtain ⟨y, hy, hy1, hy2⟩ := ih (fl (x + 2 * pi)) (by norm_num at hx ⊢; linarith)
        (by linarith)
      refine ⟨y, by simp only [wrapBelowPi, if_pos hlt, hy], hy1, ?_⟩
      have h1 : fl (x + 2 * pi) ≤ 2 * pi := by linarith
      exact le_trans hy2 (le_trans (max_le h1 (le_refl _)) (le_max_right _ _))
    · exact ⟨x, by simp only [wrapBelowPi, if_neg hlt], not_lt.mp hlt, le_max_left _ _⟩

/-- With `1 ≤ pi ≤ 4` and fuel for `|x| / pi` iterations, the two normalisation loops return a
value between `-pi` and `2 pi`. -/
theorem normalizeAngle_rounded (fl : ℚ → ℚ) (hfl : Rounds fl) (pi : ℚ) (hpi1 : 1 ≤ pi)
    (hpi4 : pi ≤ 4) (fuel : Nat) (x : ℚ) (hx : |x| ≤ 2 ^ 12) (hfuel : 2 ^ 12 ≤ fuel) :
    ∃ y, normalizeAngle fl pi fuel x = some y ∧ -pi ≤ y ∧ y ≤ 2 * pi := by
  obtain ⟨hx1, hx2⟩ := abs_le.mp hx
  have hf : (2 : ℚ) ^ 12 ≤ (fuel : ℚ) := by exact_mod_cast hfuel
  have hfp : (2 : ℚ) ^ 12 ≤ (fuel : ℚ) * pi := by nlinarith
  obtain ⟨y1, h1, h1a, h1b⟩ := wrapAbovePi_rounded fl hfl pi hpi1 hpi4 fuel x
    (by norm_num at hx2 ⊢; linarith) (by linarith)
  have hy1 : -(2 ^ 12) ≤ y1 := by
    refine le_trans (le_min hx1 ?_) h1b
    norm_num
    linarith
  obtain ⟨y, h2, h2a, h2b⟩ := wrapBelowPi_rounded fl hfl pi hpi1 hpi4 fuel y1
    (by norm_num at hy1 ⊢; linarith) (by linarith)
  refine ⟨y, by simp only [normalizeAngle, h1, h2], h2a, le_trans h2b (max_le ?_ (le_refl _))⟩
  linarith

theorem rotationStep_rounded (fl : ℚ → ℚ) (hfl : Rounds fl) (dt δ : ℚ) (hdt : 0 ≤ dt) :
    |rotationStep fl dt δ| ≤ fl (weaponRotationSpeed * dt) := by
  have h0 : 0 ≤ fl (weaponRotationSpeed * dt) :=
    (hfl _).2 (mul_nonneg (by norm_num [weaponRotationSpeed]) hdt)
  unfold rotationStep
  simp only
  split_ifs with h1 h2
  · rw [abs_of_nonneg h0]
  · rw [abs_neg, abs_of_nonneg h0]
  · exact not_lt.mp h1

/-- The weapon-rotation block returns, and keeps the heading between `-Pi` and `2 Pi`. -/
theorem aim_rounded (fl : ℚ → ℚ) (hfl : Rounds fl) (M : GoMath) (hpi1 : 1 ≤ M.Pi)
    (hpi4 : M.Pi ≤ 4) (hatan : ∀ y x, |M.Atan2 y x| ≤ M.Pi) (fuel : Nat)
    (hfuel : 2 ^ 12 ≤ fuel) (dt : ℚ) (hdt : 0 ≤ dt) (hdt8 : dt ≤ 2 ^ 8) (nearest : Creep)
    (t : PlacedTower) (ha1 : -M.Pi ≤ t.WeaponAngle) (ha2 : t.WeaponAngle ≤ 2 * M.Pi) :
    ∃ angle, PlacedTower.aim fl M fuel dt nearest t = .ok { t with WeaponAngle := angle } ∧
      -M.Pi ≤ angle ∧ angle ≤ 2 * M.Pi := by
  obtain ⟨hat1, hat2⟩ := abs_le.mp (hatan
    (fl (nearest.Y - PlacedTower.centerY fl t)) (fl (nearest.X - PlacedTower.centerX fl t)))
  have hz1 : |M.Atan2 (fl (nearest.Y - PlacedTower.centerY fl t))
      (fl (nearest.X - PlacedTower.centerX fl t)) - t.WeaponAngle| ≤ 2 ^ 20 := by
    rw [abs_le]
    constructor <;> norm_num <;> linarith
  obtain ⟨hn1, hn2⟩ := abs_le.mp (hfl.near _ hz1)
  norm_num at hn1 hn2
  obtain ⟨δ, hδ, _, _⟩ := normalizeAngle_rounded fl hfl M.Pi hpi1 hpi4 fuel
    (fl (M.Atan2 (fl (nearest.Y - PlacedTower.centerY fl t))
      (fl (nearest.X - PlacedTower.centerX fl t)) - t.WeaponAngle))
    (by
      rw [abs_le]
      constructor <;> norm_num <;> linarith) hfuel
  have hr := rotationStep_rounded fl hfl dt δ hdt
  have h3dt : |weaponRotationSpeed * dt| ≤ 2 ^ 20 := by
    rw [abs_of_nonneg (mul_nonneg (by norm_num [weaponRotationSpeed]) hdt)]
    norm_num [weaponRotationSpeed] at hdt8 ⊢
    linarith
  obtain ⟨hm1, hm2⟩ := abs_le.mp (hfl.near _ h3dt)
  obtain ⟨hr1, hr2⟩ := abs_le.mp hr
  norm_num [weaponRotationSpeed] at hm1 hm2 hr1 hr2 hdt8
  have hz2 : |t.WeaponAngle + rotationStep fl dt δ| ≤ 2 ^ 20 := by
    rw [abs_le]
    constructor <;> norm_num [weaponRotationSpeed] <;> linarith
  obtain ⟨hk1, hk2⟩ := abs_le.mp (hfl.near _ hz2)
  norm_num at hk1 hk2
  obtain ⟨angle, hangle, hb1, hb2⟩ := normalizeAngle_rounded fl hfl M.Pi hpi1 hpi4 fuel
    (fl (t.WeaponAngle + rotationStep fl dt δ))
    (by
      rw [abs_le]
      constructor <;> norm_num [weaponRotationSpeed] <;> linarith) hfuel
  refine ⟨angle, ?_, hb1, hb2⟩
  simp only [PlacedTower.aim, hδ, hangle]

end F64

/-! ## One tick of a single Ballista tower under float64 rounding -/

namespace F64

theorem fireTowerWeapon_ballista_rounded (fl : ℚ → ℚ) (TA : TowerAssets) (c : Creep)
    (u : PlacedTower) (hid : u.TowerID = BallistaTowerID)
    (hlen : TA.BallistaWeaponFire.length > 0) :
    TowerManager.fireTowerWeapon fl TA c u =
      { u with
        FireTimer := fireDelay
        TargetX := c.X
        TargetY := c.Y
        FiringAnimation := startedSprite fl TA.BallistaWeaponFire fireAnimationDuration false
        WeaponFired := true } := by
  simp only [TowerManager.fireTowerWeapon, hid, if_true, if_pos hlen]

theorem fireTowerWeapon_keeps (fl : ℚ → ℚ) (TA : TowerAssets) (c : Creep) (u : PlacedTower) :
    (TowerManager.fireTowerWeapon fl TA c u).TowerID = u.TowerID ∧
      (TowerManager.fireTowerWeapon fl TA c u).IdleAnimation = u.IdleAnimation ∧
      (TowerManager.fireTowerWeapon fl TA c u).WeaponAngle = u.WeaponAngle := by
  unfold TowerManager.fireTowerWeapon
  simp only
  split_ifs <;> exact ⟨rfl, rfl, rfl⟩

/-- The targeting part returns for a Ballista tower; it keeps the heading between `-Pi` and
`2 Pi`, and while the cooldown is positive it does not fire. -/
theorem engage_rounded (fl : ℚ → ℚ) (hfl : Rounds fl) (M : GoMath) (hpi1 : 1 ≤ M.Pi)
    (hpi4 : M.Pi ≤ 4) (hatan : ∀ y x, |M.Atan2 y x| ≤ M.Pi) (TA : TowerAssets) (fuel : Nat)
    (hfuel : 2 ^ 12 ≤ fuel) (dt : ℚ) (hdt : 0 ≤ dt) (hdt8 : dt ≤ 2 ^ 8) (creeps : List Creep)
    (t : PlacedTower) (hid : t.TowerID = BallistaTowerID) (ha1 : -M.Pi ≤ t.WeaponAngle)
    (ha2 : t.WeaponAngle ≤ 2 * M.Pi) :
    ∃ t3, TowerManager.engage fl M TA fuel dt creeps t = .ok t3 ∧ t3.TowerID = t.TowerID ∧
      t3.IdleAnimation = t.IdleAnimation ∧ -M.Pi ≤ t3.WeaponAngle ∧
      t3.WeaponAngle ≤ 2 * M.Pi ∧
      (0 < t.FireTimer → t3.FiringAnimation = t.FiringAnimation ∧
        t3.WeaponFired = t.WeaponFired ∧ t3.FireTimer = t.FireTimer) := by
  unfold TowerManager.engage
  cases hw : t.WeaponImage with
  | none => exact ⟨t, rfl, rfl, rfl, ha1, ha2, fun _ => ⟨rfl, rfl, rfl⟩⟩
  | some w =>
    simp only
    cases hn : (PlacedTower.nearestCreep fl M t creeps).1 with
    | none => exact ⟨t, rfl, rfl, rfl, ha1, ha2, fun _ => ⟨rfl, rfl, rfl⟩⟩
    | some nearest =>
      simp only
      have hne : t.TowerID ≠ MagicTowerID := by
        rw [hid]
        decide
      rw [if_pos hne]
      obtain ⟨angle, hangle, hb1, hb2⟩ := aim_rounded fl hfl M hpi1 hpi4 hatan fuel hfuel dt
        hdt hdt8 nearest t ha1 ha2
      rw [hangle]
      simp only
      split_ifs with hc
      · obtain ⟨k1, k2, k3⟩ := fireTowerWeapon_keeps fl TA nearest
          { t with WeaponAngle := angle }
        refine ⟨_, rfl, k1, k2, by rw [k3]; exact hb1, by rw [k3]; exact hb2, fun hpos => ?_⟩
        exact absurd hc.2 (not_le.mpr hpos)
      · exact ⟨_, rfl, rfl, rfl, hb1, hb2, fun _ => ⟨rfl, rfl, rfl⟩⟩

theorem nearestCreep_one (fl : ℚ → ℚ) (M : GoMath) (t : PlacedTower) (c : Creep)
    (hact : c.Active = true) (hlt : PlacedTower.distSq fl t c < M.MaxFloat64) :
    PlacedTower.nearestCreep fl M t [c] = (some c, PlacedTower.distSq fl t c) := by
  unfold PlacedTower.distSq at hlt
  simp only [PlacedTower.nearestCreep, List.foldl, scanStep, Creep.IsActive, hact,
    Bool.true_eq_false, if_false, if_pos hlt, PlacedTower.distSq]

/-- The targeting part fires on the single active creep in range when the cooldown is over. -/
theorem engage_fires_rounded (fl : ℚ → ℚ) (hfl : Rounds fl) (M : GoMath) (hpi1 : 1 ≤ M.Pi)
    (hpi4 : M.Pi ≤ 4) (hatan : ∀ y x, |M.Atan2 y x| ≤ M.Pi) (TA : TowerAssets) (fuel : Nat)
    (hfuel : 2 ^ 12 ≤ fuel) (dt : ℚ) (hdt : 0 ≤ dt) (hdt8 : dt ≤ 2 ^ 8) (c : Creep)
    (t : PlacedTower) (w : Image) (hw : t.WeaponImage = some w)
    (hid : t.TowerID = BallistaTowerID) (ha1 : -M.Pi ≤ t.WeaponAngle)
    (ha2 : t.WeaponAngle ≤ 2 * M.Pi) (hact : c.Active = true)
    (hlt : PlacedTower.distSq fl t c < M.MaxFloat64)
    (hr : M.Sqrt (PlacedTower.distSq fl t c) ≤ towerRange) (hft : t.FireTimer ≤ 0) :
    ∃ angle, TowerManager.engage fl M TA fuel dt [c] t =
        .ok (TowerManager.fireTowerWeapon fl TA c { t with WeaponAngle := angle }) ∧
      -M.Pi ≤ angle ∧ angle ≤ 2 * M.Pi := by
  obtain ⟨angle, hangle, hb1, hb2⟩ := aim_rounded fl hfl M hpi1 hpi4 hatan fuel hfuel dt
    hdt hdt8 c t ha1 ha2
  refine ⟨angle, ?_, hb1, hb2⟩
  have hne : t.TowerID ≠ MagicTowerID := by
    rw [hid]
    decide
  have hcond : M.Sqrt (PlacedTower.distSq fl t c) ≤ towerRange ∧
      ({ t with WeaponAngle := angle } : PlacedTower).FireTimer ≤ 0 := ⟨hr, hft⟩
  simp only [TowerManager.engage, hw, nearestCreep_one fl M t c hact hlt, if_pos hne, hangle,
    if_pos hcond]

theorem tickFireTimer_rounded (fl : ℚ → ℚ) (dt : ℚ) (t : PlacedTower) :
    PlacedTower.tickFireTimer fl dt t =
      { t with
        FireTimer :=
          if t.FireTimer > 0 then (if fl (t.FireTimer - dt) < 0 then 0 else fl (t.FireTimer - dt))
          else t.FireTimer } := by
  unfold PlacedTower.tickFireTimer
  simp only
  split_ifs <;> rfl

theorem tickFiring_none (fl : ℚ → ℚ) (M : GoMath) (TA : TowerAssets) (fuel : Nat) (dt : ℚ)
    (t : PlacedTower) (pm : ProjectileManager) (hfa : t.FiringAnimation = none) :
    TowerManager.tickFiringAnimation fl M TA fuel dt t pm = .ok (t, pm) := by
  simp only [TowerManager.tickFiringAnimation, hfa]

theorem tickFiring_playing (fl : ℚ → ℚ) (M : GoMath) (TA : TowerAssets) (fuel : Nat) (dt : ℚ)
    (t : PlacedTower) (pm : ProjectileManager) (a a1 : AnimatedSprite)
    (hfa : t.FiringAnimation = some a) (hu : AnimatedSprite.Update fl fuel dt a = some a1)
    (hp : a1.isPlaying = true) :
    TowerManager.tickFiringAnimation fl M TA fuel dt t pm =
      .ok ({ t with FiringAnimation := some a1 }, pm) := by
  simp only [TowerManager.tickFiringAnimation, hfa, hu, TowerDefense.AnimatedSprite.IsPlaying,
    hp, Bool.true_eq_false, if_false]

theorem tickFiring_stopped (fl : ℚ → ℚ) (M : GoMath) (TA : TowerAssets) (fuel : Nat) (dt : ℚ)
    (t : PlacedTower) (pm : ProjectileManager) (a a1 : AnimatedSprite)
    (hfa : t.FiringAnimation = some a) (hu : AnimatedSprite.Update fl fuel dt a = some a1)
    (hp : a1.isPlaying = false) (hwf : t.WeaponFired = true) :
    TowerManager.tickFiringAnimation fl M TA fuel dt t pm =
      .ok ({ (TowerManager.spawnProjectileFromTower fl M TA
                { t with FiringAnimation := some a1 } pm).1 with FiringAnimation := none },
        (TowerManager.spawnProjectileFromTower fl M TA
          { t with FiringAnimation := some a1 } pm).2) := by
  simp only [TowerManager.tickFiringAnimation, hfa, hu, TowerDefense.AnimatedSprite.IsPlaying,
    hp, if_true, hwf]

/-- The projectile that `spawnProjectileFromTower` appends for a Ballista tower with a pending
shot, and the tower it leaves. -/
theorem spawn_rounded (fl : ℚ → ℚ) (M : GoMath) (TA : TowerAssets) (t : PlacedTower)
    (pm : ProjectileManager) (hwf : t.WeaponFired = true) (hid : t.TowerID = BallistaTowerID) :
    (TowerManager.spawnProjectileFromTower fl M TA t pm).1 = { t with WeaponFired := false } ∧
      ∃ p, (TowerManager.spawnProjectileFromTower fl M TA t pm).2 =
          { projectiles := pm.projectiles ++ [p] } ∧
        p.Active = true ∧ p.IsImpacting = false ∧ p.ImpactAnimation = none ∧
        p.ProjectileType = BallistaTowerID ∧
        p.Animation =
          if TA.BallistaWeaponProjectileAnimation.length > 0 then
            startedSprite fl TA.BallistaWeaponProjectileAnimation (1 / 2) true
          else none := by
  simp only [TowerManager.spawnProjectileFromTower, hwf, Bool.true_eq_false, if_false, hid,
    ProjectileManager.SpawnProjectile, if_true, true_and]
  exact ⟨_, rfl, rfl, rfl, rfl, rfl, rfl⟩

theorem startImpact_active (fl : ℚ → ℚ) (TA : TowerAssets) (p : Projectile)
    (hty : p.ProjectileType = BallistaTowerID) (himpact : TA.BallisticWeaponImpactAnimation ≠ []) :
    (ProjectileManager.startImpactAnimation fl TA p).Active = p.Active := by
  have hlen : TA.BallisticWeaponImpactAnimation.length > 0 := List.length_pos.mpr himpact
  simp only [ProjectileManager.startImpactAnimation, hty, if_true, if_pos hlen]

theorem advance_active (fl : ℚ → ℚ) (M : GoMath) (TA : TowerAssets) (dt : ℚ) (p : Projectile)
    (hty : p.ProjectileType = BallistaTowerID) (himpact : TA.BallisticWeaponImpactAnimation ≠ []) :
    (ProjectileManager.advance fl M TA dt p).Active = p.Active := by
  unfold ProjectileManager.advance
  simp only
  split_ifs
  · exact startImpact_active fl TA
      { p with X := fl (p.X + fl (p.VelocityX * dt))
               Y := fl (p.Y + fl (p.VelocityY * dt))
               TravelDistance := fl (p.TravelDistance + fl (projectileSpeed * dt))
               Angle := M.Atan2 p.VelocityY p.VelocityX } hty himpact
  · rfl

theorem resolve_fresh (fl : ℚ → ℚ) (M : GoMath) (TA : TowerAssets) (dt : ℚ)
    (creeps : List Creep) (q : Projectile) (hact : q.Active = true)
    (himp : q.ImpactAnimation = none) (hfly : q.IsImpacting = false)
    (hty : q.ProjectileType = BallistaTowerID)
    (himpact : TA.BallisticWeaponImpactAnimation ≠ []) :
    ∃ r cs, ProjectileManager.resolve fl M TA dt creeps q = (some r, cs) := by
  have h1 : TowerDefense.ProjectileManager.keepIfActive
      (ProjectileManager.startImpactAnimation fl TA q) =
        some (ProjectileManager.startImpactAnimation fl TA q) := by
    unfold TowerDefense.ProjectileManager.keepIfActive
    rw [if_pos (by rw [startImpact_active fl TA q hty himpact]; exact hact)]
  have h2 : TowerDefense.ProjectileManager.keepIfActive
      (ProjectileManager.advance fl M TA dt q) =
        some (ProjectileManager.advance fl M TA dt q) := by
    unfold TowerDefense.ProjectileManager.keepIfActive
    rw [if_pos (by rw [advance_active fl M TA dt q hty himpact]; exact hact)]
  unfold ProjectileManager.resolve
  rw [himp, if_neg (by simp only [hasStopped, Bool.false_eq_true, not_false_eq_true]),
    if_pos hfly, h1, h2]
  split_ifs
  · exact ⟨_, _, rfl⟩
  · exact ⟨_, _, rfl⟩

/-- A projectile in the state in which `SpawnProjectile` creates it survives its first
`Update`, provided its flight animation can be advanced. -/
theorem fresh_projectile_kept (fl : ℚ → ℚ) (M : GoMath) (TA : TowerAssets) (fuel : Nat)
    (dt : ℚ) (creeps : List Creep) (p : Projectile) (anim : Option AnimatedSprite)
    (hact : p.Active = true) (himp : p.ImpactAnimation = none) (hfly : p.IsImpacting = false)
    (hty : p.ProjectileType = BallistaTowerID) (himpact : TA.BallisticWeaponImpactAnimation ≠ [])
    (hanim : updateOptional fl fuel dt p.Animation = .ok anim) :
    ∃ q cs, ProjectileManager.Update fl M TA fuel dt creeps { projectiles := [p] } =
      .ok ({ projectiles := [q] }, cs) := by
  obtain ⟨r, cs, hr⟩ := resolve_fresh fl M TA dt creeps
    { p with Animation := anim, ImpactAnimation := none } hact rfl hfly hty himpact
  have key : ProjectileManager.updateOne fl M TA fuel dt creeps p = .ok (some r, cs) := by
    unfold ProjectileManager.updateOne
    rw [if_neg (by rw [hact]; decide), hanim, himp]
    exact congrArg Except.ok hr
  exact ⟨r, cs, by simp only [ProjectileManager.Update, ProjectileManager.updateAll, key]⟩

theorem pmUpdate_nil_rounded (fl : ℚ → ℚ) (M : GoMath) (TA : TowerAssets) (fuel : Nat)
    (dt : ℚ) (creeps : List Creep) :
    ProjectileManager.Update fl M TA fuel dt creeps { projectiles := [] } =
      .ok ({ projectiles := [] }, creeps) := by
  simp only [ProjectileManager.Update, ProjectileManager.updateAll]

/-- A non-looping clock inside its frame range can always be advanced with loop fuel equal to
its frame count, and stays such a clock. -/
theorem Update_nonloop_rounded (fl : ℚ → ℚ) (fuel : Nat) (dt : ℚ) (a : AnimatedSprite)
    (hloop : a.loop = false) (hf0 : 0 ≤ a.currentFrame) (hfn : a.currentFrame < a.frameCount)
    (hfuel : a.frameCount.toNat ≤ fuel) :
    ∃ a1, AnimatedSprite.Update fl fuel dt a = some a1 ∧ a1.loop = false ∧
      a1.frameCount = a.frameCount ∧ 0 ≤ a1.currentFrame ∧
      a1.currentFrame < a1.frameCount := by
  unfold AnimatedSprite.Update
  split_ifs with hc
  · exact ⟨a, rfl, hloop, rfl, hf0, hfn⟩
  · obtain ⟨a1, h1⟩ := advanceFrames_nonloop_total fl fuel
      { a with frameTimer := fl (a.frameTimer + dt) } hloop hfn
      (by show (a.frameCount - a.currentFrame).toNat ≤ fuel; omega)
    obtain ⟨k1, k2, _, k4, k5⟩ := advanceFrames_keeps fl fuel _ a1 h1 hloop hf0 hfn
    exact ⟨a1, h1, k1, k2, k4, k5⟩

/-- A clock at the start of a frame whose frame duration is the rounded `0.5 / n`,
`1 ≤ n ≤ 1024`, can be advanced by a tick of at most 256 seconds. -/
theorem Update_half_second (fl : ℚ → ℚ) (hfl : Rounds fl) (n : ℚ) (hn1 : 1 ≤ n)
    (hn : n ≤ 1024) (fuel : Nat) (hfuel : 2 ^ 22 ≤ fuel) (dt : ℚ) (hdt : 0 ≤ dt)
    (hdt8 : dt ≤ 2 ^ 8) (a : AnimatedSprite) (hta : a.frameTimer = 0)
    (hda : a.frameDuration = fl (1 / 2 / n)) :
    ∃ a1, AnimatedSprite.Update fl fuel dt a = some a1 := by
  unfold AnimatedSprite.Update
  split_ifs with hc
  · exact ⟨a, rfl⟩
  · have hx0 : (0 : ℚ) ≤ 1 / 2 / n := by positivity
    have hx2 : (1 : ℚ) / 2048 ≤ 1 / 2 / n := by
      rw [le_div_iff₀ (by linarith)]
      linarith
    have hx1 : (1 : ℚ) / 2 / n ≤ 1 := by
      rw [div_le_iff₀ (by linarith)]
      linarith
    have hxa : |(1 : ℚ) / 2 / n| ≤ 2 ^ 20 := by
      rw [abs_of_nonneg hx0]
      norm_num
      linarith
    obtain ⟨hd1, hd2⟩ := abs_le.mp (hfl.near _ hxa)
    have hta2 : |a.frameTimer + dt| ≤ 2 ^ 20 := by
      rw [hta, zero_add, abs_of_nonneg hdt]
      norm_num at hdt8 ⊢
      linarith
    obtain ⟨ht1, ht2⟩ := abs_le.mp (hfl.near _ hta2)
    have ht0 : 0 ≤ fl (a.frameTimer + dt) := (hfl _).2 (by rw [hta]; linarith)
    have hf : (2 : ℚ) ^ 22 ≤ (fuel : ℚ) := by exact_mod_cast hfuel
    have hsub := subnormal_tiny
    generalize fl (a.frameTimer + dt) = τ at ht0 ht1 ht2
    rw [hta, zero_add] at ht1 ht2
    generalize 1 / 2 / n = x at hx2 hx1 hd1 hd2 hda
    have hdlow : (1 : ℚ) / 4096 + 1 / 2 ^ 40 ≤ fl x := by
      norm_num at hd1 hx2 ⊢
      linarith
    have hτ : τ ≤ 2 ^ 9 := by
      norm_num at ht2 hdt8 ⊢
      linarith
    refine advanceFrames_fuel fl hfl (fl x) (1 / 2 ^ 40) (2 ^ 9) ?_ ?_ fuel
      { a with frameTimer := τ } hda ht0 hτ ?_
    · generalize (1 : ℚ) / 2 ^ 1075 = η at hsub
      norm_num at hsub ⊢
      linarith
    · generalize fl x = d at hdlow
      norm_num at hdlow ⊢
      linarith
    · show τ < ((fuel : ℚ) + 1) * (fl x - 1 / 2 ^ 40)
      generalize fl x = d at hdlow
      have hpos : (1 : ℚ) / 4096 ≤ d - 1 / 2 ^ 40 := by linarith
      have hmul : ((2 : ℚ) ^ 22 + 1) * (1 / 4096) ≤ ((fuel : ℚ) + 1) * (d - 1 / 2 ^ 40) :=
        mul_le_mul (by linarith) hpos (by norm_num) (by linarith)
      norm_num at hmul hτ ⊢
      linarith

/-- The flight animation of a new projectile (half a second, looping, at most 1024 frames) can
be advanced by a tick of at most 256 seconds. -/
theorem flight_clock_rounded (fl : ℚ → ℚ) (hfl : Rounds fl) (frames : List Image)
    (hlen : frames.length ≤ 1024) (fuel : Nat) (hfuel : 2 ^ 22 ≤ fuel) (dt : ℚ) (hdt : 0 ≤ dt)
    (hdt8 : dt ≤ 2 ^ 8) :
    ∃ r, updateOptional fl fuel dt
      (if frames.length > 0 then startedSprite fl frames (1 / 2) true else none) = .ok r := by
  by_cases h0 : frames.length > 0
  · rw [if_pos h0]
    have hne : frames.length ≠ 0 := by omega
    obtain ⟨a1, h1⟩ := Update_half_second fl hfl (frames.length : ℚ) (by exact_mod_cast h0)
      (by exact_mod_cast hlen) fuel hfuel dt hdt hdt8
      (TowerDefense.AnimatedSprite.Play
        { frames := frames, frameCount := (frames.length : Int)
          frameDuration := fl (1 / 2 / (frames.length : ℚ)), currentFrame := 0, frameTimer := 0
          isPlaying := false, loop := true, totalDuration := 1 / 2 }) rfl rfl
    refine ⟨some a1, ?_⟩
    simp only [startedSprite, NewAnimatedSprite, if_neg hne, Option.map_some', updateOptional,
      h1]
  · rw [if_neg h0]
    exact ⟨none, rfl⟩

end F64

/-! ## The firing cycle under float64 rounding -/

namespace F64

theorem UpdatePlacedTowers_one (fl : ℚ → ℚ) (M : GoMath) (TA : TowerAssets) (fuel : Nat)
    (dt : ℚ) (creeps cs : List Creep) (tm : TowerManager) (t t3 : PlacedTower)
    (pm1 pm2 : ProjectileManager) (hts : tm.placedTowers = [t])
    (h1 : TowerManager.updateTower fl M TA fuel dt creeps t tm.projectileManager =
      .ok (t3, pm1))
    (h2 : ProjectileManager.Update fl M TA fuel dt creeps pm1 = .ok (pm2, cs)) :
    TowerManager.UpdatePlacedTowers fl M TA fuel dt creeps tm =
      .ok ({ tm with placedTowers := [t3], projectileManager := pm2 }, cs) := by
  simp only [TowerManager.UpdatePlacedTowers, hts, TowerManager.updateTowers, h1, h2]

theorem updateTower_ok (fl : ℚ → ℚ) (M : GoMath) (TA : TowerAssets) (fuel : Nat) (dt : ℚ)
    (creeps : List Creep) (t t1 t3 : PlacedTower) (pm pm1 : ProjectileManager)
    (h1 : TowerManager.tickFiringAnimation fl M TA fuel dt
      (PlacedTower.tickFireTimer fl dt t) pm = .ok (t1, pm1))
    (h2 : t1.IdleAnimation = none)
    (h3 : TowerManager.engage fl M TA fuel dt creeps t1 = .ok t3) :
    TowerManager.updateTower fl M TA fuel dt creeps t pm = .ok (t3, pm1) := by
  have e : ({ t1 with IdleAnimation := none } : PlacedTower) = t1 := by
    cases t1
    cases h2
    rfl
  simp only [TowerManager.updateTower, h1, PlacedTower.tickIdleAnimation, h2, updateOptional, e,
    h3]

theorem projectiles_nil (pm : ProjectileManager) (h : pm.projectiles = []) :
    pm = { projectiles := [] } := by
  cases pm
  cases h
  rfl

/-- One tick of a manager with a pending shot. The firing animation can be advanced; if it
still plays and the cooldown stays positive the shot is still pending afterwards, and if it has
stopped the tick leaves exactly one projectile. -/
theorem armed_tick (fl : ℚ → ℚ) (hfl : Rounds fl) (M : GoMath) (hpi1 : 1 ≤ M.Pi)
    (hpi4 : M.Pi ≤ 4) (hatan : ∀ y x, |M.Atan2 y x| ≤ M.Pi) (TA : TowerAssets)
    (himpact : TA.BallisticWeaponImpactAnimation ≠ [])
    (hflight : TA.BallistaWeaponProjectileAnimation.length ≤ 1024) (fuel : Nat)
    (hfuel : 2 ^ 22 ≤ fuel) (dt : ℚ) (hdt : 0 ≤ dt) (hdt8 : dt ≤ 2 ^ 8) (creeps : List Creep)
    (tm : TowerManager) (a : AnimatedSprite) (ft : ℚ) (harm : ShotArmed M a ft tm)
    (hft : 0 < ft) (hloop : a.loop = false) (hf0 : 0 ≤ a.currentFrame)
    (hfn : a.currentFrame < a.frameCount) (hcnt : a.frameCount.toNat ≤ fuel) :
    ∃ a1, AnimatedSprite.Update fl fuel dt a = some a1 ∧ a1.loop = false ∧
      a1.frameCount = a.frameCount ∧ 0 ≤ a1.currentFrame ∧ a1.currentFrame < a1.frameCount ∧
      (a1.isPlaying = true → 0 < fl (ft - dt) →
        ∃ tm1 cs, TowerManager.UpdatePlacedTowers fl M TA fuel dt creeps tm = .ok (tm1, cs) ∧
          ShotArmed M a1 (fl (ft - dt)) tm1) ∧
      (a1.isPlaying = false →
        ∃ tm1 cs p, TowerManager.UpdatePlacedTowers fl M TA fuel dt creeps tm = .ok (tm1, cs) ∧
          tm1.projectileManager.projectiles = [p]) := by
  obtain ⟨hproj, t, hts, hid, hwf, hfa, hidle, hftE, ha1, ha2⟩ := harm
  obtain ⟨a1, hu, k1, k2, k3, k4⟩ := Update_nonloop_rounded fl fuel dt a hloop hf0 hfn hcnt
  have hfuel12 : 2 ^ 12 ≤ fuel := le_trans (by norm_num) hfuel
  have hpm := projectiles_nil _ hproj
  have e0 := tickFireTimer_rounded fl dt t
  refine ⟨a1, hu, k1, k2, k3, k4, fun hp hpos => ?_, fun hp => ?_⟩
  · have hfire := tickFiring_playing fl M TA fuel dt (PlacedTower.tickFireTimer fl dt t)
      tm.projectileManager a a1 (by rw [e0]; exact hfa) hu hp
    obtain ⟨t3, heng, g1, g2, g3, g4, g5⟩ := engage_rounded fl hfl M hpi1 hpi4 hatan TA fuel
      hfuel12 dt hdt hdt8 creeps
      { PlacedTower.tickFireTimer fl dt t with FiringAnimation := some a1 }
      (by rw [e0]; exact hid) (by rw [e0]; exact ha1) (by rw [e0]; exact ha2)
    have hft1 : ({ PlacedTower.tickFireTimer fl dt t with
        FiringAnimation := some a1 } : PlacedTower).FireTimer = fl (ft - dt) := by
      rw [e0]
      show (if t.FireTimer > 0 then (if fl (t.FireTimer - dt) < 0 then 0
        else fl (t.FireTimer - dt)) else t.FireTimer) = fl (ft - dt)
      rw [hftE, if_pos hft, if_neg (not_lt.mpr hpos.le)]
    obtain ⟨g6, g7, g8⟩ := g5 (by rw [hft1]; exact hpos)
    have hut := updateTower_ok fl M TA fuel dt creeps t _ t3 _ _ hfire
      (by rw [e0]; exact hidle) heng
    have hall := UpdatePlacedTowers_one fl M TA fuel dt creeps creeps tm t t3 _ _ hts hut
      (by rw [hpm]; exact pmUpdate_nil_rounded fl M TA fuel dt creeps)
    refine ⟨_, _, hall, rfl, t3, rfl, ?_, ?_, ?_, ?_, ?_, g3, g4⟩
    · rw [g1, e0]
      exact hid
    · rw [g7, e0]
      exact hwf
    · rw [g6]
    · rw [g2, e0]
      exact hidle
    · rw [g8, hft1]
  · have hwf0 : (PlacedTower.tickFireTimer fl dt t).WeaponFired = true := by
      rw [e0]
      exact hwf
    have hfire := tickFiring_stopped fl M TA fuel dt (PlacedTower.tickFireTimer fl dt t)
      tm.projectileManager a a1 (by rw [e0]; exact hfa) hu hp hwf0
    obtain ⟨s1, p, s2, p1, p2, p3, p4, p5⟩ := spawn_rounded fl M TA
      { PlacedTower.tickFireTimer fl dt t with FiringAnimation := some a1 }
      tm.projectileManager hwf0 (by rw [e0]; exact hid)
    obtain ⟨t3, heng, _⟩ := engage_rounded fl hfl M hpi1 hpi4 hatan TA fuel
      hfuel12 dt hdt hdt8 creeps
      { (TowerManager.spawnProjectileFromTower fl M TA
          { PlacedTower.tickFireTimer fl dt t with FiringAnimation := some a1 }
          tm.projectileManager).1 with FiringAnimation := none }
      (by rw [s1, e0]; exact hid) (by rw [s1, e0]; exact ha1) (by rw [s1, e0]; exact ha2)
    have hut := updateTower_ok fl M TA fuel dt creeps t _ t3 _ _ hfire
      (by rw [s1, e0]; exact hidle) heng
    obtain ⟨r, hr⟩ := flight_clock_rounded fl hfl TA.BallistaWeaponProjectileAnimation hflight
      fuel hfuel dt hdt hdt8
    rw [← p5] at hr
    obtain ⟨q, cs, hq⟩ := fresh_projectile_kept fl M TA fuel dt creeps p r p1 p3 p2 p4 himpact hr
    have hall := UpdatePlacedTowers_one fl M TA fuel dt creeps cs tm t t3 _ _ hts hut
      (by rw [s2, hproj, List.nil_append]; exact hq)
    exact ⟨_, cs, q, hall, rfl⟩

end F64

namespace F64

theorem tickFireTimer_idle (fl : ℚ → ℚ) (dt : ℚ) (t : PlacedTower) (h : t.FireTimer ≤ 0) :
    PlacedTower.tickFireTimer fl dt t = t := by
  unfold PlacedTower.tickFireTimer
  rw [if_neg (not_lt.mpr h)]

theorem newPlacedTower_ballista (fl : ℚ → ℚ) (M : GoMath) (TA : TowerAssets) (col row : Int)
    (img : Image) (hlen : TA.BallistaWeaponFire.length > 0) :
    TowerManager.newPlacedTower fl M TA col row BallistaTowerID img =
      { Image := some img, X := col, Y := row, TowerID := BallistaTowerID, Damage := 50
        WeaponImage := TA.BallistaWeaponFire[0]?, WeaponAngle := -M.Pi / 2, FireTimer := 0
        FiringAnimation := none, IdleAnimation := none, WeaponFired := false, TargetX := 0
        TargetY := 0 } := by
  unfold TowerManager.newPlacedTower
  simp only
  rw [if_neg (fun h => absurd h.1 (by decide)), if_pos ⟨trivial, hlen⟩]

theorem placeTower_ballista (fl : ℚ → ℚ) (M : GoMath) (TA : TowerAssets) (col row : Int) :
    TowerManager.placeTower fl M TA col row BallistaTowerID (NewTowerManager TA) =
      { NewTowerManager TA with
        placedTowers :=
          [TowerManager.newPlacedTower fl M TA col row BallistaTowerID TA.BallistaTower] } := by
  simp only [TowerManager.placeTower, TowerDefense.TowerManager.getTowerImage, if_true,
    NewTowerManager, List.nil_append]

theorem startedSprite_some (fl : ℚ → ℚ) (frames : List Image) (T : ℚ) (loop : Bool)
    (hlen : frames.length > 0) :
    ∃ as0, NewAnimatedSprite fl frames T loop = some as0 ∧
      startedSprite fl frames T loop = some as0.Play ∧ as0.loop = loop ∧
      as0.frameCount = (frames.length : Int) := by
  have hne : frames.length ≠ 0 := by omega
  refine ⟨{ frames := frames, frameCount := (frames.length : Int)
            frameDuration := fl (T / (frames.length : ℚ)), currentFrame := 0, frameTimer := 0
            isPlaying := false, loop := loop, totalDuration := T },
    by simp only [NewAnimatedSprite, if_neg hne], ?_, rfl, rfl⟩
  simp only [startedSprite, NewAnimatedSprite, if_neg hne, Option.map_some']

/-- The first tick of a freshly placed Ballista tower with an active creep in range: the tick
returns, the tower fires and the shot is pending. -/
theorem first_tick_rounded (fl : ℚ → ℚ) (hfl : Rounds fl) (M : GoMath) (hpi1 : 1 ≤ M.Pi)
    (hpi4 : M.Pi ≤ 4) (hatan : ∀ y x, |M.Atan2 y x| ≤ M.Pi) (TA : TowerAssets) (fuel : Nat)
    (hfuel : 2 ^ 12 ≤ fuel) (dt : ℚ) (hdt : 0 ≤ dt) (hdt8 : dt ≤ 2 ^ 8) (col row : Int)
    (c : Creep) (hfire : 2 ≤ TA.BallistaWeaponFire.length) (hact : c.Active = true)
    (hnear : ∀ t ∈ (TowerManager.placeTower fl M TA col row BallistaTowerID
        (NewTowerManager TA)).placedTowers,
      PlacedTower.distSq fl t c < M.MaxFloat64 ∧
        M.Sqrt (PlacedTower.distSq fl t c) ≤ towerRange) :
    ∃ tm1 as0, TowerManager.UpdatePlacedTowers fl M TA fuel dt [c]
        (TowerManager.placeTower fl M TA col row BallistaTowerID (NewTowerManager TA)) =
          .ok (tm1, [c]) ∧
      NewAnimatedSprite fl TA.BallistaWeaponFire fireAnimationDuration false = some as0 ∧
      as0.loop = false ∧ as0.frameCount = (TA.BallistaWeaponFire.length : Int) ∧
      ShotArmed M as0.Play fireDelay tm1 := by
  have hlen : TA.BallistaWeaponFire.length > 0 := by omega
  obtain ⟨as0, hnew, hstart, hl, hc⟩ :=
    startedSprite_some fl TA.BallistaWeaponFire fireAnimationDuration false hlen
  have hrec := newPlacedTower_ballista fl M TA col row TA.BallistaTower hlen
  rw [placeTower_ballista] at hnear ⊢
  obtain ⟨hlt, hr⟩ := hnear _ (List.mem_singleton.mpr rfl)
  generalize TowerManager.newPlacedTower fl M TA col row BallistaTowerID TA.BallistaTower = t0
    at hrec hlt hr ⊢
  have hft0 : t0.FireTimer = 0 := by rw [hrec]
  have hfa0 : t0.FiringAnimation = none := by rw [hrec]
  have hid0 : t0.TowerID = BallistaTowerID := by rw [hrec]
  have hidle0 : t0.IdleAnimation = none := by rw [hrec]
  have hw0 : t0.WeaponImage = some (TA.BallistaWeaponFire.get ⟨0, hlen⟩) := by
    rw [hrec]
    exact List.getElem?_eq_getElem hlen
  have hang : t0.WeaponAngle = -M.Pi / 2 := by rw [hrec]
  have e0 := tickFireTimer_idle fl dt t0 (le_of_eq hft0)
  have hfire1 := tickFiring_none fl M TA fuel dt t0 { projectiles := [] } hfa0
  obtain ⟨angle, heng, hb1, hb2⟩ := engage_fires_rounded fl hfl M hpi1 hpi4 hatan TA fuel
    hfuel dt hdt hdt8 c t0 _ hw0 hid0 (by rw [hang]; linarith) (by rw [hang]; linarith) hact
    hlt hr (le_of_eq hft0)
  have hut := updateTower_ok fl M TA fuel dt [c] t0 t0 _ { projectiles := [] }
    { projectiles := [] } (by rw [e0]; exact hfire1) hidle0 heng
  have hall := UpdatePlacedTowers_one fl M TA fuel dt [c] [c]
    { NewTowerManager TA with placedTowers := [t0] } t0 _ _ _ rfl hut
    (pmUpdate_nil_rounded fl M TA fuel dt [c])
  have hform := fireTowerWeapon_ballista_rounded fl TA c { t0 with WeaponAngle := angle }
    hid0 hlen
  refine ⟨_, as0, hall, hnew, hl, hc, rfl, _, rfl, ?_, ?_, ?_, ?_, ?_, ?_, ?_⟩
  · rw [hform]
    exact hid0
  · rw [hform]
  · rw [hform]
    exact hstart
  · rw [hform]
    exact hidle0
  · rw [hform]
  · rw [hform]
    exact hb1
  · rw [hform]
    exact hb2

theorem runUpdates_append (fl : ℚ → ℚ) (fuel : Nat) (l1 l2 : List ℚ) (a a1 : AnimatedSprite)
    (h : runUpdates fl fuel l1 a = some a1) :
    runUpdates fl fuel (l1 ++ l2) a = runUpdates fl fuel l2 a1 := by
  induction l1 generalizing a with
  | nil =>
    simp only [runUpdates, Option.some.injEq] at h
    subst h
    rfl
  | cons x rest ih =>
    simp only [runUpdates, List.cons_append] at h ⊢
    split at h
    · cases h
    · rename_i a2 h2
      exact ih a2 h

theorem run_append_one (fl : ℚ → ℚ) (M : GoMath) (TA : TowerAssets) (fuel : Nat)
    (ticks : List (ℚ × List Creep)) (last : ℚ × List Creep) (tm tm2 tm3 : TowerManager)
    (cs : List Creep) (h : TowerManager.run fl M TA fuel ticks tm = .ok tm2)
    (hlast : TowerManager.UpdatePlacedTowers fl M TA fuel last.1 last.2 tm2 = .ok (tm3, cs)) :
    TowerManager.run fl M TA fuel (ticks ++ [last]) tm = .ok tm3 := by
  induction ticks generalizing tm with
  | nil =>
    simp only [TowerManager.run, Except.ok.injEq] at h
    subst h
    simp only [List.nil_append, TowerManager.run, hlast]
  | cons x rest ih =>
    simp only [TowerManager.run, List.cons_append] at h ⊢
    split at h
    · cases h
    · rename_i tm1 cs1 h1
      exact ih tm1 h

theorem sum_take_le (l : List ℚ) (h : ∀ x ∈ l, 0 ≤ x) (k : Nat) : (l.take k).sum ≤ l.sum := by
  induction l generalizing k with
  | nil => simp
  | cons x rest ih =>
    cases k with
    | zero =>
      simp only [List.take_zero, List.sum_nil]
      exact List.sum_nonneg h
    | succ k =>
      simp only [List.take_succ_cons, List.sum_cons]
      have := ih (fun y hy => h y (List.mem_cons_of_mem _ hy)) k
      linarith

/-- A run of ticks from a state with a pending shot, during which the firing animation keeps
playing: every tick returns and the shot is still pending at the end. -/
theorem armed_run (fl : ℚ → ℚ) (hfl : Rounds fl) (M : GoMath) (hpi1 : 1 ≤ M.Pi)
    (hpi4 : M.Pi ≤ 4) (hatan : ∀ y x, |M.Atan2 y x| ≤ M.Pi) (TA : TowerAssets)
    (himpact : TA.BallisticWeaponImpactAnimation ≠ [])
    (hflight : TA.BallistaWeaponProjectileAnimation.length ≤ 1024) (fuel : Nat)
    (hfuel : 2 ^ 22 ≤ fuel) (ticks : List (ℚ × List Creep)) (hdt : ∀ x ∈ ticks, 0 ≤ x.1)
    (tm : TowerManager) (a : AnimatedSprite) (ft : ℚ) (harm : ShotArmed M a ft tm)
    (hloop : a.loop = false) (hf0 : 0 ≤ a.currentFrame) (hfn : a.currentFrame < a.frameCount)
    (hcnt : a.frameCount.toNat ≤ fuel)
    (hplay : ∀ k a1, runUpdates fl fuel ((ticks.take k).map Prod.fst) a = some a1 →
      a1.isPlaying = true)
    (hsum8 : (ticks.map Prod.fst).sum ≤ 2 ^ 8)
    (hlow : (ticks.map Prod.fst).sum + (ticks.length : ℚ) / 2 ^ 32 < ft)
    (hup : ft + (ticks.length : ℚ) / 2 ^ 32 ≤ 2 ^ 10) :
    ∃ tm2 a2 ft2, TowerManager.run fl M TA fuel ticks tm = .ok tm2 ∧ ShotArmed M a2 ft2 tm2 ∧
      runUpdates fl fuel (ticks.map Prod.fst) a = some a2 ∧ 0 < ft2 ∧ a2.loop = false ∧
      0 ≤ a2.currentFrame ∧ a2.currentFrame < a2.frameCount ∧
      a2.frameCount = a.frameCount := by
  induction ticks generalizing tm a ft with
  | nil =>
    refine ⟨tm, a, ft, rfl, harm, rfl, ?_, hloop, hf0, hfn, rfl⟩
    simp only [List.map_nil, List.sum_nil, List.length_nil, Nat.cast_zero, zero_div,
      add_zero] at hlow
    exact hlow
  | cons x rest ih =>
    have hx0 := hdt x (List.mem_cons_self _ _)
    have hrest0 : 0 ≤ (rest.map Prod.fst).sum := by
      apply List.sum_nonneg
      intro y hy
      obtain ⟨z, hz, rfl⟩ := List.mem_map.mp hy
      exact hdt z (List.mem_cons_of_mem _ hz)
    have hlen0 : (0 : ℚ) ≤ (rest.length : ℚ) / 2 ^ 32 := by positivity
    simp only [List.map_cons, List.sum_cons, List.length_cons, Nat.cast_add, Nat.cast_one]
      at hsum8 hlow hup
    have hsplit : ((rest.length : ℚ) + 1) / 2 ^ 32 = (rest.length : ℚ) / 2 ^ 32 + 1 / 2 ^ 32 := by
      ring
    rw [hsplit] at hlow hup
    have hft : 0 < ft := by
      have : (0 : ℚ) < 1 / 2 ^ 32 := by norm_num
      linarith
    obtain ⟨a1, hu, k1, k2, k3, k4, hgo, _⟩ := armed_tick fl hfl M hpi1 hpi4 hatan TA himpact
      hflight fuel hfuel x.1 hx0 (by linarith) x.2 tm a ft harm hft hloop hf0 hfn hcnt
    have hp1 : a1.isPlaying = true := by
      apply hplay 1 a1
      simp only [List.take_succ_cons, List.take_zero, List.map_cons, List.map_nil, runUpdates,
        hu]
    have hnear : |ft - x.1| ≤ 2 ^ 20 := by
      rw [abs_le]
      constructor <;> norm_num at hsum8 hup ⊢ <;> linarith
    obtain ⟨hn1, hn2⟩ := abs_le.mp (hfl.near _ hnear)
    obtain ⟨tm1, cs, hall, harm1⟩ := hgo hp1 (by linarith)
    obtain ⟨tm2, a2, ft2, hrun, harm2, hclock, hpos2, j1, j2, j3, j4⟩ := ih
      (fun y hy => hdt y (List.mem_cons_of_mem _ hy)) tm1 a1 (fl (ft - x.1)) harm1 k1 k3 k4
      (by rw [k2]; exact hcnt)
      (fun k a' h => hplay (k + 1) a' (by
        simp only [List.take_succ_cons, List.map_cons, runUpdates, hu]
        exact h))
      (by linarith) (by linarith) (by linarith)
    refine ⟨tm2, a2, ft2, ?_, harm2, ?_, hpos2, j1, j2, j3, j4.trans k2⟩
    · simp only [TowerManager.run, hall]
      exact hrun
    · simp only [List.map_cons, runUpdates, hu]
      exact hclock

end F64

/-- C13, counterexample (with `float64` rounding). A Ballista tower placed at cell `(0,0)` and
an active creep one tile west of its centre: the first tick fires. The `float64` durations of
the next four ticks, `0.229`, `0.087`, `0.089` and `0.095`, sum to exactly `0.5`, the length of
the firing animation, yet after them the six-frame firing animation is on frame 5 and still
playing, the shot is still pending and no projectile exists; the projectile appears one tick
later. The stand-in `floatMath` agrees with Go's `math` package wherever this trace evaluates
`Atan2` and `Sqrt` (`Atan2(0, -1) = Pi`, `Sqrt(1) = 1`); `Cos` and `Sin` enter only the position
and the velocity of the new projectile. -/
theorem firing_cycle_counterexample :
    round64 (229 / 1000) + round64 (87 / 1000) + round64 (89 / 1000) + round64 (95 / 1000) =
        fireAnimationDuration ∧
      TowerManager.firingOutcome (F64.TowerManager.run round64 floatMath repoTowerAssets 16
        [(round64 (1 / 60), [westCreep]), (round64 (229 / 1000), [westCreep]),
          (round64 (87 / 1000), [westCreep]), (round64 (89 / 1000), [westCreep]),
          (round64 (95 / 1000), [westCreep])] demoTowers64) =
        some { projectiles := 0, pending := [true], clocks := [some (5, true)] } ∧
      TowerManager.firingOutcome (F64.TowerManager.run round64 floatMath repoTowerAssets 16
        [(round64 (1 / 60), [westCreep]), (round64 (229 / 1000), [westCreep]),
          (round64 (87 / 1000), [westCreep]), (round64 (89 / 1000), [westCreep]),
          (round64 (95 / 1000), [westCreep]), (round64 (1 / 60), [westCreep])] demoTowers64) =
        some { projectiles := 1, pending := [false], clocks := [none] } := by
  refine ⟨by decide!, by decide!, by decide!⟩

theorem axisAtan2_abs_le (pi dy dx : ℚ) (hpi : 0 ≤ pi) : |axisAtan2 pi dy dx| ≤ pi := by
  unfold axisAtan2
  split_ifs <;> rw [abs_le] <;> constructor <;> linarith

/-- C13, amended (end-to-end firing cycle under `float64` rounding): a Ballista tower freshly
placed by `placeTower` in a new manager (`FireTimer = 0`, no firing animation, no shot pending),
a firing animation asset of 2 to 1024 frames (total duration `D = fireAnimationDuration = 0.5`),
a flight animation asset of at most 1024 frames, a non-empty impact animation asset, and an
active creep within `towerRange = 5` tiles of the tower centre; every `float64` operation is
rounded within half a unit in the last place, `1 ≤ Pi ≤ 4`, `|Atan2| ≤ Pi`, and the loop fuel
is at least `2^22`. The first `UpdatePlacedTowers` call (`0 ≤ dt ≤ 256`) returns, starts the
firing animation, sets `WeaponFired`, sets `FireTimer` to `fireDelay = 1.5` and leaves the
projectile list empty. After at most `2^20` later ticks with `dt ≥ 0` whose times sum to at most
`D (1 - 2^-20)` the run returns, the list is still empty and the shot still pending; when a
further tick (`dt ≤ 256`) brings the sum to at least `D (1 + 2^-20)` the run returns and the
list holds exactly one projectile. The creep lists of the later ticks are arbitrary. -/
theorem firing_cycle_rounded (fl : ℚ → ℚ) (hfl : Rounds fl) (M : GoMath) (hpi1 : 1 ≤ M.Pi)
    (hpi4 : M.Pi ≤ 4) (hatan : ∀ y x, |M.Atan2 y x| ≤ M.Pi) (TA : TowerAssets)
    (col row : Int) (c : Creep) (dt1 : ℚ) (tm0 : TowerManager) (fuel : Nat)
    (htm : tm0 =
      F64.TowerManager.placeTower fl M TA col row BallistaTowerID (NewTowerManager TA))
    (hfire : 2 ≤ TA.BallistaWeaponFire.length) (hfire2 : TA.BallistaWeaponFire.length ≤ 1024)
    (hflight : TA.BallistaWeaponProjectileAnimation.length ≤ 1024)
    (himpact : TA.BallisticWeaponImpactAnimation ≠ []) (hact : c.Active = true)
    (hnear : ∀ t ∈ tm0.placedTowers,
      F64.PlacedTower.distSq fl t c < M.MaxFloat64 ∧
        M.Sqrt (F64.PlacedTower.distSq fl t c) ≤ towerRange)
    (hdt1 : 0 ≤ dt1) (hdt1b : dt1 ≤ 2 ^ 8) (hfuel : 2 ^ 22 ≤ fuel) :
    (tm0.projectileManager.projectiles = [] ∧
        ∃ t, tm0.placedTowers = [t] ∧ t.FireTimer = 0 ∧ t.FiringAnimation = none ∧
          t.WeaponFired = false) ∧
      (∃ tm1 t a, F64.TowerManager.run fl M TA fuel [(dt1, [c])] tm0 = .ok tm1 ∧
        tm1.projectileManager.projectiles = [] ∧ tm1.placedTowers = [t] ∧
        t.FiringAnimation =
          F64.startedSprite fl TA.BallistaWeaponFire fireAnimationDuration false ∧
        t.FiringAnimation = some a ∧ a.isPlaying = true ∧ t.WeaponFired = true ∧
        t.FireTimer = fireDelay) ∧
      (∀ ticks : List (ℚ × List Creep), ticks.length ≤ 2 ^ 20 → (∀ x ∈ ticks, 0 ≤ x.1) →
        (ticks.map Prod.fst).sum ≤ fireAnimationDuration * (1 - 1 / 2 ^ 20) →
        ∃ tm2 t a, F64.TowerManager.run fl M TA fuel ((dt1, [c]) :: ticks) tm0 = .ok tm2 ∧
          tm2.projectileManager.projectiles = [] ∧ tm2.placedTowers = [t] ∧
          t.FiringAnimation = some a ∧ a.isPlaying = true ∧ t.WeaponFired = true) ∧
      (∀ (ticks : List (ℚ × List Creep)) (last : ℚ × List Creep), ticks.length < 2 ^ 20 →
        (∀ x ∈ ticks, 0 ≤ x.1) → 0 ≤ last.1 → last.1 ≤ 2 ^ 8 →
        (ticks.map Prod.fst).sum ≤ fireAnimationDuration * (1 - 1 / 2 ^ 20) →
        fireAnimationDuration * (1 + 1 / 2 ^ 20) ≤ (ticks.map Prod.fst).sum + last.1 →
        ∃ tm3 p, F64.TowerManager.run fl M TA fuel ((dt1, [c]) :: (ticks ++ [last])) tm0 =
            .ok tm3 ∧
          tm3.projectileManager.projectiles = [p]) ∧
      fireAnimationDuration = 1 / 2 ∧ fireDelay = 3 / 2 ∧ towerRange = 5 := by
  subst htm
  have hlen : TA.BallistaWeaponFire.length > 0 := by omega
  have hfuel12 : 2 ^ 12 ≤ fuel := le_trans (by norm_num) hfuel
  have hD : fireAnimationDuration = 1 / 2 := rfl
  have hF : fireDelay = 3 / 2 := rfl
  obtain ⟨tm1, as0, h1, hnew, hl, hc, harm⟩ := F64.first_tick_rounded fl hfl M hpi1 hpi4 hatan
    TA fuel hfuel12 dt1 hdt1 hdt1b col row c hfire hact hnear
  have hstart : F64.startedSprite fl TA.BallistaWeaponFire fireAnimationDuration false =
      some as0.Play := by
    simp only [F64.startedSprite, hnew, Option.map_some']
  have hcnt : as0.Play.frameCount.toNat ≤ fuel := by
    show as0.frameCount.toNat ≤ fuel
    rw [hc, Int.toNat_natCast]
    exact le_trans hfire2 (le_trans (by norm_num) hfuel)
  have hfn : as0.Play.currentFrame < as0.Play.frameCount := by
    show (0 : Int) < as0.frameCount
    rw [hc]
    omega
  have hT : (1 : ℚ) / 2 ^ 1000 ≤ fireAnimationDuration := by
    rw [hD]
    exact one_div_le_one_div_of_le (by norm_num) (le_self_pow₀ (by norm_num) (by norm_num))
  have hbig : (1 : ℚ) ≤ 2 ^ 1000 := one_le_pow₀ (by norm_num)
  have hbig9 : (2 : ℚ) ^ 9 ≤ 2 ^ 1000 := pow_le_pow_right₀ (by norm_num) (by norm_num)
  have hTmax : fireAnimationDuration ≤ 2 ^ 1000 := by
    rw [hD]
    exact le_trans (by norm_num) hbig
  have htol := fun (dts : List ℚ) (hlen : dts.length ≤ 2 ^ 20) (hnn : ∀ d ∈ dts, 0 ≤ d)
      (hs : dts.sum ≤ 2 ^ 9) =>
    runUpdates_tolerance fl hfl TA.BallistaWeaponFire fireAnimationDuration as0 dts hnew hfire
      hfire2 hT hTmax hlen hnn (le_trans hs hbig9)
  have hnn : ∀ ticks : List (ℚ × List Creep), (∀ x ∈ ticks, 0 ≤ x.1) →
      ∀ d ∈ ticks.map Prod.fst, 0 ≤ d := by
    intro ticks h d hd
    obtain ⟨z, hz, rfl⟩ := List.mem_map.mp hd
    exact h z hz
  have hpend : ∀ ticks : List (ℚ × List Creep), ticks.length ≤ 2 ^ 20 →
      (∀ x ∈ ticks, 0 ≤ x.1) →
      (ticks.map Prod.fst).sum ≤ fireAnimationDuration * (1 - 1 / 2 ^ 20) →
      ∃ tm2 a2 ft2, F64.TowerManager.run fl M TA fuel ticks tm1 = .ok tm2 ∧
        F64.ShotArmed M a2 ft2 tm2 ∧
        F64.runUpdates fl fuel (ticks.map Prod.fst) as0.Play = some a2 ∧ 0 < ft2 ∧
        a2.loop = false ∧ 0 ≤ a2.currentFrame ∧ a2.currentFrame < a2.frameCount ∧
        a2.frameCount = as0.Play.frameCount ∧ a2.isPlaying = true := by
    intro ticks hlenT hdt hsum
    have hlenq : (ticks.length : ℚ) ≤ 2 ^ 20 := by exact_mod_cast hlenT
    have hlen0 : (0 : ℚ) ≤ (ticks.length : ℚ) := Nat.cast_nonneg _
    have hS0 : 0 ≤ (ticks.map Prod.fst).sum := List.sum_nonneg (hnn ticks hdt)
    rw [hD] at hsum
    obtain ⟨tm2, a2, ft2, r1, r2, r3, r4, r5, r6, r7, r8⟩ := F64.armed_run fl hfl M hpi1 hpi4
      hatan TA himpact hflight fuel hfuel ticks hdt tm1 as0.Play fireDelay harm hl (le_refl _)
      hfn hcnt
      (fun k a1 h => by
        rw [List.map_take] at h
        have hle := F64.sum_take_le (ticks.map Prod.fst) (hnn ticks hdt) k
        refine (htol ((ticks.map Prod.fst).take k) ?_ ?_ ?_).2.1 ?_ fuel a1 h
        · rw [List.length_take, List.length_map]
          exact le_trans (min_le_right _ _) hlenT
        · intro d hd
          exact hnn ticks hdt d (List.mem_of_mem_take hd)
        · norm_num at hsum ⊢
          linarith
        · rw [hD]
          linarith)
      (by norm_num at hsum ⊢; linarith)
      (by
        rw [hF]
        have : (ticks.length : ℚ) / 2 ^ 32 ≤ 2 ^ 20 / 2 ^ 32 :=
          div_le_div_of_nonneg_right hlenq (by norm_num)
        norm_num at hsum this ⊢
        linarith)
      (by
        rw [hF]
        have : (ticks.length : ℚ) / 2 ^ 32 ≤ 2 ^ 20 / 2 ^ 32 :=
          div_le_div_of_nonneg_right hlenq (by norm_num)
        norm_num at this ⊢
        linarith)
    refine ⟨tm2, a2, ft2, r1, r2, r3, r4, r5, r6, r7, r8, ?_⟩
    refine (htol (ticks.map Prod.fst) ?_ (hnn ticks hdt) ?_).2.1 ?_ fuel a2 r3
    · rw [List.length_map]
      exact hlenT
    · norm_num at hsum ⊢
      linarith
    · rw [hD]
      exact hsum
  refine ⟨?_, ?_, ?_, ?_, rfl, rfl, rfl⟩
  · rw [F64.placeTower_ballista, F64.newPlacedTower_ballista fl M TA col row _ hlen]
    exact ⟨rfl, _, rfl, rfl, rfl, rfl⟩
  · obtain ⟨hproj, t, hts, _, hwf, hfa, _, hft, _, _⟩ := harm
    refine ⟨tm1, t, as0.Play, ?_, hproj, hts, by rw [hfa, hstart], hfa, rfl, hwf, hft⟩
    simp only [F64.TowerManager.run, h1]
  · intro ticks hlenT hdt hsum
    obtain ⟨tm2, a2, ft2, r1, ⟨hproj, t, hts, _, hwf, hfa, _⟩, _, _, _, _, _, _, hplay⟩ :=
      hpend ticks hlenT hdt hsum
    refine ⟨tm2, t, a2, ?_, hproj, hts, hfa, hplay, hwf⟩
    simp only [F64.TowerManager.run, h1]
    exact r1
  · intro ticks last hlenT hdt hl0 hl8 hsum hge
    obtain ⟨tm2, a2, ft2, r1, harm2, r3, r4, r5, r6, r7, r8, _⟩ :=
      hpend ticks (le_of_lt hlenT) hdt hsum
    obtain ⟨a3, hu, _, _, _, _, _, hstop⟩ := F64.armed_tick fl hfl M hpi1 hpi4 hatan TA himpact
      hflight fuel hfuel last.1 hl0 hl8 last.2 tm2 a2 ft2 harm2 r4 r5 r6 r7
      (by rw [r8]; exact hcnt)
    have hS0 : 0 ≤ (ticks.map Prod.fst).sum := List.sum_nonneg (hnn ticks hdt)
    have hrun3 : F64.runUpdates fl fuel (ticks.map Prod.fst ++ [last.1]) as0.Play = some a3 := by
      rw [F64.runUpdates_append fl fuel _ [last.1] _ a2 r3]
      simp only [F64.runUpdates, hu]
    have hstopped : a3.isPlaying = false := by
      refine ((htol (ticks.map Prod.fst ++ [last.1]) ?_ ?_ ?_).1 ?_ fuel a3 hrun3).2.1
      · rw [List.length_append, List.length_map, List.length_singleton]
        exact hlenT
      · intro d hd
        rcases List.mem_append.mp hd with h | h
        · exact hnn ticks hdt d h
        · rw [List.mem_singleton.mp h]
          exact hl0
      · rw [List.sum_append, List.sum_singleton]
        rw [hD] at hsum
        norm_num at hsum hl8 ⊢
        linarith
      · rw [List.sum_append, List.sum_singleton]
        exact hge
    obtain ⟨tm3, cs, p, hlast, hone⟩ := hstop hstopped
    refine ⟨tm3, p, ?_, hone⟩
    simp only [F64.TowerManager.run, h1]
    exact F64.run_append_one fl M TA fuel ticks last tm1 tm2 tm3 cs r1 hlast

theorem firing_cycle_rounded_witness :
    (∀ t ∈ demoTowers64.placedTowers,
        F64.PlacedTower.distSq round64 t westCreep < floatMath.MaxFloat64 ∧
          floatMath.Sqrt (F64.PlacedTower.distSq round64 t westCreep) ≤ towerRange) ∧
      [((1 : ℚ) / 4, [westCreep])].length < 2 ^ 20 ∧
      ([((1 : ℚ) / 4, [westCreep])].map Prod.fst).sum ≤ fireAnimationDuration * (1 - 1 / 2 ^ 20) ∧
      fireAnimationDuration * (1 + 1 / 2 ^ 20) ≤
        ([((1 : ℚ) / 4, [westCreep])].map Prod.fst).sum + 1 / 2 ∧
      ∃ tm3 p, F64.TowerManager.run round64 floatMath repoTowerAssets (2 ^ 22)
          ((1 / 64, [westCreep]) :: ([(1 / 4, [westCreep])] ++ [(1 / 2, [westCreep])]))
          demoTowers64 = .ok tm3 ∧
        tm3.projectileManager.projectiles = [p] :=
  have hnear : ∀ t ∈ demoTowers64.placedTowers,
      F64.PlacedTower.distSq round64 t westCreep < floatMath.MaxFloat64 ∧
        floatMath.Sqrt (F64.PlacedTower.distSq round64 t westCreep) ≤ towerRange := by
    decide!
  have hs1 : ([((1 : ℚ) / 4, [westCreep])].map Prod.fst).sum ≤
      fireAnimationDuration * (1 - 1 / 2 ^ 20) := by
    norm_num [fireAnimationDuration]
  have hs2 : fireAnimationDuration * (1 + 1 / 2 ^ 20) ≤
      ([((1 : ℚ) / 4, [westCreep])].map Prod.fst).sum + 1 / 2 := by
    norm_num [fireAnimationDuration]
  ⟨hnear, by norm_num, hs1, hs2,
    (firing_cycle_rounded round64 round64_rounds floatMath (by norm_num [floatMath, pi64])
      (by norm_num [floatMath, pi64])
      (fun y x => axisAtan2_abs_le pi64 y x (by norm_num [pi64])) repoTowerAssets 0 0 westCreep
      (1 / 64) demoTowers64 (2 ^ 22) rfl (by decide) (by decide) (by decide) (by decide) rfl
      hnear (by norm_num) (by norm_num) (le_refl _)).2.2.2.1 [(1 / 4, [westCreep])]
      (1 / 2, [westCreep]) (by norm_num) (by
        intro x hx
        rw [List.mem_singleton.mp hx]
        norm_num) (by norm_num) (by norm_num) hs1 hs2⟩

end TowerDefense
